import Mathlib

/-!
The packet packer of quic-go (`packet_packer.go`)

A shallow embedding of `packet_packer.go` and the properties of it that the
specification states.

Conventions of the embedding.

* `protocol.ByteCount` and `protocol.PacketNumber` are Go `int64`; they are
  embedded as `Int` (every value of type `protocol.ByteCount` is written with
  the type `Int` below).  All sizes the packer handles are bounded by the
  size of a datagram, so no operation comes near the 64-bit range.
* A Go result `(T, error)` of a collaborator is embedded as `Except Error T`
  (a value or an error, never both and never neither).
* The collaborators of the packer are Go interfaces (`sealingManager`,
  `packetNumberManager`, `frameSource`, `ackFrameSource`, the crypto streams,
  the retransmission queue, the datagram queue).  They are embedded as an
  arbitrary deterministic state machine `Env σ` over a state `σ`: every
  method takes the state and returns its result with the next state.
  Every call of a collaborator is also recorded, in order, in `World.calls`.
* The methods of the packages `wire`, `qerr` and `ackhandler` the packer
  calls (lengths and serialisation of frames and headers) are parameters of
  `Env` as well: their code is not part of `packet_packer.go`.
* The two `for` loops that drain the retransmission queue take a `fuel`
  argument; `Result.outOfFuel` is returned when it is used up.
* A packet buffer is the list of its bytes; its capacity is taken to be
  sufficient for everything appended to it.
-/

namespace Quic

/-! ## Types of package `protocol`, `wire`, `qerr`, `handshake`, `ackhandler` -/

/-- Go `protocol.PacketNumber` (an `int64`). -/
abbrev PacketNumber := Int

/-- Go `protocol.PacketNumberLen` (a `uint8`, in practice 1 to 4). -/
abbrev PacketNumberLen := Nat

/-- Go `protocol.ConnectionID`: the bytes of a connection ID. -/
abbrev ConnectionID := List UInt8

/-- Go `protocol.VersionNumber`. -/
abbrev VersionNumber := Nat

/-- Go `protocol.KeyPhaseBit`. -/
abbrev KeyPhaseBit := Nat

/-- Go `time.Time`, as a number of ticks. -/
abbrev Time := Nat

/-- Go `protocol.EncryptionLevel`. -/
inductive EncryptionLevel
  | EncryptionInitial
  | EncryptionHandshake
  | Encryption0RTT
  | Encryption1RTT
  deriving DecidableEq, Repr

/-- Go `protocol.Perspective`. -/
inductive Perspective
  | PerspectiveServer
  | PerspectiveClient
  deriving DecidableEq, Repr

/-- Go `protocol.PacketType`; `unset` is the zero value of a header that is
not a long header. -/
inductive PacketType
  | unset
  | PacketTypeInitial
  | PacketTypeRetry
  | PacketTypeHandshake
  | PacketType0RTT
  deriving DecidableEq, Repr

/-- The values of Go's `error` the packer can see: the two sentinel errors of
package `handshake` it compares against, its own sentinel `errNothingToPack`,
the three errors it creates itself, and any other error value handed to it by
a collaborator. -/
inductive Error
  | ErrKeysNotYetAvailable
  | ErrKeysDropped
  | errNothingToPack
  | bugPacketNumberMismatch
  | bugPacketTooLarge (size allowed : Int)
  | bugPayloadSizeInconsistent (expected got : Int)
  | other (msg : String)
  deriving DecidableEq, Repr

/-- How a Go function call ends: it returns normally (`ok`, error value
`nil`), it returns a non-nil error, it panics, or (for the embedding of a
loop) the fuel is used up. -/
inductive Result (α : Type)
  | ok (v : α)
  | error (e : Error)
  | goPanic (msg : String)
  | outOfFuel
  deriving DecidableEq, Repr

/-- Go `wire.ConnectionCloseFrame`. -/
structure ConnectionCloseFrame where
  IsApplicationError : Bool
  ErrorCode : Nat
  FrameType : Nat
  ReasonPhrase : String
  deriving DecidableEq, Repr

/-- The values of the Go interface `wire.Frame` the packer handles: the two
frames it builds itself (`PingFrame`, `ConnectionCloseFrame`), and the frames
handed to it by its collaborators (CRYPTO, STREAM, DATAGRAM, control frames),
which it never inspects; `tag` identifies such a frame. -/
inductive WireFrame
  | PingFrame
  | ConnectionClose (ccf : ConnectionCloseFrame)
  | handed (tag : Nat)
  deriving DecidableEq, Repr

/-- Go `wire.AckFrame`; the packer never inspects it, `id` identifies it. -/
structure AckFrame where
  id : Nat
  deriving DecidableEq, Repr

/-- The values of the field `OnLost func(wire.Frame)` of `ackhandler.Frame`
that are not `nil`: the no-op closure `func(wire.Frame) {}` written in
`packet_packer.go`, the three sinks of the retransmission queue, and any
other callback a caller has set (`custom`). -/
inductive OnLostCallback
  | noop
  | AddInitial
  | AddHandshake
  | AddAppData
  | custom (id : Nat)
  deriving DecidableEq, Repr

set_option linter.dupNamespace false in
/-- Go `ackhandler.Frame`; `OnLost = none` is the `nil` callback. -/
structure Frame where
  Frame : WireFrame
  OnLost : Option OnLostCallback := none
  deriving DecidableEq, Repr

/-- Go `wire.ExtendedHeader` (with the fields of the embedded `wire.Header`
the packer sets); `Type_` is the Go field `Type`. -/
structure ExtendedHeader where
  IsLongHeader : Bool := false
  Type_ : PacketType := PacketType.unset
  Version : VersionNumber := 0
  SrcConnectionID : ConnectionID := []
  DestConnectionID : ConnectionID := []
  Token : List UInt8 := []
  Length : Int := 0
  KeyPhase : KeyPhaseBit := 0
  PacketNumberLen : Quic.PacketNumberLen := 0
  PacketNumber : Quic.PacketNumber := 0
  deriving DecidableEq, Repr

/-- Go `handshake.LongHeaderSealer` / `handshake.ShortHeaderSealer`: the
results of its methods.  `Seal plaintext pn associatedData` is the byte
sequence `Seal` writes, `EncryptHeader sample firstByte pnBytes` the new first
byte and the new packet number bytes.  `KeyPhase` is only read for a 1-RTT
sealer. -/
structure Sealer where
  Overhead : Nat
  KeyPhase : KeyPhaseBit
  Seal : List UInt8 → PacketNumber → List UInt8 → List UInt8
  EncryptHeader : List UInt8 → UInt8 → List UInt8 → UInt8 × List UInt8

/-- Go `qerr.TransportError` (the fields the packer reads). -/
structure TransportError where
  ErrorCode : Nat
  FrameType : Nat
  ErrorMessage : String
  deriving DecidableEq, Repr

/-- Go `qerr.ApplicationError` (the fields the packer reads). -/
structure ApplicationError where
  ErrorCode : Nat
  ErrorMessage : String
  deriving DecidableEq, Repr

/-- Go `wire.TransportParameters` (the field the packer reads). -/
structure TransportParameters where
  MaxUDPPayloadSize : Int
  deriving DecidableEq, Repr

/-- Go `ackhandler.Packet` (the fields the packer sets). -/
structure AckHandlerPacket where
  PacketNumber : Quic.PacketNumber
  Frames : List Frame
  LargestAcked : Quic.PacketNumber
  Length : Int
  EncryptionLevel : Quic.EncryptionLevel
  SendTime : Time
  IsPathMTUProbePacket : Bool
  deriving DecidableEq, Repr

/-! ## Constants of package `protocol` -/

/-- Modelled from the spec: the constant `protocol.MinInitialPacketSize`,
whose declaration is not in `packet_packer.go`; section 6.3 of the
specification gives `MinInitialPacketSize = 1200`. -/
def MinInitialPacketSize : Int := 1200

/-- Modelled from the spec: the constant `protocol.InitialPacketSizeIPv4`;
section 6.3 gives 1252. -/
def InitialPacketSizeIPv4 : Int := 1252

/-- Modelled from the spec: the constant `protocol.InitialPacketSizeIPv6`;
section 6.3 gives 1232. -/
def InitialPacketSizeIPv6 : Int := 1232

/-- Modelled from the spec: the constant `protocol.MaxNonAckElicitingAcks`;
section 6.3 gives `MaxNonAckElicitingAcks = 19`. -/
def MaxNonAckElicitingAcks : Int := 19

/-- Modelled from the spec: the constant `protocol.MinCoalescedPacketSize`;
section 6.3 gives 128 bytes. -/
def MinCoalescedPacketSize : Int := 128

/-! ## The types of `packet_packer.go` -/

/-- Go `payload`. -/
structure payload where
  frames : List Frame := []
  ack : Option AckFrame := none
  length : Int := 0
  deriving DecidableEq, Repr

/-- Go `longHeaderPacket`. -/
structure longHeaderPacket where
  header : ExtendedHeader
  ack : Option AckFrame
  frames : List Frame
  length : Int
  isMTUProbePacket : Bool := false
  deriving DecidableEq, Repr

/-- Go `shortHeaderPacket`: the embedded `*ackhandler.Packet` and the fields
used for logging. -/
structure shortHeaderPacket where
  Packet : AckHandlerPacket
  DestConnID : ConnectionID
  Ack : Option AckFrame
  PacketNumberLen : Quic.PacketNumberLen
  KeyPhase : KeyPhaseBit
  deriving DecidableEq, Repr

/-- Go `packetBuffer`: the bytes of `Data`. -/
structure packetBuffer where
  Data : List UInt8 := []
  deriving DecidableEq, Repr

/-- Go `coalescedPacket`. -/
structure coalescedPacket where
  buffer : packetBuffer
  longHdrPackets : List longHeaderPacket := []
  shortHdrPacket : Option shortHeaderPacket := none
  deriving DecidableEq, Repr

/-- Go `packetPacker`: the fields that are plain data.  The fields that are
references to collaborators (`cryptoSetup`, `initialStream`,
`handshakeStream`, `pnManager`, `framer`, `acks`, `retransmissionQueue`, the
function `getDestConnID`) are the methods of `Env`; `datagramQueue` records
whether the pointer of that name is non-nil. -/
structure packetPacker where
  srcConnID : ConnectionID
  perspective : Perspective
  version : VersionNumber
  token : List UInt8
  datagramQueue : Bool
  maxPacketSize : Int
  numNonAckElicitingAcks : Int
  deriving DecidableEq, Repr

/-! ## The collaborators -/

/-- One call of a method of a collaborator, with its arguments. -/
inductive Call
  | GetInitialSealer
  | GetHandshakeSealer
  | Get0RTTSealer
  | Get1RTTSealer
  | PeekPacketNumber (encLevel : EncryptionLevel)
  | PopPacketNumber (encLevel : EncryptionLevel)
  | framerHasData
  | AppendControlFrames (maxLen : Int)
  | AppendStreamFrames (maxLen : Int)
  | GetAckFrame (encLevel : EncryptionLevel) (onlyIfQueued : Bool)
  | datagramPeek
  | datagramPop
  | HasInitialData
  | HasHandshakeData
  | HasAppData
  | GetInitialFrame (maxLen : Int)
  | GetHandshakeFrame (maxLen : Int)
  | GetAppDataFrame (maxLen : Int)
  | streamHasData (encLevel : EncryptionLevel)
  | PopCryptoFrame (encLevel : EncryptionLevel) (maxLen : Int)
  | getPacketBuffer
  deriving DecidableEq, Repr

/-- The collaborators of the packer and the packages it calls, over a state
`σ` of the collaborators. -/
structure Env (σ : Type) where
  -- `sealingManager`
  GetInitialSealer : σ → Except Error Sealer × σ
  GetHandshakeSealer : σ → Except Error Sealer × σ
  Get0RTTSealer : σ → Except Error Sealer × σ
  Get1RTTSealer : σ → Except Error Sealer × σ
  -- `packetNumberManager`
  PeekPacketNumber : σ → EncryptionLevel → (PacketNumber × PacketNumberLen) × σ
  PopPacketNumber : σ → EncryptionLevel → PacketNumber × σ
  -- `frameSource`
  framerHasData : σ → Bool × σ
  AppendStreamFrames : σ → List Frame → Int → (List Frame × Int) × σ
  AppendControlFrames : σ → List Frame → Int → (List Frame × Int) × σ
  -- `ackFrameSource`
  GetAckFrame : σ → EncryptionLevel → Bool → Option AckFrame × σ
  -- `*datagramQueue`
  datagramPeek : σ → Option WireFrame × σ
  datagramPop : σ → σ
  -- `*retransmissionQueue`
  HasInitialData : σ → Bool × σ
  HasHandshakeData : σ → Bool × σ
  HasAppData : σ → Bool × σ
  GetInitialFrame : σ → Int → Option WireFrame × σ
  GetHandshakeFrame : σ → Int → Option WireFrame × σ
  GetAppDataFrame : σ → Int → Option WireFrame × σ
  -- `cryptoStream` (`initialStream`, `handshakeStream`)
  streamHasData : σ → EncryptionLevel → Bool × σ
  PopCryptoFrame : σ → EncryptionLevel → Int → WireFrame × σ
  -- the field `getDestConnID` and `time.Now`
  getDestConnID : σ → ConnectionID
  timeNow : σ → Time
  -- package `wire`
  frameLength : WireFrame → VersionNumber → Int
  frameAppend : WireFrame → VersionNumber → Except Error (List UInt8)
  ackLength : AckFrame → VersionNumber → Int
  ackAppend : AckFrame → VersionNumber → Except Error (List UInt8)
  ackLargestAcked : AckFrame → PacketNumber
  hdrGetLength : ExtendedHeader → VersionNumber → Int
  hdrWrite : ExtendedHeader → VersionNumber → Except Error (List UInt8)
  WriteShortHeader : ConnectionID → PacketNumber → PacketNumberLen → KeyPhaseBit →
    Except Error (List UInt8)
  -- package `ackhandler`
  HasAckElicitingFrames : List Frame → Bool
  -- package `qerr`
  IsCryptoError : Nat → Bool
  ApplicationErrorErrorCode : Nat
  -- package `protocol`
  InvalidPacketNumber : PacketNumber
  MinStreamFrameSize : Int
  -- `protocol.MaxPacketBufferSize`: the capacity of `Data` of every `packetBuffer`
  MaxPacketBufferSize : Nat

/-- The state of the collaborators together with the record of the calls made
so far (the latest call last). -/
structure World (σ : Type) where
  st : σ
  calls : List Call := []

variable {σ : Type}

/-- Record the call `c` and move to the state `s`. -/
def World.step (w : World σ) (c : Call) (s : σ) : World σ :=
  { st := s, calls := w.calls ++ [c] }

/-- The method `GetInitialSealer` of `sealingManager`. -/
def World.GetInitialSealer (w : World σ) (E : Env σ) : Except Error Sealer × World σ :=
  let r := E.GetInitialSealer w.st
  (r.1, w.step Call.GetInitialSealer r.2)

/-- The method `GetHandshakeSealer` of `sealingManager`. -/
def World.GetHandshakeSealer (w : World σ) (E : Env σ) : Except Error Sealer × World σ :=
  let r := E.GetHandshakeSealer w.st
  (r.1, w.step Call.GetHandshakeSealer r.2)

/-- The method `Get0RTTSealer` of `sealingManager`. -/
def World.Get0RTTSealer (w : World σ) (E : Env σ) : Except Error Sealer × World σ :=
  let r := E.Get0RTTSealer w.st
  (r.1, w.step Call.Get0RTTSealer r.2)

/-- The method `Get1RTTSealer` of `sealingManager`. -/
def World.Get1RTTSealer (w : World σ) (E : Env σ) : Except Error Sealer × World σ :=
  let r := E.Get1RTTSealer w.st
  (r.1, w.step Call.Get1RTTSealer r.2)

/-- The method `PeekPacketNumber` of `packetNumberManager`. -/
def World.PeekPacketNumber (w : World σ) (E : Env σ) (encLevel : EncryptionLevel) :
    (PacketNumber × PacketNumberLen) × World σ :=
  let r := E.PeekPacketNumber w.st encLevel
  (r.1, w.step (Call.PeekPacketNumber encLevel) r.2)

/-- The method `PopPacketNumber` of `packetNumberManager`. -/
def World.PopPacketNumber (w : World σ) (E : Env σ) (encLevel : EncryptionLevel) :
    PacketNumber × World σ :=
  let r := E.PopPacketNumber w.st encLevel
  (r.1, w.step (Call.PopPacketNumber encLevel) r.2)

/-- The method `HasData` of `frameSource`. -/
def World.framerHasData (w : World σ) (E : Env σ) : Bool × World σ :=
  let r := E.framerHasData w.st
  (r.1, w.step Call.framerHasData r.2)

/-- The method `AppendControlFrames` of `frameSource`. -/
def World.AppendControlFrames (w : World σ) (E : Env σ) (frames : List Frame)
    (maxLen : Int) : (List Frame × Int) × World σ :=
  let r := E.AppendControlFrames w.st frames maxLen
  (r.1, w.step (Call.AppendControlFrames maxLen) r.2)

/-- The method `AppendStreamFrames` of `frameSource`. -/
def World.AppendStreamFrames (w : World σ) (E : Env σ) (frames : List Frame)
    (maxLen : Int) : (List Frame × Int) × World σ :=
  let r := E.AppendStreamFrames w.st frames maxLen
  (r.1, w.step (Call.AppendStreamFrames maxLen) r.2)

/-- The method `GetAckFrame` of `ackFrameSource`. -/
def World.GetAckFrame (w : World σ) (E : Env σ) (encLevel : EncryptionLevel)
    (onlyIfQueued : Bool) : Option AckFrame × World σ :=
  let r := E.GetAckFrame w.st encLevel onlyIfQueued
  (r.1, w.step (Call.GetAckFrame encLevel onlyIfQueued) r.2)

/-- The method `Peek` of `datagramQueue`. -/
def World.datagramPeek (w : World σ) (E : Env σ) : Option WireFrame × World σ :=
  let r := E.datagramPeek w.st
  (r.1, w.step Call.datagramPeek r.2)

/-- The method `Pop` of `datagramQueue`. -/
def World.datagramPop (w : World σ) (E : Env σ) : World σ :=
  w.step Call.datagramPop (E.datagramPop w.st)

/-- The method `HasInitialData` of `retransmissionQueue`. -/
def World.HasInitialData (w : World σ) (E : Env σ) : Bool × World σ :=
  let r := E.HasInitialData w.st
  (r.1, w.step Call.HasInitialData r.2)

/-- The method `HasHandshakeData` of `retransmissionQueue`. -/
def World.HasHandshakeData (w : World σ) (E : Env σ) : Bool × World σ :=
  let r := E.HasHandshakeData w.st
  (r.1, w.step Call.HasHandshakeData r.2)

/-- The method `HasAppData` of `retransmissionQueue`. -/
def World.HasAppData (w : World σ) (E : Env σ) : Bool × World σ :=
  let r := E.HasAppData w.st
  (r.1, w.step Call.HasAppData r.2)

/-- The method `GetInitialFrame` of `retransmissionQueue`. -/
def World.GetInitialFrame (w : World σ) (E : Env σ) (maxLen : Int) :
    Option WireFrame × World σ :=
  let r := E.GetInitialFrame w.st maxLen
  (r.1, w.step (Call.GetInitialFrame maxLen) r.2)

/-- The method `GetHandshakeFrame` of `retransmissionQueue`. -/
def World.GetHandshakeFrame (w : World σ) (E : Env σ) (maxLen : Int) :
    Option WireFrame × World σ :=
  let r := E.GetHandshakeFrame w.st maxLen
  (r.1, w.step (Call.GetHandshakeFrame maxLen) r.2)

/-- The method `GetAppDataFrame` of `retransmissionQueue`. -/
def World.GetAppDataFrame (w : World σ) (E : Env σ) (maxLen : Int) :
    Option WireFrame × World σ :=
  let r := E.GetAppDataFrame w.st maxLen
  (r.1, w.step (Call.GetAppDataFrame maxLen) r.2)

/-- The method `HasData` of the crypto stream of the level `encLevel`
(`initialStream` or `handshakeStream`). -/
def World.streamHasData (w : World σ) (E : Env σ) (encLevel : EncryptionLevel) :
    Bool × World σ :=
  let r := E.streamHasData w.st encLevel
  (r.1, w.step (Call.streamHasData encLevel) r.2)

/-- The method `PopCryptoFrame` of the crypto stream of the level `encLevel`. -/
def World.PopCryptoFrame (w : World σ) (E : Env σ) (encLevel : EncryptionLevel)
    (maxLen : Int) : WireFrame × World σ :=
  let r := E.PopCryptoFrame w.st encLevel maxLen
  (r.1, w.step (Call.PopCryptoFrame encLevel maxLen) r.2)

/-- Go `getPacketBuffer()`: a fresh, empty buffer from the pool. -/
def World.getPacketBuffer (w : World σ) : packetBuffer × World σ :=
  ({ Data := [] }, w.step Call.getPacketBuffer w.st)

/-! ## Sequencing -/

/-- Go's `x, err := step(); if err != nil { return nil, err }; rest(x)`: the
second step runs when the first one returned normally; an error, a panic or
the end of the fuel of the first step ends the function. -/
def andThen {α β : Type} (r : Result α × World σ)
    (f : α → World σ → Result β × World σ) : Result β × World σ :=
  match r.1 with
  | Result.ok v => f v r.2
  | Result.error e => (Result.error e, r.2)
  | Result.goPanic msg => (Result.goPanic msg, r.2)
  | Result.outOfFuel => (Result.outOfFuel, r.2)

/-- The sequencing `andThen` for the steps that also change the packer. -/
def andThenP {α β : Type} (r : Result α × packetPacker × World σ)
    (f : α → packetPacker → World σ → Result β × packetPacker × World σ) :
    Result β × packetPacker × World σ :=
  match r.1 with
  | Result.ok v => f v r.2.1 r.2.2
  | Result.error e => (Result.error e, r.2.1, r.2.2)
  | Result.goPanic msg => (Result.goPanic msg, r.2.1, r.2.2)
  | Result.outOfFuel => (Result.outOfFuel, r.2.1, r.2.2)

/-- A step that does not change the packer, as a step on the packer `p`. -/
def withPacker {α : Type} (p : packetPacker) (r : Result α × World σ) :
    Result α × packetPacker × World σ :=
  (r.1, p, r.2)

/-! ## `packet_packer.go` -/

/-- Go `errNothingToPack` (line 18). -/
def errNothingToPack : Error := Error.errNothingToPack

/-- Go `(*longHeaderPacket).EncryptionLevel` (lines 71-86). -/
def longHeaderPacket.EncryptionLevel (p : longHeaderPacket) : Result EncryptionLevel :=
  if !p.header.IsLongHeader then
    Result.goPanic "this shouldn't happen any more"
  else
    match p.header.Type_ with
    | PacketType.PacketTypeInitial => Result.ok EncryptionLevel.EncryptionInitial
    | PacketType.PacketTypeHandshake => Result.ok EncryptionLevel.EncryptionHandshake
    | PacketType.PacketType0RTT => Result.ok EncryptionLevel.Encryption0RTT
    | _ => Result.goPanic "can't determine encryption level"

/-- Go `(*longHeaderPacket).IsAckEliciting` (line 88). -/
def longHeaderPacket.IsAckEliciting (E : Env σ) (p : longHeaderPacket) : Bool :=
  E.HasAckElicitingFrames p.frames

/-- Go `(*shortHeaderPacket).IsAckEliciting` (line 63). -/
def shortHeaderPacket.IsAckEliciting (E : Env σ) (p : shortHeaderPacket) : Bool :=
  E.HasAckElicitingFrames p.Packet.Frames

/-- The loop body of lines 96-109 for one frame: a frame whose `OnLost` is
`nil` gets the sink of the level, any other frame is left as it is. -/
def setOnLostLong (encLevel : EncryptionLevel) (f : Frame) : Frame :=
  match f.OnLost with
  | some _ => f
  | none =>
    match encLevel with
    | EncryptionLevel.EncryptionInitial => { f with OnLost := some OnLostCallback.AddInitial }
    | EncryptionLevel.EncryptionHandshake => { f with OnLost := some OnLostCallback.AddHandshake }
    | EncryptionLevel.Encryption0RTT => { f with OnLost := some OnLostCallback.AddAppData }
    | EncryptionLevel.Encryption1RTT => f

/-- Go `(*longHeaderPacket).ToAckHandlerPacket` (lines 90-120).  The frames of
`p` are updated in place; the updated packet is returned with the record. -/
def longHeaderPacket.ToAckHandlerPacket (E : Env σ) (p : longHeaderPacket) (now : Time) :
    Result (AckHandlerPacket × longHeaderPacket) :=
  let largestAcked : PacketNumber :=
    match p.ack with
    | some ack => E.ackLargestAcked ack
    | none => E.InvalidPacketNumber
  match p.EncryptionLevel with
  | Result.ok encLevel =>
    let frames := p.frames.map (setOnLostLong encLevel)
    Result.ok
      ({ PacketNumber := p.header.PacketNumber
         LargestAcked := largestAcked
         Frames := frames
         Length := p.length
         EncryptionLevel := encLevel
         SendTime := now
         IsPathMTUProbePacket := p.isMTUProbePacket },
       { p with frames := frames })
  | Result.error e => Result.error e
  | Result.goPanic msg => Result.goPanic msg
  | Result.outOfFuel => Result.outOfFuel

/-- The kind of the remote address passed to `getMaxPacketSize`: not a
`*net.UDPAddr`, or a UDP address that is IPv4 or not. -/
inductive RemoteAddr
  | notUDP
  | udpIPv4
  | udpIPv6
  deriving DecidableEq, Repr

/-- Go `getMaxPacketSize` (lines 122-134). -/
def getMaxPacketSize (addr : RemoteAddr) : Int :=
  match addr with
  | RemoteAddr.notUDP => MinInitialPacketSize
  | RemoteAddr.udpIPv4 => InitialPacketSizeIPv4
  | RemoteAddr.udpIPv6 => InitialPacketSizeIPv6

/-- Go `newPacketPacker` (lines 183-213): `token` is nil and
`numNonAckElicitingAcks` is 0 in a new packer. -/
def newPacketPacker (srcConnID : ConnectionID) (remoteAddr : RemoteAddr)
    (datagramQueue : Bool) (perspective : Perspective) (version : VersionNumber) :
    packetPacker :=
  { srcConnID := srcConnID
    perspective := perspective
    version := version
    token := []
    datagramQueue := datagramQueue
    maxPacketSize := getMaxPacketSize remoteAddr
    numNonAckElicitingAcks := 0 }

/-- Go `(*packetPacker).packetLength` (lines 334-341). -/
def packetLength (E : Env σ) (p : packetPacker) (hdr : ExtendedHeader) (pl : payload) :
    Int :=
  let pnLen : Int := (hdr.PacketNumberLen : Int)
  let paddingLen : Int := if pl.length < 4 - pnLen then 4 - pnLen - pl.length else 0
  E.hdrGetLength hdr p.version + pl.length + paddingLen

/-- The least value of Go's `int64`, the type of `protocol.ByteCount`. -/
def minInt64 : Int := -9223372036854775808

/-- The greatest value of Go's `int64`. -/
def maxInt64 : Int := 9223372036854775807

/-- The integers that are values of Go's `int64`. -/
def isInt64 (x : Int) : Prop := minInt64 ≤ x ∧ x ≤ maxInt64

instance (x : Int) : Decidable (isInt64 x) := by
  unfold isInt64
  infer_instance

/-- The `int64` that Go's arithmetic yields where the exact result is `x`:
the integer congruent to `x` modulo `2^64` between `minInt64` and
`maxInt64`. -/
def wrapInt64 (x : Int) : Int :=
  (x + 9223372036854775808) % 18446744073709551616 - 9223372036854775808

/-- Go `(*packetPacker).initialPaddingLen` (lines 344-353).  `size` and
`p.maxPacketSize` are of the type `protocol.ByteCount`, an `int64`: the
difference of line 352 is computed in `int64` and wraps around.  (For
integers that are no `int64`, which the Go function cannot be given, the
difference is the exact one.) -/
def initialPaddingLen (E : Env σ) (p : packetPacker) (frames : List Frame)
    (size : Int) : Int :=
  if p.perspective = Perspective.PerspectiveServer ∧ ¬ E.HasAckElicitingFrames frames = true then
    0
  else if size ≥ p.maxPacketSize then
    0
  else if isInt64 p.maxPacketSize ∧ isInt64 size then
    wrapInt64 (p.maxPacketSize - size)
  else
    p.maxPacketSize - size

/-- Go `(*packetPacker).getShortHeader` (lines 747-755). -/
def getShortHeader (E : Env σ) (kp : KeyPhaseBit) (w : World σ) :
    ExtendedHeader × World σ :=
  let r := w.PeekPacketNumber E EncryptionLevel.Encryption1RTT
  ({ PacketNumber := r.1.1
     PacketNumberLen := r.1.2
     DestConnectionID := E.getDestConnID r.2.st
     KeyPhase := kp }, r.2)

/-- Go `(*packetPacker).getLongHeader` (lines 757-779). -/
def getLongHeader (E : Env σ) (p : packetPacker) (encLevel : EncryptionLevel)
    (w : World σ) : ExtendedHeader × World σ :=
  let r := w.PeekPacketNumber E encLevel
  let hdr : ExtendedHeader :=
    { PacketNumber := r.1.1
      PacketNumberLen := r.1.2
      IsLongHeader := true
      Version := p.version
      SrcConnectionID := p.srcConnID
      DestConnectionID := E.getDestConnID r.2.st }
  let hdr : ExtendedHeader :=
    match encLevel with
    | EncryptionLevel.EncryptionInitial =>
      { hdr with Type_ := PacketType.PacketTypeInitial, Token := p.token }
    | EncryptionLevel.EncryptionHandshake => { hdr with Type_ := PacketType.PacketTypeHandshake }
    | EncryptionLevel.Encryption0RTT => { hdr with Type_ := PacketType.PacketType0RTT }
    | EncryptionLevel.Encryption1RTT => hdr
  (hdr, r.2)

/-- The list `l` cut or filled up with zero bytes to the length `n`: the `n`
bytes of a region of the buffer into which `l` was written. -/
def fitLen (n : Nat) (l : List UInt8) : List UInt8 :=
  (l ++ List.replicate n 0).take n

/-- The list `l` with the bytes from index `i` on replaced by `new`, in
place: the length of `l` does not change. -/
def overwrite (l : List UInt8) (i : Nat) (new : List UInt8) : List UInt8 :=
  (l.take i ++ (new ++ l.drop (i + new.length))).take l.length

/-- The start of the header-protection sample in `encryptPacket` (line 927):
`pnOffset + 4` with `pnOffset = payloadOffset - pnLen`. -/
def sampleStart (payloadOffset pnLen : Int) : Int :=
  (payloadOffset - pnLen) + 4

/-- The end of the header-protection sample in `encryptPacket` (line 927):
`pnOffset + 4 + 16`. -/
def sampleEnd (payloadOffset pnLen : Int) : Int :=
  (payloadOffset - pnLen) + 4 + 16

/-- Go `(*packetPacker).encryptPacket` (lines 922-929).  `Seal` writes in place
over the payload and the `Overhead()` bytes after it; `EncryptHeader` writes in
place over the first byte and the bytes of the packet number. -/
def encryptPacket (raw : List UInt8) (sealer : Sealer) (pn : PacketNumber)
    (payloadOffset pnLen : Int) : List UInt8 :=
  let off := payloadOffset.toNat
  let raw1 := raw.take off ++
    fitLen (raw.length - off + sealer.Overhead) (sealer.Seal (raw.drop off) pn (raw.take off))
  let pnOffset := (payloadOffset - pnLen).toNat
  let sample := (raw1.drop (sampleStart payloadOffset pnLen).toNat).take 16
  let r := sealer.EncryptHeader sample (raw1.headD 0) ((raw1.drop pnOffset).take (off - pnOffset))
  overwrite (overwrite raw1 0 [r.1]) pnOffset (fitLen (off - pnOffset) r.2)

/-- The loop of lines 908-914: every frame appends its bytes to `raw`; the
first failure ends the loop. -/
def appendFrames (E : Env σ) (p : packetPacker) (raw : List UInt8) :
    List Frame → Except Error (List UInt8)
  | [] => Except.ok raw
  | f :: rest =>
    match E.frameAppend f.Frame p.version with
    | Except.error e => Except.error e
    | Except.ok bytes => appendFrames E p (raw ++ bytes) rest

/-- Go `(*packetPacker).appendPacketPayload` (lines 896-920). -/
def appendPacketPayload (E : Env σ) (p : packetPacker) (raw : List UInt8) (pl : payload)
    (paddingLen : Int) : Except Error (List UInt8) :=
  let payloadOffset := raw.length
  let afterAck : Except Error (List UInt8) :=
    match pl.ack with
    | some ack =>
      match E.ackAppend ack p.version with
      | Except.error e => Except.error e
      | Except.ok bytes => Except.ok (raw ++ bytes)
    | none => Except.ok raw
  match afterAck with
  | Except.error e => Except.error e
  | Except.ok raw1 =>
    let raw2 := if paddingLen > 0 then raw1 ++ List.replicate paddingLen.toNat 0 else raw1
    match appendFrames E p raw2 pl.frames with
    | Except.error e => Except.error e
    | Except.ok raw3 =>
      let payloadSize : Int := ((raw3.length : Int) - (payloadOffset : Int)) - paddingLen
      if payloadSize ≠ pl.length then
        Except.error (Error.bugPayloadSizeInconsistent pl.length payloadSize)
      else
        Except.ok raw3

/-- Go `(*packetPacker).appendLongHeaderPacket` (lines 781-822).  The packet is
returned with the buffer it was appended to.  The capacity of `buffer.Data`
is not modelled here: the bytes of a long header packet are taken to fit in
the buffer (line 814). -/
def appendLongHeaderPacket (E : Env σ) (p : packetPacker) (buffer : packetBuffer)
    (header : ExtendedHeader) (pl : payload) (padding : Int)
    (encLevel : EncryptionLevel) (sealer : Sealer) (w : World σ) :
    Result (longHeaderPacket × packetBuffer) × World σ :=
  if !header.IsLongHeader then
    (Result.goPanic "shouldn't have called appendLongHeaderPacket", w)
  else
    let pnLen : Int := (header.PacketNumberLen : Int)
    let paddingLen : Int :=
      (if pl.length < 4 - pnLen then 4 - pnLen - pl.length else 0) + padding
    let header : ExtendedHeader :=
      { header with Length := pnLen + (sealer.Overhead : Int) + pl.length + paddingLen }
    match E.hdrWrite header p.version with
    | Except.error e => (Result.error e, w)
    | Except.ok hdrBytes =>
      let payloadOffset : Int := (hdrBytes.length : Int)
      let r := w.PopPacketNumber E encLevel
      if r.1 ≠ header.PacketNumber then
        (Result.error Error.bugPacketNumberMismatch, r.2)
      else
        match appendPacketPayload E p hdrBytes pl paddingLen with
        | Except.error e => (Result.error e, r.2)
        | Except.ok raw =>
          let raw := encryptPacket raw sealer r.1 payloadOffset pnLen
          (Result.ok
            ({ header := header, ack := pl.ack, frames := pl.frames,
               length := (raw.length : Int) },
             { Data := buffer.Data ++ raw }), r.2)

/-- The loop body of lines 871-876 for one frame. -/
def setOnLostShort (f : Frame) : Frame :=
  match f.OnLost with
  | some _ => f
  | none => { f with OnLost := some OnLostCallback.AddAppData }

/-- Go `(*packetPacker).appendShortHeaderPacket` (lines 824-894).  The packet
is returned with the buffer it was appended to.  `buffer.Data` has the
capacity `E.MaxPacketBufferSize`: line 864 extends it by the bytes of the
packet, and Go panics there when they do not fit. -/
def appendShortHeaderPacket (E : Env σ) (p : packetPacker) (buffer : packetBuffer)
    (pn : PacketNumber) (pnLen : PacketNumberLen) (kp : KeyPhaseBit) (pl : payload)
    (padding : Int) (sealer : Sealer) (isMTUProbePacket : Bool) (w : World σ) :
    Result (shortHeaderPacket × packetBuffer) × World σ :=
  let paddingLen : Int :=
    (if pl.length < 4 - (pnLen : Int) then 4 - (pnLen : Int) - pl.length else 0) + padding
  let connID := E.getDestConnID w.st
  match E.WriteShortHeader connID pn pnLen kp with
  | Except.error e => (Result.error e, w)
  | Except.ok hdrBytes =>
    let payloadOffset : Int := (hdrBytes.length : Int)
    let r := w.PopPacketNumber E EncryptionLevel.Encryption1RTT
    if pn ≠ r.1 then
      (Result.error Error.bugPacketNumberMismatch, r.2)
    else
      match appendPacketPayload E p hdrBytes pl paddingLen with
      | Except.error e => (Result.error e, r.2)
      | Except.ok raw =>
        let size : Int := (raw.length : Int) + (sealer.Overhead : Int)
        if !isMTUProbePacket ∧ size > p.maxPacketSize then
          (Result.error (Error.bugPacketTooLarge size p.maxPacketSize), r.2)
        else
          let raw := encryptPacket raw sealer pn payloadOffset (pnLen : Int)
          if buffer.Data.length + raw.length > E.MaxPacketBufferSize then
            (Result.goPanic "slice bounds out of range", r.2)
          else
            let largestAcked : PacketNumber :=
              match pl.ack with
              | some ack => E.ackLargestAcked ack
              | none => E.InvalidPacketNumber
            let ap : AckHandlerPacket :=
              { PacketNumber := pn
                LargestAcked := largestAcked
                Frames := pl.frames.map setOnLostShort
                Length := (raw.length : Int)
                EncryptionLevel := EncryptionLevel.Encryption1RTT
                SendTime := E.timeNow r.2.st
                IsPathMTUProbePacket := isMTUProbePacket }
            (Result.ok
              ({ Packet := ap, DestConnID := connID, Ack := pl.ack, PacketNumberLen := pnLen,
                 KeyPhase := kp },
               { Data := buffer.Data ++ raw }), r.2)

/-- The `for` loop of lines 531-547 of `maybeGetCryptoPacket`: frames are
taken from the retransmission queue of the level until it returns `nil`. -/
def cryptoRetransmissionLoop (E : Env σ) (p : packetPacker) (encLevel : EncryptionLevel) :
    Nat → payload → Int → World σ → Result payload × World σ
  | 0, _, _, w => (Result.outOfFuel, w)
  | fuel + 1, pl, maxPacketSize, w =>
    let r : Option WireFrame × World σ :=
      match encLevel with
      | EncryptionLevel.EncryptionInitial => w.GetInitialFrame E maxPacketSize
      | EncryptionLevel.EncryptionHandshake => w.GetHandshakeFrame E maxPacketSize
      | _ => (none, w)
    match r.1 with
    | none => (Result.ok pl, r.2)
    | some f =>
      let frameLen := E.frameLength f p.version
      cryptoRetransmissionLoop E p encLevel fuel
        { pl with frames := pl.frames ++ [{ Frame := f }], length := pl.length + frameLen }
        (maxPacketSize - frameLen) r.2

/-- Lines 500-510 of `maybeGetCryptoPacket`: whether the retransmission queue
has data for the level.  For a level other than Initial and Handshake the
variable `s` stays a nil interface (`none`), and `s.HasData()` panics. -/
def cryptoHasRetransmission (E : Env σ) (encLevel : EncryptionLevel) (w : World σ) :
    Option (Bool × World σ) :=
  match encLevel with
  | EncryptionLevel.EncryptionInitial => some (w.HasInitialData E)
  | EncryptionLevel.EncryptionHandshake => some (w.HasHandshakeData E)
  | _ => none

/-- Lines 522-527 of `maybeGetCryptoPacket`: the payload that holds the ACK
frame, if there is one. -/
def ackPayload (E : Env σ) (p : packetPacker) (ack : Option AckFrame) : payload :=
  match ack with
  | some ack => { ack := some ack, length := E.ackLength ack p.version }
  | none => {}

/-- Go `(*packetPacker).maybeGetCryptoPacket` (lines 489-554).  The result is
the pair of pointers the Go function returns (`none` is `nil`). -/
def maybeGetCryptoPacket (E : Env σ) (p : packetPacker) (fuel : Nat)
    (maxPacketSize : Int) (encLevel : EncryptionLevel) (onlyAck ackAllowed : Bool)
    (w : World σ) : Result (Option ExtendedHeader × Option payload) × World σ :=
  if onlyAck then
    let a := w.GetAckFrame E encLevel true
    match a.1 with
    | some ack =>
      let h := getLongHeader E p encLevel a.2
      (Result.ok (some h.1, some { ack := some ack, length := E.ackLength ack p.version }), h.2)
    | none => (Result.ok (none, none), a.2)
  else
    match cryptoHasRetransmission E encLevel w with
    | none => (Result.goPanic "nil pointer dereference", w)
    | some hr =>
      let hasRetransmission := hr.1
      let hd := hr.2.streamHasData E encLevel
      let hasData := hd.1
      let a : Option AckFrame × World σ :=
        if ackAllowed then hd.2.GetAckFrame E encLevel (!hasRetransmission && !hasData)
        else (none, hd.2)
      let ack := a.1
      if hasData = false ∧ hasRetransmission = false ∧ ack = none then
        (Result.ok (none, none), a.2)
      else
        let pl := ackPayload E p ack
        let maxPacketSize : Int := if ack = none then maxPacketSize else maxPacketSize - pl.length
        let h := getLongHeader E p encLevel a.2
        let hdr := h.1
        let maxPacketSize := maxPacketSize - E.hdrGetLength hdr p.version
        if hasRetransmission then
          andThen (cryptoRetransmissionLoop E p encLevel fuel pl maxPacketSize h.2)
            (fun pl w2 => (Result.ok (some hdr, some pl), w2))
        else
          let hd2 := h.2.streamHasData E encLevel
          if hd2.1 then
            let cf := hd2.2.PopCryptoFrame E encLevel maxPacketSize
            (Result.ok (some hdr,
              some { pl with frames := [{ Frame := cf.1 }],
                             length := pl.length + E.frameLength cf.1 p.version }), cf.2)
          else
            (Result.ok (some hdr, some pl), hd2.2)

/-- The `for` loop of lines 643-654 of `composeNextPacket`. -/
def appDataRetransmissionLoop (E : Env σ) (p : packetPacker) (maxFrameSize : Int) :
    Nat → payload → World σ → Result payload × World σ
  | 0, _, w => (Result.outOfFuel, w)
  | fuel + 1, pl, w =>
    let remainingLen := maxFrameSize - pl.length
    if remainingLen < E.MinStreamFrameSize then
      (Result.ok pl, w)
    else
      let r := w.GetAppDataFrame E remainingLen
      match r.1 with
      | none => (Result.ok pl, r.2)
      | some f =>
        appDataRetransmissionLoop E p maxFrameSize fuel
          { pl with frames := pl.frames ++ [{ Frame := f }],
                    length := pl.length + E.frameLength f p.version } r.2

/-- Lines 657-665 of `composeNextPacket`: the control frames and the stream
frames of the frame source. -/
def appendFramerFrames (E : Env σ) (maxFrameSize : Int) (hasData : Bool)
    (pl : payload) (w : World σ) : payload × World σ :=
  if hasData then
    let c := w.AppendControlFrames E pl.frames (maxFrameSize - pl.length)
    let pl1 : payload := { pl with frames := c.1.1, length := pl.length + c.1.2 }
    let s := c.2.AppendStreamFrames E pl1.frames (maxFrameSize - pl1.length)
    ({ pl1 with frames := s.1.1, length := pl1.length + s.1.2 }, s.2)
  else
    (pl, w)

/-- Lines 623-636 of `composeNextPacket`: the datagram at the head of the
datagram queue is added when it fits. -/
def addDatagram (E : Env σ) (p : packetPacker) (maxFrameSize : Int) (pl : payload)
    (w : World σ) : payload × World σ :=
  if p.datagramQueue then
    let d := w.datagramPeek E
    match d.1 with
    | some f =>
      let size := E.frameLength f p.version
      if size ≤ maxFrameSize - pl.length then
        ({ pl with frames := pl.frames ++ [{ Frame := f, OnLost := some OnLostCallback.noop }],
                   length := pl.length + size }, d.2.datagramPop E)
      else
        (pl, d.2)
    | none => (pl, d.2)
  else
    (pl, w)

/-- Go `(*packetPacker).composeNextPacket` (lines 598-666). -/
def composeNextPacket (E : Env σ) (p : packetPacker) (fuel : Nat) (maxFrameSize : Int)
    (onlyAck ackAllowed : Bool) (w : World σ) : Result payload × World σ :=
  if onlyAck then
    let a := w.GetAckFrame E EncryptionLevel.Encryption1RTT true
    match a.1 with
    | some ack => (Result.ok { ack := some ack, length := E.ackLength ack p.version }, a.2)
    | none => (Result.ok {}, a.2)
  else
    let hd := w.framerHasData E
    let hasData := hd.1
    let hr := hd.2.HasAppData E
    let hasRetransmission := hr.1
    let a : Option AckFrame × World σ :=
      if ackAllowed then
        hr.2.GetAckFrame E EncryptionLevel.Encryption1RTT (!hasRetransmission && !hasData)
      else (none, hr.2)
    let pl := ackPayload E p a.1
    let hasAck : Bool := a.1.isSome
    let dg := addDatagram E p maxFrameSize pl a.2
    if hasAck = true ∧ hasData = false ∧ hasRetransmission = false then
      (Result.ok dg.1, dg.2)
    else
      let rt : Result payload × World σ :=
        if hasRetransmission then appDataRetransmissionLoop E p maxFrameSize fuel dg.1 dg.2
        else (Result.ok dg.1, dg.2)
      andThen rt (fun pl w2 =>
        let fr := appendFramerFrames E maxFrameSize hasData pl w2
        (Result.ok fr.1, fr.2))

/-- Lines 577-595 of `maybeGetAppDataPacket`: what is done with the payload
`composeNextPacket` returned. -/
def finishAppDataPacket (E : Env σ) (p : packetPacker) (pl : payload) :
    Option payload × packetPacker :=
  if pl.frames.length = 0 then
    if pl.ack = none then
      (none, p)
    else if p.numNonAckElicitingAcks ≥ MaxNonAckElicitingAcks then
      (some { pl with
                frames := pl.frames ++
                  [{ Frame := WireFrame.PingFrame, OnLost := some OnLostCallback.noop }],
                length := pl.length + E.frameLength WireFrame.PingFrame p.version },
       { p with numNonAckElicitingAcks := 0 })
    else
      (some pl, { p with numNonAckElicitingAcks := p.numNonAckElicitingAcks + 1 })
  else
    (some pl, { p with numNonAckElicitingAcks := 0 })

/-- Go `(*packetPacker).maybeGetAppDataPacket` (lines 574-596). -/
def maybeGetAppDataPacket (E : Env σ) (p : packetPacker) (fuel : Nat)
    (maxPayloadSize : Int) (onlyAck ackAllowed : Bool) (w : World σ) :
    Result (Option payload) × packetPacker × World σ :=
  andThenP (withPacker p (composeNextPacket E p fuel maxPayloadSize onlyAck ackAllowed w))
    (fun pl p w1 =>
      let r := finishAppDataPacket E p pl
      (Result.ok r.1, r.2, w1))

/-- Go `(*packetPacker).maybeGetAppDataPacketFor0RTT` (lines 556-565). -/
def maybeGetAppDataPacketFor0RTT (E : Env σ) (p : packetPacker) (fuel : Nat)
    (sealer : Sealer) (maxPacketSize : Int) (w : World σ) :
    Result (Option ExtendedHeader × Option payload) × packetPacker × World σ :=
  if p.perspective ≠ Perspective.PerspectiveClient then
    (Result.ok (none, none), p, w)
  else
    let h := getLongHeader E p EncryptionLevel.Encryption0RTT w
    let maxPayloadSize := maxPacketSize - E.hdrGetLength h.1 p.version - (sealer.Overhead : Int)
    andThenP (maybeGetAppDataPacket E p fuel maxPayloadSize false false h.2)
      (fun pl p1 w1 => (Result.ok (some h.1, pl), p1, w1))

/-- Go `(*packetPacker).maybeGetShortHeaderPacket` (lines 567-572). -/
def maybeGetShortHeaderPacket (E : Env σ) (p : packetPacker) (fuel : Nat) (sealer : Sealer)
    (kp : KeyPhaseBit) (maxPacketSize : Int) (onlyAck ackAllowed : Bool)
    (w : World σ) : Result (Option ExtendedHeader × Option payload) × packetPacker × World σ :=
  let h := getShortHeader E kp w
  let maxPayloadSize := maxPacketSize - E.hdrGetLength h.1 p.version - (sealer.Overhead : Int)
  andThenP (maybeGetAppDataPacket E p fuel maxPayloadSize onlyAck ackAllowed h.2)
    (fun pl p1 w1 => (Result.ok (some h.1, pl), p1, w1))

/-- The local variables of `PackCoalescedPacket` (lines 363-365, 371, 381,
399-401); `none` is a nil pointer or a nil interface. -/
structure coalescedLocals where
  initialHdr : Option ExtendedHeader := none
  handshakeHdr : Option ExtendedHeader := none
  appDataHdr : Option ExtendedHeader := none
  initialPayload : Option payload := none
  handshakePayload : Option payload := none
  appDataPayload : Option payload := none
  initialSealer : Option Sealer := none
  handshakeSealer : Option Sealer := none
  appDataSealer : Option Sealer := none
  kp : KeyPhaseBit := 0
  appDataEncLevel : EncryptionLevel := EncryptionLevel.Encryption1RTT
  size : Int := 0
  numPackets : Int := 0

/-- The condition of lines 382 and 402 of `PackCoalescedPacket`. -/
def coalesceGate (onlyAck : Bool) (size maxPacketSize : Int) : Prop :=
  (onlyAck = true ∧ size = 0) ∨
    (onlyAck = false ∧ size < maxPacketSize - MinCoalescedPacketSize)

instance (onlyAck : Bool) (size maxPacketSize : Int) :
    Decidable (coalesceGate onlyAck size maxPacketSize) := by
  unfold coalesceGate; infer_instance

/-- Lines 373-377 of `PackCoalescedPacket`: the header and the payload of the
Initial packet are recorded; with a payload, `size` and `numPackets` grow. -/
def recordInitial (E : Env σ) (p : packetPacker) (initialSealer : Sealer)
    (initialHdr : Option ExtendedHeader) (initialPayload : Option payload) :
    Result coalescedLocals :=
  match initialPayload with
  | some pl =>
    match initialHdr with
    | some hdr =>
      Result.ok
        { initialSealer := some initialSealer
          initialHdr := initialHdr
          initialPayload := initialPayload
          size := 0 + (packetLength E p hdr pl + (initialSealer.Overhead : Int))
          numPackets := 0 + 1 }
    | none => Result.goPanic "nil pointer dereference"
  | none =>
    Result.ok
      { initialSealer := some initialSealer
        initialHdr := initialHdr
        initialPayload := initialPayload }

/-- Lines 366-378 of `PackCoalescedPacket`: try packing an Initial packet. -/
def packInitialStage (E : Env σ) (p : packetPacker) (fuel : Nat) (maxPacketSize : Int)
    (onlyAck : Bool) (w : World σ) : Result coalescedLocals × World σ :=
  let g := w.GetInitialSealer E
  match g.1 with
  | Except.error e =>
    if e ≠ Error.ErrKeysDropped then (Result.error e, g.2) else (Result.ok {}, g.2)
  | Except.ok initialSealer =>
    andThen
      (maybeGetCryptoPacket E p fuel (maxPacketSize - (initialSealer.Overhead : Int))
        EncryptionLevel.EncryptionInitial onlyAck true g.2)
      (fun r w1 => (recordInitial E p initialSealer r.1 r.2, w1))

/-- Lines 389-394 of `PackCoalescedPacket`: the header and the payload of the
Handshake packet are recorded; with a payload, `size` and `numPackets` grow. -/
def recordHandshake (E : Env σ) (p : packetPacker) (L : coalescedLocals)
    (handshakeSealer : Sealer) (handshakeHdr : Option ExtendedHeader)
    (handshakePayload : Option payload) : Result coalescedLocals :=
  match handshakePayload with
  | some pl =>
    match handshakeHdr with
    | some hdr =>
      Result.ok
        { L with
          handshakeSealer := some handshakeSealer
          handshakeHdr := handshakeHdr
          handshakePayload := handshakePayload
          size := L.size + (packetLength E p hdr pl + (handshakeSealer.Overhead : Int))
          numPackets := L.numPackets + 1 }
    | none => Result.goPanic "nil pointer dereference"
  | none =>
    Result.ok
      { L with
        handshakeSealer := some handshakeSealer
        handshakeHdr := handshakeHdr
        handshakePayload := handshakePayload }

/-- Lines 380-396 of `PackCoalescedPacket`: add a Handshake packet. -/
def packHandshakeStage (E : Env σ) (p : packetPacker) (fuel : Nat) (maxPacketSize : Int)
    (onlyAck : Bool) (L : coalescedLocals) (w : World σ) : Result coalescedLocals × World σ :=
  if coalesceGate onlyAck L.size maxPacketSize then
    let g := w.GetHandshakeSealer E
    match g.1 with
    | Except.error e =>
      if e ≠ Error.ErrKeysDropped ∧ e ≠ Error.ErrKeysNotYetAvailable then (Result.error e, g.2)
      else (Result.ok L, g.2)
    | Except.ok handshakeSealer =>
      andThen
        (maybeGetCryptoPacket E p fuel
          (maxPacketSize - L.size - (handshakeSealer.Overhead : Int))
          EncryptionLevel.EncryptionHandshake onlyAck (decide (L.size = 0)) g.2)
        (fun r w1 => (recordHandshake E p L handshakeSealer r.1 r.2, w1))
  else
    (Result.ok L, w)

/-- Lines 403-410 of `PackCoalescedPacket`: the sealer of the application data
level (or the error `sErr`) and its level. -/
def getAppDataSealer (E : Env σ) (p : packetPacker) (w : World σ) :
    Except Error Sealer × EncryptionLevel × World σ :=
  let g1 := w.Get1RTTSealer E
  match g1.1 with
  | Except.ok oneRTTSealer => (Except.ok oneRTTSealer, EncryptionLevel.Encryption1RTT, g1.2)
  | Except.error sErr =>
    if p.perspective = Perspective.PerspectiveClient then
      let g0 := g1.2.Get0RTTSealer E
      (g0.1, EncryptionLevel.Encryption0RTT, g0.2)
    else
      (Except.error sErr, EncryptionLevel.Encryption1RTT, g1.2)

/-- Lines 413-419 of `PackCoalescedPacket`: the header and the payload of the
application data level. -/
def getAppDataPacket (E : Env σ) (p : packetPacker) (fuel : Nat)
    (appDataEncLevel : EncryptionLevel) (appDataSealer : Sealer) (maxPacketSize size : Int)
    (onlyAck : Bool) (w : World σ) :
    Result (Option ExtendedHeader × Option payload) × packetPacker × World σ :=
  match appDataEncLevel with
  | EncryptionLevel.Encryption0RTT =>
    maybeGetAppDataPacketFor0RTT E p fuel appDataSealer (maxPacketSize - size) w
  | EncryptionLevel.Encryption1RTT =>
    maybeGetShortHeaderPacket E p fuel appDataSealer appDataSealer.KeyPhase
      (maxPacketSize - size) onlyAck (decide (size = 0)) w
  | _ => (Result.ok (none, none), p, w)

/-- Lines 417 and 420-423 of `PackCoalescedPacket`: the key phase, the header
and the payload of the application data level are recorded; with a header and
a payload, `size` and `numPackets` grow. -/
def recordAppData (E : Env σ) (p : packetPacker) (L : coalescedLocals)
    (appDataEncLevel : EncryptionLevel) (appDataSealer : Sealer)
    (appDataHdr : Option ExtendedHeader) (appDataPayload : Option payload) :
    coalescedLocals :=
  let kp : KeyPhaseBit :=
    if appDataEncLevel = EncryptionLevel.Encryption1RTT then appDataSealer.KeyPhase else L.kp
  let L1 : coalescedLocals :=
    { L with
      appDataEncLevel := appDataEncLevel
      appDataSealer := some appDataSealer
      kp := kp
      appDataHdr := appDataHdr
      appDataPayload := appDataPayload }
  match appDataHdr, appDataPayload with
  | some hdr, some pl =>
    { L1 with
      size := L.size + (packetLength E p hdr pl + (appDataSealer.Overhead : Int))
      numPackets := L.numPackets + 1 }
  | _, _ => L1

/-- Lines 398-425 of `PackCoalescedPacket`: add a 0-RTT / 1-RTT packet. -/
def packAppDataStage (E : Env σ) (p : packetPacker) (fuel : Nat) (maxPacketSize : Int)
    (onlyAck : Bool) (L : coalescedLocals) (w : World σ) :
    Result coalescedLocals × packetPacker × World σ :=
  if coalesceGate onlyAck L.size maxPacketSize then
    let g := getAppDataSealer E p w
    match g.1 with
    | Except.error _ => (Result.ok { L with appDataEncLevel := g.2.1 }, p, g.2.2)
    | Except.ok appDataSealer =>
      andThenP (getAppDataPacket E p fuel g.2.1 appDataSealer maxPacketSize L.size onlyAck g.2.2)
        (fun r p1 w1 => (Result.ok (recordAppData E p1 L g.2.1 appDataSealer r.1 r.2), p1, w1))
  else
    (Result.ok L, p, w)

/-- The pattern of lines 436-443, 444-450 and 452-457: when there is a payload
for the level, its long header packet is appended to the buffer and to
`longHdrPackets`. -/
def appendLongIfPayload (E : Env σ) (p : packetPacker) (hdr : Option ExtendedHeader)
    (pl : Option payload) (padding : payload → Int) (encLevel : EncryptionLevel)
    (sealer : Option Sealer) (packet : coalescedPacket) (w : World σ) :
    Result coalescedPacket × World σ :=
  match pl with
  | none => (Result.ok packet, w)
  | some pl =>
    match hdr, sealer with
    | some hdr, some sealer =>
      andThen (appendLongHeaderPacket E p packet.buffer hdr pl (padding pl) encLevel sealer w)
        (fun r w1 =>
          (Result.ok { packet with buffer := r.2,
                                   longHdrPackets := packet.longHdrPackets ++ [r.1] }, w1))
    | _, _ => (Result.goPanic "nil pointer dereference", w)

/-- Lines 458-464 of `PackCoalescedPacket` (and lines 314-319, 711-717): the
short header packet is appended to the buffer and set as `shortHdrPacket`. -/
def appendShortToPacket (E : Env σ) (p : packetPacker) (hdr : Option ExtendedHeader)
    (kp : KeyPhaseBit) (pl : payload) (padding : Int) (sealer : Option Sealer)
    (packet : coalescedPacket) (w : World σ) : Result coalescedPacket × World σ :=
  match hdr, sealer with
  | some hdr, some sealer =>
    andThen
      (appendShortHeaderPacket E p packet.buffer hdr.PacketNumber hdr.PacketNumberLen kp pl
        padding sealer false w)
      (fun r w1 => (Result.ok { packet with buffer := r.2, shortHdrPacket := some r.1 }, w1))
  | _, _ => (Result.goPanic "nil pointer dereference", w)

/-- Lines 451-465 of `PackCoalescedPacket`: the packet of the application data
level. -/
def appendAppData (E : Env σ) (p : packetPacker) (L : coalescedLocals)
    (packet : coalescedPacket) (w : World σ) : Result coalescedPacket × World σ :=
  match L.appDataPayload with
  | none => (Result.ok packet, w)
  | some pl =>
    if L.appDataEncLevel = EncryptionLevel.Encryption0RTT then
      appendLongIfPayload E p L.appDataHdr (some pl) (fun _ => 0) L.appDataEncLevel
        L.appDataSealer packet w
    else
      appendShortToPacket E p L.appDataHdr L.kp pl 0 L.appDataSealer packet w

/-- Lines 431-467 of `PackCoalescedPacket`: the packets are serialised into
one buffer. -/
def assembleCoalesced (E : Env σ) (p : packetPacker) (L : coalescedLocals) (w : World σ) :
    Result coalescedPacket × World σ :=
  let b := w.getPacketBuffer
  let packet : coalescedPacket := { buffer := b.1, longHdrPackets := [] }
  andThen
    (appendLongIfPayload E p L.initialHdr L.initialPayload
      (fun pl => initialPaddingLen E p pl.frames L.size) EncryptionLevel.EncryptionInitial
      L.initialSealer packet b.2)
    (fun packet1 w1 =>
      andThen
        (appendLongIfPayload E p L.handshakeHdr L.handshakePayload (fun _ => 0)
          EncryptionLevel.EncryptionHandshake L.handshakeSealer packet1 w1)
        (fun packet2 w2 => appendAppData E p L packet2 w2))

/-- Lines 359-425 of `PackCoalescedPacket`: the three levels are tried in the
order Initial, Handshake, 0-RTT / 1-RTT. -/
def composeCoalesced (E : Env σ) (p : packetPacker) (fuel : Nat) (onlyAck : Bool)
    (w : World σ) : Result coalescedLocals × packetPacker × World σ :=
  let maxPacketSize : Int :=
    if p.perspective = Perspective.PerspectiveClient then MinInitialPacketSize
    else p.maxPacketSize
  andThenP (withPacker p (packInitialStage E p fuel maxPacketSize onlyAck w))
    (fun L1 p w1 =>
      andThenP (withPacker p (packHandshakeStage E p fuel maxPacketSize onlyAck L1 w1))
        (fun L2 p w2 => packAppDataStage E p fuel maxPacketSize onlyAck L2 w2))

/-- Go `(*packetPacker).PackCoalescedPacket` (lines 358-467).  `Result.ok none`
is the return value `nil, nil`. -/
def PackCoalescedPacket (E : Env σ) (p : packetPacker) (fuel : Nat) (onlyAck : Bool)
    (w : World σ) : Result (Option coalescedPacket) × packetPacker × World σ :=
  andThenP (composeCoalesced E p fuel onlyAck w)
    (fun L p1 w1 =>
      if L.numPackets = 0 then
        (Result.ok none, p1, w1)
      else
        andThenP (withPacker p1 (assembleCoalesced E p1 L w1))
          (fun packet p1 w2 => (Result.ok (some packet), p1, w2)))

/-- Go `(*packetPacker).PackPacket` (lines 471-487).  The argument `now` is
not used by the Go function. -/
def PackPacket (E : Env σ) (p : packetPacker) (fuel : Nat) (onlyAck : Bool) (_now : Time)
    (w : World σ) : Result (shortHeaderPacket × packetBuffer) × packetPacker × World σ :=
  let g := w.Get1RTTSealer E
  match g.1 with
  | Except.error err => (Result.error err, p, g.2)
  | Except.ok sealer =>
    let kp := sealer.KeyPhase
    andThenP (maybeGetShortHeaderPacket E p fuel sealer kp p.maxPacketSize onlyAck true g.2)
      (fun r p1 w1 =>
        match r.2 with
        | none => (Result.error errNothingToPack, p1, w1)
        | some pl =>
          let b := w1.getPacketBuffer
          match r.1 with
          | none => (Result.goPanic "nil pointer dereference", p1, b.2)
          | some hdr =>
            withPacker p1
              (appendShortHeaderPacket E p1 b.1 hdr.PacketNumber hdr.PacketNumberLen kp pl 0
                sealer false b.2))

/-- Lines 701-726 of `MaybePackProbePacket`: the packet is built from the
header, the payload and the sealer of the level. -/
def finishProbePacket (E : Env σ) (p : packetPacker) (encLevel : EncryptionLevel)
    (hdr : Option ExtendedHeader) (pl : Option payload) (sealer : Sealer) (kp : KeyPhaseBit)
    (w : World σ) : Result (Option coalescedPacket) × World σ :=
  match pl with
  | none => (Result.ok none, w)
  | some pl =>
    match hdr with
    | none => (Result.goPanic "nil pointer dereference", w)
    | some hdr =>
      let size := packetLength E p hdr pl + (sealer.Overhead : Int)
      let padding : Int :=
        if encLevel = EncryptionLevel.EncryptionInitial then initialPaddingLen E p pl.frames size
        else 0
      let b := w.getPacketBuffer
      let packet : coalescedPacket := { buffer := b.1 }
      if encLevel = EncryptionLevel.Encryption1RTT then
        andThen (appendShortToPacket E p (some hdr) kp pl padding (some sealer) packet b.2)
          (fun packet w1 => (Result.ok (some packet), w1))
      else
        andThen (appendLongHeaderPacket E p packet.buffer hdr pl padding encLevel sealer b.2)
          (fun r w1 =>
            (Result.ok (some { packet with buffer := r.2, longHdrPackets := [r.1] }), w1))

/-- Lines 675-688 of `MaybePackProbePacket`: the probe packet of the level
Initial or Handshake, with the result of the sealer getter of the level. -/
def cryptoProbePacket (E : Env σ) (p : packetPacker) (fuel : Nat)
    (encLevel : EncryptionLevel) (g : Except Error Sealer × World σ) :
    Result (Option coalescedPacket) × packetPacker × World σ :=
  match g.1 with
  | Except.error err => (Result.error err, p, g.2)
  | Except.ok sealer =>
    withPacker p
      (andThen
        (maybeGetCryptoPacket E p fuel (p.maxPacketSize - (sealer.Overhead : Int)) encLevel
          false true g.2)
        (fun r w1 => finishProbePacket E p encLevel r.1 r.2 sealer 0 w1))

/-- Go `(*packetPacker).MaybePackProbePacket` (lines 668-726). -/
def MaybePackProbePacket (E : Env σ) (p : packetPacker) (fuel : Nat)
    (encLevel : EncryptionLevel) (w : World σ) :
    Result (Option coalescedPacket) × packetPacker × World σ :=
  match encLevel with
  | EncryptionLevel.EncryptionInitial =>
    cryptoProbePacket E p fuel EncryptionLevel.EncryptionInitial (w.GetInitialSealer E)
  | EncryptionLevel.EncryptionHandshake =>
    cryptoProbePacket E p fuel EncryptionLevel.EncryptionHandshake (w.GetHandshakeSealer E)
  | EncryptionLevel.Encryption1RTT =>
    let g := w.Get1RTTSealer E
    match g.1 with
    | Except.error err => (Result.error err, p, g.2)
    | Except.ok oneRTTSealer =>
      let kp := oneRTTSealer.KeyPhase
      let h := getShortHeader E oneRTTSealer.KeyPhase g.2
      andThenP
        (maybeGetAppDataPacket E p fuel
          (p.maxPacketSize - (oneRTTSealer.Overhead : Int) - E.hdrGetLength h.1 p.version)
          false true h.2)
        (fun pl p1 w1 =>
          withPacker p1 (finishProbePacket E p1 encLevel (some h.1) pl oneRTTSealer kp w1))
  | EncryptionLevel.Encryption0RTT => (Result.goPanic "unknown encryption level", p, w)

/-- Go `(*packetPacker).PackMTUProbePacket` (lines 728-745).  The argument
`now` is not used by the Go function. -/
def PackMTUProbePacket (E : Env σ) (p : packetPacker) (ping : Frame) (size : Int)
    (_now : Time) (w : World σ) : Result (shortHeaderPacket × packetBuffer) × World σ :=
  let pl : payload := { frames := [ping], length := E.frameLength ping.Frame p.version }
  let b := w.getPacketBuffer
  let g := b.2.Get1RTTSealer E
  match g.1 with
  | Except.error err => (Result.error err, g.2)
  | Except.ok sealer =>
    let h := getShortHeader E sealer.KeyPhase g.2
    let hdr := h.1
    let padding := size - packetLength E p hdr pl - (sealer.Overhead : Int)
    appendShortHeaderPacket E p b.1 hdr.PacketNumber hdr.PacketNumberLen sealer.KeyPhase pl
      padding sealer true h.2

/-- Go `encLevels` (line 242 of `packConnectionClose`). -/
def encLevels : List EncryptionLevel :=
  [EncryptionLevel.EncryptionInitial, EncryptionLevel.EncryptionHandshake,
   EncryptionLevel.Encryption0RTT, EncryptionLevel.Encryption1RTT]

/-- The entries `sealers[i]`, `hdrs[i]`, `payloads[i]` of the three arrays of
`packConnectionClose` for one level; `none` when they were left nil. -/
abbrev closeEntry := EncryptionLevel × Option (Sealer × ExtendedHeader × payload)

/-- The local variables of `packConnectionClose` (lines 236-241).  `entries`
holds the entries of the arrays for the levels handled so far, in the order
of `encLevels`. -/
structure closeLocals where
  entries : List closeEntry := []
  size : Int := 0
  keyPhase : KeyPhaseBit := 0
  numLongHdrPackets : Nat := 0

/-- Lines 247-258 of `packConnectionClose`: the CONNECTION_CLOSE frame for the
level `encLevel`. -/
def closeFrame (E : Env σ) (isApplicationError : Bool) (errorCode frameType : Nat)
    (reason : String) (encLevel : EncryptionLevel) : ConnectionCloseFrame :=
  let ccf : ConnectionCloseFrame :=
    { IsApplicationError := isApplicationError
      ErrorCode := errorCode
      FrameType := frameType
      ReasonPhrase := reason }
  if isApplicationError = true ∧ (encLevel = EncryptionLevel.EncryptionInitial ∨
      encLevel = EncryptionLevel.EncryptionHandshake) then
    { ccf with IsApplicationError := false
               ErrorCode := E.ApplicationErrorErrorCode
               ReasonPhrase := "" }
  else
    ccf

/-- Lines 259-262 of `packConnectionClose`: the payload with the
CONNECTION_CLOSE frame. -/
def closePayload (E : Env σ) (p : packetPacker) (ccf : ConnectionCloseFrame) : payload :=
  { frames := [{ Frame := WireFrame.ConnectionClose ccf }]
    length := E.frameLength (WireFrame.ConnectionClose ccf) p.version }

/-- Lines 264-280 of `packConnectionClose`: the sealer of the level. -/
def getCloseSealer (E : Env σ) (encLevel : EncryptionLevel) (w : World σ) :
    Except Error Sealer × World σ :=
  match encLevel with
  | EncryptionLevel.EncryptionInitial => w.GetInitialSealer E
  | EncryptionLevel.EncryptionHandshake => w.GetHandshakeSealer E
  | EncryptionLevel.Encryption0RTT => w.Get0RTTSealer E
  | EncryptionLevel.Encryption1RTT => w.Get1RTTSealer E

/-- Lines 288-293 of `packConnectionClose`: the header of the level. -/
def getCloseHeader (E : Env σ) (p : packetPacker) (encLevel : EncryptionLevel)
    (keyPhase : KeyPhaseBit) (w : World σ) : ExtendedHeader × World σ :=
  if encLevel = EncryptionLevel.Encryption1RTT then getShortHeader E keyPhase w
  else getLongHeader E p encLevel w

/-- The body of the first loop of `packConnectionClose` (lines 243-300) for
the level `encLevel`. -/
def closeLevel (E : Env σ) (p : packetPacker) (isApplicationError : Bool)
    (errorCode frameType : Nat) (reason : String) (encLevel : EncryptionLevel)
    (L : closeLocals) (w : World σ) : Result closeLocals × World σ :=
  if p.perspective = Perspective.PerspectiveServer ∧
      encLevel = EncryptionLevel.Encryption0RTT then
    (Result.ok { L with entries := L.entries ++ [(encLevel, none)] }, w)
  else
    let pl := closePayload E p
      (closeFrame E isApplicationError errorCode frameType reason encLevel)
    let g := getCloseSealer E encLevel w
    match g.1 with
    | Except.error err =>
      if err = Error.ErrKeysNotYetAvailable ∨ err = Error.ErrKeysDropped then
        (Result.ok { L with entries := L.entries ++ [(encLevel, none)] }, g.2)
      else
        (Result.error err, g.2)
    | Except.ok sealer =>
      let keyPhase : KeyPhaseBit :=
        if encLevel = EncryptionLevel.Encryption1RTT then sealer.KeyPhase else L.keyPhase
      let h := getCloseHeader E p encLevel keyPhase g.2
      (Result.ok
        { entries := L.entries ++ [(encLevel, some (sealer, h.1, pl))]
          size := L.size + (packetLength E p h.1 pl + (sealer.Overhead : Int))
          keyPhase := keyPhase
          numLongHdrPackets :=
            if encLevel ≠ EncryptionLevel.Encryption1RTT then L.numLongHdrPackets + 1
            else L.numLongHdrPackets }, h.2)

/-- The first loop of `packConnectionClose` (lines 243-300) over the levels
`levels`. -/
def closeLevels (E : Env σ) (p : packetPacker) (isApplicationError : Bool)
    (errorCode frameType : Nat) (reason : String) :
    List EncryptionLevel → closeLocals → World σ → Result closeLocals × World σ
  | [], L, w => (Result.ok L, w)
  | encLevel :: rest, L, w =>
    andThen (closeLevel E p isApplicationError errorCode frameType reason encLevel L w)
      (fun L1 w1 => closeLevels E p isApplicationError errorCode frameType reason rest L1 w1)

/-- The body of the second loop of `packConnectionClose` (lines 306-327) for
one level with a sealer. -/
def closeAppendOne (E : Env σ) (p : packetPacker) (size : Int) (keyPhase : KeyPhaseBit)
    (encLevel : EncryptionLevel) (sealer : Sealer) (hdr : ExtendedHeader) (pl : payload)
    (packet : coalescedPacket) (w : World σ) : Result coalescedPacket × World σ :=
  let paddingLen : Int :=
    if encLevel = EncryptionLevel.EncryptionInitial then initialPaddingLen E p pl.frames size
    else 0
  if encLevel = EncryptionLevel.Encryption1RTT then
    appendShortToPacket E p (some hdr) keyPhase pl paddingLen (some sealer) packet w
  else
    appendLongIfPayload E p (some hdr) (some pl) (fun _ => paddingLen) encLevel
      (some sealer) packet w

/-- The second loop of `packConnectionClose` (lines 306-327) over the entries
of the arrays. -/
def closeAppend (E : Env σ) (p : packetPacker) (size : Int) (keyPhase : KeyPhaseBit) :
    List closeEntry → coalescedPacket → World σ → Result coalescedPacket × World σ
  | [], packet, w => (Result.ok packet, w)
  | (_, none) :: rest, packet, w => closeAppend E p size keyPhase rest packet w
  | (encLevel, some (sealer, hdr, pl)) :: rest, packet, w =>
    andThen (closeAppendOne E p size keyPhase encLevel sealer hdr pl packet w)
      (fun packet1 w1 => closeAppend E p size keyPhase rest packet1 w1)

/-- Go `(*packetPacker).packConnectionClose` (lines 230-329). -/
def packConnectionClose (E : Env σ) (p : packetPacker) (isApplicationError : Bool)
    (errorCode frameType : Nat) (reason : String) (w : World σ) :
    Result coalescedPacket × World σ :=
  andThen (closeLevels E p isApplicationError errorCode frameType reason encLevels {} w)
    (fun L w1 =>
      let b := w1.getPacketBuffer
      closeAppend E p L.size L.keyPhase L.entries { buffer := b.1, longHdrPackets := [] } b.2)

/-- Go `(*packetPacker).PackConnectionClose` (lines 216-223). -/
def PackConnectionClose (E : Env σ) (p : packetPacker) (e : TransportError) (w : World σ) :
    Result coalescedPacket × World σ :=
  let reason : String := if !E.IsCryptoError e.ErrorCode then e.ErrorMessage else ""
  packConnectionClose E p false e.ErrorCode e.FrameType reason w

/-- Go `(*packetPacker).PackApplicationClose` (lines 226-228). -/
def PackApplicationClose (E : Env σ) (p : packetPacker) (e : ApplicationError)
    (w : World σ) : Result coalescedPacket × World σ :=
  packConnectionClose E p true e.ErrorCode 0 e.ErrorMessage w

/-- Go `(*packetPacker).SetToken` (lines 931-933). -/
def SetToken (p : packetPacker) (token : List UInt8) : packetPacker :=
  { p with token := token }

/-- Go `(*packetPacker).SetMaxPacketSize` (lines 936-938). -/
def SetMaxPacketSize (p : packetPacker) (s : Int) : packetPacker :=
  { p with maxPacketSize := s }

/-- Go `(*packetPacker).HandleTransportParameters` (lines 942-946). -/
def HandleTransportParameters (p : packetPacker) (params : TransportParameters) :
    packetPacker :=
  if params.MaxUDPPayloadSize ≠ 0 then
    { p with maxPacketSize := min p.maxPacketSize params.MaxUDPPayloadSize }
  else
    p

/-! ## Derived notions used in the statements -/

/-- The total length of a coalesced packet: the sum of the lengths recorded in
its long header packets and in its short header packet. -/
def coalescedPacket.totalLength (c : coalescedPacket) : Int :=
  (c.longHdrPackets.map (fun l => l.length)).sum +
    (match c.shortHdrPacket with
     | some s => s.Packet.Length
     | none => 0)

/-- The contract between `GetLength` and the two functions that write a
header: a header is written with as many bytes as `GetLength` says, whatever
the value of its field `Length` (which `appendLongHeaderPacket` sets after the
length was computed). -/
structure WireConsistent (E : Env σ) (v : VersionNumber) : Prop where
  long : ∀ (h : ExtendedHeader) (len : Int) (bs : List UInt8),
    h.IsLongHeader = true → E.hdrWrite { h with Length := len } v = Except.ok bs →
    (bs.length : Int) = E.hdrGetLength h v
  short : ∀ (connID : ConnectionID) (pn : PacketNumber) (pnLen : PacketNumberLen)
    (kp : KeyPhaseBit) (bs : List UInt8),
    E.WriteShortHeader connID pn pnLen kp = Except.ok bs →
    (bs.length : Int) = E.hdrGetLength
      { PacketNumber := pn, PacketNumberLen := pnLen, DestConnectionID := connID,
        KeyPhase := kp } v

/-- The padding of lines 785-789 and 834-837 (and of `packetLength`): a
payload shorter than `4 - pnLen` is filled up to that length. -/
def tinyPaddingLen (pnLen : Int) (length : Int) : Int :=
  if length < 4 - pnLen then 4 - pnLen - length else 0

/-- The packer `p1` is the packer `p` up to the counter
`numNonAckElicitingAcks`. -/
def sameConfig (p p1 : packetPacker) : Prop :=
  p1 = { p with numNonAckElicitingAcks := p1.numNonAckElicitingAcks }

/-- The short header packet of `c`, if there is one, is not longer than
`maxSize`. -/
def shortBounded (maxSize : Int) (c : coalescedPacket) : Prop :=
  ∀ sp, c.shortHdrPacket = some sp → sp.Packet.Length ≤ maxSize

/-- The packet number spaces: 0-RTT and 1-RTT packets share the space of
the application data. -/
inductive PacketNumberSpace
  | Initial
  | Handshake
  | AppData
  deriving DecidableEq, Repr

/-- The packet number space of an encryption level. -/
def pnSpace (encLevel : EncryptionLevel) : PacketNumberSpace :=
  match encLevel with
  | EncryptionLevel.EncryptionInitial => PacketNumberSpace.Initial
  | EncryptionLevel.EncryptionHandshake => PacketNumberSpace.Handshake
  | EncryptionLevel.Encryption0RTT => PacketNumberSpace.AppData
  | EncryptionLevel.Encryption1RTT => PacketNumberSpace.AppData

/-- The contract of the packet number manager: `PopPacketNumber` returns the
number `PeekPacketNumber` shows, and the number `PeekPacketNumber` shows for a
level changes only when a number of the same space is popped: no other method
of a collaborator changes it. -/
structure PnContract (E : Env σ) : Prop where
  pop_peek : ∀ s encLevel, (E.PopPacketNumber s encLevel).1 = (E.PeekPacketNumber s encLevel).1.1
  peek : ∀ s l encLevel,
    (E.PeekPacketNumber (E.PeekPacketNumber s l).2 encLevel).1 = (E.PeekPacketNumber s encLevel).1
  pop : ∀ s l encLevel, pnSpace l ≠ pnSpace encLevel →
    (E.PeekPacketNumber (E.PopPacketNumber s l).2 encLevel).1 = (E.PeekPacketNumber s encLevel).1
  GetInitialSealer : ∀ s encLevel,
    (E.PeekPacketNumber (E.GetInitialSealer s).2 encLevel).1 = (E.PeekPacketNumber s encLevel).1
  GetHandshakeSealer : ∀ s encLevel,
    (E.PeekPacketNumber (E.GetHandshakeSealer s).2 encLevel).1 = (E.PeekPacketNumber s encLevel).1
  Get0RTTSealer : ∀ s encLevel,
    (E.PeekPacketNumber (E.Get0RTTSealer s).2 encLevel).1 = (E.PeekPacketNumber s encLevel).1
  Get1RTTSealer : ∀ s encLevel,
    (E.PeekPacketNumber (E.Get1RTTSealer s).2 encLevel).1 = (E.PeekPacketNumber s encLevel).1
  framerHasData : ∀ s encLevel,
    (E.PeekPacketNumber (E.framerHasData s).2 encLevel).1 = (E.PeekPacketNumber s encLevel).1
  AppendStreamFrames : ∀ s frames maxLen encLevel,
    (E.PeekPacketNumber (E.AppendStreamFrames s frames maxLen).2 encLevel).1 =
      (E.PeekPacketNumber s encLevel).1
  AppendControlFrames : ∀ s frames maxLen encLevel,
    (E.PeekPacketNumber (E.AppendControlFrames s frames maxLen).2 encLevel).1 =
      (E.PeekPacketNumber s encLevel).1
  GetAckFrame : ∀ s l onlyIfQueued encLevel,
    (E.PeekPacketNumber (E.GetAckFrame s l onlyIfQueued).2 encLevel).1 =
      (E.PeekPacketNumber s encLevel).1
  datagramPeek : ∀ s encLevel,
    (E.PeekPacketNumber (E.datagramPeek s).2 encLevel).1 = (E.PeekPacketNumber s encLevel).1
  datagramPop : ∀ s encLevel,
    (E.PeekPacketNumber (E.datagramPop s) encLevel).1 = (E.PeekPacketNumber s encLevel).1
  HasInitialData : ∀ s encLevel,
    (E.PeekPacketNumber (E.HasInitialData s).2 encLevel).1 = (E.PeekPacketNumber s encLevel).1
  HasHandshakeData : ∀ s encLevel,
    (E.PeekPacketNumber (E.HasHandshakeData s).2 encLevel).1 = (E.PeekPacketNumber s encLevel).1
  HasAppData : ∀ s encLevel,
    (E.PeekPacketNumber (E.HasAppData s).2 encLevel).1 = (E.PeekPacketNumber s encLevel).1
  GetInitialFrame : ∀ s maxLen encLevel,
    (E.PeekPacketNumber (E.GetInitialFrame s maxLen).2 encLevel).1 =
      (E.PeekPacketNumber s encLevel).1
  GetHandshakeFrame : ∀ s maxLen encLevel,
    (E.PeekPacketNumber (E.GetHandshakeFrame s maxLen).2 encLevel).1 =
      (E.PeekPacketNumber s encLevel).1
  GetAppDataFrame : ∀ s maxLen encLevel,
    (E.PeekPacketNumber (E.GetAppDataFrame s maxLen).2 encLevel).1 =
      (E.PeekPacketNumber s encLevel).1
  streamHasData : ∀ s l encLevel,
    (E.PeekPacketNumber (E.streamHasData s l).2 encLevel).1 = (E.PeekPacketNumber s encLevel).1
  PopCryptoFrame : ∀ s l maxLen encLevel,
    (E.PeekPacketNumber (E.PopCryptoFrame s l maxLen).2 encLevel).1 =
      (E.PeekPacketNumber s encLevel).1

/-- The sum of the lengths `Length(version)` of the frames of a list. -/
def framesLength (E : Env σ) (v : VersionNumber) (frames : List Frame) : Int :=
  (frames.map (fun f => E.frameLength f.Frame v)).sum

/-- Every frame of the list is serialised without error, to as many bytes as
its `Length(version)` says. -/
def FramesSerialise (E : Env σ) (v : VersionNumber) (frames : List Frame) : Prop :=
  ∀ f ∈ frames, ∃ bytes, E.frameAppend f.Frame v = Except.ok bytes ∧
    (bytes.length : Int) = E.frameLength f.Frame v

/-- The ACK frame, if there is one, is serialised without error, to as many
bytes as its `Length(version)` says. -/
def AckSerialises (E : Env σ) (v : VersionNumber) (ack : Option AckFrame) : Prop :=
  ∀ a, ack = some a → ∃ bytes, E.ackAppend a v = Except.ok bytes ∧
    (bytes.length : Int) = E.ackLength a v

/-- The length `Length(version)` of the ACK frame, 0 when there is none. -/
def ackLen (E : Env σ) (v : VersionNumber) (ack : Option AckFrame) : Int :=
  match ack with
  | some a => E.ackLength a v
  | none => 0

/-- A payload of one frame of ten bytes. -/
def tenBytePayload : payload :=
  { frames := [{ Frame := WireFrame.handed 10 }], length := 10 }

/-- The size `packetLength + Overhead()` of the packet of one level of
`PackCoalescedPacket`; 0 when the level has no payload. -/
def levelSize (E : Env σ) (p : packetPacker) (hdr : Option ExtendedHeader)
    (pl : Option payload) (sealer : Option Sealer) : Int :=
  match pl, hdr, sealer with
  | some pl, some hdr, some sealer => packetLength E p hdr pl + (sealer.Overhead : Int)
  | _, _, _ => 0

/-- The header `hdr` is a short header as `getShortHeader` builds it, with the
key phase `kp`. -/
def isShortHeaderFor (E : Env σ) (kp : KeyPhaseBit) (hdr : ExtendedHeader) : Prop :=
  ∃ s, hdr = { PacketNumber := hdr.PacketNumber, PacketNumberLen := hdr.PacketNumberLen,
               DestConnectionID := E.getDestConnID s, KeyPhase := kp }

/-- What holds for the local variables of `PackCoalescedPacket` at line 427:
`size` is the sum of the sizes of the levels with a payload, a level with a
payload has a header and a sealer, and the header of a 1-RTT packet is a short
header with the key phase `kp`. -/
structure LocalsOK (E : Env σ) (p : packetPacker) (L : coalescedLocals) : Prop where
  size : L.size = levelSize E p L.initialHdr L.initialPayload L.initialSealer +
    levelSize E p L.handshakeHdr L.handshakePayload L.handshakeSealer +
    levelSize E p L.appDataHdr L.appDataPayload L.appDataSealer
  initial : ∀ pl, L.initialPayload = some pl →
    ∃ hdr sealer, L.initialHdr = some hdr ∧ L.initialSealer = some sealer
  handshake : ∀ pl, L.handshakePayload = some pl →
    ∃ hdr sealer, L.handshakeHdr = some hdr ∧ L.handshakeSealer = some sealer
  appData : ∀ pl, L.appDataPayload = some pl →
    ∃ hdr sealer, L.appDataHdr = some hdr ∧ L.appDataSealer = some sealer
  short : L.appDataEncLevel ≠ EncryptionLevel.Encryption0RTT →
    ∀ hdr, L.appDataHdr = some hdr → isShortHeaderFor E L.kp hdr

/-- The packet numbers `PeekPacketNumber` shows are the same in the worlds `w`
and `w1`. -/
def pnKept (E : Env σ) (w w1 : World σ) : Prop :=
  ∀ encLevel, (E.PeekPacketNumber w1.st encLevel).1 = (E.PeekPacketNumber w.st encLevel).1

/-! ## A concrete set of collaborators

`Sim` is the state of a small implementation of every collaborator, used to
run the packer on concrete inputs. -/

/-- The state of the simulated collaborators. -/
structure Sim where
  /-- The error of `GetInitialSealer`, `none` when the sealer is available. -/
  keysInitial : Option Error := none
  keysHandshake : Option Error := some Error.ErrKeysNotYetAvailable
  keys0RTT : Option Error := some Error.ErrKeysNotYetAvailable
  keys1RTT : Option Error := some Error.ErrKeysNotYetAvailable
  /-- The next packet number of the three packet number spaces. -/
  pnInitial : Int := 0
  pnHandshake : Int := 0
  pnAppData : Int := 0
  /-- The ACK frame the ACK source returns for a level, if any. -/
  ackInitial : Option AckFrame := none
  ackHandshake : Option AckFrame := none
  ack1RTT : Option AckFrame := none
  /-- The CRYPTO frames waiting in the two crypto streams. -/
  cryptoInitial : List WireFrame := []
  cryptoHandshake : List WireFrame := []
  /-- The frames waiting in the retransmission queue. -/
  rtInitial : List WireFrame := []
  rtHandshake : List WireFrame := []
  rtAppData : List WireFrame := []
  /-- The control frames and the stream frames of the frame source. -/
  control : List WireFrame := []
  streams : List WireFrame := []
  /-- The frames of the datagram queue. -/
  datagrams : List WireFrame := []
  clock : Time := 0

/-- The sealer of the simulation: `Seal` leaves the payload as it is and adds
a tag of 16 bytes, `EncryptHeader` leaves the header as it is. -/
def simSealer : Sealer :=
  { Overhead := 16
    KeyPhase := 0
    Seal := fun plaintext _ _ => plaintext ++ List.replicate 16 0
    EncryptHeader := fun _ firstByte pnBytes => (firstByte, pnBytes) }

/-- The result of a sealer getter of the simulation. -/
def simKeys (k : Option Error) : Except Error Sealer :=
  match k with
  | none => Except.ok simSealer
  | some e => Except.error e

/-- The length of a frame in the simulation: a PING has one byte, a
CONNECTION_CLOSE frame three bytes and its reason phrase, a frame `handed n`
has `n` bytes. -/
def simFrameLength (f : WireFrame) : Int :=
  match f with
  | WireFrame.PingFrame => 1
  | WireFrame.ConnectionClose ccf => 3 + (ccf.ReasonPhrase.length : Int)
  | WireFrame.handed n => (n : Int)

/-- The length of a header in the simulation. -/
def simHdrLength (h : ExtendedHeader) : Int :=
  if h.IsLongHeader then
    9 + (h.DestConnectionID.length : Int) + (h.SrcConnectionID.length : Int) +
      (h.Token.length : Int) + (h.PacketNumberLen : Int)
  else
    1 + (h.DestConnectionID.length : Int) + (h.PacketNumberLen : Int)

/-- The next packet number of a level; 0-RTT and 1-RTT share one space. -/
def Sim.pn (s : Sim) (encLevel : EncryptionLevel) : Int :=
  match encLevel with
  | EncryptionLevel.EncryptionInitial => s.pnInitial
  | EncryptionLevel.EncryptionHandshake => s.pnHandshake
  | _ => s.pnAppData

/-- The state after the packet number of a level was popped. -/
def Sim.popPn (s : Sim) (encLevel : EncryptionLevel) : Sim :=
  match encLevel with
  | EncryptionLevel.EncryptionInitial => { s with pnInitial := s.pnInitial + 1 }
  | EncryptionLevel.EncryptionHandshake => { s with pnHandshake := s.pnHandshake + 1 }
  | _ => { s with pnAppData := s.pnAppData + 1 }

/-- The first frame of a queue of the simulation, when it is not longer than
`maxLen`. -/
def simTake (q : List WireFrame) (maxLen : Int) : Option WireFrame × List WireFrame :=
  match q with
  | [] => (none, [])
  | f :: rest => if simFrameLength f ≤ maxLen then (some f, rest) else (none, f :: rest)

/-- The frames of `q` appended to `frames`, when all of them together are not
longer than `maxLen`; nothing is appended otherwise. -/
def simAppend (q : List WireFrame) (frames : List Frame) (maxLen : Int) :
    (List Frame × Int) × List WireFrame :=
  let total := (q.map simFrameLength).sum
  if total ≤ maxLen then ((frames ++ q.map (fun f => { Frame := f }), total), [])
  else ((frames, 0), q)

/-- The simulated collaborators. -/
def simEnv : Env Sim :=
  { GetInitialSealer := fun s => (simKeys s.keysInitial, s)
    GetHandshakeSealer := fun s => (simKeys s.keysHandshake, s)
    Get0RTTSealer := fun s => (simKeys s.keys0RTT, s)
    Get1RTTSealer := fun s => (simKeys s.keys1RTT, s)
    PeekPacketNumber := fun s encLevel => ((s.pn encLevel, 2), s)
    PopPacketNumber := fun s encLevel => (s.pn encLevel, s.popPn encLevel)
    framerHasData := fun s => (!(s.control.isEmpty && s.streams.isEmpty), s)
    AppendControlFrames := fun s frames maxLen =>
      let r := simAppend s.control frames maxLen
      (r.1, { s with control := r.2 })
    AppendStreamFrames := fun s frames maxLen =>
      let r := simAppend s.streams frames maxLen
      (r.1, { s with streams := r.2 })
    GetAckFrame := fun s encLevel _ =>
      match encLevel with
      | EncryptionLevel.EncryptionInitial => (s.ackInitial, s)
      | EncryptionLevel.EncryptionHandshake => (s.ackHandshake, s)
      | _ => (s.ack1RTT, s)
    datagramPeek := fun s => (s.datagrams.head?, s)
    datagramPop := fun s => { s with datagrams := s.datagrams.tail }
    HasInitialData := fun s => (!s.rtInitial.isEmpty, s)
    HasHandshakeData := fun s => (!s.rtHandshake.isEmpty, s)
    HasAppData := fun s => (!s.rtAppData.isEmpty, s)
    GetInitialFrame := fun s maxLen =>
      let r := simTake s.rtInitial maxLen
      (r.1, { s with rtInitial := r.2 })
    GetHandshakeFrame := fun s maxLen =>
      let r := simTake s.rtHandshake maxLen
      (r.1, { s with rtHandshake := r.2 })
    GetAppDataFrame := fun s maxLen =>
      let r := simTake s.rtAppData maxLen
      (r.1, { s with rtAppData := r.2 })
    streamHasData := fun s encLevel =>
      match encLevel with
      | EncryptionLevel.EncryptionInitial => (!s.cryptoInitial.isEmpty, s)
      | EncryptionLevel.EncryptionHandshake => (!s.cryptoHandshake.isEmpty, s)
      | _ => (false, s)
    PopCryptoFrame := fun s encLevel _ =>
      match encLevel with
      | EncryptionLevel.EncryptionInitial =>
        (s.cryptoInitial.headD (WireFrame.handed 0),
          { s with cryptoInitial := s.cryptoInitial.tail })
      | EncryptionLevel.EncryptionHandshake =>
        (s.cryptoHandshake.headD (WireFrame.handed 0),
          { s with cryptoHandshake := s.cryptoHandshake.tail })
      | _ => (WireFrame.handed 0, s)
    getDestConnID := fun _ => [1, 2, 3, 4]
    timeNow := fun s => s.clock
    frameLength := fun f _ => simFrameLength f
    frameAppend := fun f _ => Except.ok (List.replicate (simFrameLength f).toNat 0)
    ackLength := fun _ _ => 4
    ackAppend := fun _ _ => Except.ok [2, 0, 0, 0]
    ackLargestAcked := fun a => (a.id : Int)
    hdrGetLength := fun h _ => simHdrLength h
    hdrWrite := fun h _ => Except.ok (List.replicate (simHdrLength h).toNat 0)
    WriteShortHeader := fun connID _ pnLen _ =>
      Except.ok (List.replicate (1 + connID.length + pnLen) 0)
    HasAckElicitingFrames := fun frames =>
      frames.any (fun f =>
        match f.Frame with
        | WireFrame.ConnectionClose _ => false
        | _ => true)
    IsCryptoError := fun code => decide (256 ≤ code ∧ code < 512)
    ApplicationErrorErrorCode := 12
    InvalidPacketNumber := -1
    MinStreamFrameSize := 128
    MaxPacketBufferSize := 1452 }

/-- The world in which the simulated collaborators are in the state `s` and
no call has been made. -/
def simWorld (s : Sim) : World Sim :=
  { st := s, calls := [] }

/-- A packer of the simulation: version 1, source connection ID of four
bytes, no token, no datagram queue. -/
def simPacker (perspective : Perspective) (maxPacketSize : Int) : packetPacker :=
  { srcConnID := [5, 6, 7, 8]
    perspective := perspective
    version := 1
    token := []
    datagramQueue := false
    maxPacketSize := maxPacketSize
    numNonAckElicitingAcks := 0 }

/-- Fixed answers of the collaborators, in the way of a mock: the errors of
the four sealer getters (`none` when the sealer is available), whether the
retransmission queue, the crypto streams and the frame source have data, the
CRYPTO frame the crypto streams return, and the ACK frame the ACK source
returns. -/
structure Mock where
  keysInitial : Option Error := none
  keysHandshake : Option Error := some Error.ErrKeysNotYetAvailable
  keys0RTT : Option Error := some Error.ErrKeysNotYetAvailable
  keys1RTT : Option Error := some Error.ErrKeysNotYetAvailable
  hasInitialData : Bool := false
  hasHandshakeData : Bool := false
  hasAppData : Bool := false
  cryptoHasData : Bool := false
  cryptoFrame : WireFrame := WireFrame.handed 0
  framerHasData : Bool := false
  ack : Option AckFrame := none

/-- The simulated collaborators, with the fixed answers of `m` in the place of
the answers that depend on the state. -/
def mockEnv (m : Mock) : Env Sim :=
  { simEnv with
    GetInitialSealer := fun s => (simKeys m.keysInitial, s)
    GetHandshakeSealer := fun s => (simKeys m.keysHandshake, s)
    Get0RTTSealer := fun s => (simKeys m.keys0RTT, s)
    Get1RTTSealer := fun s => (simKeys m.keys1RTT, s)
    HasInitialData := fun s => (m.hasInitialData, s)
    HasHandshakeData := fun s => (m.hasHandshakeData, s)
    HasAppData := fun s => (m.hasAppData, s)
    streamHasData := fun s _ => (m.cryptoHasData, s)
    PopCryptoFrame := fun s _ _ => (m.cryptoFrame, s)
    framerHasData := fun s => (m.framerHasData, s)
    GetAckFrame := fun s _ _ => (m.ack, s) }

/-- The number of bytes in the buffer of the datagram returned, 0 when no
datagram is returned. -/
def datagramSize (r : Result (Option coalescedPacket) × packetPacker × World σ) : Nat :=
  match r.1 with
  | Result.ok (some c) => c.buffer.Data.length
  | _ => 0

/-- The packer and the world after `n` consecutive calls of
`maybeGetAppDataPacket` with the same arguments. -/
def appDataAfter (E : Env σ) (fuel : Nat) (maxPayloadSize : Int) (onlyAck ackAllowed : Bool) :
    Nat → packetPacker → World σ → packetPacker × World σ
  | 0, p, w => (p, w)
  | n + 1, p, w =>
    let s := appDataAfter E fuel maxPayloadSize onlyAck ackAllowed n p w
    (maybeGetAppDataPacket E s.1 fuel maxPayloadSize onlyAck ackAllowed s.2).2

/-- The PING frame `maybeGetAppDataPacket` adds to a payload that holds only an
ACK (line 586): its `OnLost` is the no-op closure. -/
def injectedPing : Frame :=
  { Frame := WireFrame.PingFrame, OnLost := some OnLostCallback.noop }

/-- The answers of the collaborators in the scenario of C5: the 1-RTT sealer
is available, there is an ACK frame, and no data and no retransmission. -/
def ackOnlyMock : Mock :=
  { keys1RTT := none, ack := some { id := 7 } }

/-- The operations of the interface `packer` (lines 20-32), with their
arguments. -/
inductive Op
  | PackCoalescedPacket (onlyAck : Bool)
  | PackPacket (onlyAck : Bool) (now : Time)
  | MaybePackProbePacket (encLevel : EncryptionLevel)
  | PackConnectionClose (e : TransportError)
  | PackApplicationClose (e : ApplicationError)
  | SetMaxPacketSize (s : Int)
  | PackMTUProbePacket (ping : Frame) (size : Int) (now : Time)
  | HandleTransportParameters (params : TransportParameters)
  | SetToken (token : List UInt8)

/-- The packer and the world after one operation of the interface `packer`. -/
def applyOp (E : Env σ) (fuel : Nat) (op : Op) (p : packetPacker) (w : World σ) :
    packetPacker × World σ :=
  match op with
  | Op.PackCoalescedPacket onlyAck => (PackCoalescedPacket E p fuel onlyAck w).2
  | Op.PackPacket onlyAck now => (PackPacket E p fuel onlyAck now w).2
  | Op.MaybePackProbePacket encLevel => (MaybePackProbePacket E p fuel encLevel w).2
  | Op.PackConnectionClose e => (p, (PackConnectionClose E p e w).2)
  | Op.PackApplicationClose e => (p, (PackApplicationClose E p e w).2)
  | Op.SetMaxPacketSize s => (SetMaxPacketSize p s, w)
  | Op.PackMTUProbePacket ping size now => (p, (PackMTUProbePacket E p ping size now w).2)
  | Op.HandleTransportParameters params => (HandleTransportParameters p params, w)
  | Op.SetToken token => (SetToken p token, w)

/-- The packer and the world after a sequence of operations. -/
def runOps (E : Env σ) (fuel : Nat) : List Op → packetPacker → World σ → packetPacker × World σ
  | [], p, w => (p, w)
  | op :: rest, p, w =>
    let s := applyOp E fuel op p w
    runOps E fuel rest s.1 s.2

/-- The counter `numNonAckElicitingAcks` is within its bounds. -/
def counterOK (p : packetPacker) : Prop :=
  0 ≤ p.numNonAckElicitingAcks ∧ p.numNonAckElicitingAcks ≤ MaxNonAckElicitingAcks

/-- The packet type of the long header of a level (lines 769-777); a 1-RTT
packet has a short header, whose field `Type` is not set. -/
def typeOfLevel (encLevel : EncryptionLevel) : PacketType :=
  match encLevel with
  | EncryptionLevel.EncryptionInitial => PacketType.PacketTypeInitial
  | EncryptionLevel.EncryptionHandshake => PacketType.PacketTypeHandshake
  | EncryptionLevel.Encryption0RTT => PacketType.PacketType0RTT
  | EncryptionLevel.Encryption1RTT => PacketType.unset

/-- The entries of the arrays of `packConnectionClose` hold, for a level with
a sealer, the payload with the CONNECTION_CLOSE frame of the level and a
header of the type of the level. -/
def EntriesOK (E : Env σ) (p : packetPacker) (isApplicationError : Bool)
    (errorCode frameType : Nat) (reason : String) (entries : List closeEntry) : Prop :=
  ∀ encLevel sealer hdr pl, (encLevel, some (sealer, hdr, pl)) ∈ entries →
    pl = closePayload E p
      (closeFrame E isApplicationError errorCode frameType reason encLevel) ∧
    hdr.Type_ = typeOfLevel encLevel

/-- The long header packets of `c` hold the CONNECTION_CLOSE frame of their
level, and the short header packet the one of the level 1-RTT. -/
def ClosePacketOK (E : Env σ) (p : packetPacker) (isApplicationError : Bool)
    (errorCode frameType : Nat) (reason : String) (c : coalescedPacket) : Prop :=
  (∀ lp ∈ c.longHdrPackets, ∃ encLevel, encLevel ≠ EncryptionLevel.Encryption1RTT ∧
    lp.header.Type_ = typeOfLevel encLevel ∧
    lp.frames = (closePayload E p
      (closeFrame E isApplicationError errorCode frameType reason encLevel)).frames) ∧
  (∀ sp, c.shortHdrPacket = some sp →
    sp.Packet.Frames = (closePayload E p
      (closeFrame E isApplicationError errorCode frameType reason
        EncryptionLevel.Encryption1RTT)).frames.map setOnLostShort)

/-- The transport error of the scenario of `PackConnectionClose`: a crypto
error with the message "handshake failed". -/
def cryptoTransportError : TransportError :=
  { ErrorCode := 296, FrameType := 6, ErrorMessage := "handshake failed" }

/-- The application error of the scenario of `PackApplicationClose`. -/
def demoApplicationError : ApplicationError :=
  { ErrorCode := 77, ErrorMessage := "bye" }

/-- The level `encLevel` gets a packet in `packConnectionClose`: it is not the
level 0-RTT of a server, and the sealer getter of the level, whose result is
`r encLevel`, succeeds. -/
def closeSends (p : packetPacker) (r : EncryptionLevel → Except Error Sealer)
    (encLevel : EncryptionLevel) : Bool :=
  if p.perspective = Perspective.PerspectiveServer ∧
      encLevel = EncryptionLevel.Encryption0RTT then
    false
  else
    match r encLevel with
    | Except.ok _ => true
    | Except.error _ => false

/-- The error of the sealer getter of the level `encLevel`, whose result is
`r encLevel`, when it is neither `ErrKeysNotYetAvailable` nor `ErrKeysDropped`;
`none` for the level 0-RTT of a server, whose getter is not called. -/
def closeFatal (p : packetPacker) (r : EncryptionLevel → Except Error Sealer)
    (encLevel : EncryptionLevel) : Option Error :=
  if p.perspective = Perspective.PerspectiveServer ∧
      encLevel = EncryptionLevel.Encryption0RTT then
    none
  else
    match r encLevel with
    | Except.ok _ => none
    | Except.error err =>
      if err = Error.ErrKeysNotYetAvailable ∨ err = Error.ErrKeysDropped then none
      else some err

/-- The level of an entry of the arrays of `packConnectionClose`, and whether
the entry is set. -/
def closeEntryKind (e : closeEntry) : EncryptionLevel × Bool := (e.1, e.2.isSome)

/-- The types of the long header packets of the entries that are set, in the
order of the entries. -/
def closeLongTypes (kinds : List (EncryptionLevel × Bool)) : List PacketType :=
  (kinds.filter (fun k => k.2 && decide (k.1 ≠ EncryptionLevel.Encryption1RTT))).map
    (fun k => typeOfLevel k.1)

/-- The entry of the level 1-RTT is set. -/
def closeHasShort (kinds : List (EncryptionLevel × Bool)) : Bool :=
  kinds.any (fun k => k.2 && decide (k.1 = EncryptionLevel.Encryption1RTT))

/-- The answers of the sealer getters in the scenario of `packConnectionClose`:
the Initial and the 1-RTT sealer are available, the Handshake keys were
dropped and the 0-RTT keys are not yet available. -/
def closeMock : Mock :=
  { keysHandshake := some Error.ErrKeysDropped, keys1RTT := none }

/-- The answers of the sealer getters in the second scenario: the Initial
sealer is available and the getter of the Handshake sealer fails with an error
of its own. -/
def closeErrorMock : Mock :=
  { keysHandshake := some (Error.other "no sealer"), keys1RTT := none }

/-- The results of the four sealer getters of `mockEnv m`. -/
def mockKeys (m : Mock) (encLevel : EncryptionLevel) : Except Error Sealer :=
  match encLevel with
  | EncryptionLevel.EncryptionInitial => simKeys m.keysInitial
  | EncryptionLevel.EncryptionHandshake => simKeys m.keysHandshake
  | EncryptionLevel.Encryption0RTT => simKeys m.keys0RTT
  | EncryptionLevel.Encryption1RTT => simKeys m.keys1RTT

/-- The error `e` is returned by one of the functions of the package `wire`
that serialise a header, a frame or an ACK frame. -/
def WireError (E : Env σ) (e : Error) : Prop :=
  (∃ hdr v, E.hdrWrite hdr v = Except.error e) ∨
  (∃ connID pn pnLen kp, E.WriteShortHeader connID pn pnLen kp = Except.error e) ∨
  (∃ f v, E.frameAppend f v = Except.error e) ∨
  (∃ a v, E.ackAppend a v = Except.error e)

/-- The error `e` is one of the errors the packer makes itself when it finds
an inconsistency (lines 806, 851, 860 and 917). -/
def BugError (e : Error) : Prop :=
  e = Error.bugPacketNumberMismatch ∨ (∃ size allowed, e = Error.bugPacketTooLarge size allowed) ∨
  ∃ expected got, e = Error.bugPayloadSizeInconsistent expected got

/-- The answers of the collaborators in the scenario of the key errors: the
Initial keys were dropped, the Handshake and the 0-RTT keys are not yet
available, the 1-RTT sealer is available and there is an ACK frame to send. -/
def droppedInitialMock : Mock :=
  { keysInitial := some Error.ErrKeysDropped, keys1RTT := none, ack := some { id := 7 } }

/-- A packer of the simulation that has sent 19 packets with only an ACK in a
row. -/
def streakPacker : packetPacker :=
  { simPacker Perspective.PerspectiveClient 1252 with numNonAckElicitingAcks := 19 }

/-- The sink of the retransmission queue for the frames of a level: `AddInitial`
for Initial, `AddHandshake` for Handshake, `AddAppData` for 0-RTT and 1-RTT. -/
def sinkOfLevel (encLevel : EncryptionLevel) : OnLostCallback :=
  match encLevel with
  | EncryptionLevel.EncryptionInitial => OnLostCallback.AddInitial
  | EncryptionLevel.EncryptionHandshake => OnLostCallback.AddHandshake
  | EncryptionLevel.Encryption0RTT => OnLostCallback.AddAppData
  | EncryptionLevel.Encryption1RTT => OnLostCallback.AddAppData

/-- The frame `g` is the frame `f` at the commit of a packet of the level
`encLevel`: the same `Frame`; the callback `f` had, or the sink of the level
when `f` had none. -/
def CommittedFrame (encLevel : EncryptionLevel) (f g : Frame) : Prop :=
  g.Frame = f.Frame ∧
  (f.OnLost = none → g.OnLost = some (sinkOfLevel encLevel)) ∧
  (∀ cb, f.OnLost = some cb → g.OnLost = some cb)

/-- A long header packet of the level Handshake with a frame without a
callback and a frame with the no-op callback. -/
def demoLongPacket : longHeaderPacket :=
  { header := { IsLongHeader := true, Type_ := PacketType.PacketTypeHandshake,
                PacketNumber := 5, PacketNumberLen := 2 }
    ack := none
    frames := [{ Frame := WireFrame.handed 10 },
               { Frame := WireFrame.PingFrame, OnLost := some OnLostCallback.noop }]
    length := 50 }

/-- The header `appendLongHeaderPacket` serialises (lines 783-790): the header
it is given, with the field `Length` set to the length of the packet number,
the overhead of the sealer, the payload and the padding. -/
def sentLongHeader (header : ExtendedHeader) (pl : payload) (padding : Int)
    (sealer : Sealer) : ExtendedHeader :=
  { header with Length := (header.PacketNumberLen : Int) + (sealer.Overhead : Int) +
      pl.length + (tinyPaddingLen header.PacketNumberLen pl.length + padding) }

/-- The simulated collaborators with a package `wire` that fails to serialise
any header. -/
def brokenHeaderEnv : Env Sim :=
  { simEnv with
    hdrWrite := fun _ _ => Except.error (Error.other "invalid header")
    WriteShortHeader := fun _ _ _ _ => Except.error (Error.other "invalid header") }

/-- The long header of an Initial packet with the packet number 0. -/
def demoInitialHeader : ExtendedHeader :=
  { IsLongHeader := true, Type_ := PacketType.PacketTypeInitial, PacketNumberLen := 2,
    PacketNumber := 0 }

/-- The value of the local variable `maxPacketSize` of `PackCoalescedPacket`
(lines 359-362). -/
def coalescedMaxPacketSize (p : packetPacker) : Int :=
  if p.perspective = Perspective.PerspectiveClient then MinInitialPacketSize
  else p.maxPacketSize

/-- The answers of the collaborators in the scenario of a broken 1-RTT sealer:
the Initial sealer is available and the crypto stream returns a CRYPTO frame of
ten bytes, the Handshake keys are not yet available, and `Get1RTTSealer` fails
with an error of its own. -/
def brokenAppDataMock : Mock :=
  { keys1RTT := some (Error.other "sealer broken"), cryptoHasData := true,
    cryptoFrame := WireFrame.handed 10 }

/-- A call other than `PopPacketNumber` and `getPacketBuffer`: the calls made
while a payload is composed. -/
def composeCall (c : Call) : Prop :=
  (∀ encLevel, c ≠ Call.PopPacketNumber encLevel) ∧ c ≠ Call.getPacketBuffer

/-- The calls recorded in the world `w1` are the calls recorded in `w`
followed by calls other than `PopPacketNumber` and `getPacketBuffer`: between
`w` and `w1` no packet number is popped and no buffer is taken. -/
def Quiet (w w1 : World σ) : Prop :=
  ∃ cs, w1.calls = w.calls ++ cs ∧ ∀ c ∈ cs, composeCall c

/-- The call of `composeNextPacket` that `PackPacket` makes (through
`maybeGetShortHeaderPacket` and `maybeGetAppDataPacket`) when `Get1RTTSealer`
has returned `sealer`: after the short header was built, with the payload
size that `p.maxPacketSize` leaves, and with `ackAllowed = true`. -/
def packPacketCompose (E : Env σ) (p : packetPacker) (fuel : Nat) (onlyAck : Bool)
    (sealer : Sealer) (w : World σ) : Result payload × World σ :=
  let h := getShortHeader E sealer.KeyPhase (w.Get1RTTSealer E).2
  composeNextPacket E p fuel
    (p.maxPacketSize - E.hdrGetLength h.1 p.version - (sealer.Overhead : Int)) onlyAck true h.2

/-- The answers of the collaborators in the scenario in which there is nothing
to send: only the Initial sealer is available, and there is no crypto data, no
retransmission and no ACK. -/
def nothingToSendMock : Mock := {}

/-- The bytes of a long header packet of a coalesced packet: the header of the
packet as `hdrWrite` serialises it, followed by a payload with the ACK frame
and the frames of the packet, sealed and header protected by
`encryptPacket`; their number is the `length` of the packet. -/
def LongPacketBytes (E : Env σ) (p : packetPacker) (lp : longHeaderPacket)
    (bytes : List UInt8) : Prop :=
  ∃ (hdrBytes raw : List UInt8) (pl : payload) (padding : Int) (sealer : Sealer),
    E.hdrWrite lp.header p.version = Except.ok hdrBytes ∧
    pl.frames = lp.frames ∧ pl.ack = lp.ack ∧
    appendPacketPayload E p hdrBytes pl padding = Except.ok raw ∧
    bytes = encryptPacket raw sealer lp.header.PacketNumber (hdrBytes.length : Int)
      (lp.header.PacketNumberLen : Int) ∧
    (bytes.length : Int) = lp.length

/-- The bytes of the short header packet of a coalesced packet: the short
header with the connection ID, packet number, packet number length and key
phase of the packet, followed by a payload with the ACK frame and the frames
of the packet, sealed and header protected by `encryptPacket`; their number is
the `Length` of the packet. -/
def ShortPacketBytes (E : Env σ) (p : packetPacker) (sp : shortHeaderPacket)
    (bytes : List UInt8) : Prop :=
  ∃ (hdrBytes raw : List UInt8) (pl : payload) (padding : Int) (sealer : Sealer),
    E.WriteShortHeader sp.DestConnID sp.Packet.PacketNumber sp.PacketNumberLen sp.KeyPhase =
      Except.ok hdrBytes ∧
    sp.Packet.Frames = pl.frames.map setOnLostShort ∧ sp.Ack = pl.ack ∧
    appendPacketPayload E p hdrBytes pl padding = Except.ok raw ∧
    bytes = encryptPacket raw sealer sp.Packet.PacketNumber (hdrBytes.length : Int)
      (sp.PacketNumberLen : Int) ∧
    (bytes.length : Int) = sp.Packet.Length

/-- The `length` of the payload is the length of its ACK frame (0 when there
is none) plus the sum of the lengths of its frames. -/
def PayloadLengthOK (E : Env σ) (v : VersionNumber) (pl : payload) : Prop :=
  pl.length = ackLen E v pl.ack + framesLength E v pl.frames

/-- The contract of the frame source for the value `lengthAdded` it returns:
it is the total length of the frames by which the returned list is longer than
the list passed in. -/
structure FramerReports (E : Env σ) (v : VersionNumber) : Prop where
  control : ∀ s frames maxLen,
    framesLength E v (E.AppendControlFrames s frames maxLen).1.1 =
      framesLength E v frames + (E.AppendControlFrames s frames maxLen).1.2
  stream : ∀ s frames maxLen,
    framesLength E v (E.AppendStreamFrames s frames maxLen).1.1 =
      framesLength E v frames + (E.AppendStreamFrames s frames maxLen).1.2

/-- Lines 500-516 of `maybeGetCryptoPacket`: whether the retransmission queue
of the level has data (`hasRetransmission`), whether the crypto stream of the
level has data (`hasData`), and the ACK frame, which is asked for only when
`ackAllowed`; with the world after these calls.  There is no crypto stream for
a level other than Initial and Handshake (`none`). -/
def cryptoAsked (E : Env σ) (encLevel : EncryptionLevel) (ackAllowed : Bool) (w : World σ) :
    Option (Bool × Bool × Option AckFrame × World σ) :=
  match cryptoHasRetransmission E encLevel w with
  | none => none
  | some hr =>
    let hd := hr.2.streamHasData E encLevel
    let a : Option AckFrame × World σ :=
      if ackAllowed then hd.2.GetAckFrame E encLevel (!hr.1 && !hd.1)
      else (none, hd.2)
    some (hr.1, hd.1, a.1, a.2)

/-- The `switch` of lines 534-539 of `maybeGetCryptoPacket`: the next frame of
the retransmission queue of the level. -/
def cryptoGetFrame (E : Env σ) (encLevel : EncryptionLevel) (maxPacketSize : Int)
    (w : World σ) : Option WireFrame × World σ :=
  match encLevel with
  | EncryptionLevel.EncryptionInitial => w.GetInitialFrame E maxPacketSize
  | EncryptionLevel.EncryptionHandshake => w.GetHandshakeFrame E maxPacketSize
  | _ => (none, w)

/-- The value of `maxPacketSize` after lines 523-529 of `maybeGetCryptoPacket`:
the length of the ACK frame and the length of the header are taken off. -/
def cryptoBudget (E : Env σ) (p : packetPacker) (maxPacketSize : Int) (ack : Option AckFrame)
    (hdr : ExtendedHeader) : Int :=
  (if ack = none then maxPacketSize else maxPacketSize - (ackPayload E p ack).length) -
    E.hdrGetLength hdr p.version

/-- Lines 522-553 of `maybeGetCryptoPacket`: the payload with the ACK frame is
filled with the frames of the retransmission queue or, when there is no
retransmission, with a CRYPTO frame of the crypto stream. -/
def cryptoFill (E : Env σ) (p : packetPacker) (fuel : Nat) (maxPacketSize : Int)
    (encLevel : EncryptionLevel) (hasRetransmission : Bool) (ack : Option AckFrame)
    (w : World σ) : Result (Option ExtendedHeader × Option payload) × World σ :=
  let pl := ackPayload E p ack
  let h := getLongHeader E p encLevel w
  let budget := cryptoBudget E p maxPacketSize ack h.1
  if hasRetransmission then
    andThen (cryptoRetransmissionLoop E p encLevel fuel pl budget h.2)
      (fun pl w2 => (Result.ok (some h.1, some pl), w2))
  else
    let hd2 := h.2.streamHasData E encLevel
    if hd2.1 then
      let cf := hd2.2.PopCryptoFrame E encLevel budget
      (Result.ok (some h.1,
        some { pl with frames := [{ Frame := cf.1 }],
                       length := pl.length + E.frameLength cf.1 p.version }), cf.2)
    else
      (Result.ok (some h.1, some pl), hd2.2)

/-- Lines 608-621 of `composeNextPacket`: whether the frame source has data
(`hasData`), whether the retransmission queue has application data
(`hasRetransmission`), and the ACK frame, which is asked for only when
`ackAllowed`; with the world after these calls. -/
def composeAsked (E : Env σ) (ackAllowed : Bool) (w : World σ) :
    Bool × Bool × Option AckFrame × World σ :=
  let hd := w.framerHasData E
  let hr := hd.2.HasAppData E
  let a : Option AckFrame × World σ :=
    if ackAllowed then
      hr.2.GetAckFrame E EncryptionLevel.Encryption1RTT (!hr.1 && !hd.1)
    else (none, hr.2)
  (hd.1, hr.1, a.1, a.2)

/-- Lines 638-665 of `composeNextPacket`: what is done with the payload after
the datagram queue was looked at. -/
def composeRest (E : Env σ) (p : packetPacker) (fuel : Nat) (maxFrameSize : Int)
    (hasData hasRetransmission hasAck : Bool) (pl : payload) (w : World σ) :
    Result payload × World σ :=
  if hasAck = true ∧ hasData = false ∧ hasRetransmission = false then
    (Result.ok pl, w)
  else
    let rt : Result payload × World σ :=
      if hasRetransmission then appDataRetransmissionLoop E p maxFrameSize fuel pl w
      else (Result.ok pl, w)
    andThen rt (fun pl w2 =>
      let fr := appendFramerFrames E maxFrameSize hasData pl w2
      (Result.ok fr.1, fr.2))

/-- The call by which `maybeGetCryptoPacket` asks the retransmission queue
whether it has data of the level Initial (line 506) or Handshake (line 509). -/
def hasRetransmissionCall (encLevel : EncryptionLevel) : Call :=
  match encLevel with
  | EncryptionLevel.EncryptionInitial => Call.HasInitialData
  | _ => Call.HasHandshakeData

/-- The contract of the frame source for the list it returns: the frames
passed in, followed by the frames it appended. -/
structure FramerAppends (E : Env σ) : Prop where
  control : ∀ s frames maxLen,
    ∃ extra, (E.AppendControlFrames s frames maxLen).1.1 = frames ++ extra
  stream : ∀ s frames maxLen,
    ∃ extra, (E.AppendStreamFrames s frames maxLen).1.1 = frames ++ extra

/-- A call of a collaborator other than the datagram queue. -/
def notDatagramCall (c : Call) : Prop :=
  c ≠ Call.datagramPeek ∧ c ≠ Call.datagramPop

/-- The calls recorded in the world `w1` are the calls recorded in `w`
followed by calls that all have the property `P`. -/
def CallsAdded (P : Call → Prop) (w w1 : World σ) : Prop :=
  ∃ cs, w1.calls = w.calls ++ cs ∧ ∀ c ∈ cs, P c

/-- The frame that `composeNextPacket` makes of the datagram `f` (lines
627-631): its `OnLost` is the no-op closure. -/
def datagramFrame (f : WireFrame) : Frame :=
  { Frame := f, OnLost := some OnLostCallback.noop }

/-- A packer of the simulation that has a datagram queue. -/
def datagramPacker : packetPacker :=
  { simPacker Perspective.PerspectiveServer 1200 with datagramQueue := true }

/-- The state of the simulated collaborators in the scenario of the datagram:
an ACK frame is queued, the datagram queue holds a frame of 30 bytes and the
frame source a stream frame of 20 bytes. -/
def datagramSim : Sim :=
  { ack1RTT := some { id := 3 }, datagrams := [WireFrame.handed 30],
    streams := [WireFrame.handed 20] }

/-- What holds for the lengths the package `wire` reports: a header has at
least one byte, and the length of a frame or of an ACK frame is not
negative. -/
structure LengthsPositive (E : Env σ) (v : VersionNumber) : Prop where
  hdr : ∀ h, 0 < E.hdrGetLength h v
  ack : ∀ a, 0 ≤ E.ackLength a v
  frame : ∀ f, 0 ≤ E.frameLength f v

/-- The number of packets in a coalesced packet: the long header packets and
the short header packet, if there is one. -/
def coalescedPacket.packetCount (c : coalescedPacket) : Nat :=
  c.longHdrPackets.length + (if c.shortHdrPacket = none then 0 else 1)

/-- The number of packets of a coalesced packet that carry an ACK frame. -/
def coalescedPacket.ackCount (c : coalescedPacket) : Nat :=
  (c.longHdrPackets.filter (fun lp => lp.ack.isSome)).length +
    (match c.shortHdrPacket with
     | some sp => if sp.Ack.isSome then 1 else 0
     | none => 0)

/-- The state of the simulated collaborators in the scenario of the ACK
frames: the keys of the levels Initial, Handshake and 1-RTT are available, an
ACK frame is queued at each of the three levels, the crypto streams of the
levels Initial and Handshake hold a CRYPTO frame of ten bytes, and the frame
source a PING. -/
def threeAcksSim : Sim :=
  { keysHandshake := none, keys1RTT := none,
    ackInitial := some { id := 1 }, ackHandshake := some { id := 2 },
    ack1RTT := some { id := 3 },
    cryptoInitial := [WireFrame.handed 10], cryptoHandshake := [WireFrame.handed 10],
    control := [WireFrame.PingFrame] }

/-- A call other than `GetAckFrame`. -/
def notAckCall (c : Call) : Prop := ∀ encLevel onlyIfQueued, c ≠ Call.GetAckFrame encLevel onlyIfQueued

/-- The state of the simulated collaborators in which the retransmission
queue of the level Initial holds a frame of ten bytes and the ACK source has
an ACK frame for the level; there is no crypto data. -/
def retransmissionAckSim : Sim :=
  { rtInitial := [WireFrame.handed 10], ackInitial := some { id := 1 } }

/-- A client of the simulation that was given a token of 1180 bytes with
`SetToken`, as a client is after a Retry packet with such a token: the long
header of its Initial packets has 1199 bytes. -/
def longTokenPacker : packetPacker :=
  SetToken (simPacker Perspective.PerspectiveClient 1200) (List.replicate 1180 0)

/-- The state of the simulated collaborators in which only the Initial keys
are available, the retransmission queue of the level Initial holds a frame of
300 bytes, and there is no crypto data and no ACK frame. -/
def retransmissionSim : Sim :=
  { rtInitial := [WireFrame.handed 300] }

/-- The state of the simulated collaborators in which the sealers of the
levels Initial, 0-RTT and 1-RTT are available and the Handshake keys are not
yet available. -/
def bothSealersSim : Sim :=
  { keys0RTT := none, keys1RTT := none }
/-! ## Lemmas on the serialisation of one packet -/

theorem fitLen_length (n : Nat) (l : List UInt8) : (fitLen n l).length = n := by
  simp [fitLen]

theorem overwrite_length (l : List UInt8) (i : Nat) (new : List UInt8) :
    (overwrite l i new).length = l.length := by
  simp only [overwrite, List.length_take, List.length_append, List.length_drop]
  omega

theorem encryptPacket_length (raw : List UInt8) (sealer : Sealer) (pn : PacketNumber)
    (payloadOffset pnLen : Int) :
    (encryptPacket raw sealer pn payloadOffset pnLen).length = raw.length + sealer.Overhead := by
  simp only [encryptPacket, overwrite_length, List.length_append, List.length_take,
    fitLen_length]
  omega

theorem appendPacketPayload_length (E : Env σ) (p : packetPacker) (raw : List UInt8)
    (pl : payload) (paddingLen : Int) (out : List UInt8)
    (h : appendPacketPayload E p raw pl paddingLen = Except.ok out) :
    (out.length : Int) = (raw.length : Int) + pl.length + paddingLen := by
  unfold appendPacketPayload at h
  simp only at h
  split at h
  · exact absurd h (by simp)
  · split at h
    · exact absurd h (by simp)
    · split at h
      · exact absurd h (by simp)
      · rename_i hsz
        injection h with h
        subst h
        push_neg at hsz
        omega

theorem tinyPaddingLen_nonneg (pnLen : Int) (length : Int) :
    0 ≤ tinyPaddingLen pnLen length := by
  unfold tinyPaddingLen; split <;> omega

theorem packetLength_eq (E : Env σ) (p : packetPacker) (hdr : ExtendedHeader) (pl : payload) :
    packetLength E p hdr pl =
      E.hdrGetLength hdr p.version + pl.length + tinyPaddingLen hdr.PacketNumberLen pl.length := by
  simp [packetLength, tinyPaddingLen]

theorem appendShortHeaderPacket_ok (E : Env σ) (p : packetPacker) (buffer : packetBuffer)
    (pn : PacketNumber) (pnLen : PacketNumberLen) (kp : KeyPhaseBit) (pl : payload)
    (padding : Int) (sealer : Sealer) (isMTUProbePacket : Bool) (w w1 : World σ)
    (pkt : shortHeaderPacket) (buf : packetBuffer)
    (h : appendShortHeaderPacket E p buffer pn pnLen kp pl padding sealer isMTUProbePacket w =
      (Result.ok (pkt, buf), w1)) :
    ∃ hdrBytes raw, E.WriteShortHeader (E.getDestConnID w.st) pn pnLen kp = Except.ok hdrBytes ∧
      appendPacketPayload E p hdrBytes pl (tinyPaddingLen pnLen pl.length + padding) =
        Except.ok raw ∧
      pn = (w.PopPacketNumber E EncryptionLevel.Encryption1RTT).1 ∧
      w1 = (w.PopPacketNumber E EncryptionLevel.Encryption1RTT).2 ∧
      (isMTUProbePacket = false → (raw.length : Int) + sealer.Overhead ≤ p.maxPacketSize) ∧
      pkt.Packet.Length = (raw.length : Int) + sealer.Overhead ∧
      pkt.Packet.Frames = pl.frames.map setOnLostShort ∧
      pkt.Packet.PacketNumber = pn ∧
      pkt.Packet.IsPathMTUProbePacket = isMTUProbePacket ∧
      pkt.Packet.EncryptionLevel = EncryptionLevel.Encryption1RTT ∧
      pkt.Ack = pl.ack ∧
      buf.Data = buffer.Data ++ encryptPacket raw sealer pn (hdrBytes.length : Int) (pnLen : Int) := by
  unfold appendShortHeaderPacket at h
  simp only at h
  split at h
  · simp at h
  · rename_i hdrBytes hW
    split at h
    · simp at h
    · rename_i hpn
      split at h
      · simp at h
      · rename_i raw hA
        split at h
        · simp at h
        · rename_i hsz
          split at h
          · simp at h
          · simp only [Prod.mk.injEq, Result.ok.injEq] at h
            obtain ⟨⟨h1, h2⟩, h3⟩ := h
            subst h1 h2 h3
            refine ⟨hdrBytes, raw, hW, ?_, ?_, rfl, ?_, ?_, rfl, rfl, rfl, rfl, rfl, rfl⟩
            · simpa [tinyPaddingLen] using hA
            · simpa using hpn
            · intro hm
              subst hm
              simp at hsz
              exact hsz
            · simp [encryptPacket_length]

/-- A short header packet that is returned fits in the capacity of the
buffer. -/
theorem appendShortHeaderPacket_fits (E : Env σ) (p : packetPacker) (buffer : packetBuffer)
    (pn : PacketNumber) (pnLen : PacketNumberLen) (kp : KeyPhaseBit) (pl : payload)
    (padding : Int) (sealer : Sealer) (isMTUProbePacket : Bool) (w w1 : World σ)
    (pkt : shortHeaderPacket) (buf : packetBuffer)
    (h : appendShortHeaderPacket E p buffer pn pnLen kp pl padding sealer isMTUProbePacket w =
      (Result.ok (pkt, buf), w1)) :
    buf.Data.length ≤ E.MaxPacketBufferSize := by
  unfold appendShortHeaderPacket at h
  simp only at h
  split at h
  · simp at h
  · split at h
    · simp at h
    · split at h
      · simp at h
      · split at h
        · simp at h
        · split at h
          · simp at h
          · rename_i hcap
            simp only [Prod.mk.injEq, Result.ok.injEq] at h
            obtain ⟨⟨h1, h2⟩, h3⟩ := h
            subst h2
            simp only [List.length_append]
            omega

theorem appendLongHeaderPacket_ok (E : Env σ) (p : packetPacker) (buffer : packetBuffer)
    (header : ExtendedHeader) (pl : payload) (padding : Int) (encLevel : EncryptionLevel)
    (sealer : Sealer) (w w1 : World σ) (pkt : longHeaderPacket) (buf : packetBuffer)
    (h : appendLongHeaderPacket E p buffer header pl padding encLevel sealer w =
      (Result.ok (pkt, buf), w1)) :
    header.IsLongHeader = true ∧
    ∃ hdrBytes raw,
      E.hdrWrite { header with Length := (header.PacketNumberLen : Int) + (sealer.Overhead : Int) +
        pl.length + (tinyPaddingLen header.PacketNumberLen pl.length + padding) } p.version =
        Except.ok hdrBytes ∧
      appendPacketPayload E p hdrBytes pl (tinyPaddingLen header.PacketNumberLen pl.length + padding)
        = Except.ok raw ∧
      (w.PopPacketNumber E encLevel).1 = header.PacketNumber ∧
      w1 = (w.PopPacketNumber E encLevel).2 ∧
      pkt.length = (raw.length : Int) + sealer.Overhead ∧
      pkt.frames = pl.frames ∧ pkt.ack = pl.ack ∧
      pkt.header = { header with Length := (header.PacketNumberLen : Int) +
        (sealer.Overhead : Int) + pl.length +
        (tinyPaddingLen header.PacketNumberLen pl.length + padding) } ∧
      buf.Data = buffer.Data ++ encryptPacket raw sealer header.PacketNumber (hdrBytes.length : Int)
        (header.PacketNumberLen : Int) := by
  unfold appendLongHeaderPacket at h
  split at h
  · simp at h
  · rename_i hlong
    simp only at h
    split at h
    · simp at h
    · rename_i hdrBytes hW
      split at h
      · simp at h
      · rename_i hpn
        split at h
        · simp at h
        · rename_i raw hA
          simp only [Prod.mk.injEq, Result.ok.injEq] at h
          obtain ⟨⟨h1, h2⟩, h3⟩ := h
          subst h1 h2 h3
          simp only [ne_eq, Decidable.not_not] at hpn
          refine ⟨by simpa using hlong, hdrBytes, raw, ?_, ?_, hpn, rfl, ?_, rfl, rfl, ?_, ?_⟩
          · simpa [tinyPaddingLen] using hW
          · simpa [tinyPaddingLen] using hA
          · simp [encryptPacket_length]
          · simp [tinyPaddingLen]
          · simp [hpn]

theorem appendLongHeaderPacket_length (E : Env σ) (p : packetPacker) (buffer : packetBuffer)
    (header : ExtendedHeader) (pl : payload) (padding : Int) (encLevel : EncryptionLevel)
    (sealer : Sealer) (w w1 : World σ) (pkt : longHeaderPacket) (buf : packetBuffer)
    (hW : WireConsistent E p.version)
    (h : appendLongHeaderPacket E p buffer header pl padding encLevel sealer w =
      (Result.ok (pkt, buf), w1)) :
    pkt.length = packetLength E p header pl + (sealer.Overhead : Int) + padding ∧
    (buf.Data.length : Int) = (buffer.Data.length : Int) + pkt.length := by
  obtain ⟨hl, hdrBytes, raw, h1, h2, -, -, h5, -, -, -, h9⟩ :=
    appendLongHeaderPacket_ok E p buffer header pl padding encLevel sealer w w1 pkt buf h
  have := hW.long header _ hdrBytes hl h1
  have h3 := appendPacketPayload_length E p hdrBytes pl _ raw h2
  rw [packetLength_eq]
  constructor
  · omega
  · rw [h9]
    simp only [List.length_append, encryptPacket_length]
    push_cast
    omega
/-! ## Lemmas on sequencing and on the fields of the packer -/

theorem andThen_ok_iff {α β : Type} (r : Result α × World σ)
    (f : α → World σ → Result β × World σ) (b : β) (w1 : World σ) :
    andThen r f = (Result.ok b, w1) ↔ ∃ a, r.1 = Result.ok a ∧ f a r.2 = (Result.ok b, w1) := by
  unfold andThen
  split <;> rename_i h <;> simp [h]

theorem andThen_error_iff {α β : Type} (r : Result α × World σ)
    (f : α → World σ → Result β × World σ) (e : Error) (w1 : World σ) :
    andThen r f = (Result.error e, w1) ↔
      (r.1 = Result.error e ∧ r.2 = w1) ∨
      ∃ a, r.1 = Result.ok a ∧ f a r.2 = (Result.error e, w1) := by
  unfold andThen
  split <;> rename_i h <;> simp [h]

theorem andThenP_ok_iff {α β : Type} (r : Result α × packetPacker × World σ)
    (f : α → packetPacker → World σ → Result β × packetPacker × World σ) (b : β)
    (p1 : packetPacker) (w1 : World σ) :
    andThenP r f = (Result.ok b, p1, w1) ↔
      ∃ a, r.1 = Result.ok a ∧ f a r.2.1 r.2.2 = (Result.ok b, p1, w1) := by
  unfold andThenP
  split <;> rename_i h <;> simp [h]

theorem andThenP_error_iff {α β : Type} (r : Result α × packetPacker × World σ)
    (f : α → packetPacker → World σ → Result β × packetPacker × World σ) (e : Error)
    (p1 : packetPacker) (w1 : World σ) :
    andThenP r f = (Result.error e, p1, w1) ↔
      (r.1 = Result.error e ∧ r.2.1 = p1 ∧ r.2.2 = w1) ∨
      ∃ a, r.1 = Result.ok a ∧ f a r.2.1 r.2.2 = (Result.error e, p1, w1) := by
  unfold andThenP
  split <;> rename_i h <;> simp [h, Prod.ext_iff]

theorem andThenP_sameConfig {α β : Type} (p : packetPacker)
    (r : Result α × packetPacker × World σ)
    (f : α → packetPacker → World σ → Result β × packetPacker × World σ)
    (hr : sameConfig p r.2.1)
    (hf : ∀ a p1 w1, sameConfig p p1 → sameConfig p (f a p1 w1).2.1) :
    sameConfig p (andThenP r f).2.1 := by
  unfold andThenP
  split
  · exact hf _ _ _ hr
  all_goals exact hr

theorem sameConfig_refl (p : packetPacker) : sameConfig p p := rfl

theorem sameConfig_trans {p p1 p2 : packetPacker} (h1 : sameConfig p p1)
    (h2 : sameConfig p1 p2) : sameConfig p p2 := by
  unfold sameConfig at *
  rw [h2, h1]

theorem sameConfig.maxPacketSize {p p1 : packetPacker} (h : sameConfig p p1) :
    p1.maxPacketSize = p.maxPacketSize := by rw [h]

theorem sameConfig.version {p p1 : packetPacker} (h : sameConfig p p1) :
    p1.version = p.version := by rw [h]

theorem sameConfig.perspective {p p1 : packetPacker} (h : sameConfig p p1) :
    p1.perspective = p.perspective := by rw [h]

theorem finishAppDataPacket_sameConfig (E : Env σ) (p : packetPacker) (pl : payload) :
    sameConfig p (finishAppDataPacket E p pl).2 := by
  unfold finishAppDataPacket sameConfig
  split
  · split
    · rfl
    · split <;> rfl
  · rfl

theorem maybeGetAppDataPacket_sameConfig (E : Env σ) (p : packetPacker) (fuel : Nat)
    (maxPayloadSize : Int) (onlyAck ackAllowed : Bool) (w : World σ) :
    sameConfig p (maybeGetAppDataPacket E p fuel maxPayloadSize onlyAck ackAllowed w).2.1 := by
  unfold maybeGetAppDataPacket
  apply andThenP_sameConfig
  · exact sameConfig_refl p
  · intro a p1 w1 h
    exact sameConfig_trans h (finishAppDataPacket_sameConfig E p1 a)

theorem maybeGetShortHeaderPacket_sameConfig (E : Env σ) (p : packetPacker) (fuel : Nat)
    (sealer : Sealer) (kp : KeyPhaseBit) (maxPacketSize : Int) (onlyAck ackAllowed : Bool)
    (w : World σ) :
    sameConfig p
      (maybeGetShortHeaderPacket E p fuel sealer kp maxPacketSize onlyAck ackAllowed w).2.1 := by
  unfold maybeGetShortHeaderPacket
  apply andThenP_sameConfig
  · exact maybeGetAppDataPacket_sameConfig ..
  · intro a p1 w1 h
    exact h

theorem maybeGetAppDataPacketFor0RTT_sameConfig (E : Env σ) (p : packetPacker) (fuel : Nat)
    (sealer : Sealer) (maxPacketSize : Int) (w : World σ) :
    sameConfig p (maybeGetAppDataPacketFor0RTT E p fuel sealer maxPacketSize w).2.1 := by
  unfold maybeGetAppDataPacketFor0RTT
  split
  · exact sameConfig_refl p
  · apply andThenP_sameConfig
    · exact maybeGetAppDataPacket_sameConfig ..
    · intro a p1 w1 h
      exact h

theorem getAppDataPacket_sameConfig (E : Env σ) (p : packetPacker) (fuel : Nat)
    (appDataEncLevel : EncryptionLevel) (appDataSealer : Sealer) (maxPacketSize size : Int)
    (onlyAck : Bool) (w : World σ) :
    sameConfig p (getAppDataPacket E p fuel appDataEncLevel appDataSealer maxPacketSize size
      onlyAck w).2.1 := by
  unfold getAppDataPacket
  split
  · exact maybeGetAppDataPacketFor0RTT_sameConfig ..
  · exact maybeGetShortHeaderPacket_sameConfig ..
  · exact sameConfig_refl p

theorem packAppDataStage_sameConfig (E : Env σ) (p : packetPacker) (fuel : Nat)
    (maxPacketSize : Int) (onlyAck : Bool) (L : coalescedLocals) (w : World σ) :
    sameConfig p (packAppDataStage E p fuel maxPacketSize onlyAck L w).2.1 := by
  unfold packAppDataStage
  split
  · simp only
    split
    · exact sameConfig_refl p
    · apply andThenP_sameConfig
      · exact getAppDataPacket_sameConfig ..
      · intro a p1 w1 h
        exact h
  · exact sameConfig_refl p

theorem composeCoalesced_sameConfig (E : Env σ) (p : packetPacker) (fuel : Nat)
    (onlyAck : Bool) (w : World σ) :
    sameConfig p (composeCoalesced E p fuel onlyAck w).2.1 := by
  unfold composeCoalesced
  apply andThenP_sameConfig
  · exact sameConfig_refl p
  · intro L1 p1 w1 h1
    apply andThenP_sameConfig
    · exact h1
    · intro L2 p2 w2 h2
      exact sameConfig_trans h2 (packAppDataStage_sameConfig ..)

theorem PackCoalescedPacket_sameConfig (E : Env σ) (p : packetPacker) (fuel : Nat)
    (onlyAck : Bool) (w : World σ) :
    sameConfig p (PackCoalescedPacket E p fuel onlyAck w).2.1 := by
  unfold PackCoalescedPacket
  apply andThenP_sameConfig
  · exact composeCoalesced_sameConfig ..
  · intro L p1 w1 h1
    split
    · exact h1
    · apply andThenP_sameConfig
      · exact h1
      · intro a p2 w2 h2
        exact h2
/-! ## Lemmas on the assembly of a coalesced packet -/

theorem appendLongIfPayload_ok (E : Env σ) (p : packetPacker) (hdr : Option ExtendedHeader)
    (pl : Option payload) (padding : payload → Int) (encLevel : EncryptionLevel)
    (sealer : Option Sealer) (packet packet1 : coalescedPacket) (w w1 : World σ)
    (h : appendLongIfPayload E p hdr pl padding encLevel sealer packet w =
      (Result.ok packet1, w1)) :
    (pl = none ∧ packet1 = packet ∧ w1 = w) ∨
    ∃ plv hdrv sealerv cont buf, pl = some plv ∧ hdr = some hdrv ∧ sealer = some sealerv ∧
      appendLongHeaderPacket E p packet.buffer hdrv plv (padding plv) encLevel sealerv w =
        (Result.ok (cont, buf), w1) ∧
      packet1 = { packet with buffer := buf, longHdrPackets := packet.longHdrPackets ++ [cont] } := by
  unfold appendLongIfPayload at h
  split at h
  · left
    simp only [Prod.mk.injEq, Result.ok.injEq] at h
    exact ⟨rfl, h.1.symm, h.2.symm⟩
  · rename_i plv
    split at h
    · rename_i hdrv sealerv
      right
      rw [andThen_ok_iff] at h
      obtain ⟨a, ha, h2⟩ := h
      simp only [Prod.mk.injEq, Result.ok.injEq] at h2
      refine ⟨plv, hdrv, sealerv, a.1, a.2, rfl, rfl, rfl, ?_, h2.1.symm⟩
      rw [← h2.2]
      exact Prod.ext ha rfl
    · simp at h

theorem appendShortToPacket_ok (E : Env σ) (p : packetPacker) (hdr : Option ExtendedHeader)
    (kp : KeyPhaseBit) (pl : payload) (padding : Int) (sealer : Option Sealer)
    (packet packet1 : coalescedPacket) (w w1 : World σ)
    (h : appendShortToPacket E p hdr kp pl padding sealer packet w = (Result.ok packet1, w1)) :
    ∃ hdrv sealerv sp buf, hdr = some hdrv ∧ sealer = some sealerv ∧
      appendShortHeaderPacket E p packet.buffer hdrv.PacketNumber hdrv.PacketNumberLen kp pl
        padding sealerv false w = (Result.ok (sp, buf), w1) ∧
      packet1 = { packet with buffer := buf, shortHdrPacket := some sp } := by
  unfold appendShortToPacket at h
  split at h
  · rename_i hdrv sealerv
    rw [andThen_ok_iff] at h
    obtain ⟨a, ha, h2⟩ := h
    simp only [Prod.mk.injEq, Result.ok.injEq] at h2
    refine ⟨hdrv, sealerv, a.1, a.2, rfl, rfl, ?_, h2.1.symm⟩
    rw [← h2.2]
    exact Prod.ext ha rfl
  · simp at h

theorem appendLongIfPayload_shortBounded (E : Env σ) (p : packetPacker)
    (hdr : Option ExtendedHeader)
    (pl : Option payload) (padding : payload → Int) (encLevel : EncryptionLevel)
    (sealer : Option Sealer) (packet packet1 : coalescedPacket) (w w1 : World σ) (m : Int)
    (hb : shortBounded m packet)
    (h : appendLongIfPayload E p hdr pl padding encLevel sealer packet w =
      (Result.ok packet1, w1)) : shortBounded m packet1 := by
  rcases appendLongIfPayload_ok E p hdr pl padding encLevel sealer packet packet1 w w1 h with
    ⟨-, h1, -⟩ | ⟨plv, hdrv, sealerv, cont, buf, -, -, -, -, h1⟩
  · rw [h1]; exact hb
  · rw [h1]; exact hb

theorem appendShortToPacket_shortBounded (E : Env σ) (p : packetPacker)
    (hdr : Option ExtendedHeader)
    (kp : KeyPhaseBit) (pl : payload) (padding : Int) (sealer : Option Sealer)
    (packet packet1 : coalescedPacket) (w w1 : World σ)
    (h : appendShortToPacket E p hdr kp pl padding sealer packet w = (Result.ok packet1, w1)) :
    shortBounded p.maxPacketSize packet1 := by
  obtain ⟨hdrv, sealerv, sp, buf, -, -, h1, h2⟩ :=
    appendShortToPacket_ok E p hdr kp pl padding sealer packet packet1 w w1 h
  obtain ⟨hdrBytes, raw, -, -, -, -, h5, h6, -⟩ :=
    appendShortHeaderPacket_ok E p packet.buffer _ _ kp pl padding sealerv false w w1 sp buf h1
  intro sp' hsp
  rw [h2] at hsp
  simp only [Option.some.injEq] at hsp
  subst hsp
  have := h5 rfl
  omega

theorem assembleCoalesced_shortBounded (E : Env σ) (p : packetPacker) (L : coalescedLocals)
    (w w1 : World σ) (packet : coalescedPacket)
    (h : assembleCoalesced E p L w = (Result.ok packet, w1)) :
    shortBounded p.maxPacketSize packet := by
  unfold assembleCoalesced at h
  simp only at h
  rw [andThen_ok_iff] at h
  obtain ⟨packet1, h1, h⟩ := h
  rw [andThen_ok_iff] at h
  obtain ⟨packet2, h2, h⟩ := h
  have hb0 : shortBounded p.maxPacketSize
      ({ buffer := w.getPacketBuffer.1, longHdrPackets := [] } : coalescedPacket) := by
    intro sp hsp; simp at hsp
  have hb1 := appendLongIfPayload_shortBounded E p _ _ _ _ _ _ packet1 _ _ _ hb0
    (Prod.ext h1 rfl)
  have hb2 := appendLongIfPayload_shortBounded E p _ _ _ _ _ _ packet2 _ _ _ hb1
    (Prod.ext h2 rfl)
  unfold appendAppData at h
  split at h
  · simp only [Prod.mk.injEq, Result.ok.injEq] at h
    rw [← h.1]; exact hb2
  · split at h
    · exact appendLongIfPayload_shortBounded E p _ _ _ _ _ _ _ _ _ _ hb2 h
    · exact appendShortToPacket_shortBounded E p _ _ _ _ _ _ _ _ _ h

theorem closeAppend_shortBounded (E : Env σ) (p : packetPacker) (size : Int)
    (keyPhase : KeyPhaseBit) (entries : List closeEntry) :
    ∀ (packet packet1 : coalescedPacket) (w w1 : World σ),
      shortBounded p.maxPacketSize packet →
      closeAppend E p size keyPhase entries packet w = (Result.ok packet1, w1) →
      shortBounded p.maxPacketSize packet1 := by
  induction entries with
  | nil =>
    intro packet packet1 w w1 hb h
    simp only [closeAppend, Prod.mk.injEq, Result.ok.injEq] at h
    rw [← h.1]; exact hb
  | cons e rest ih =>
    intro packet packet1 w w1 hb h
    obtain ⟨lvl, o⟩ := e
    cases o with
    | none =>
      simp only [closeAppend] at h
      exact ih _ _ _ _ hb h
    | some t =>
      obtain ⟨sealer, hdr, pl⟩ := t
      simp only [closeAppend] at h
      rw [andThen_ok_iff] at h
      obtain ⟨packet2, h1, h⟩ := h
      refine ih _ _ _ _ ?_ h
      unfold closeAppendOne at h1
      simp only at h1
      split at h1
      · exact appendShortToPacket_shortBounded E p _ _ _ _ _ _ _ _ _ (Prod.ext h1 rfl)
      · exact appendLongIfPayload_shortBounded E p _ _ _ _ _ _ _ _ _ _ hb (Prod.ext h1 rfl)
/-! ## The short header packets of the entry points -/

theorem PackPacket_bound (E : Env σ) (p p1 : packetPacker) (fuel : Nat) (onlyAck : Bool)
    (now : Time) (w w1 : World σ) (pkt : shortHeaderPacket) (buf : packetBuffer)
    (h : PackPacket E p fuel onlyAck now w = (Result.ok (pkt, buf), p1, w1)) :
    pkt.Packet.Length ≤ p.maxPacketSize := by
  unfold PackPacket at h
  simp only at h
  split at h
  · simp at h
  · rename_i sealer hg
    rw [andThenP_ok_iff] at h
    obtain ⟨r, hr, h⟩ := h
    have hc := maybeGetShortHeaderPacket_sameConfig E p fuel sealer sealer.KeyPhase
      p.maxPacketSize onlyAck true (w.GetInitialSealer E).2
    split at h
    · simp at h
    · split at h
      · simp at h
      · rename_i pl _ hdr _
        simp only [withPacker, Prod.mk.injEq] at h
        obtain ⟨h1, h2, h3⟩ := h
        have hc := maybeGetShortHeaderPacket_sameConfig E p fuel sealer sealer.KeyPhase
          p.maxPacketSize onlyAck true (w.Get1RTTSealer E).2
        obtain ⟨hdrBytes, raw, -, -, -, -, h5, h6, -⟩ :=
          appendShortHeaderPacket_ok E _ _ _ _ _ _ _ _ _ _ _ pkt buf (Prod.ext h1 rfl)
        have := h5 rfl
        rw [hc.maxPacketSize] at this
        omega

theorem PackCoalescedPacket_shortBounded (E : Env σ) (p p1 : packetPacker) (fuel : Nat)
    (onlyAck : Bool) (w w1 : World σ) (c : coalescedPacket)
    (h : PackCoalescedPacket E p fuel onlyAck w = (Result.ok (some c), p1, w1)) :
    shortBounded p.maxPacketSize c := by
  unfold PackCoalescedPacket at h
  rw [andThenP_ok_iff] at h
  obtain ⟨L, hL, h⟩ := h
  have hc := composeCoalesced_sameConfig E p fuel onlyAck w
  split at h
  · simp at h
  · rw [andThenP_ok_iff] at h
    obtain ⟨packet, hp, h⟩ := h
    simp only [withPacker, Prod.mk.injEq, Result.ok.injEq, Option.some.injEq] at h hp
    rw [← h.1, ← hc.maxPacketSize]
    exact assembleCoalesced_shortBounded E _ L _ _ packet (Prod.ext hp rfl)

theorem finishProbePacket_shortBounded (E : Env σ) (p : packetPacker)
    (encLevel : EncryptionLevel) (hdr : Option ExtendedHeader) (pl : Option payload)
    (sealer : Sealer) (kp : KeyPhaseBit) (w w1 : World σ) (c : coalescedPacket)
    (h : finishProbePacket E p encLevel hdr pl sealer kp w = (Result.ok (some c), w1)) :
    shortBounded p.maxPacketSize c := by
  unfold finishProbePacket at h
  split at h
  · simp at h
  · split at h
    · simp at h
    · simp only at h
      split at h
      · rw [andThen_ok_iff] at h
        obtain ⟨packet, hp, h⟩ := h
        simp only [Prod.mk.injEq, Result.ok.injEq, Option.some.injEq] at h
        rw [← h.1]
        exact appendShortToPacket_shortBounded E p _ _ _ _ _ _ _ _ _ (Prod.ext hp rfl)
      · rw [andThen_ok_iff] at h
        obtain ⟨r, hp, h⟩ := h
        simp only [Prod.mk.injEq, Result.ok.injEq, Option.some.injEq] at h
        rw [← h.1]
        intro sp hsp
        simp at hsp

theorem MaybePackProbePacket_shortBounded (E : Env σ) (p p1 : packetPacker) (fuel : Nat)
    (encLevel : EncryptionLevel) (w w1 : World σ) (c : coalescedPacket)
    (h : MaybePackProbePacket E p fuel encLevel w = (Result.ok (some c), p1, w1)) :
    shortBounded p.maxPacketSize c := by
  have hcrypto : ∀ lvl g, cryptoProbePacket E p fuel lvl g = (Result.ok (some c), p1, w1) →
      shortBounded p.maxPacketSize c := by
    intro lvl g h
    unfold cryptoProbePacket at h
    split at h
    · simp at h
    · simp only [withPacker, Prod.mk.injEq] at h
      obtain ⟨h1, -, h3⟩ := h
      have h' : andThen (maybeGetCryptoPacket E p fuel (p.maxPacketSize - _) lvl false true g.2)
          (fun r w1 => finishProbePacket E p lvl r.1 r.2 _ 0 w1) = (Result.ok (some c), w1) :=
        Prod.ext h1 h3
      rw [andThen_ok_iff] at h'
      obtain ⟨r, hr, h'⟩ := h'
      exact finishProbePacket_shortBounded E p _ _ _ _ _ _ _ c h'
  unfold MaybePackProbePacket at h
  split at h
  · exact hcrypto _ _ h
  · exact hcrypto _ _ h
  · simp only at h
    split at h
    · simp at h
    · rename_i sealer hg
      rw [andThenP_ok_iff] at h
      obtain ⟨pl, hpl, h⟩ := h
      simp only [withPacker, Prod.mk.injEq] at h
      obtain ⟨h1, h2, h3⟩ := h
      have hc := maybeGetAppDataPacket_sameConfig E p fuel
        (p.maxPacketSize - (sealer.Overhead : Int) -
          E.hdrGetLength (getShortHeader E sealer.KeyPhase (w.Get1RTTSealer E).2).1 p.version)
        false true (getShortHeader E sealer.KeyPhase (w.Get1RTTSealer E).2).2
      rw [← hc.maxPacketSize]
      exact finishProbePacket_shortBounded E _ _ _ _ _ _ _ _ c (Prod.ext h1 rfl)
  · simp at h

theorem packConnectionClose_shortBounded (E : Env σ) (p : packetPacker)
    (isApplicationError : Bool) (errorCode frameType : Nat) (reason : String)
    (w w1 : World σ) (c : coalescedPacket)
    (h : packConnectionClose E p isApplicationError errorCode frameType reason w =
      (Result.ok c, w1)) :
    shortBounded p.maxPacketSize c := by
  unfold packConnectionClose at h
  rw [andThen_ok_iff] at h
  obtain ⟨L, hL, h⟩ := h
  refine closeAppend_shortBounded E p _ _ _ _ _ _ _ ?_ h
  intro sp hsp
  simp at hsp
/-! ## When the serialisation of a packet succeeds -/

theorem appendFrames_succeeds (E : Env σ) (p : packetPacker) (frames : List Frame) :
    ∀ (raw : List UInt8), FramesSerialise E p.version frames →
      ∃ out, appendFrames E p raw frames = Except.ok out ∧
        (out.length : Int) = (raw.length : Int) + framesLength E p.version frames := by
  induction frames with
  | nil =>
    intro raw _
    exact ⟨raw, rfl, by simp [framesLength]⟩
  | cons f rest ih =>
    intro raw hs
    obtain ⟨bytes, hb, hl⟩ := hs f (List.mem_cons_self _ _)
    obtain ⟨out, ho, hlen⟩ := ih (raw ++ bytes) (fun g hg => hs g (List.mem_cons_of_mem _ hg))
    refine ⟨out, ?_, ?_⟩
    · simp only [appendFrames, hb]
      exact ho
    · rw [hlen]
      simp only [framesLength, List.map_cons, List.sum_cons, List.length_append]
      push_cast
      simp only [framesLength] at hlen
      omega

theorem appendPacketPayload_succeeds (E : Env σ) (p : packetPacker) (raw : List UInt8)
    (pl : payload) (paddingLen : Int) (hF : FramesSerialise E p.version pl.frames)
    (hA : AckSerialises E p.version pl.ack)
    (hL : pl.length = ackLen E p.version pl.ack + framesLength E p.version pl.frames)
    (hP : 0 ≤ paddingLen) :
    ∃ out, appendPacketPayload E p raw pl paddingLen = Except.ok out := by
  unfold appendPacketPayload
  simp only
  have key : ∀ raw1 : List UInt8,
      (raw1.length : Int) = (raw.length : Int) + ackLen E p.version pl.ack →
      ∃ out, (match appendFrames E p
          (if paddingLen > 0 then raw1 ++ List.replicate paddingLen.toNat 0 else raw1)
          pl.frames with
        | Except.error e => Except.error e
        | Except.ok raw3 =>
          if ((raw3.length : Int) - (raw.length : Int)) - paddingLen ≠ pl.length then
            Except.error (Error.bugPayloadSizeInconsistent pl.length
              (((raw3.length : Int) - (raw.length : Int)) - paddingLen))
          else Except.ok raw3) = Except.ok out := by
    intro raw1 h1
    obtain ⟨out, ho, hlen⟩ := appendFrames_succeeds E p pl.frames
      (if paddingLen > 0 then raw1 ++ List.replicate paddingLen.toNat 0 else raw1) hF
    refine ⟨out, ?_⟩
    rw [ho]
    simp only
    rw [if_neg]
    rw [not_not, hlen, hL]
    split
    · simp only [List.length_append, List.length_replicate]
      push_cast
      rw [Int.toNat_of_nonneg hP]
      omega
    · omega
  cases hack : pl.ack with
  | none =>
    simp only
    exact key raw (by simp [ackLen, hack])
  | some a =>
    obtain ⟨bytes, hb, hl⟩ := hA a hack
    simp only [hb]
    refine key (raw ++ bytes) ?_
    simp only [ackLen, hack, List.length_append]
    push_cast
    omega

theorem appendShortHeaderPacket_succeeds (E : Env σ) (p : packetPacker) (buffer : packetBuffer)
    (pn : PacketNumber) (pnLen : PacketNumberLen) (kp : KeyPhaseBit) (pl : payload)
    (padding : Int) (sealer : Sealer) (isMTUProbePacket : Bool) (w : World σ)
    (hdrBytes raw : List UInt8)
    (hW : E.WriteShortHeader (E.getDestConnID w.st) pn pnLen kp = Except.ok hdrBytes)
    (hpn : pn = (w.PopPacketNumber E EncryptionLevel.Encryption1RTT).1)
    (hA : appendPacketPayload E p hdrBytes pl (tinyPaddingLen pnLen pl.length + padding) =
      Except.ok raw)
    (hsz : isMTUProbePacket = true ∨ (raw.length : Int) + sealer.Overhead ≤ p.maxPacketSize)
    (hcap : buffer.Data.length + (raw.length + sealer.Overhead) ≤ E.MaxPacketBufferSize) :
    ∃ pkt buf,
      appendShortHeaderPacket E p buffer pn pnLen kp pl padding sealer isMTUProbePacket w =
        (Result.ok (pkt, buf), (w.PopPacketNumber E EncryptionLevel.Encryption1RTT).2) := by
  unfold appendShortHeaderPacket
  simp only [hW]
  rw [if_neg (by simpa using hpn)]
  have hA' : appendPacketPayload E p hdrBytes pl
      ((if pl.length < 4 - (pnLen : Int) then 4 - (pnLen : Int) - pl.length else 0) + padding)
      = Except.ok raw := by simpa [tinyPaddingLen] using hA
  simp only [hA']
  rw [if_neg]
  · rw [if_neg]
    · exact ⟨_, _, rfl⟩
    · rw [encryptPacket_length]
      omega
  · rcases hsz with h | h
    · simp [h]
    · simp only [not_and, not_lt]
      intro _
      omega

/-- Line 864: a short header packet that does not fit in the capacity of the
buffer makes `appendShortHeaderPacket` panic, after the packet number was
popped. -/
theorem appendShortHeaderPacket_overflow (E : Env σ) (p : packetPacker) (buffer : packetBuffer)
    (pn : PacketNumber) (pnLen : PacketNumberLen) (kp : KeyPhaseBit) (pl : payload)
    (padding : Int) (sealer : Sealer) (isMTUProbePacket : Bool) (w : World σ)
    (hdrBytes raw : List UInt8)
    (hW : E.WriteShortHeader (E.getDestConnID w.st) pn pnLen kp = Except.ok hdrBytes)
    (hpn : pn = (w.PopPacketNumber E EncryptionLevel.Encryption1RTT).1)
    (hA : appendPacketPayload E p hdrBytes pl (tinyPaddingLen pnLen pl.length + padding) =
      Except.ok raw)
    (hsz : isMTUProbePacket = true ∨ (raw.length : Int) + sealer.Overhead ≤ p.maxPacketSize)
    (hcap : E.MaxPacketBufferSize < buffer.Data.length + (raw.length + sealer.Overhead)) :
    appendShortHeaderPacket E p buffer pn pnLen kp pl padding sealer isMTUProbePacket w =
      (Result.goPanic "slice bounds out of range",
        (w.PopPacketNumber E EncryptionLevel.Encryption1RTT).2) := by
  unfold appendShortHeaderPacket
  simp only [hW]
  rw [if_neg (by simpa using hpn)]
  have hA' : appendPacketPayload E p hdrBytes pl
      ((if pl.length < 4 - (pnLen : Int) then 4 - (pnLen : Int) - pl.length else 0) + padding)
      = Except.ok raw := by simpa [tinyPaddingLen] using hA
  simp only [hA']
  rw [if_neg]
  · rw [if_pos]
    rw [encryptPacket_length]
    omega
  · rcases hsz with h | h
    · simp [h]
    · simp only [not_and, not_lt]
      intro _
      omega

theorem appendLongHeaderPacket_succeeds (E : Env σ) (p : packetPacker) (buffer : packetBuffer)
    (header : ExtendedHeader) (pl : payload) (padding : Int) (encLevel : EncryptionLevel)
    (sealer : Sealer) (w : World σ) (hdrBytes raw : List UInt8)
    (hl : header.IsLongHeader = true)
    (hW : E.hdrWrite { header with Length := (header.PacketNumberLen : Int) +
        (sealer.Overhead : Int) + pl.length +
        (tinyPaddingLen header.PacketNumberLen pl.length + padding) } p.version =
        Except.ok hdrBytes)
    (hpn : (w.PopPacketNumber E encLevel).1 = header.PacketNumber)
    (hA : appendPacketPayload E p hdrBytes pl
      (tinyPaddingLen header.PacketNumberLen pl.length + padding) = Except.ok raw) :
    ∃ pkt buf,
      appendLongHeaderPacket E p buffer header pl padding encLevel sealer w =
        (Result.ok (pkt, buf), (w.PopPacketNumber E encLevel).2) := by
  unfold appendLongHeaderPacket
  rw [if_neg (by simp [hl])]
  have hW' : E.hdrWrite { header with Length := (header.PacketNumberLen : Int) +
        (sealer.Overhead : Int) + pl.length +
        ((if pl.length < 4 - (header.PacketNumberLen : Int) then
            4 - (header.PacketNumberLen : Int) - pl.length else 0) + padding) } p.version =
        Except.ok hdrBytes := by simpa [tinyPaddingLen] using hW
  simp only [hW']
  rw [if_neg (by simpa using hpn)]
  have hA' : appendPacketPayload E p hdrBytes pl
      ((if pl.length < 4 - (header.PacketNumberLen : Int) then
          4 - (header.PacketNumberLen : Int) - pl.length else 0) + padding)
      = Except.ok raw := by simpa [tinyPaddingLen] using hA
  simp only [hA']
  exact ⟨_, _, rfl⟩
/-! ## The simulated collaborators keep the contracts -/

theorem simEnv_PnContract : PnContract simEnv := by
  constructor
  case pop => intro s l encLevel h; cases l <;> cases encLevel <;> first | rfl | exact absurd rfl h
  case GetAckFrame => intro s l b encLevel; cases l <;> rfl
  case streamHasData => intro s l encLevel; cases l <;> rfl
  case PopCryptoFrame => intro s l m encLevel; cases l <;> rfl
  all_goals intros; rfl

theorem simEnv_WireConsistent (v : VersionNumber) : WireConsistent simEnv v := by
  constructor
  · intro h len bs hl hw
    simp only [simEnv, Except.ok.injEq] at hw
    subst hw
    simp only [simEnv, simHdrLength, hl, List.length_replicate, if_true]
    omega
  · intro connID pn pnLen kp bs hw
    simp only [simEnv, Except.ok.injEq] at hw
    subst hw
    simp [simEnv, simHdrLength]

theorem simEnv_FramesSerialise (v : VersionNumber) (frames : List Frame) :
    FramesSerialise simEnv v frames := by
  intro f _
  refine ⟨_, rfl, ?_⟩
  simp only [simEnv, List.length_replicate]
  have : 0 ≤ simFrameLength f.Frame := by
    unfold simFrameLength; split <;> omega
  omega

/-! ## The local variables of `PackCoalescedPacket` -/

theorem packetLength_sameConfig (E : Env σ) {p p1 : packetPacker} (h : sameConfig p p1)
    (hdr : ExtendedHeader) (pl : payload) : packetLength E p1 hdr pl = packetLength E p hdr pl := by
  simp only [packetLength, h.version]

theorem levelSize_sameConfig (E : Env σ) {p p1 : packetPacker} (h : sameConfig p p1)
    (hdr : Option ExtendedHeader) (pl : Option payload) (sealer : Option Sealer) :
    levelSize E p1 hdr pl sealer = levelSize E p hdr pl sealer := by
  unfold levelSize
  split
  · rw [packetLength_sameConfig E h]
  · rfl

theorem LocalsOK_sameConfig (E : Env σ) {p p1 : packetPacker} (h : sameConfig p p1)
    (L : coalescedLocals) (hL : LocalsOK E p L) : LocalsOK E p1 L := by
  refine ⟨?_, hL.initial, hL.handshake, hL.appData, hL.short⟩
  simp only [levelSize_sameConfig E h]
  exact hL.size

theorem packInitialStage_ok (E : Env σ) (p : packetPacker) (fuel : Nat) (maxPacketSize : Int)
    (onlyAck : Bool) (w w1 : World σ) (L : coalescedLocals)
    (h : packInitialStage E p fuel maxPacketSize onlyAck w = (Result.ok L, w1)) :
    LocalsOK E p L ∧ L.handshakePayload = none ∧ L.appDataPayload = none ∧
      L.appDataHdr = none := by
  unfold packInitialStage at h
  simp only at h
  split at h
  · split at h
    · simp at h
    · simp only [Prod.mk.injEq, Result.ok.injEq] at h
      rw [← h.1]
      exact ⟨⟨by simp [levelSize], by simp, by simp, by simp, by simp⟩, rfl, rfl, rfl⟩
  · rw [andThen_ok_iff] at h
    obtain ⟨r, hr, h⟩ := h
    simp only [Prod.mk.injEq] at h
    obtain ⟨h, -⟩ := h
    obtain ⟨hdro, plo⟩ := r
    cases plo with
    | none =>
      simp only [recordInitial, Result.ok.injEq] at h
      rw [← h]
      exact ⟨⟨by simp [levelSize], by simp, by simp, by simp, by simp⟩, rfl, rfl, rfl⟩
    | some pl =>
      cases hdro with
      | none => simp [recordInitial] at h
      | some hdr =>
        simp only [recordInitial, Result.ok.injEq] at h
        rw [← h]
        exact ⟨⟨by simp [levelSize], by simp, by simp, by simp, by simp⟩, rfl, rfl, rfl⟩

theorem packHandshakeStage_ok (E : Env σ) (p : packetPacker) (fuel : Nat) (maxPacketSize : Int)
    (onlyAck : Bool) (L1 L : coalescedLocals) (w w1 : World σ)
    (h1 : LocalsOK E p L1) (h2 : L1.handshakePayload = none) (h3 : L1.appDataPayload = none)
    (h4 : L1.appDataHdr = none)
    (h : packHandshakeStage E p fuel maxPacketSize onlyAck L1 w = (Result.ok L, w1)) :
    LocalsOK E p L ∧ L.appDataPayload = none ∧ L.appDataHdr = none ∧
      L.initialPayload = L1.initialPayload := by
  have hs1 := h1.size
  simp only [levelSize, h2, h3] at hs1
  unfold packHandshakeStage at h
  split at h
  · simp only at h
    split at h
    · split at h
      · simp at h
      · simp only [Prod.mk.injEq, Result.ok.injEq] at h
        rw [← h.1]
        exact ⟨h1, h3, h4, rfl⟩
    · rw [andThen_ok_iff] at h
      obtain ⟨r, hr, h⟩ := h
      simp only [Prod.mk.injEq] at h
      obtain ⟨h, -⟩ := h
      obtain ⟨hdro, plo⟩ := r
      cases plo with
      | none =>
        simp only [recordHandshake, Result.ok.injEq] at h
        rw [← h]
        refine ⟨⟨?_, h1.initial, by simp, ?_, ?_⟩, h3, h4, rfl⟩
        · simp only [levelSize, h3]
          omega
        · intro pl' hpl'
          simp only [h3] at hpl'
          exact absurd hpl' (by simp)
        · intro _ hdr' hh
          simp only [h4] at hh
          exact absurd hh (by simp)
      | some pl =>
        cases hdro with
        | none => simp [recordHandshake] at h
        | some hdr =>
          simp only [recordHandshake, Result.ok.injEq] at h
          rw [← h]
          refine ⟨⟨?_, h1.initial, by simp, ?_, ?_⟩, h3, h4, rfl⟩
          · simp only [levelSize, h3]
            omega
          · intro pl' hpl'
            simp only [h3] at hpl'
            exact absurd hpl' (by simp)
          · intro _ hdr' hh
            simp only [h4] at hh
            exact absurd hh (by simp)
  · simp only [Prod.mk.injEq, Result.ok.injEq] at h
    rw [← h.1]
    exact ⟨h1, h3, h4, rfl⟩
theorem getAppDataPacket_ok (E : Env σ) (p p1 : packetPacker) (fuel : Nat)
    (appDataEncLevel : EncryptionLevel) (appDataSealer : Sealer) (maxPacketSize size : Int)
    (onlyAck : Bool) (w w1 : World σ) (r : Option ExtendedHeader × Option payload)
    (h : getAppDataPacket E p fuel appDataEncLevel appDataSealer maxPacketSize size onlyAck w =
      (Result.ok r, p1, w1)) :
    (∀ pl, r.2 = some pl → ∃ hdr, r.1 = some hdr) ∧
    (appDataEncLevel ≠ EncryptionLevel.Encryption0RTT →
      ∀ hdr, r.1 = some hdr → isShortHeaderFor E appDataSealer.KeyPhase hdr) := by
  unfold getAppDataPacket at h
  split at h
  · unfold maybeGetAppDataPacketFor0RTT at h
    split at h
    · simp only [Prod.mk.injEq, Result.ok.injEq] at h
      rw [← h.1]
      simp
    · rw [andThenP_ok_iff] at h
      obtain ⟨pl, -, h⟩ := h
      simp only [Prod.mk.injEq, Result.ok.injEq] at h
      rw [← h.1]
      simp
  · unfold maybeGetShortHeaderPacket at h
    rw [andThenP_ok_iff] at h
    obtain ⟨pl, -, h⟩ := h
    simp only [Prod.mk.injEq, Result.ok.injEq] at h
    rw [← h.1]
    refine ⟨by simp, ?_⟩
    intro _ hdr hh
    simp only [Option.some.injEq] at hh
    rw [← hh]
    exact ⟨_, rfl⟩
  · simp only [Prod.mk.injEq, Result.ok.injEq] at h
    rw [← h.1]
    simp

theorem getAppDataSealer_level (E : Env σ) (p : packetPacker) (w : World σ) :
    (getAppDataSealer E p w).2.1 = EncryptionLevel.Encryption0RTT ∨
    (getAppDataSealer E p w).2.1 = EncryptionLevel.Encryption1RTT := by
  unfold getAppDataSealer
  simp only
  split
  · right; rfl
  · split
    · left; rfl
    · right; rfl

theorem packAppDataStage_ok (E : Env σ) (p p1 : packetPacker) (fuel : Nat)
    (maxPacketSize : Int) (onlyAck : Bool) (L2 L : coalescedLocals) (w w1 : World σ)
    (h1 : LocalsOK E p L2) (h3 : L2.appDataPayload = none) (h4 : L2.appDataHdr = none)
    (h : packAppDataStage E p fuel maxPacketSize onlyAck L2 w = (Result.ok L, p1, w1)) :
    LocalsOK E p L ∧ L.initialPayload = L2.initialPayload := by
  have hs1 := h1.size
  simp only [levelSize, h3] at hs1
  have hc := packAppDataStage_sameConfig E p fuel maxPacketSize onlyAck L2 w
  rw [h] at hc
  simp only at hc
  unfold packAppDataStage at h
  split at h
  · simp only at h
    split at h
    · simp only [Prod.mk.injEq, Result.ok.injEq] at h
      rw [← h.1]
      refine ⟨⟨?_, h1.initial, h1.handshake, ?_, ?_⟩, rfl⟩
      · simp only [levelSize, h3]
        omega
      · intro pl' hpl'
        simp only [h3] at hpl'
        exact absurd hpl' (by simp)
      · intro _ hdr' hh
        simp only [h4] at hh
        exact absurd hh (by simp)
    · rename_i appDataSealer hg
      rw [andThenP_ok_iff] at h
      obtain ⟨r, hr, h⟩ := h
      simp only [Prod.mk.injEq, Result.ok.injEq] at h
      obtain ⟨h, hp1, -⟩ := h
      obtain ⟨hr1, hr2⟩ := getAppDataPacket_ok E p _ fuel _ appDataSealer maxPacketSize L2.size
        onlyAck _ _ r (Prod.ext hr rfl)
      have hpl : ∀ hdr pl, packetLength E
          (getAppDataPacket E p fuel (getAppDataSealer E p w).2.1 appDataSealer maxPacketSize
            L2.size onlyAck (getAppDataSealer E p w).2.2).2.1 hdr pl = packetLength E p hdr pl := by
        intro hdr pl
        exact packetLength_sameConfig E (getAppDataPacket_sameConfig ..) hdr pl
      obtain ⟨hdro, plo⟩ := r
      have hkp : (getAppDataSealer E p w).2.1 ≠ EncryptionLevel.Encryption0RTT →
          (getAppDataSealer E p w).2.1 = EncryptionLevel.Encryption1RTT := by
        intro hne
        rcases getAppDataSealer_level E p w with h0 | h0
        · exact absurd h0 hne
        · exact h0
      cases hdro with
      | none =>
        have hplo : plo = none := by
          cases plo with
          | none => rfl
          | some pl' =>
            obtain ⟨hdr, hh⟩ := hr1 pl' rfl
            simp at hh
        subst hplo
        simp only [recordAppData] at h
        rw [← h]
        refine ⟨⟨?_, h1.initial, h1.handshake, by simp, ?_⟩, rfl⟩
        · simp only [levelSize]
          omega
        · intro _ hdr' hh
          simp at hh
      | some hdr =>
        cases plo with
        | none =>
          simp only [recordAppData] at h
          rw [← h]
          refine ⟨⟨?_, h1.initial, h1.handshake, by simp, ?_⟩, rfl⟩
          · simp only [levelSize]
            omega
          · intro hne hdr' hh
            simp only [Option.some.injEq] at hh hne
            simp only [if_pos (hkp hne)]
            exact hr2 hne hdr' (by simpa using hh)
        | some pl =>
          simp only [recordAppData] at h
          rw [← h]
          refine ⟨⟨?_, h1.initial, h1.handshake, by simp, ?_⟩, rfl⟩
          · simp only [levelSize, hpl]
            omega
          · intro hne hdr' hh
            simp only [Option.some.injEq] at hh hne
            simp only [if_pos (hkp hne)]
            exact hr2 hne hdr' (by simpa using hh)
  · simp only [Prod.mk.injEq, Result.ok.injEq] at h
    rw [← h.1]
    exact ⟨h1, rfl⟩

theorem composeCoalesced_ok (E : Env σ) (p p1 : packetPacker) (fuel : Nat) (onlyAck : Bool)
    (w w1 : World σ) (L : coalescedLocals)
    (h : composeCoalesced E p fuel onlyAck w = (Result.ok L, p1, w1)) :
    LocalsOK E p L ∧ sameConfig p p1 := by
  have hc := composeCoalesced_sameConfig E p fuel onlyAck w
  rw [h] at hc
  refine ⟨?_, hc⟩
  unfold composeCoalesced at h
  simp only at h
  rw [andThenP_ok_iff] at h
  obtain ⟨L1, hL1, h⟩ := h
  rw [andThenP_ok_iff] at h
  obtain ⟨L2, hL2, h⟩ := h
  simp only [withPacker] at hL1 hL2 h
  obtain ⟨a1, a2, a3, a4⟩ := packInitialStage_ok E p fuel _ onlyAck w _ L1 (Prod.ext hL1 rfl)
  obtain ⟨b1, b3, b4, -⟩ := packHandshakeStage_ok E p fuel _ onlyAck L1 L2 _ _ a1 a2 a3 a4
    (Prod.ext hL2 rfl)
  exact (packAppDataStage_ok E p p1 fuel _ onlyAck L2 L _ w1 b1 b3 b4 h).1
/-! ## The total length of a coalesced packet -/

theorem totalLength_append_long (packet : coalescedPacket) (buf : packetBuffer)
    (cont : longHeaderPacket) :
    ({ packet with buffer := buf, longHdrPackets := packet.longHdrPackets ++ [cont] }
      : coalescedPacket).totalLength = packet.totalLength + cont.length := by
  simp only [coalescedPacket.totalLength, List.map_append, List.sum_append, List.map_cons,
    List.map_nil, List.sum_cons, List.sum_nil]
  omega

theorem appendLongIfPayload_totalLength (E : Env σ) (p : packetPacker)
    (hdr : Option ExtendedHeader) (pl : Option payload) (padding : payload → Int)
    (encLevel : EncryptionLevel) (sealer : Option Sealer) (packet packet1 : coalescedPacket)
    (w w1 : World σ) (hW : WireConsistent E p.version)
    (h : appendLongIfPayload E p hdr pl padding encLevel sealer packet w =
      (Result.ok packet1, w1)) :
    packet1.totalLength = packet.totalLength + levelSize E p hdr pl sealer +
      (pl.map padding).getD 0 ∧
    (packet1.buffer.Data.length : Int) - packet1.totalLength =
      (packet.buffer.Data.length : Int) - packet.totalLength := by
  rcases appendLongIfPayload_ok E p hdr pl padding encLevel sealer packet packet1 w w1 h with
    ⟨h1, h2, -⟩ | ⟨plv, hdrv, sealerv, cont, buf, h1, h2, h3, h4, h5⟩
  · subst h1 h2
    simp [levelSize]
  · subst h1 h2 h3
    obtain ⟨hl, hb⟩ := appendLongHeaderPacket_length E p _ _ _ _ _ _ _ _ _ _ hW h4
    rw [h5, totalLength_append_long]
    simp only [levelSize, Option.map_some', Option.getD_some]
    constructor <;> omega

theorem appendShortToPacket_totalLength (E : Env σ) (p : packetPacker)
    (hdr : ExtendedHeader) (kp : KeyPhaseBit) (pl : payload) (padding : Int)
    (sealer : Sealer) (packet packet1 : coalescedPacket) (w w1 : World σ)
    (hW : WireConsistent E p.version) (hConn : ∀ s s', E.getDestConnID s = E.getDestConnID s')
    (hS : isShortHeaderFor E kp hdr) (hN : packet.shortHdrPacket = none)
    (h : appendShortToPacket E p (some hdr) kp pl padding (some sealer) packet w =
      (Result.ok packet1, w1)) :
    packet1.totalLength = packet.totalLength + levelSize E p (some hdr) (some pl) (some sealer) +
      padding ∧
    (packet1.buffer.Data.length : Int) - packet1.totalLength =
      (packet.buffer.Data.length : Int) - packet.totalLength := by
  obtain ⟨hdrv, sealerv, sp, buf, e1, e2, h1, h2⟩ :=
    appendShortToPacket_ok E p _ kp pl padding _ packet packet1 w w1 h
  simp only [Option.some.injEq] at e1 e2
  subst e1 e2
  obtain ⟨hdrBytes, raw, a1, a2, -, -, -, a6, -, -, -, -, -, a12⟩ :=
    appendShortHeaderPacket_ok E p packet.buffer _ _ kp pl padding sealer false w w1 sp buf h1
  have hlen := hW.short _ _ _ _ hdrBytes a1
  obtain ⟨s, hs⟩ := hS
  rw [hConn w.st s, ← hs] at hlen
  have hrl := appendPacketPayload_length E p hdrBytes pl _ raw a2
  have hsp : sp.Packet.Length = packetLength E p hdr pl + (sealer.Overhead : Int) + padding := by
    rw [packetLength_eq]
    omega
  have ht : packet1.totalLength = packet.totalLength + sp.Packet.Length := by
    rw [h2]
    simp only [coalescedPacket.totalLength, hN]
    omega
  have hb : (packet1.buffer.Data.length : Int) =
      (packet.buffer.Data.length : Int) + sp.Packet.Length := by
    rw [h2]
    simp only [a12, List.length_append, encryptPacket_length, a6]
    push_cast
    omega
  simp only [levelSize]
  constructor <;> omega

theorem appendLongIfPayload_short (E : Env σ) (p : packetPacker)
    (hdr : Option ExtendedHeader) (pl : Option payload) (padding : payload → Int)
    (encLevel : EncryptionLevel) (sealer : Option Sealer) (packet packet1 : coalescedPacket)
    (w w1 : World σ)
    (h : appendLongIfPayload E p hdr pl padding encLevel sealer packet w =
      (Result.ok packet1, w1)) :
    packet1.shortHdrPacket = packet.shortHdrPacket := by
  rcases appendLongIfPayload_ok E p hdr pl padding encLevel sealer packet packet1 w w1 h with
    ⟨-, h2, -⟩ | ⟨plv, hdrv, sealerv, cont, buf, -, -, -, -, h5⟩
  · rw [h2]
  · rw [h5]

theorem assembleCoalesced_totalLength (E : Env σ) (p : packetPacker) (L : coalescedLocals)
    (w w1 : World σ) (packet : coalescedPacket) (hW : WireConsistent E p.version)
    (hConn : ∀ s s', E.getDestConnID s = E.getDestConnID s') (hL : LocalsOK E p L)
    (h : assembleCoalesced E p L w = (Result.ok packet, w1)) :
    packet.totalLength = L.size +
      (L.initialPayload.map (fun pl => initialPaddingLen E p pl.frames L.size)).getD 0 ∧
    (packet.buffer.Data.length : Int) = packet.totalLength := by
  unfold assembleCoalesced at h
  simp only at h
  rw [andThen_ok_iff] at h
  obtain ⟨packet1, h1, h⟩ := h
  rw [andThen_ok_iff] at h
  obtain ⟨packet2, h2, h⟩ := h
  obtain ⟨t1, b1⟩ := appendLongIfPayload_totalLength E p _ _ _ _ _ _ packet1 _ _ hW
    (Prod.ext h1 rfl)
  have s1 := appendLongIfPayload_short E p _ _ _ _ _ _ packet1 _ _ (Prod.ext h1 rfl)
  obtain ⟨t2, b2⟩ := appendLongIfPayload_totalLength E p _ _ _ _ _ _ packet2 _ _ hW
    (Prod.ext h2 rfl)
  have s2 := appendLongIfPayload_short E p _ _ _ _ _ _ packet2 _ _ (Prod.ext h2 rfl)
  have t0 : ({ buffer := w.getPacketBuffer.1, longHdrPackets := [] }
      : coalescedPacket).totalLength = 0 := rfl
  have b0 : (({ buffer := w.getPacketBuffer.1, longHdrPackets := [] }
      : coalescedPacket).buffer.Data.length : Int) = 0 := rfl
  have hsz := hL.size
  have t3 : packet.totalLength = packet2.totalLength +
      levelSize E p L.appDataHdr L.appDataPayload L.appDataSealer ∧
      (packet.buffer.Data.length : Int) - packet.totalLength =
        (packet2.buffer.Data.length : Int) - packet2.totalLength := by
    unfold appendAppData at h
    split at h
    · rename_i hpl
      simp only [Prod.mk.injEq, Result.ok.injEq] at h
      rw [← h.1]
      simp [levelSize, hpl]
    · rename_i pl hpl
      split at h
      · have := appendLongIfPayload_totalLength E p _ _ _ _ _ _ packet _ _ hW h
        simp only [Option.map_some', Option.getD_some] at this
        simp only [hpl]
        constructor <;> omega
      · rename_i hne
        obtain ⟨hdr, sealer, e1, e2⟩ := hL.appData pl hpl
        rw [e1, e2] at h
        have := appendShortToPacket_totalLength E p hdr L.kp pl 0 sealer packet2 packet _ _ hW
          hConn (hL.short hne hdr e1) (by rw [s2, s1]) h
        simp only [hpl, e1, e2]
        constructor <;> omega
  have z : ∀ o : Option payload, (o.map (fun _ => (0 : Int))).getD 0 = 0 := by
    intro o; cases o <;> rfl
  rw [z] at t2
  constructor
  · omega
  · omega

/-- An `int64` is its own value in `int64` arithmetic. -/
theorem wrapInt64_eq (x : Int) (h1 : minInt64 ≤ x) (h2 : x ≤ maxInt64) : wrapInt64 x = x := by
  unfold wrapInt64
  unfold minInt64 at h1
  unfold maxInt64 at h2
  omega

/-- One overflow: a result above `maxInt64` by at most `2^64` comes out `2^64`
less. -/
theorem wrapInt64_overflow (x : Int) (h1 : maxInt64 < x)
    (h2 : x ≤ maxInt64 + 18446744073709551616) :
    wrapInt64 x = x - 18446744073709551616 := by
  unfold wrapInt64
  unfold maxInt64 at h1 h2
  omega

/-- The difference of line 352 when it does not overflow. -/
theorem initialPaddingLen_exact (E : Env σ) (p : packetPacker) (frames : List Frame)
    (size : Int)
    (hP : ¬ (p.perspective = Perspective.PerspectiveServer ∧
      ¬ E.HasAckElicitingFrames frames = true))
    (hS : size < p.maxPacketSize) (hD : p.maxPacketSize - size ≤ maxInt64) :
    initialPaddingLen E p frames size = p.maxPacketSize - size := by
  unfold initialPaddingLen
  rw [if_neg hP, if_neg (by omega)]
  split
  · apply wrapInt64_eq _ _ hD
    unfold minInt64
    omega
  · rfl

/-- The difference of line 352 when it overflows. -/
theorem initialPaddingLen_wraps (E : Env σ) (p : packetPacker) (frames : List Frame)
    (size : Int)
    (hP : ¬ (p.perspective = Perspective.PerspectiveServer ∧
      ¬ E.HasAckElicitingFrames frames = true))
    (hM : isInt64 p.maxPacketSize) (hZ : isInt64 size)
    (hD : maxInt64 < p.maxPacketSize - size) :
    initialPaddingLen E p frames size = p.maxPacketSize - size - 18446744073709551616 := by
  have h1 := hM.2
  have h2 := hZ.1
  unfold initialPaddingLen
  rw [if_neg hP, if_neg (by unfold maxInt64 at hD h1; unfold minInt64 at h2; omega),
    if_pos ⟨hM, hZ⟩]
  apply wrapInt64_overflow _ hD
  unfold maxInt64 at h1 ⊢
  unfold minInt64 at h2
  omega

/-- A size that is not negative and a `maxPacketSize` that is an `int64` leave
no room for an overflow in line 352. -/
theorem initialPaddingLen_of_nonneg (E : Env σ) (p : packetPacker) (frames : List Frame)
    (size : Int)
    (hP : ¬ (p.perspective = Perspective.PerspectiveServer ∧
      ¬ E.HasAckElicitingFrames frames = true))
    (hS : size < p.maxPacketSize) (h0 : 0 ≤ size) :
    initialPaddingLen E p frames size = p.maxPacketSize - size := by
  unfold initialPaddingLen
  rw [if_neg hP, if_neg (by omega)]
  split
  · rename_i h
    apply wrapInt64_eq
    · unfold minInt64; omega
    · have := h.1.2
      omega
  · rfl

theorem initialPaddingLen_fill (E : Env σ) (p : packetPacker) (frames : List Frame)
    (size : Int)
    (hP : p.perspective = Perspective.PerspectiveClient ∨
      (p.perspective = Perspective.PerspectiveServer ∧ E.HasAckElicitingFrames frames = true))
    (hS : size ≤ p.maxPacketSize)
    (hN : 0 ≤ size + initialPaddingLen E p frames size) :
    size + initialPaddingLen E p frames size = p.maxPacketSize := by
  have hP2 : ¬ (p.perspective = Perspective.PerspectiveServer ∧
      ¬ E.HasAckElicitingFrames frames = true) := by
    rintro ⟨h1, h2⟩
    rcases hP with h | ⟨-, h⟩
    · rw [h] at h1; exact absurd h1 (by decide)
    · exact h2 h
  by_cases hE : size = p.maxPacketSize
  · unfold initialPaddingLen
    rw [if_neg hP2, if_pos (by omega)]
    omega
  · have hS2 : size < p.maxPacketSize := by omega
    by_cases hD : p.maxPacketSize - size ≤ maxInt64
    · rw [initialPaddingLen_exact E p frames size hP2 hS2 hD]
      omega
    · by_cases hI : isInt64 p.maxPacketSize ∧ isInt64 size
      · rw [initialPaddingLen_wraps E p frames size hP2 hI.1 hI.2 (by omega)] at hN
        have := hI.1.2
        unfold maxInt64 at this
        omega
      · unfold initialPaddingLen
        rw [if_neg hP2, if_neg (by omega), if_neg hI]
        omega
/-! ## The packet numbers while a packet is composed -/

theorem pnKept_refl (E : Env σ) (w : World σ) : pnKept E w w := fun _ => rfl

theorem pnKept_trans {E : Env σ} {w w1 w2 : World σ} (h1 : pnKept E w w1)
    (h2 : pnKept E w1 w2) : pnKept E w w2 := fun l => (h2 l).trans (h1 l)

theorem pnKept_step (E : Env σ) (w : World σ) (c : Call) : pnKept E w (w.step c w.st) :=
  fun _ => rfl

theorem GetInitialSealer_pnKept (E : Env σ) (hPn : PnContract E) (w : World σ) :
    pnKept E w (w.GetInitialSealer E).2 := fun l => hPn.GetInitialSealer w.st l

theorem GetHandshakeSealer_pnKept (E : Env σ) (hPn : PnContract E) (w : World σ) :
    pnKept E w (w.GetHandshakeSealer E).2 := fun l => hPn.GetHandshakeSealer w.st l

theorem Get0RTTSealer_pnKept (E : Env σ) (hPn : PnContract E) (w : World σ) :
    pnKept E w (w.Get0RTTSealer E).2 := fun l => hPn.Get0RTTSealer w.st l

theorem Get1RTTSealer_pnKept (E : Env σ) (hPn : PnContract E) (w : World σ) :
    pnKept E w (w.Get1RTTSealer E).2 := fun l => hPn.Get1RTTSealer w.st l

theorem getPacketBuffer_pnKept (E : Env σ) (w : World σ) : pnKept E w w.getPacketBuffer.2 :=
  fun _ => rfl


theorem getLongHeader_pnKept (E : Env σ) (hPn : PnContract E) (p : packetPacker)
    (encLevel : EncryptionLevel) (w : World σ) : pnKept E w (getLongHeader E p encLevel w).2 :=
  fun l => hPn.peek w.st encLevel l

theorem getShortHeader_pnKept (E : Env σ) (hPn : PnContract E) (kp : KeyPhaseBit)
    (w : World σ) : pnKept E w (getShortHeader E kp w).2 :=
  fun l => hPn.peek w.st _ l

theorem getLongHeader_pn (E : Env σ) (p : packetPacker) (encLevel : EncryptionLevel)
    (w : World σ) :
    (getLongHeader E p encLevel w).1.PacketNumber = (E.PeekPacketNumber w.st encLevel).1.1 := by
  unfold getLongHeader
  cases encLevel <;> rfl

theorem getLongHeader_isLong (E : Env σ) (p : packetPacker) (encLevel : EncryptionLevel)
    (w : World σ) : (getLongHeader E p encLevel w).1.IsLongHeader = true := by
  unfold getLongHeader
  cases encLevel <;> rfl

theorem packHandshakeStage_skip (E : Env σ) (p : packetPacker) (fuel : Nat)
    (maxPacketSize : Int) (onlyAck : Bool) (L : coalescedLocals) (w : World σ) (e : Error)
    (hG : ∀ s, (E.GetHandshakeSealer s).1 = Except.error e)
    (he : e = Error.ErrKeysDropped ∨ e = Error.ErrKeysNotYetAvailable) :
    (packHandshakeStage E p fuel maxPacketSize onlyAck L w).1 = Result.ok L := by
  unfold packHandshakeStage
  split
  · have : (w.GetHandshakeSealer E).1 = Except.error e := hG w.st
    simp only [this]
    rw [if_neg]
    rcases he with h | h <;> simp [h]
  · rfl

theorem packAppDataStage_skip (E : Env σ) (p : packetPacker) (fuel : Nat)
    (maxPacketSize : Int) (onlyAck : Bool) (L : coalescedLocals) (w : World σ) (e1 e0 : Error)
    (h1 : ∀ s, (E.Get1RTTSealer s).1 = Except.error e1)
    (h0 : ∀ s, (E.Get0RTTSealer s).1 = Except.error e0) :
    ∃ lvl, (packAppDataStage E p fuel maxPacketSize onlyAck L w).1 =
        Result.ok { L with appDataEncLevel := lvl } ∧
      (packAppDataStage E p fuel maxPacketSize onlyAck L w).2.1 = p := by
  unfold packAppDataStage
  split
  · have hg : ∃ e, (getAppDataSealer E p w).1 = Except.error e := by
      unfold getAppDataSealer
      have : (w.Get1RTTSealer E).1 = Except.error e1 := h1 w.st
      simp only [this]
      split
      · exact ⟨e0, h0 _⟩
      · exact ⟨e1, rfl⟩
    obtain ⟨e, hg⟩ := hg
    refine ⟨(getAppDataSealer E p w).2.1, ?_, ?_⟩ <;> simp only [hg]
  · exact ⟨L.appDataEncLevel, rfl, rfl⟩

theorem andThen_of_ok {α β : Type} (r : Result α × World σ)
    (f : α → World σ → Result β × World σ) (a : α) (h : r.1 = Result.ok a) :
    andThen r f = f a r.2 := by
  unfold andThen
  simp only [h]

theorem andThenP_of_ok {α β : Type} (r : Result α × packetPacker × World σ)
    (f : α → packetPacker → World σ → Result β × packetPacker × World σ) (a : α)
    (h : r.1 = Result.ok a) : andThenP r f = f a r.2.1 r.2.2 := by
  unfold andThenP
  simp only [h]

theorem getLongHeader_type_initial (E : Env σ) (p : packetPacker) (w : World σ) :
    (getLongHeader E p EncryptionLevel.EncryptionInitial w).1.Type_ =
      PacketType.PacketTypeInitial := rfl

theorem mockEnv_PnContract (m : Mock) : PnContract (mockEnv m) := by
  constructor
  case pop => intro s l encLevel h; cases l <;> cases encLevel <;> first | rfl | exact absurd rfl h
  all_goals intros; rfl

theorem mockEnv_WireConsistent (m : Mock) (v : VersionNumber) :
    WireConsistent (mockEnv m) v :=
  ⟨(simEnv_WireConsistent v).long, (simEnv_WireConsistent v).short⟩

theorem mockEnv_FramesSerialise (m : Mock) (v : VersionNumber) (frames : List Frame) :
    FramesSerialise (mockEnv m) v frames := simEnv_FramesSerialise v frames

/-! ## The counter of the packets that hold only an ACK -/

theorem finishAppDataPacket_ackOnly (E : Env σ) (p : packetPacker) (pl : payload) (a : AckFrame)
    (hf : pl.frames = []) (ha : pl.ack = some a) :
    finishAppDataPacket E p pl =
      if p.numNonAckElicitingAcks ≥ MaxNonAckElicitingAcks then
        (some { pl with frames := [injectedPing],
                        length := pl.length + E.frameLength WireFrame.PingFrame p.version },
         { p with numNonAckElicitingAcks := 0 })
      else
        (some pl, { p with numNonAckElicitingAcks := p.numNonAckElicitingAcks + 1 }) := by
  unfold finishAppDataPacket
  simp [hf, ha, injectedPing]

theorem finishAppDataPacket_frames (E : Env σ) (p : packetPacker) (pl : payload)
    (hf : pl.frames ≠ []) :
    finishAppDataPacket E p pl = (some pl, { p with numNonAckElicitingAcks := 0 }) := by
  unfold finishAppDataPacket
  rw [if_neg]
  simpa using hf

theorem composeNextPacket_config (E : Env σ) (p : packetPacker) (c : Int) (fuel : Nat)
    (maxFrameSize : Int) (onlyAck ackAllowed : Bool) (w : World σ) :
    composeNextPacket E { p with numNonAckElicitingAcks := c } fuel maxFrameSize onlyAck
      ackAllowed w = composeNextPacket E p fuel maxFrameSize onlyAck ackAllowed w := by
  have h1 : ∀ (n : Nat) (pl : payload) (w : World σ),
      appDataRetransmissionLoop E { p with numNonAckElicitingAcks := c } maxFrameSize n pl w =
        appDataRetransmissionLoop E p maxFrameSize n pl w := by
    intro n
    induction n with
    | zero => intro pl w; rfl
    | succ n ih =>
      intro pl w
      unfold appDataRetransmissionLoop
      simp only [ih]
  unfold composeNextPacket
  simp only [h1, addDatagram, ackPayload]
theorem maybeGetAppDataPacket_of_compose (E : Env σ) (p : packetPacker) (fuel : Nat)
    (maxPayloadSize : Int) (onlyAck ackAllowed : Bool) (w : World σ) (pl : payload)
    (h : (composeNextPacket E p fuel maxPayloadSize onlyAck ackAllowed w).1 = Result.ok pl) :
    maybeGetAppDataPacket E p fuel maxPayloadSize onlyAck ackAllowed w =
      (Result.ok (finishAppDataPacket E p pl).1, (finishAppDataPacket E p pl).2,
        (composeNextPacket E p fuel maxPayloadSize onlyAck ackAllowed w).2) := by
  unfold maybeGetAppDataPacket
  rw [andThenP_of_ok _ _ pl (by simpa [withPacker] using h)]
  rfl

theorem sameConfig_set (p : packetPacker) (c : Int) :
    sameConfig p { p with numNonAckElicitingAcks := c } := rfl

theorem appDataAfter_counter (E : Env σ) (p : packetPacker) (fuel : Nat)
    (maxPayloadSize : Int) (onlyAck ackAllowed : Bool) (w : World σ)
    (h0 : p.numNonAckElicitingAcks = 0)
    (hA : ∀ p1 w1, sameConfig p p1 → ∃ pl a,
      (composeNextPacket E p1 fuel maxPayloadSize onlyAck ackAllowed w1).1 = Result.ok pl ∧
      pl.frames = [] ∧ pl.ack = some a ∧ pl.length = E.ackLength a p.version) :
    ∀ n : Nat, n ≤ 19 →
      (appDataAfter E fuel maxPayloadSize onlyAck ackAllowed n p w).1 =
        { p with numNonAckElicitingAcks := (n : Int) } := by
  intro n
  induction n with
  | zero =>
    intro _
    show p = _
    simp only [Nat.cast_zero, ← h0]
  | succ n ih =>
    intro hn
    have ih' := ih (by omega)
    obtain ⟨pl, a, hc, hf, ha, -⟩ := hA
      (appDataAfter E fuel maxPayloadSize onlyAck ackAllowed n p w).1
      (appDataAfter E fuel maxPayloadSize onlyAck ackAllowed n p w).2
      (by rw [ih']; exact sameConfig_set p _)
    show (maybeGetAppDataPacket E _ fuel maxPayloadSize onlyAck ackAllowed _).2.1 = _
    rw [maybeGetAppDataPacket_of_compose E _ fuel _ _ _ _ pl hc,
      finishAppDataPacket_ackOnly E _ pl a hf ha, ih']
    simp only
    rw [if_neg]
    · simp only [Nat.cast_add, Nat.cast_one]
    · simp only [MaxNonAckElicitingAcks, ge_iff_le, not_le]
      omega

theorem andThenP_inv {α β : Type} (P : packetPacker → Prop)
    (r : Result α × packetPacker × World σ)
    (f : α → packetPacker → World σ → Result β × packetPacker × World σ)
    (hr : P r.2.1) (hf : ∀ a p1 w1, P p1 → P (f a p1 w1).2.1) : P (andThenP r f).2.1 := by
  unfold andThenP
  split
  · exact hf _ _ _ hr
  all_goals exact hr

theorem maybeGetAppDataPacket_inv (E : Env σ) (P : packetPacker → Prop)
    (hP : ∀ p pl, P p → P (finishAppDataPacket E p pl).2) (p : packetPacker) (fuel : Nat)
    (maxPayloadSize : Int) (onlyAck ackAllowed : Bool) (w : World σ) (h : P p) :
    P (maybeGetAppDataPacket E p fuel maxPayloadSize onlyAck ackAllowed w).2.1 := by
  unfold maybeGetAppDataPacket
  apply andThenP_inv P
  · exact h
  · intro a p1 w1 h1
    exact hP p1 a h1

theorem maybeGetShortHeaderPacket_inv (E : Env σ) (P : packetPacker → Prop)
    (hP : ∀ p pl, P p → P (finishAppDataPacket E p pl).2) (p : packetPacker) (fuel : Nat)
    (sealer : Sealer) (kp : KeyPhaseBit) (maxPacketSize : Int) (onlyAck ackAllowed : Bool)
    (w : World σ) (h : P p) :
    P (maybeGetShortHeaderPacket E p fuel sealer kp maxPacketSize onlyAck ackAllowed w).2.1 := by
  unfold maybeGetShortHeaderPacket
  apply andThenP_inv P
  · exact maybeGetAppDataPacket_inv E P hP p fuel _ onlyAck ackAllowed _ h
  · intro a p1 w1 h1
    exact h1

theorem maybeGetAppDataPacketFor0RTT_inv (E : Env σ) (P : packetPacker → Prop)
    (hP : ∀ p pl, P p → P (finishAppDataPacket E p pl).2) (p : packetPacker) (fuel : Nat)
    (sealer : Sealer) (maxPacketSize : Int) (w : World σ) (h : P p) :
    P (maybeGetAppDataPacketFor0RTT E p fuel sealer maxPacketSize w).2.1 := by
  unfold maybeGetAppDataPacketFor0RTT
  split
  · exact h
  · apply andThenP_inv P
    · exact maybeGetAppDataPacket_inv E P hP p fuel _ false false _ h
    · intro a p1 w1 h1
      exact h1

theorem getAppDataPacket_inv (E : Env σ) (P : packetPacker → Prop)
    (hP : ∀ p pl, P p → P (finishAppDataPacket E p pl).2) (p : packetPacker) (fuel : Nat)
    (appDataEncLevel : EncryptionLevel) (appDataSealer : Sealer) (maxPacketSize size : Int)
    (onlyAck : Bool) (w : World σ) (h : P p) :
    P (getAppDataPacket E p fuel appDataEncLevel appDataSealer maxPacketSize size
      onlyAck w).2.1 := by
  unfold getAppDataPacket
  split
  · exact maybeGetAppDataPacketFor0RTT_inv E P hP p fuel _ _ _ h
  · exact maybeGetShortHeaderPacket_inv E P hP p fuel _ _ _ _ _ _ h
  · exact h

theorem packAppDataStage_inv (E : Env σ) (P : packetPacker → Prop)
    (hP : ∀ p pl, P p → P (finishAppDataPacket E p pl).2) (p : packetPacker) (fuel : Nat)
    (maxPacketSize : Int) (onlyAck : Bool) (L : coalescedLocals) (w : World σ) (h : P p) :
    P (packAppDataStage E p fuel maxPacketSize onlyAck L w).2.1 := by
  unfold packAppDataStage
  split
  · simp only
    split
    · exact h
    · apply andThenP_inv P
      · exact getAppDataPacket_inv E P hP p fuel _ _ _ _ _ _ h
      · intro a p1 w1 h1
        exact h1
  · exact h

theorem composeCoalesced_inv (E : Env σ) (P : packetPacker → Prop)
    (hP : ∀ p pl, P p → P (finishAppDataPacket E p pl).2) (p : packetPacker) (fuel : Nat)
    (onlyAck : Bool) (w : World σ) (h : P p) :
    P (composeCoalesced E p fuel onlyAck w).2.1 := by
  unfold composeCoalesced
  apply andThenP_inv P
  · exact h
  · intro L1 p1 w1 h1
    apply andThenP_inv P
    · exact h1
    · intro L2 p2 w2 h2
      exact packAppDataStage_inv E P hP p2 fuel _ onlyAck L2 w2 h2

theorem PackCoalescedPacket_inv (E : Env σ) (P : packetPacker → Prop)
    (hP : ∀ p pl, P p → P (finishAppDataPacket E p pl).2) (p : packetPacker) (fuel : Nat)
    (onlyAck : Bool) (w : World σ) (h : P p) :
    P (PackCoalescedPacket E p fuel onlyAck w).2.1 := by
  unfold PackCoalescedPacket
  apply andThenP_inv P
  · exact composeCoalesced_inv E P hP p fuel onlyAck w h
  · intro L p1 w1 h1
    split
    · exact h1
    · apply andThenP_inv P
      · exact h1
      · intro a p2 w2 h2
        exact h2

theorem PackPacket_inv (E : Env σ) (P : packetPacker → Prop)
    (hP : ∀ p pl, P p → P (finishAppDataPacket E p pl).2) (p : packetPacker) (fuel : Nat)
    (onlyAck : Bool) (now : Time) (w : World σ) (h : P p) :
    P (PackPacket E p fuel onlyAck now w).2.1 := by
  unfold PackPacket
  simp only
  split
  · exact h
  · apply andThenP_inv P
    · exact maybeGetShortHeaderPacket_inv E P hP p fuel _ _ _ _ _ _ h
    · intro r p1 w1 h1
      split
      · exact h1
      · split
        · exact h1
        · exact h1

theorem MaybePackProbePacket_inv (E : Env σ) (P : packetPacker → Prop)
    (hP : ∀ p pl, P p → P (finishAppDataPacket E p pl).2) (p : packetPacker) (fuel : Nat)
    (encLevel : EncryptionLevel) (w : World σ) (h : P p) :
    P (MaybePackProbePacket E p fuel encLevel w).2.1 := by
  have hc : ∀ lvl g, P (cryptoProbePacket E p fuel lvl g).2.1 := by
    intro lvl g
    unfold cryptoProbePacket
    split <;> exact h
  unfold MaybePackProbePacket
  split
  · exact hc _ _
  · exact hc _ _
  · simp only
    split
    · exact h
    · apply andThenP_inv P
      · exact maybeGetAppDataPacket_inv E P hP p fuel _ _ _ _ h
      · intro a p1 w1 h1
        exact h1
  · exact h

theorem finishAppDataPacket_counterOK (E : Env σ) (p : packetPacker) (pl : payload)
    (h : counterOK p) : counterOK (finishAppDataPacket E p pl).2 := by
  unfold counterOK MaxNonAckElicitingAcks at *
  unfold finishAppDataPacket
  split
  · split
    · exact h
    · split
      · simp
      · rename_i hlt
        simp only [MaxNonAckElicitingAcks, ge_iff_le, not_le] at hlt
        simp only
        omega
  · simp

theorem applyOp_counterOK (E : Env σ) (fuel : Nat) (op : Op) (p : packetPacker) (w : World σ)
    (h : counterOK p) : counterOK (applyOp E fuel op p w).1 := by
  have hP := finishAppDataPacket_counterOK E
  cases op with
  | PackCoalescedPacket onlyAck => exact PackCoalescedPacket_inv E counterOK hP p fuel onlyAck w h
  | PackPacket onlyAck now => exact PackPacket_inv E counterOK hP p fuel onlyAck now w h
  | MaybePackProbePacket encLevel =>
    exact MaybePackProbePacket_inv E counterOK hP p fuel encLevel w h
  | PackConnectionClose e => exact h
  | PackApplicationClose e => exact h
  | SetMaxPacketSize s => exact h
  | PackMTUProbePacket ping size now => exact h
  | HandleTransportParameters params =>
    unfold applyOp HandleTransportParameters
    simp only
    split <;> exact h
  | SetToken token => exact h

theorem runOps_counterOK (E : Env σ) (fuel : Nat) (ops : List Op) :
    ∀ (p : packetPacker) (w : World σ), counterOK p → counterOK (runOps E fuel ops p w).1 := by
  induction ops with
  | nil => intro p w h; exact h
  | cons op rest ih =>
    intro p w h
    exact ih _ _ (applyOp_counterOK E fuel op p w h)

/-! ## The packets of `packConnectionClose` -/

theorem getCloseHeader_type (E : Env σ) (p : packetPacker) (encLevel : EncryptionLevel)
    (keyPhase : KeyPhaseBit) (w : World σ) :
    (getCloseHeader E p encLevel keyPhase w).1.Type_ = typeOfLevel encLevel := by
  unfold getCloseHeader
  cases encLevel <;> rfl

theorem closeLevel_ok (E : Env σ) (p : packetPacker) (isApplicationError : Bool)
    (errorCode frameType : Nat) (reason : String) (encLevel : EncryptionLevel)
    (L L1 : closeLocals) (w w1 : World σ)
    (h : closeLevel E p isApplicationError errorCode frameType reason encLevel L w =
      (Result.ok L1, w1)) :
    ∃ o, L1.entries = L.entries ++ [(encLevel, o)] ∧
      ∀ sealer hdr pl, o = some (sealer, hdr, pl) →
        pl = closePayload E p
          (closeFrame E isApplicationError errorCode frameType reason encLevel) ∧
        hdr.Type_ = typeOfLevel encLevel := by
  unfold closeLevel at h
  split at h
  · simp only [Prod.mk.injEq, Result.ok.injEq] at h
    rw [← h.1]
    exact ⟨none, rfl, by simp⟩
  · simp only at h
    split at h
    · split at h
      · simp only [Prod.mk.injEq, Result.ok.injEq] at h
        rw [← h.1]
        exact ⟨none, rfl, by simp⟩
      · simp at h
    · simp only [Prod.mk.injEq, Result.ok.injEq] at h
      rw [← h.1]
      refine ⟨_, rfl, ?_⟩
      intro sealer hdr pl ho
      simp only [Option.some.injEq, Prod.mk.injEq] at ho
      obtain ⟨-, h2, h3⟩ := ho
      rw [← h2, ← h3]
      exact ⟨rfl, getCloseHeader_type E p _ _ _⟩

theorem closeLevels_ok (E : Env σ) (p : packetPacker) (isApplicationError : Bool)
    (errorCode frameType : Nat) (reason : String) (levels : List EncryptionLevel) :
    ∀ (L L1 : closeLocals) (w w1 : World σ),
      closeLevels E p isApplicationError errorCode frameType reason levels L w =
        (Result.ok L1, w1) →
      EntriesOK E p isApplicationError errorCode frameType reason L.entries →
      EntriesOK E p isApplicationError errorCode frameType reason L1.entries := by
  induction levels with
  | nil =>
    intro L L1 w w1 h hL
    simp only [closeLevels, Prod.mk.injEq, Result.ok.injEq] at h
    rw [← h.1]; exact hL
  | cons lvl rest ih =>
    intro L L1 w w1 h hL
    simp only [closeLevels] at h
    rw [andThen_ok_iff] at h
    obtain ⟨L2, h2, h⟩ := h
    refine ih L2 L1 _ w1 h ?_
    obtain ⟨o, ho, hp⟩ := closeLevel_ok E p _ _ _ _ lvl L L2 w _ (Prod.ext h2 rfl)
    intro lvl' sealer hdr pl hm
    rw [ho, List.mem_append] at hm
    rcases hm with hm | hm
    · exact hL lvl' sealer hdr pl hm
    · simp only [List.mem_singleton, Prod.mk.injEq] at hm
      obtain ⟨e1, e2⟩ := hm
      subst e1
      exact hp sealer hdr pl e2.symm

theorem closeAppend_ok (E : Env σ) (p : packetPacker) (isApplicationError : Bool)
    (errorCode frameType : Nat) (reason : String) (size : Int) (keyPhase : KeyPhaseBit)
    (entries : List closeEntry) :
    ∀ (packet packet1 : coalescedPacket) (w w1 : World σ),
      closeAppend E p size keyPhase entries packet w = (Result.ok packet1, w1) →
      EntriesOK E p isApplicationError errorCode frameType reason entries →
      ClosePacketOK E p isApplicationError errorCode frameType reason packet →
      ClosePacketOK E p isApplicationError errorCode frameType reason packet1 := by
  induction entries with
  | nil =>
    intro packet packet1 w w1 h _ hp
    simp only [closeAppend, Prod.mk.injEq, Result.ok.injEq] at h
    rw [← h.1]; exact hp
  | cons e rest ih =>
    intro packet packet1 w w1 h he hp
    have hrest : EntriesOK E p isApplicationError errorCode frameType reason rest :=
      fun l s hd pl hm => he l s hd pl (List.mem_cons_of_mem _ hm)
    obtain ⟨lvl, o⟩ := e
    cases o with
    | none =>
      simp only [closeAppend] at h
      exact ih _ _ _ _ h hrest hp
    | some t =>
      obtain ⟨sealer, hdr, pl⟩ := t
      obtain ⟨hpl, hty⟩ := he lvl sealer hdr pl (List.mem_cons_self _ _)
      simp only [closeAppend] at h
      rw [andThen_ok_iff] at h
      obtain ⟨packet2, h2, h⟩ := h
      refine ih _ _ _ _ h hrest ?_
      unfold closeAppendOne at h2
      simp only at h2
      split at h2
      · rename_i hl
        obtain ⟨hdrv, sealerv, sp, buf, -, -, a1, a2⟩ :=
          appendShortToPacket_ok E p _ _ _ _ _ _ _ _ _ (Prod.ext h2 rfl)
        obtain ⟨hdrBytes, raw, -, -, -, -, -, -, b7, -⟩ :=
          appendShortHeaderPacket_ok E p _ _ _ _ _ _ _ _ _ _ sp buf a1
        rw [a2]
        refine ⟨hp.1, ?_⟩
        intro sp' hsp
        simp only [Option.some.injEq] at hsp
        rw [← hsp, b7, hpl, hl]
      · rename_i hl
        rcases appendLongIfPayload_ok E p _ _ _ _ _ _ _ _ _ (Prod.ext h2 rfl) with
          ⟨hn, -, -⟩ | ⟨plv, hdrv, sealerv, cont, buf, e1, e2, e3, a1, a2⟩
        · simp at hn
        · simp only [Option.some.injEq] at e1 e2 e3
          subst e1 e2 e3
          obtain ⟨-, hdrBytes, raw, -, -, -, -, -, b6, -, b8, -⟩ :=
            appendLongHeaderPacket_ok E p _ _ _ _ _ _ _ _ cont buf a1
          rw [a2]
          refine ⟨?_, hp.2⟩
          intro lp hlp
          simp only [List.mem_append, List.mem_singleton] at hlp
          rcases hlp with hlp | hlp
          · exact hp.1 lp hlp
          · subst hlp
            refine ⟨lvl, hl, ?_, ?_⟩
            · rw [b8]; exact hty
            · rw [b6, hpl]

theorem packConnectionClose_ok (E : Env σ) (p : packetPacker) (isApplicationError : Bool)
    (errorCode frameType : Nat) (reason : String) (w w1 : World σ) (c : coalescedPacket)
    (h : packConnectionClose E p isApplicationError errorCode frameType reason w =
      (Result.ok c, w1)) :
    ClosePacketOK E p isApplicationError errorCode frameType reason c := by
  unfold packConnectionClose at h
  rw [andThen_ok_iff] at h
  obtain ⟨L, hL, h⟩ := h
  have he := closeLevels_ok E p isApplicationError errorCode frameType reason encLevels {} L w _
    (Prod.ext hL rfl) (by intro l s hd pl hm; simp at hm)
  refine closeAppend_ok E p isApplicationError errorCode frameType reason _ _ _ _ _ _ _ h he ?_
  constructor
  · intro lp hlp; simp at hlp
  · intro sp hsp; simp at hsp

/-! ## The levels of `packConnectionClose` -/

theorem closeLevel_fatal (E : Env σ) (p : packetPacker) (isApplicationError : Bool)
    (errorCode frameType : Nat) (reason : String) (r : EncryptionLevel → Except Error Sealer)
    (hG : ∀ encLevel (w : World σ), (getCloseSealer E encLevel w).1 = r encLevel)
    (encLevel : EncryptionLevel) (L : closeLocals) (w : World σ) (err : Error)
    (h : closeFatal p r encLevel = some err) :
    (closeLevel E p isApplicationError errorCode frameType reason encLevel L w).1 =
      Result.error err := by
  unfold closeFatal at h
  unfold closeLevel
  split at h
  · simp at h
  · rename_i hs
    rw [if_neg hs]
    simp only [hG]
    split at h
    · simp at h
    · rename_i e he
      split at h
      · simp at h
      · rename_i hne
        simp only [Option.some.injEq] at h
        subst h
        simp only [he]
        rw [if_neg hne]

theorem closeLevel_shape (E : Env σ) (p : packetPacker) (isApplicationError : Bool)
    (errorCode frameType : Nat) (reason : String) (r : EncryptionLevel → Except Error Sealer)
    (hG : ∀ encLevel (w : World σ), (getCloseSealer E encLevel w).1 = r encLevel)
    (encLevel : EncryptionLevel) (L L1 : closeLocals) (w w1 : World σ)
    (h : closeLevel E p isApplicationError errorCode frameType reason encLevel L w =
      (Result.ok L1, w1)) :
    L1.entries.map closeEntryKind =
      L.entries.map closeEntryKind ++ [(encLevel, closeSends p r encLevel)] ∧
    closeFatal p r encLevel = none := by
  unfold closeLevel at h
  unfold closeSends closeFatal
  split at h
  · rename_i hs
    simp only [Prod.mk.injEq, Result.ok.injEq] at h
    rw [← h.1, if_pos hs, if_pos hs]
    simp [closeEntryKind]
  · rename_i hs
    rw [if_neg hs, if_neg hs]
    simp only [hG] at h
    split at h
    · rename_i e he
      split at h
      · rename_i hsk
        simp only [Prod.mk.injEq, Result.ok.injEq] at h
        rw [← h.1]
        simp [closeEntryKind, he, hsk]
      · simp at h
    · rename_i s he
      simp only [Prod.mk.injEq, Result.ok.injEq] at h
      rw [← h.1]
      simp [closeEntryKind, he]

theorem getCloseSealer_pnKept (E : Env σ) (hPn : PnContract E) (encLevel : EncryptionLevel)
    (w : World σ) : pnKept E w (getCloseSealer E encLevel w).2 := by
  cases encLevel
  · exact GetInitialSealer_pnKept E hPn w
  · exact GetHandshakeSealer_pnKept E hPn w
  · exact Get0RTTSealer_pnKept E hPn w
  · exact Get1RTTSealer_pnKept E hPn w

theorem getCloseHeader_pnKept (E : Env σ) (hPn : PnContract E) (p : packetPacker)
    (encLevel : EncryptionLevel) (kp : KeyPhaseBit) (w : World σ) :
    pnKept E w (getCloseHeader E p encLevel kp w).2 := by
  unfold getCloseHeader
  split
  · exact getShortHeader_pnKept E hPn kp w
  · exact getLongHeader_pnKept E hPn p encLevel w

theorem getCloseHeader_pn (E : Env σ) (p : packetPacker) (encLevel : EncryptionLevel)
    (kp : KeyPhaseBit) (w : World σ) :
    (getCloseHeader E p encLevel kp w).1.PacketNumber =
      (E.PeekPacketNumber w.st encLevel).1.1 := by
  unfold getCloseHeader
  split
  · rename_i h; rw [h]; rfl
  · exact getLongHeader_pn E p encLevel w

theorem closeLevel_run (E : Env σ) (p : packetPacker) (isApplicationError : Bool)
    (errorCode frameType : Nat) (reason : String) (r : EncryptionLevel → Except Error Sealer)
    (hG : ∀ encLevel (w : World σ), (getCloseSealer E encLevel w).1 = r encLevel)
    (encLevel : EncryptionLevel) (L : closeLocals) (w : World σ)
    (h : closeFatal p r encLevel = none) :
    ∃ L1 w1 o,
      closeLevel E p isApplicationError errorCode frameType reason encLevel L w =
        (Result.ok L1, w1) ∧
      L1.entries = L.entries ++ [(encLevel, o)] ∧
      o.isSome = closeSends p r encLevel ∧
      (PnContract E → pnKept E w w1) ∧
      ∀ sealer hdr pl, o = some (sealer, hdr, pl) →
        r encLevel = Except.ok sealer ∧
        pl = closePayload E p
          (closeFrame E isApplicationError errorCode frameType reason encLevel) ∧
        (PnContract E → hdr.PacketNumber = (E.PeekPacketNumber w.st encLevel).1.1) ∧
        (encLevel ≠ EncryptionLevel.Encryption1RTT → hdr.IsLongHeader = true) ∧
        (encLevel = EncryptionLevel.Encryption1RTT →
          L1.keyPhase = sealer.KeyPhase ∧ ∃ w2, hdr = (getShortHeader E sealer.KeyPhase w2).1) := by
  unfold closeFatal at h
  unfold closeLevel closeSends
  split at h
  · rename_i hs
    rw [if_pos hs, if_pos hs]
    exact ⟨_, _, none, rfl, rfl, rfl, fun _ => pnKept_refl E w, by simp⟩
  · rename_i hs
    rw [if_neg hs, if_neg hs]
    simp only [hG]
    split at h
    · rename_i s he
      simp only [he]
      refine ⟨_, _, some (s, _, _), rfl, rfl, rfl, ?_, ?_⟩
      · intro hPn
        exact pnKept_trans (getCloseSealer_pnKept E hPn encLevel w)
          (getCloseHeader_pnKept E hPn p encLevel _ _)
      · intro sealer hdr pl ho
        simp only [Option.some.injEq, Prod.mk.injEq] at ho
        obtain ⟨h1, h2, h3⟩ := ho
        subst h1
        refine ⟨rfl, h3.symm, ?_, ?_, ?_⟩
        · intro hPn
          rw [← h2, getCloseHeader_pn]
          exact congrArg Prod.fst (getCloseSealer_pnKept E hPn encLevel w encLevel)
        · intro hne
          rw [← h2]
          unfold getCloseHeader
          rw [if_neg hne]
          exact getLongHeader_isLong E p encLevel _
        · intro hl
          rw [← h2]
          unfold getCloseHeader
          simp only [hl, if_true]
          exact ⟨trivial, _, rfl⟩
    · rename_i e he
      split at h
      · rename_i hsk
        simp only [he]
        rw [if_pos hsk]
        exact ⟨_, _, none, rfl, rfl, rfl,
          fun hPn => getCloseSealer_pnKept E hPn encLevel w, by simp⟩
      · simp at h

theorem closeLevels_fatal (E : Env σ) (p : packetPacker) (isApplicationError : Bool)
    (errorCode frameType : Nat) (reason : String) (r : EncryptionLevel → Except Error Sealer)
    (hG : ∀ encLevel (w : World σ), (getCloseSealer E encLevel w).1 = r encLevel)
    (levels : List EncryptionLevel) (err : Error) :
    ∀ (L : closeLocals) (w : World σ),
      (levels.filterMap (closeFatal p r)).head? = some err →
      (closeLevels E p isApplicationError errorCode frameType reason levels L w).1 =
        Result.error err := by
  induction levels with
  | nil => intro L w h; simp at h
  | cons l rest ih =>
    intro L w h
    simp only [closeLevels]
    cases hf : closeFatal p r l with
    | some e =>
      simp only [List.filterMap_cons, hf, List.head?_cons, Option.some.injEq] at h
      subst h
      have h1 := closeLevel_fatal E p isApplicationError errorCode frameType reason r hG l L w e hf
      unfold andThen
      simp only [h1]
    | none =>
      simp only [List.filterMap_cons, hf] at h
      cases hr : (closeLevel E p isApplicationError errorCode frameType reason l L w).1 with
      | ok L1 =>
        rw [andThen_of_ok _ _ _ hr]
        exact ih _ _ h
      | error e =>
        obtain ⟨L1, w1, o, h1, -⟩ :=
          closeLevel_run E p isApplicationError errorCode frameType reason r hG l L w hf
        rw [h1] at hr
        simp at hr
      | goPanic m =>
        obtain ⟨L1, w1, o, h1, -⟩ :=
          closeLevel_run E p isApplicationError errorCode frameType reason r hG l L w hf
        rw [h1] at hr
        simp at hr
      | outOfFuel =>
        obtain ⟨L1, w1, o, h1, -⟩ :=
          closeLevel_run E p isApplicationError errorCode frameType reason r hG l L w hf
        rw [h1] at hr
        simp at hr

theorem closeLevels_shape (E : Env σ) (p : packetPacker) (isApplicationError : Bool)
    (errorCode frameType : Nat) (reason : String) (r : EncryptionLevel → Except Error Sealer)
    (hG : ∀ encLevel (w : World σ), (getCloseSealer E encLevel w).1 = r encLevel)
    (levels : List EncryptionLevel) :
    ∀ (L L1 : closeLocals) (w w1 : World σ),
      closeLevels E p isApplicationError errorCode frameType reason levels L w =
        (Result.ok L1, w1) →
      L1.entries.map closeEntryKind =
        L.entries.map closeEntryKind ++ levels.map (fun l => (l, closeSends p r l)) ∧
      levels.filterMap (closeFatal p r) = [] := by
  induction levels with
  | nil =>
    intro L L1 w w1 h
    simp only [closeLevels, Prod.mk.injEq, Result.ok.injEq] at h
    rw [← h.1]
    simp
  | cons l rest ih =>
    intro L L1 w w1 h
    simp only [closeLevels] at h
    rw [andThen_ok_iff] at h
    obtain ⟨L2, h2, h⟩ := h
    obtain ⟨a1, a2⟩ := closeLevel_shape E p isApplicationError errorCode frameType reason r hG
      l L L2 w _ (Prod.ext h2 rfl)
    obtain ⟨b1, b2⟩ := ih _ _ _ _ h
    constructor
    · rw [b1, a1]
      simp
    · simp only [List.filterMap_cons, a2, b2]

theorem closeAppend_shape (E : Env σ) (p : packetPacker) (size : Int) (keyPhase : KeyPhaseBit)
    (entries : List closeEntry) :
    ∀ (packet packet1 : coalescedPacket) (w w1 : World σ),
      closeAppend E p size keyPhase entries packet w = (Result.ok packet1, w1) →
      (∀ encLevel sealer hdr pl, (encLevel, some (sealer, hdr, pl)) ∈ entries →
        hdr.Type_ = typeOfLevel encLevel) →
      packet1.longHdrPackets.map (fun lp => lp.header.Type_) =
        packet.longHdrPackets.map (fun lp => lp.header.Type_) ++
          closeLongTypes (entries.map closeEntryKind) ∧
      packet1.shortHdrPacket.isSome =
        (packet.shortHdrPacket.isSome || closeHasShort (entries.map closeEntryKind)) := by
  induction entries with
  | nil =>
    intro packet packet1 w w1 h _
    simp only [closeAppend, Prod.mk.injEq, Result.ok.injEq] at h
    rw [← h.1]
    simp [closeLongTypes, closeHasShort]
  | cons e rest ih =>
    intro packet packet1 w w1 h he
    have hrest : ∀ encLevel sealer hdr pl, (encLevel, some (sealer, hdr, pl)) ∈ rest →
        hdr.Type_ = typeOfLevel encLevel :=
      fun l s hd pl hm => he l s hd pl (List.mem_cons_of_mem _ hm)
    obtain ⟨lvl, o⟩ := e
    cases o with
    | none =>
      simp only [closeAppend] at h
      obtain ⟨c1, c2⟩ := ih _ _ _ _ h hrest
      rw [c1, c2]
      simp [closeLongTypes, closeHasShort, closeEntryKind]
    | some t =>
      obtain ⟨sealer, hdr, pl⟩ := t
      have hty := he lvl sealer hdr pl (List.mem_cons_self _ _)
      simp only [closeAppend] at h
      rw [andThen_ok_iff] at h
      obtain ⟨packet2, h2, h⟩ := h
      obtain ⟨c1, c2⟩ := ih _ _ _ _ h hrest
      rw [c1, c2]
      unfold closeAppendOne at h2
      simp only at h2
      split at h2
      · rename_i hl
        obtain ⟨hdrv, sealerv, sp, buf, -, -, a1, a2⟩ :=
          appendShortToPacket_ok E p _ _ _ _ _ _ _ _ _ (Prod.ext h2 rfl)
        rw [a2]
        simp [closeLongTypes, closeHasShort, closeEntryKind, hl]
      · rename_i hl
        rcases appendLongIfPayload_ok E p _ _ _ _ _ _ _ _ _ (Prod.ext h2 rfl) with
          ⟨hn, -, -⟩ | ⟨plv, hdrv, sealerv, cont, buf, e1, e2, e3, a1, a2⟩
        · simp at hn
        · simp only [Option.some.injEq] at e1 e2 e3
          subst e1 e2 e3
          obtain ⟨-, hdrBytes, raw, -, -, -, -, -, b6, -, b8, -⟩ :=
            appendLongHeaderPacket_ok E p _ _ _ _ _ _ _ _ cont buf a1
          rw [a2]
          simp [closeLongTypes, closeHasShort, closeEntryKind, hl, b8, hty]

/-- For a size that is not negative the padding is not negative. -/
theorem initialPaddingLen_nonneg_of_size (E : Env σ) (p : packetPacker) (frames : List Frame)
    (size : Int) (h0 : 0 ≤ size) : 0 ≤ initialPaddingLen E p frames size := by
  by_cases hP : p.perspective = Perspective.PerspectiveServer ∧
      ¬ E.HasAckElicitingFrames frames = true
  · unfold initialPaddingLen
    rw [if_pos hP]
  · by_cases hS : size < p.maxPacketSize
    · rw [initialPaddingLen_of_nonneg E p frames size hP hS h0]
      omega
    · unfold initialPaddingLen
      rw [if_neg hP, if_pos (by omega)]

/-- The first loop of `packConnectionClose` keeps the size from being
negative, when headers and frames are serialised to the announced lengths. -/
theorem closeLevel_size (E : Env σ) (p : packetPacker) (isApplicationError : Bool)
    (errorCode frameType : Nat) (reason : String) (encLevel : EncryptionLevel)
    (L L1 : closeLocals) (w w1 : World σ)
    (hW : WireConsistent E p.version)
    (hLong : ∀ hdr, ∃ bytes, E.hdrWrite hdr p.version = Except.ok bytes)
    (hShort : ∀ connID pn pnLen kp, ∃ bytes, E.WriteShortHeader connID pn pnLen kp =
      Except.ok bytes)
    (hF : FramesSerialise E p.version (closePayload E p
      (closeFrame E isApplicationError errorCode frameType reason encLevel)).frames)
    (h : closeLevel E p isApplicationError errorCode frameType reason encLevel L w =
      (Result.ok L1, w1))
    (h0 : 0 ≤ L.size) : 0 ≤ L1.size := by
  have hpl : 0 ≤ (closePayload E p
      (closeFrame E isApplicationError errorCode frameType reason encLevel)).length := by
    obtain ⟨bytes, -, hb⟩ := hF _ (List.mem_singleton.mpr rfl)
    show 0 ≤ E.frameLength _ p.version
    rw [← hb]
    exact Int.natCast_nonneg _
  have hhdr : ∀ kp (w2 : World σ),
      0 ≤ E.hdrGetLength (getCloseHeader E p encLevel kp w2).1 p.version := by
    intro kp w2
    unfold getCloseHeader
    split
    · obtain ⟨bs, hbs⟩ := hShort
        (E.getDestConnID (w2.PeekPacketNumber E EncryptionLevel.Encryption1RTT).2.st)
        (w2.PeekPacketNumber E EncryptionLevel.Encryption1RTT).1.1
        (w2.PeekPacketNumber E EncryptionLevel.Encryption1RTT).1.2 kp
      have := hW.short _ _ _ _ bs hbs
      unfold getShortHeader
      simp only
      rw [← this]
      exact Int.natCast_nonneg _
    · obtain ⟨bs, hbs⟩ := hLong { (getLongHeader E p encLevel w2).1 with Length := 0 }
      rw [← hW.long _ 0 bs (getLongHeader_isLong E p encLevel w2) hbs]
      exact Int.natCast_nonneg _
  unfold closeLevel at h
  split at h
  · simp only [Prod.mk.injEq, Result.ok.injEq] at h
    rw [← h.1]
    exact h0
  · simp only at h
    split at h
    · split at h
      · simp only [Prod.mk.injEq, Result.ok.injEq] at h
        rw [← h.1]
        exact h0
      · simp at h
    · rename_i sealer hs
      simp only [Prod.mk.injEq, Result.ok.injEq] at h
      rw [← h.1]
      simp only
      rw [packetLength_eq]
      have t := tinyPaddingLen_nonneg
        ((getCloseHeader E p encLevel
          (if encLevel = EncryptionLevel.Encryption1RTT then sealer.KeyPhase else L.keyPhase)
          (getCloseSealer E encLevel w).2).1.PacketNumberLen : Int)
        (closePayload E p
          (closeFrame E isApplicationError errorCode frameType reason encLevel)).length
      have hh := hhdr (if encLevel = EncryptionLevel.Encryption1RTT then sealer.KeyPhase
        else L.keyPhase) (getCloseSealer E encLevel w).2
      have : (0 : Int) ≤ (sealer.Overhead : Int) := Int.natCast_nonneg _
      omega

theorem closeAppend_total (E : Env σ) (p : packetPacker) (size : Int) (keyPhase : KeyPhaseBit)
    (hPn : PnContract E) (hW : WireConsistent E p.version)
    (hConn : ∀ s s2, E.getDestConnID s = E.getDestConnID s2)
    (hLong : ∀ hdr, ∃ bytes, E.hdrWrite hdr p.version = Except.ok bytes)
    (hShort : ∀ connID pn pnLen kp, ∃ bytes, E.WriteShortHeader connID pn pnLen kp =
      Except.ok bytes)
    (h0 : 0 ≤ size)
    (entries : List closeEntry) :
    ∀ (packet : coalescedPacket) (w : World σ),
      (∀ encLevel sealer hdr pl, (encLevel, some (sealer, hdr, pl)) ∈ entries →
        hdr.PacketNumber = (E.PeekPacketNumber w.st encLevel).1.1 ∧
        (encLevel ≠ EncryptionLevel.Encryption1RTT → hdr.IsLongHeader = true) ∧
        FramesSerialise E p.version pl.frames ∧ pl.ack = none ∧
        pl.length = framesLength E p.version pl.frames ∧
        (encLevel = EncryptionLevel.Encryption1RTT →
          (∃ w2, hdr = (getShortHeader E keyPhase w2).1) ∧
          packetLength E p hdr pl + (sealer.Overhead : Int) ≤ p.maxPacketSize)) →
      entries.Pairwise (fun a b => a.2.isSome = true → b.2.isSome = true →
        pnSpace a.1 ≠ pnSpace b.1) →
      (∃ c w1, closeAppend E p size keyPhase entries packet w = (Result.ok c, w1)) ∨
      (∃ w1, closeAppend E p size keyPhase entries packet w =
        (Result.goPanic "slice bounds out of range", w1)) := by
  induction entries with
  | nil =>
    intro packet w _ _
    exact Or.inl ⟨_, _, rfl⟩
  | cons e rest ih =>
    intro packet w hReady hDist
    rw [List.pairwise_cons] at hDist
    obtain ⟨hd1, hd2⟩ := hDist
    obtain ⟨lvl, o⟩ := e
    cases o with
    | none =>
      simp only [closeAppend]
      exact ih packet w (fun l s hd pl hm => hReady l s hd pl (List.mem_cons_of_mem _ hm)) hd2
    | some t =>
      obtain ⟨sealer, hdr, pl⟩ := t
      obtain ⟨r1, r2, r3, r4, r5, r6⟩ := hReady lvl sealer hdr pl (List.mem_cons_self _ _)
      have hAck : AckSerialises E p.version pl.ack := by
        intro a ha; rw [r4] at ha; simp at ha
      have hLen : pl.length = ackLen E p.version pl.ack + framesLength E p.version pl.frames := by
        rw [r4, r5]; simp [ackLen]
      have hnext : ∀ (w1 : World σ), w1.st = (E.PopPacketNumber w.st lvl).2 →
          ∀ encLevel sealer hdr pl, (encLevel, some (sealer, hdr, pl)) ∈ rest →
          hdr.PacketNumber = (E.PeekPacketNumber w1.st encLevel).1.1 ∧
          (encLevel ≠ EncryptionLevel.Encryption1RTT → hdr.IsLongHeader = true) ∧
          FramesSerialise E p.version pl.frames ∧ pl.ack = none ∧
          pl.length = framesLength E p.version pl.frames ∧
          (encLevel = EncryptionLevel.Encryption1RTT →
            (∃ w2, hdr = (getShortHeader E keyPhase w2).1) ∧
            packetLength E p hdr pl + (sealer.Overhead : Int) ≤ p.maxPacketSize) := by
        intro w1 hw1 l s hd pl2 hm
        obtain ⟨q1, q2⟩ := hReady l s hd pl2 (List.mem_cons_of_mem _ hm)
        refine ⟨?_, q2⟩
        rw [q1, hw1]
        have hsp := hd1 (l, some (s, hd, pl2)) hm rfl rfl
        exact (congrArg Prod.fst (hPn.pop w.st lvl l hsp)).symm
      simp only [closeAppend]
      by_cases hl : lvl = EncryptionLevel.Encryption1RTT
      · obtain ⟨⟨w2, hh⟩, hfit⟩ := r6 hl
        obtain ⟨hdrBytes, hWr⟩ :=
          hShort (E.getDestConnID w.st) hdr.PacketNumber hdr.PacketNumberLen keyPhase
        obtain ⟨raw, hA⟩ := appendPacketPayload_succeeds E p hdrBytes pl
          (tinyPaddingLen hdr.PacketNumberLen pl.length + 0) r3 hAck hLen
          (by have := tinyPaddingLen_nonneg hdr.PacketNumberLen pl.length; omega)
        have hlen := appendPacketPayload_length E p hdrBytes pl _ raw hA
        have hb : (hdrBytes.length : Int) = E.hdrGetLength hdr p.version := by
          rw [hW.short _ _ _ _ _ hWr]
          rw [hh]
          simp only [getShortHeader]
          rw [hConn (w2.PeekPacketNumber E EncryptionLevel.Encryption1RTT).2.st w.st]
        have hpl := packetLength_eq E p hdr pl
        by_cases hcap : packet.buffer.Data.length + (raw.length + sealer.Overhead) ≤
            E.MaxPacketBufferSize
        · obtain ⟨pkt, buf, hok⟩ := appendShortHeaderPacket_succeeds E p packet.buffer
            hdr.PacketNumber hdr.PacketNumberLen keyPhase pl 0 sealer false w hdrBytes raw hWr
            (by rw [r1, hl]; exact (hPn.pop_peek w.st _).symm) hA
            (Or.inr (by rw [hlen, hb]; rw [hpl] at hfit; omega)) hcap
          have hone : closeAppendOne E p size keyPhase lvl sealer hdr pl packet w =
              (Result.ok { packet with buffer := buf, shortHdrPacket := some pkt },
                (w.PopPacketNumber E EncryptionLevel.Encryption1RTT).2) := by
            unfold closeAppendOne
            simp only [hl, if_true, reduceCtorEq, if_false]
            unfold appendShortToPacket
            simp only
            rw [andThen_of_ok _ _ _ (congrArg Prod.fst hok)]
            simp only [hok]
          rw [andThen_of_ok _ _ _ (congrArg Prod.fst hone)]
          simp only [hone]
          exact ih _ _ (hnext _ (by rw [hl]; rfl)) hd2
        · have hov := appendShortHeaderPacket_overflow E p packet.buffer
            hdr.PacketNumber hdr.PacketNumberLen keyPhase pl 0 sealer false w hdrBytes raw hWr
            (by rw [r1, hl]; exact (hPn.pop_peek w.st _).symm) hA
            (Or.inr (by rw [hlen, hb]; rw [hpl] at hfit; omega)) (by omega)
          have hone : closeAppendOne E p size keyPhase lvl sealer hdr pl packet w =
              (Result.goPanic "slice bounds out of range",
                (w.PopPacketNumber E EncryptionLevel.Encryption1RTT).2) := by
            unfold closeAppendOne
            simp only [hl, if_true, reduceCtorEq, if_false]
            unfold appendShortToPacket
            simp only
            unfold andThen
            simp only [hov]
          refine Or.inr ⟨(w.PopPacketNumber E EncryptionLevel.Encryption1RTT).2, ?_⟩
          unfold andThen
          simp only [hone]
      · have hlong := r2 hl
        obtain ⟨hdrBytes, hWr⟩ := hLong { hdr with Length := (hdr.PacketNumberLen : Int) +
          (sealer.Overhead : Int) + pl.length +
          (tinyPaddingLen hdr.PacketNumberLen pl.length +
            (if lvl = EncryptionLevel.EncryptionInitial then
              initialPaddingLen E p pl.frames size else 0)) }
        obtain ⟨raw, hA⟩ := appendPacketPayload_succeeds E p hdrBytes pl
          (tinyPaddingLen hdr.PacketNumberLen pl.length +
            (if lvl = EncryptionLevel.EncryptionInitial then
              initialPaddingLen E p pl.frames size else 0)) r3 hAck hLen
          (by
            have h1 := tinyPaddingLen_nonneg hdr.PacketNumberLen pl.length
            have h2 := initialPaddingLen_nonneg_of_size E p pl.frames size h0
            split <;> omega)
        obtain ⟨pkt, buf, hok⟩ := appendLongHeaderPacket_succeeds E p packet.buffer hdr pl
          (if lvl = EncryptionLevel.EncryptionInitial then
              initialPaddingLen E p pl.frames size else 0) lvl sealer w hdrBytes raw hlong hWr
          (by rw [r1]; exact hPn.pop_peek w.st _) hA
        have hone : closeAppendOne E p size keyPhase lvl sealer hdr pl packet w =
            (Result.ok { packet with buffer := buf,
                                     longHdrPackets := packet.longHdrPackets ++ [pkt] },
              (w.PopPacketNumber E lvl).2) := by
          unfold closeAppendOne
          simp only [hl, if_false]
          unfold appendLongIfPayload
          simp only
          rw [andThen_of_ok _ _ _ (congrArg Prod.fst hok)]
          simp only [hok]
        rw [andThen_of_ok _ _ _ (congrArg Prod.fst hone)]
        simp only [hone]
        exact ih _ _ (hnext _ rfl) hd2

theorem closeLongTypes_levels (b1 b2 b3 b4 : Bool) (f : EncryptionLevel → Bool)
    (h1 : f EncryptionLevel.EncryptionInitial = b1)
    (h2 : f EncryptionLevel.EncryptionHandshake = b2)
    (h3 : f EncryptionLevel.Encryption0RTT = b3) :
    closeLongTypes [(EncryptionLevel.EncryptionInitial, b1),
      (EncryptionLevel.EncryptionHandshake, b2), (EncryptionLevel.Encryption0RTT, b3),
      (EncryptionLevel.Encryption1RTT, b4)] =
    ([EncryptionLevel.EncryptionInitial, EncryptionLevel.EncryptionHandshake,
      EncryptionLevel.Encryption0RTT].filter f).map typeOfLevel := by
  cases b1 <;> cases b2 <;> cases b3 <;> cases b4 <;>
    simp [closeLongTypes, List.filter, h1, h2, h3]

theorem packConnectionClose_shape (E : Env σ) (p : packetPacker) (isApplicationError : Bool)
    (errorCode frameType : Nat) (reason : String) (r : EncryptionLevel → Except Error Sealer)
    (hG : ∀ encLevel (w : World σ), (getCloseSealer E encLevel w).1 = r encLevel)
    (w w1 : World σ) (c : coalescedPacket)
    (h : packConnectionClose E p isApplicationError errorCode frameType reason w =
      (Result.ok c, w1)) :
    c.longHdrPackets.map (fun lp => lp.header.Type_) =
      ([EncryptionLevel.EncryptionInitial, EncryptionLevel.EncryptionHandshake,
        EncryptionLevel.Encryption0RTT].filter (closeSends p r)).map typeOfLevel ∧
    c.shortHdrPacket.isSome = closeSends p r EncryptionLevel.Encryption1RTT ∧
    encLevels.filterMap (closeFatal p r) = [] := by
  unfold packConnectionClose at h
  rw [andThen_ok_iff] at h
  obtain ⟨L, hL, h⟩ := h
  have he := closeLevels_ok E p isApplicationError errorCode frameType reason encLevels {} L w _
    (Prod.ext hL rfl) (by intro l s hd pl hm; simp at hm)
  obtain ⟨a1, a2⟩ := closeLevels_shape E p isApplicationError errorCode frameType reason r hG
    encLevels {} L w _ (Prod.ext hL rfl)
  obtain ⟨b1, b2⟩ := closeAppend_shape E p _ _ _ _ _ _ _ h
    (fun l s hd pl hm => (he l s hd pl hm).2)
  simp only [List.map_nil, List.nil_append, encLevels, List.map_cons] at a1
  rw [a1] at b1 b2
  refine ⟨?_, ?_, a2⟩
  · rw [b1]
    exact closeLongTypes_levels _ _ _ _ (closeSends p r) rfl rfl rfl
  · rw [b2]
    simp [closeHasShort]

theorem packConnectionClose_fatal (E : Env σ) (p : packetPacker) (isApplicationError : Bool)
    (errorCode frameType : Nat) (reason : String) (r : EncryptionLevel → Except Error Sealer)
    (hG : ∀ encLevel (w : World σ), (getCloseSealer E encLevel w).1 = r encLevel)
    (w : World σ) (err : Error)
    (h : (encLevels.filterMap (closeFatal p r)).head? = some err) :
    (packConnectionClose E p isApplicationError errorCode frameType reason w).1 =
      Result.error err := by
  have h1 := closeLevels_fatal E p isApplicationError errorCode frameType reason r hG
    encLevels err {} w h
  unfold packConnectionClose andThen
  simp only [h1]

theorem packConnectionClose_total (E : Env σ) (p : packetPacker) (isApplicationError : Bool)
    (errorCode frameType : Nat) (reason : String) (r : EncryptionLevel → Except Error Sealer)
    (hG : ∀ encLevel (w : World σ), (getCloseSealer E encLevel w).1 = r encLevel)
    (w : World σ)
    (hNF : encLevels.filterMap (closeFatal p r) = [])
    (hPn : PnContract E) (hW : WireConsistent E p.version)
    (hConn : ∀ s s2, E.getDestConnID s = E.getDestConnID s2)
    (hLong : ∀ hdr, ∃ bytes, E.hdrWrite hdr p.version = Except.ok bytes)
    (hShort : ∀ connID pn pnLen kp, ∃ bytes, E.WriteShortHeader connID pn pnLen kp =
      Except.ok bytes)
    (hF : ∀ encLevel, FramesSerialise E p.version (closePayload E p
      (closeFrame E isApplicationError errorCode frameType reason encLevel)).frames)
    (hFit : ∀ (w2 : World σ) sealer, r EncryptionLevel.Encryption1RTT = Except.ok sealer →
      packetLength E p (getShortHeader E sealer.KeyPhase w2).1 (closePayload E p
        (closeFrame E isApplicationError errorCode frameType reason
          EncryptionLevel.Encryption1RTT)) + (sealer.Overhead : Int) ≤ p.maxPacketSize)
    (hExcl : ¬ (closeSends p r EncryptionLevel.Encryption0RTT = true ∧
      closeSends p r EncryptionLevel.Encryption1RTT = true)) :
    (∃ c w1, packConnectionClose E p isApplicationError errorCode frameType reason w =
      (Result.ok c, w1)) ∨
    (∃ w1, packConnectionClose E p isApplicationError errorCode frameType reason w =
      (Result.goPanic "slice bounds out of range", w1)) := by
  have hnone : ∀ l, closeFatal p r l = none := by
    intro l
    cases hc : closeFatal p r l with
    | none => rfl
    | some e =>
      exfalso
      have hm : e ∈ encLevels.filterMap (closeFatal p r) := by
        rw [List.mem_filterMap]
        exact ⟨l, by cases l <;> simp [encLevels], hc⟩
      rw [hNF] at hm
      simp at hm
  obtain ⟨L1, w1, o1, e1, n1, s1, k1, d1⟩ := closeLevel_run E p isApplicationError errorCode
    frameType reason r hG EncryptionLevel.EncryptionInitial {} w (hnone _)
  obtain ⟨L2, w2, o2, e2, n2, s2, k2, d2⟩ := closeLevel_run E p isApplicationError errorCode
    frameType reason r hG EncryptionLevel.EncryptionHandshake L1 w1 (hnone _)
  obtain ⟨L3, w3, o3, e3, n3, s3, k3, d3⟩ := closeLevel_run E p isApplicationError errorCode
    frameType reason r hG EncryptionLevel.Encryption0RTT L2 w2 (hnone _)
  obtain ⟨L4, w4, o4, e4, n4, s4, k4, d4⟩ := closeLevel_run E p isApplicationError errorCode
    frameType reason r hG EncryptionLevel.Encryption1RTT L3 w3 (hnone _)
  have hLv : closeLevels E p isApplicationError errorCode frameType reason encLevels {} w =
      (Result.ok L4, w4) := by
    simp only [encLevels, closeLevels]
    rw [andThen_of_ok _ _ _ (congrArg Prod.fst e1)]
    simp only [e1]
    rw [andThen_of_ok _ _ _ (congrArg Prod.fst e2)]
    simp only [e2]
    rw [andThen_of_ok _ _ _ (congrArg Prod.fst e3)]
    simp only [e3]
    rw [andThen_of_ok _ _ _ (congrArg Prod.fst e4)]
    simp only [e4]
  have hent : L4.entries = [(EncryptionLevel.EncryptionInitial, o1),
      (EncryptionLevel.EncryptionHandshake, o2), (EncryptionLevel.Encryption0RTT, o3),
      (EncryptionLevel.Encryption1RTT, o4)] := by
    rw [n4, n3, n2, n1]
    rfl
  have p4 := pnKept_trans (k4 hPn) (getPacketBuffer_pnKept E w4)
  have p3 := pnKept_trans (k3 hPn) p4
  have p2 := pnKept_trans (k2 hPn) p3
  have p1 := pnKept_trans (k1 hPn) p2
  have z1 := closeLevel_size E p isApplicationError errorCode frameType reason _ _ _ _ _ hW
    hLong hShort (hF _) e1 (le_refl 0)
  have z2 := closeLevel_size E p isApplicationError errorCode frameType reason _ _ _ _ _ hW
    hLong hShort (hF _) e2 z1
  have z3 := closeLevel_size E p isApplicationError errorCode frameType reason _ _ _ _ _ hW
    hLong hShort (hF _) e3 z2
  have z4 := closeLevel_size E p isApplicationError errorCode frameType reason _ _ _ _ _ hW
    hLong hShort (hF _) e4 z3
  unfold packConnectionClose
  rw [andThen_of_ok _ _ _ (congrArg Prod.fst hLv)]
  simp only [hLv]
  refine closeAppend_total E p _ _ hPn hW hConn hLong hShort z4 _ _ _ ?_ ?_
  · have hlen : ∀ l, (closePayload E p
        (closeFrame E isApplicationError errorCode frameType reason l)).length =
        framesLength E p.version (closePayload E p
          (closeFrame E isApplicationError errorCode frameType reason l)).frames := by
      intro l; simp [closePayload, framesLength]
    intro l sealer hdr pl hm
    rw [hent] at hm
    simp only [List.mem_cons, Prod.mk.injEq, List.mem_singleton, List.not_mem_nil,
      or_false] at hm
    rcases hm with ⟨hl, ho⟩ | ⟨hl, ho⟩ | ⟨hl, ho⟩ | ⟨hl, ho⟩
    · subst hl
      obtain ⟨-, q2, q3, q4, -⟩ := d1 sealer hdr pl ho.symm
      subst q2
      refine ⟨?_, q4, hF _, rfl, hlen _, fun hx => absurd hx (by decide)⟩
      rw [q3 hPn]
      exact (congrArg Prod.fst (p1 _)).symm
    · subst hl
      obtain ⟨-, q2, q3, q4, -⟩ := d2 sealer hdr pl ho.symm
      subst q2
      refine ⟨?_, q4, hF _, rfl, hlen _, fun hx => absurd hx (by decide)⟩
      rw [q3 hPn]
      exact (congrArg Prod.fst (p2 _)).symm
    · subst hl
      obtain ⟨-, q2, q3, q4, -⟩ := d3 sealer hdr pl ho.symm
      subst q2
      refine ⟨?_, q4, hF _, rfl, hlen _, fun hx => absurd hx (by decide)⟩
      rw [q3 hPn]
      exact (congrArg Prod.fst (p3 _)).symm
    · subst hl
      obtain ⟨q1, q2, q3, q4, q5⟩ := d4 sealer hdr pl ho.symm
      subst q2
      obtain ⟨q6, w5, q7⟩ := q5 rfl
      refine ⟨(q3 hPn).trans (congrArg Prod.fst (p4 _)).symm, q4, hF _, rfl, hlen _,
        fun _ => ⟨⟨w5, by rw [q6]; exact q7⟩, ?_⟩⟩
      rw [q7]
      exact hFit w5 sealer q1
  · rw [hent]
    simp only [List.pairwise_cons, List.mem_cons, List.mem_singleton, List.not_mem_nil,
      or_false, forall_eq_or_imp, forall_eq, List.Pairwise.nil, and_true]
    refine ⟨⟨fun _ _ => by decide, fun _ _ => by decide, fun _ _ => by decide⟩,
      ⟨fun _ _ => by decide, fun _ _ => by decide⟩, ?_⟩
    refine ⟨fun h3 h4 => absurd ⟨s3 ▸ h3, s4 ▸ h4⟩ hExcl, fun _ hf => hf.elim⟩

theorem mockEnv_getCloseSealer (m : Mock) (encLevel : EncryptionLevel) (w : World Sim) :
    (getCloseSealer (mockEnv m) encLevel w).1 = mockKeys m encLevel := by
  cases encLevel <;> rfl

theorem mockEnv_closeFits (m : Mock) (persp : Perspective) (maxPacketSize : Int)
    (reason : String)
    (hmax : 26 + (reason.length : Int) ≤ maxPacketSize) (isApplicationError : Bool)
    (errorCode frameType : Nat) (w2 : World Sim) (sealer : Sealer)
    (h : mockKeys m EncryptionLevel.Encryption1RTT = Except.ok sealer) :
    packetLength (mockEnv m) (simPacker persp maxPacketSize)
      (getShortHeader (mockEnv m) sealer.KeyPhase w2).1
      (closePayload (mockEnv m) (simPacker persp maxPacketSize)
        (closeFrame (mockEnv m) isApplicationError errorCode frameType reason
          EncryptionLevel.Encryption1RTT)) + (sealer.Overhead : Int) ≤
      (simPacker persp maxPacketSize).maxPacketSize := by
  have hs : sealer = simSealer := by
    unfold mockKeys simKeys at h
    simp only at h
    split at h
    · simp only [Except.ok.injEq] at h; exact h.symm
    · simp at h
  subst hs
  simp [packetLength, getShortHeader, mockEnv, simEnv, simHdrLength, World.PeekPacketNumber,
    closePayload, closeFrame, simFrameLength, simSealer, simPacker]
  omega

/-! ## The errors of `PackCoalescedPacket` -/

theorem andThen_error {α β : Type} (r : Result α × World σ)
    (f : α → World σ → Result β × World σ) (e : Error)
    (h : (andThen r f).1 = Result.error e) :
    r.1 = Result.error e ∨ ∃ a, r.1 = Result.ok a ∧ (f a r.2).1 = Result.error e := by
  unfold andThen at h
  split at h <;> rename_i hr
  · exact Or.inr ⟨_, hr, h⟩
  · simp only [Result.error.injEq] at h; subst h; exact Or.inl hr
  · simp at h
  · simp at h

theorem andThenP_error {α β : Type} (r : Result α × packetPacker × World σ)
    (f : α → packetPacker → World σ → Result β × packetPacker × World σ) (e : Error)
    (h : (andThenP r f).1 = Result.error e) :
    r.1 = Result.error e ∨ ∃ a, r.1 = Result.ok a ∧ (f a r.2.1 r.2.2).1 = Result.error e := by
  unfold andThenP at h
  split at h <;> rename_i hr
  · exact Or.inr ⟨_, hr, h⟩
  · simp only [Result.error.injEq] at h; subst h; exact Or.inl hr
  · simp at h
  · simp at h

theorem cryptoRetransmissionLoop_noError (E : Env σ) (p : packetPacker)
    (encLevel : EncryptionLevel) (e : Error) (fuel : Nat) :
    ∀ (pl : payload) (maxPacketSize : Int) (w : World σ),
      (cryptoRetransmissionLoop E p encLevel fuel pl maxPacketSize w).1 ≠ Result.error e := by
  induction fuel with
  | zero => intro pl m w h; simp [cryptoRetransmissionLoop] at h
  | succ n ih =>
    intro pl m w h
    unfold cryptoRetransmissionLoop at h
    simp only at h
    split at h
    · simp at h
    · exact ih _ _ _ h

theorem maybeGetCryptoPacket_noError (E : Env σ) (p : packetPacker) (fuel : Nat)
    (maxPacketSize : Int) (encLevel : EncryptionLevel) (onlyAck ackAllowed : Bool)
    (w : World σ) (e : Error) :
    (maybeGetCryptoPacket E p fuel maxPacketSize encLevel onlyAck ackAllowed w).1 ≠
      Result.error e := by
  intro h
  unfold maybeGetCryptoPacket at h
  split at h
  · simp only at h
    split at h <;> simp at h
  · split at h
    · simp at h
    · rename_i hr heq
      simp only at h
      generalize (if ackAllowed = true then
          (hr.2.streamHasData E encLevel).2.GetAckFrame E encLevel
            (!hr.1 && !(hr.2.streamHasData E encLevel).1)
          else (none, (hr.2.streamHasData E encLevel).2)) = a at h
      split at h
      · simp at h
      · split at h
        · rcases andThen_error _ _ _ h with h1 | ⟨pl, -, h2⟩
          · exact cryptoRetransmissionLoop_noError E p encLevel e fuel _ _ _ h1
          · simp at h2
        · split at h <;> simp at h

theorem appDataRetransmissionLoop_noError (E : Env σ) (p : packetPacker) (maxFrameSize : Int)
    (e : Error) (fuel : Nat) :
    ∀ (pl : payload) (w : World σ),
      (appDataRetransmissionLoop E p maxFrameSize fuel pl w).1 ≠ Result.error e := by
  induction fuel with
  | zero => intro pl w h; simp [appDataRetransmissionLoop] at h
  | succ n ih =>
    intro pl w h
    unfold appDataRetransmissionLoop at h
    simp only at h
    split at h
    · simp at h
    · split at h
      · simp at h
      · exact ih _ _ h

theorem composeNextPacket_noError (E : Env σ) (p : packetPacker) (fuel : Nat)
    (maxFrameSize : Int) (onlyAck ackAllowed : Bool) (w : World σ) (e : Error) :
    (composeNextPacket E p fuel maxFrameSize onlyAck ackAllowed w).1 ≠ Result.error e := by
  intro h
  unfold composeNextPacket at h
  split at h
  · simp only at h
    split at h <;> simp at h
  · simp only at h
    generalize (if ackAllowed = true then
        ((w.framerHasData E).2.HasAppData E).2.GetAckFrame E EncryptionLevel.Encryption1RTT
          (!((w.framerHasData E).2.HasAppData E).1 && !(w.framerHasData E).1)
        else (none, ((w.framerHasData E).2.HasAppData E).2)) = a at h
    split at h
    · simp at h
    · rcases andThen_error _ _ _ h with h1 | ⟨pl, -, h2⟩
      · split at h1
        · exact appDataRetransmissionLoop_noError E p maxFrameSize e fuel _ _ h1
        · simp at h1
      · simp at h2

theorem maybeGetAppDataPacket_noError (E : Env σ) (p : packetPacker) (fuel : Nat)
    (maxPayloadSize : Int) (onlyAck ackAllowed : Bool) (w : World σ) (e : Error) :
    (maybeGetAppDataPacket E p fuel maxPayloadSize onlyAck ackAllowed w).1 ≠ Result.error e := by
  intro h
  unfold maybeGetAppDataPacket at h
  rcases andThenP_error _ _ _ h with h1 | ⟨pl, -, h2⟩
  · exact composeNextPacket_noError E p fuel maxPayloadSize onlyAck ackAllowed w e h1
  · simp at h2

theorem getAppDataPacket_noError (E : Env σ) (p : packetPacker) (fuel : Nat)
    (appDataEncLevel : EncryptionLevel) (appDataSealer : Sealer) (maxPacketSize size : Int)
    (onlyAck : Bool) (w : World σ) (e : Error) :
    (getAppDataPacket E p fuel appDataEncLevel appDataSealer maxPacketSize size onlyAck w).1 ≠
      Result.error e := by
  intro h
  unfold getAppDataPacket at h
  split at h
  · unfold maybeGetAppDataPacketFor0RTT at h
    split at h
    · simp at h
    · rcases andThenP_error _ _ _ h with h1 | ⟨pl, -, h2⟩
      · exact maybeGetAppDataPacket_noError E p fuel _ _ _ _ e h1
      · simp at h2
  · unfold maybeGetShortHeaderPacket at h
    rcases andThenP_error _ _ _ h with h1 | ⟨pl, -, h2⟩
    · exact maybeGetAppDataPacket_noError E p fuel _ _ _ _ e h1
    · simp at h2
  · simp at h

theorem packAppDataStage_noError (E : Env σ) (p : packetPacker) (fuel : Nat)
    (maxPacketSize : Int) (onlyAck : Bool) (L : coalescedLocals) (w : World σ) (e : Error) :
    (packAppDataStage E p fuel maxPacketSize onlyAck L w).1 ≠ Result.error e := by
  intro h
  unfold packAppDataStage at h
  split at h
  · simp only at h
    split at h
    · simp at h
    · rcases andThenP_error _ _ _ h with h1 | ⟨pl, -, h2⟩
      · exact getAppDataPacket_noError E p fuel _ _ _ _ _ _ e h1
      · simp at h2
  · simp at h

theorem packInitialStage_error (E : Env σ) (p : packetPacker) (fuel : Nat)
    (maxPacketSize : Int) (onlyAck : Bool) (w : World σ) (e : Error)
    (h : (packInitialStage E p fuel maxPacketSize onlyAck w).1 = Result.error e) :
    (E.GetInitialSealer w.st).1 = Except.error e ∧ e ≠ Error.ErrKeysDropped := by
  unfold packInitialStage at h
  simp only at h
  split at h
  · rename_i e1 he
    split at h
    · rename_i hne
      simp only [Result.error.injEq] at h
      subst h
      exact ⟨he, hne⟩
    · simp at h
  · rcases andThen_error _ _ _ h with h1 | ⟨r, -, h2⟩
    · exact absurd h1 (maybeGetCryptoPacket_noError E p fuel _ _ _ _ _ e)
    · exfalso
      unfold recordInitial at h2
      simp only at h2
      split at h2
      · split at h2 <;> simp at h2
      · simp at h2

theorem packHandshakeStage_error (E : Env σ) (p : packetPacker) (fuel : Nat)
    (maxPacketSize : Int) (onlyAck : Bool) (L : coalescedLocals) (w : World σ) (e : Error)
    (h : (packHandshakeStage E p fuel maxPacketSize onlyAck L w).1 = Result.error e) :
    (E.GetHandshakeSealer w.st).1 = Except.error e ∧ e ≠ Error.ErrKeysDropped ∧
      e ≠ Error.ErrKeysNotYetAvailable := by
  unfold packHandshakeStage at h
  split at h
  · simp only at h
    split at h
    · rename_i e1 he
      split at h
      · rename_i hne
        simp only [Result.error.injEq] at h
        subst h
        exact ⟨he, hne⟩
      · simp at h
    · rcases andThen_error _ _ _ h with h1 | ⟨r, -, h2⟩
      · exact absurd h1 (maybeGetCryptoPacket_noError E p fuel _ _ _ _ _ e)
      · exfalso
        unfold recordHandshake at h2
        simp only at h2
        split at h2
        · split at h2 <;> simp at h2
        · simp at h2
  · simp at h

theorem getLongHeader_type (E : Env σ) (p : packetPacker) (encLevel : EncryptionLevel)
    (w : World σ) : (getLongHeader E p encLevel w).1.Type_ = typeOfLevel encLevel := by
  cases encLevel <;> rfl

theorem maybeGetCryptoPacket_type (E : Env σ) (p : packetPacker) (fuel : Nat)
    (maxPacketSize : Int) (encLevel : EncryptionLevel) (onlyAck ackAllowed : Bool)
    (w w1 : World σ) (r : Option ExtendedHeader × Option payload)
    (h : maybeGetCryptoPacket E p fuel maxPacketSize encLevel onlyAck ackAllowed w =
      (Result.ok r, w1)) :
    ∀ hdr, r.1 = some hdr → hdr.Type_ = typeOfLevel encLevel := by
  have key : ∀ (w2 : World σ) hdr, some (getLongHeader E p encLevel w2).1 = some hdr →
      hdr.Type_ = typeOfLevel encLevel := by
    intro w2 hdr hh
    simp only [Option.some.injEq] at hh
    rw [← hh]
    exact getLongHeader_type E p encLevel w2
  unfold maybeGetCryptoPacket at h
  split at h
  · simp only at h
    split at h
    · simp only [Prod.mk.injEq, Result.ok.injEq] at h
      rw [← h.1]
      exact key _
    · simp only [Prod.mk.injEq, Result.ok.injEq] at h
      rw [← h.1]
      intro hdr hh; simp at hh
  · split at h
    · simp at h
    · rename_i hr heq
      simp only at h
      generalize (if ackAllowed = true then
          (hr.2.streamHasData E encLevel).2.GetAckFrame E encLevel
            (!hr.1 && !(hr.2.streamHasData E encLevel).1)
          else (none, (hr.2.streamHasData E encLevel).2)) = a at h
      split at h
      · simp only [Prod.mk.injEq, Result.ok.injEq] at h
        rw [← h.1]
        intro hdr hh; simp at hh
      · split at h
        · rw [andThen_ok_iff] at h
          obtain ⟨pl, -, h2⟩ := h
          simp only [Prod.mk.injEq, Result.ok.injEq] at h2
          rw [← h2.1]
          exact key _
        · split at h
          · simp only [Prod.mk.injEq, Result.ok.injEq] at h
            rw [← h.1]
            exact key _
          · simp only [Prod.mk.injEq, Result.ok.injEq] at h
            rw [← h.1]
            exact key _

theorem packInitialStage_levels (E : Env σ) (p : packetPacker) (fuel : Nat)
    (maxPacketSize : Int) (onlyAck : Bool) (w w1 : World σ) (L : coalescedLocals)
    (h : packInitialStage E p fuel maxPacketSize onlyAck w = (Result.ok L, w1)) :
    L.handshakeHdr = none ∧ L.handshakePayload = none ∧ L.appDataHdr = none ∧
    L.appDataPayload = none ∧ L.appDataEncLevel = EncryptionLevel.Encryption1RTT ∧
    (∀ hdr, L.initialHdr = some hdr → hdr.Type_ = PacketType.PacketTypeInitial) ∧
    ((∃ e, (E.GetInitialSealer w.st).1 = Except.error e) → L.initialPayload = none) := by
  unfold packInitialStage at h
  simp only at h
  split at h
  · split at h
    · simp at h
    · simp only [Prod.mk.injEq, Result.ok.injEq] at h
      rw [← h.1]
      simp
  · rename_i s hs
    rw [andThen_ok_iff] at h
    obtain ⟨r, hr, h2⟩ := h
    have ht := maybeGetCryptoPacket_type E p fuel _ _ _ _ _ _ r (Prod.ext hr rfl)
    have hne : ¬ ∃ e, (E.GetInitialSealer w.st).1 = Except.error e := by
      intro ⟨e, he⟩
      have : (w.GetInitialSealer E).1 = Except.error e := he
      rw [this] at hs
      simp at hs
    simp only [Prod.mk.injEq] at h2
    obtain ⟨h2, -⟩ := h2
    unfold recordInitial at h2
    split at h2
    · split at h2
      · simp only [Result.ok.injEq] at h2
        rw [← h2]
        exact ⟨rfl, rfl, rfl, rfl, rfl, ht, fun hx => absurd hx hne⟩
      · simp at h2
    · simp only [Result.ok.injEq] at h2
      rw [← h2]
      exact ⟨rfl, rfl, rfl, rfl, rfl, ht, fun hx => absurd hx hne⟩

theorem packHandshakeStage_levels (E : Env σ) (p : packetPacker) (fuel : Nat)
    (maxPacketSize : Int) (onlyAck : Bool) (L L1 : coalescedLocals) (w w1 : World σ)
    (h : packHandshakeStage E p fuel maxPacketSize onlyAck L w = (Result.ok L1, w1)) :
    L1.initialHdr = L.initialHdr ∧ L1.initialPayload = L.initialPayload ∧
    L1.appDataHdr = L.appDataHdr ∧ L1.appDataPayload = L.appDataPayload ∧
    L1.appDataEncLevel = L.appDataEncLevel ∧
    (∀ hdr, L1.handshakeHdr = some hdr →
      hdr.Type_ = PacketType.PacketTypeHandshake ∨ L.handshakeHdr = some hdr) ∧
    ((∃ e, (E.GetHandshakeSealer w.st).1 = Except.error e) →
      L1.handshakePayload = L.handshakePayload) := by
  unfold packHandshakeStage at h
  split at h
  · simp only at h
    split at h
    · split at h
      · simp at h
      · simp only [Prod.mk.injEq, Result.ok.injEq] at h
        rw [← h.1]
        exact ⟨rfl, rfl, rfl, rfl, rfl, fun hdr hh => Or.inr hh, fun _ => rfl⟩
    · rename_i s hs
      rw [andThen_ok_iff] at h
      obtain ⟨r, hr, h2⟩ := h
      have ht := maybeGetCryptoPacket_type E p fuel _ _ _ _ _ _ r (Prod.ext hr rfl)
      have hne : ¬ ∃ e, (E.GetHandshakeSealer w.st).1 = Except.error e := by
        intro ⟨e, he⟩
        have : (w.GetHandshakeSealer E).1 = Except.error e := he
        rw [this] at hs
        simp at hs
      simp only [Prod.mk.injEq] at h2
      obtain ⟨h2, -⟩ := h2
      unfold recordHandshake at h2
      split at h2
      · split at h2
        · simp only [Result.ok.injEq] at h2
          rw [← h2]
          exact ⟨rfl, rfl, rfl, rfl, rfl, fun hdr hh => Or.inl (ht hdr hh),
            fun hx => absurd hx hne⟩
        · simp at h2
      · simp only [Result.ok.injEq] at h2
        rw [← h2]
        exact ⟨rfl, rfl, rfl, rfl, rfl, fun hdr hh => Or.inl (ht hdr hh),
          fun hx => absurd hx hne⟩
  · simp only [Prod.mk.injEq, Result.ok.injEq] at h
    rw [← h.1]
    exact ⟨rfl, rfl, rfl, rfl, rfl, fun hdr hh => Or.inr hh, fun _ => rfl⟩

theorem recordAppData_fields (E : Env σ) (p : packetPacker) (L : coalescedLocals)
    (lvl : EncryptionLevel) (sealer : Sealer) (hdr : Option ExtendedHeader)
    (pl : Option payload) :
    (recordAppData E p L lvl sealer hdr pl).appDataEncLevel = lvl ∧
    (recordAppData E p L lvl sealer hdr pl).appDataHdr = hdr ∧
    (recordAppData E p L lvl sealer hdr pl).appDataPayload = pl ∧
    (recordAppData E p L lvl sealer hdr pl).initialHdr = L.initialHdr ∧
    (recordAppData E p L lvl sealer hdr pl).initialPayload = L.initialPayload ∧
    (recordAppData E p L lvl sealer hdr pl).handshakeHdr = L.handshakeHdr ∧
    (recordAppData E p L lvl sealer hdr pl).handshakePayload = L.handshakePayload := by
  unfold recordAppData
  cases hdr <;> cases pl <;> exact ⟨rfl, rfl, rfl, rfl, rfl, rfl, rfl⟩

theorem getAppDataSealer_0RTT (E : Env σ) (p : packetPacker) (w : World σ) (sealer : Sealer)
    (h1 : ∀ s, ∃ e, (E.Get1RTTSealer s).1 = Except.error e)
    (h : (getAppDataSealer E p w).1 = Except.ok sealer) :
    (getAppDataSealer E p w).2.1 = EncryptionLevel.Encryption0RTT := by
  obtain ⟨e, he⟩ := h1 w.st
  have he2 : (w.Get1RTTSealer E).1 = Except.error e := he
  unfold getAppDataSealer at h ⊢
  simp only [he2] at h ⊢
  split
  · rfl
  · rename_i hc
    rw [if_neg hc] at h
    simp at h

theorem getAppDataSealer_1RTT (E : Env σ) (p : packetPacker) (w : World σ) (sealer : Sealer)
    (h0 : ∀ s, ∃ e, (E.Get0RTTSealer s).1 = Except.error e)
    (h : (getAppDataSealer E p w).1 = Except.ok sealer) :
    (getAppDataSealer E p w).2.1 = EncryptionLevel.Encryption1RTT := by
  unfold getAppDataSealer at h ⊢
  simp only at h ⊢
  split
  · rfl
  · rename_i e he
    simp only [he] at h
    split
    · rename_i hc
      rw [if_pos hc] at h
      obtain ⟨e0, he0⟩ := h0 (w.Get1RTTSealer E).2.st
      have : ((w.Get1RTTSealer E).2.Get0RTTSealer E).1 = Except.error e0 := he0
      rw [this] at h
      simp at h
    · rfl

theorem getAppDataPacket_type (E : Env σ) (p p1 : packetPacker) (fuel : Nat)
    (sealer : Sealer) (maxPacketSize size : Int) (onlyAck : Bool) (w w1 : World σ)
    (r : Option ExtendedHeader × Option payload)
    (h : getAppDataPacket E p fuel EncryptionLevel.Encryption0RTT sealer maxPacketSize size
      onlyAck w = (Result.ok r, p1, w1)) :
    ∀ hdr, r.1 = some hdr → hdr.Type_ = PacketType.PacketType0RTT := by
  unfold getAppDataPacket at h
  simp only at h
  unfold maybeGetAppDataPacketFor0RTT at h
  split at h
  · simp only [Prod.mk.injEq, Result.ok.injEq] at h
    rw [← h.1]
    intro hdr hh; simp at hh
  · rw [andThenP_ok_iff] at h
    obtain ⟨pl, -, h2⟩ := h
    simp only [Prod.mk.injEq, Result.ok.injEq] at h2
    rw [← h2.1]
    intro hdr hh
    simp only [Option.some.injEq] at hh
    rw [← hh]
    exact getLongHeader_type E p EncryptionLevel.Encryption0RTT w

theorem packAppDataStage_levels (E : Env σ) (p p1 : packetPacker) (fuel : Nat)
    (maxPacketSize : Int) (onlyAck : Bool) (L L1 : coalescedLocals) (w w1 : World σ)
    (h : packAppDataStage E p fuel maxPacketSize onlyAck L w = (Result.ok L1, p1, w1)) :
    L1.initialHdr = L.initialHdr ∧ L1.initialPayload = L.initialPayload ∧
    L1.handshakeHdr = L.handshakeHdr ∧ L1.handshakePayload = L.handshakePayload ∧
    (L1.appDataEncLevel = EncryptionLevel.Encryption0RTT → ∀ hdr, L1.appDataHdr = some hdr →
      hdr.Type_ = PacketType.PacketType0RTT ∨ L.appDataHdr = some hdr) ∧
    ((∀ s, ∃ e, (E.Get1RTTSealer s).1 = Except.error e) →
      L1.appDataEncLevel = EncryptionLevel.Encryption0RTT ∨
        L1.appDataPayload = L.appDataPayload) ∧
    ((∀ s, ∃ e, (E.Get0RTTSealer s).1 = Except.error e) →
      L1.appDataEncLevel ≠ EncryptionLevel.Encryption0RTT ∨
        L1.appDataPayload = L.appDataPayload) := by
  unfold packAppDataStage at h
  split at h
  · simp only at h
    split at h
    · simp only [Prod.mk.injEq, Result.ok.injEq] at h
      rw [← h.1]
      exact ⟨rfl, rfl, rfl, rfl, fun _ hdr hh => Or.inr hh, fun _ => Or.inr rfl,
        fun _ => Or.inr rfl⟩
    · rename_i sealer hs
      rw [andThenP_ok_iff] at h
      obtain ⟨r, hr, h2⟩ := h
      simp only [Prod.mk.injEq, Result.ok.injEq] at h2
      obtain ⟨f1, f2, f3, f4, f5, f6, f7⟩ := recordAppData_fields E
        (getAppDataPacket E p fuel (getAppDataSealer E p w).2.1 sealer maxPacketSize L.size
          onlyAck (getAppDataSealer E p w).2.2).2.1 L (getAppDataSealer E p w).2.1 sealer r.1 r.2
      rw [← h2.1]
      refine ⟨f4, f5, f6, f7, ?_, ?_, ?_⟩
      · intro hl hdr hh
        rw [f1] at hl
        rw [f2] at hh
        rw [hl] at hr
        exact Or.inl (getAppDataPacket_type E p _ fuel sealer maxPacketSize L.size onlyAck _ _ r
          (Prod.ext hr rfl) hdr hh)
      · intro h1
        rw [f1]
        exact Or.inl (getAppDataSealer_0RTT E p w sealer h1 hs)
      · intro h0
        rw [f1, getAppDataSealer_1RTT E p w sealer h0 hs]
        exact Or.inl (by decide)
  · simp only [Prod.mk.injEq, Result.ok.injEq] at h
    rw [← h.1]
    exact ⟨rfl, rfl, rfl, rfl, fun _ hdr hh => Or.inr hh, fun _ => Or.inr rfl,
      fun _ => Or.inr rfl⟩

theorem assembleCoalesced_packets (E : Env σ) (p : packetPacker) (L : coalescedLocals)
    (w w1 : World σ) (c : coalescedPacket)
    (h : assembleCoalesced E p L w = (Result.ok c, w1)) :
    (∀ lp ∈ c.longHdrPackets,
      (∃ hdr, L.initialHdr = some hdr ∧ L.initialPayload ≠ none ∧
        lp.header.Type_ = hdr.Type_) ∨
      (∃ hdr, L.handshakeHdr = some hdr ∧ L.handshakePayload ≠ none ∧
        lp.header.Type_ = hdr.Type_) ∨
      (∃ hdr, L.appDataHdr = some hdr ∧ L.appDataPayload ≠ none ∧
        L.appDataEncLevel = EncryptionLevel.Encryption0RTT ∧ lp.header.Type_ = hdr.Type_)) ∧
    (∀ sp, c.shortHdrPacket = some sp →
      L.appDataPayload ≠ none ∧ L.appDataEncLevel ≠ EncryptionLevel.Encryption0RTT) := by
  have step : ∀ (hdr : Option ExtendedHeader) (pl : Option payload) (padding : payload → Int)
      (encLevel : EncryptionLevel) (sealer : Option Sealer) (packet packet1 : coalescedPacket)
      (wa wb : World σ),
      appendLongIfPayload E p hdr pl padding encLevel sealer packet wa =
        (Result.ok packet1, wb) →
      packet1.shortHdrPacket = packet.shortHdrPacket ∧
      ∀ lp ∈ packet1.longHdrPackets, lp ∈ packet.longHdrPackets ∨
        ∃ hdrv, hdr = some hdrv ∧ pl ≠ none ∧ lp.header.Type_ = hdrv.Type_ := by
    intro hdr pl padding encLevel sealer packet packet1 wa wb hh
    refine ⟨appendLongIfPayload_short E p _ _ _ _ _ _ _ _ _ hh, ?_⟩
    rcases appendLongIfPayload_ok E p _ _ _ _ _ _ _ _ _ hh with
      ⟨-, h2, -⟩ | ⟨plv, hdrv, sealerv, cont, buf, e1, e2, e3, a1, a2⟩
    · rw [h2]; intro lp hlp; exact Or.inl hlp
    · obtain ⟨-, hdrBytes, raw, -, -, -, -, -, -, -, b8, -⟩ :=
        appendLongHeaderPacket_ok E p _ _ _ _ _ _ _ _ cont buf a1
      rw [a2]
      intro lp hlp
      simp only [List.mem_append, List.mem_singleton] at hlp
      rcases hlp with hlp | hlp
      · exact Or.inl hlp
      · subst hlp
        exact Or.inr ⟨hdrv, e2, by rw [e1]; simp, by rw [b8]⟩
  unfold assembleCoalesced at h
  simp only at h
  rw [andThen_ok_iff] at h
  obtain ⟨c1, h1, h⟩ := h
  rw [andThen_ok_iff] at h
  obtain ⟨c2, h2, h⟩ := h
  obtain ⟨s1, l1⟩ := step _ _ _ _ _ _ _ _ _ (Prod.ext h1 rfl)
  obtain ⟨s2, l2⟩ := step _ _ _ _ _ _ _ _ _ (Prod.ext h2 rfl)
  have hc2 : ∀ lp ∈ c2.longHdrPackets,
      (∃ hdr, L.initialHdr = some hdr ∧ L.initialPayload ≠ none ∧
        lp.header.Type_ = hdr.Type_) ∨
      (∃ hdr, L.handshakeHdr = some hdr ∧ L.handshakePayload ≠ none ∧
        lp.header.Type_ = hdr.Type_) ∨
      (∃ hdr, L.appDataHdr = some hdr ∧ L.appDataPayload ≠ none ∧
        L.appDataEncLevel = EncryptionLevel.Encryption0RTT ∧ lp.header.Type_ = hdr.Type_) := by
    intro lp hlp
    rcases l2 lp hlp with hlp1 | hx
    · rcases l1 lp hlp1 with hlp0 | hx
      · simp at hlp0
      · exact Or.inl hx
    · exact Or.inr (Or.inl hx)
  have hs2 : c2.shortHdrPacket = none := by rw [s2, s1]
  unfold appendAppData at h
  split at h
  · simp only [Prod.mk.injEq, Result.ok.injEq] at h
    rw [← h.1]
    exact ⟨hc2, fun sp hsp => by rw [hs2] at hsp; simp at hsp⟩
  · rename_i pl hpl
    split at h
    · rename_i hl
      obtain ⟨s3, l3⟩ := step _ _ _ _ _ _ _ _ _ h
      constructor
      · intro lp hlp
        rcases l3 lp hlp with hlp2 | ⟨hdrv, e1, e2, e3⟩
        · exact hc2 lp hlp2
        · exact Or.inr (Or.inr ⟨hdrv, e1, by rw [hpl]; simp, hl, e3⟩)
      · intro sp hsp
        rw [s3, hs2] at hsp
        simp at hsp
    · rename_i hl
      obtain ⟨hdrv, sealerv, sp, buf, -, -, -, a2⟩ :=
        appendShortToPacket_ok E p _ _ _ _ _ _ _ _ _ h
      rw [a2]
      exact ⟨hc2, fun _ _ => ⟨by rw [hpl]; simp, hl⟩⟩

theorem appendFrames_error (E : Env σ) (p : packetPacker) (e : Error) (frames : List Frame) :
    ∀ (raw : List UInt8), appendFrames E p raw frames = Except.error e →
      ∃ f v, E.frameAppend f v = Except.error e := by
  induction frames with
  | nil => intro raw h; simp [appendFrames] at h
  | cons f rest ih =>
    intro raw h
    unfold appendFrames at h
    split at h
    · rename_i e1 he
      simp only [Except.error.injEq] at h
      subst h
      exact ⟨_, _, he⟩
    · exact ih _ h

theorem appendPacketPayload_error (E : Env σ) (p : packetPacker) (raw : List UInt8)
    (pl : payload) (paddingLen : Int) (e : Error)
    (h : appendPacketPayload E p raw pl paddingLen = Except.error e) :
    WireError E e ∨ BugError e := by
  unfold appendPacketPayload at h
  simp only at h
  split at h
  · rename_i e1 he
    simp only [Except.error.injEq] at h
    subst h
    split at he
    · split at he
      · rename_i e2 he2
        simp only [Except.error.injEq] at he
        subst he
        exact Or.inl (Or.inr (Or.inr (Or.inr ⟨_, _, he2⟩)))
      · simp at he
    · simp at he
  · split at h
    · rename_i e1 he
      simp only [Except.error.injEq] at h
      subst h
      exact Or.inl (Or.inr (Or.inr (Or.inl (appendFrames_error E p _ _ _ he))))
    · split at h
      · simp only [Except.error.injEq] at h
        exact Or.inr (Or.inr (Or.inr ⟨_, _, h.symm⟩))
      · simp at h

theorem appendLongHeaderPacket_error (E : Env σ) (p : packetPacker) (buffer : packetBuffer)
    (header : ExtendedHeader) (pl : payload) (padding : Int) (encLevel : EncryptionLevel)
    (sealer : Sealer) (w : World σ) (e : Error)
    (h : (appendLongHeaderPacket E p buffer header pl padding encLevel sealer w).1 =
      Result.error e) :
    WireError E e ∨ BugError e := by
  unfold appendLongHeaderPacket at h
  split at h
  · simp at h
  · simp only at h
    split at h
    · rename_i e1 he
      simp only [Result.error.injEq] at h
      subst h
      exact Or.inl (Or.inl ⟨_, _, he⟩)
    · split at h
      · simp only [Result.error.injEq] at h
        exact Or.inr (Or.inl h.symm)
      · split at h
        · rename_i e1 he
          simp only [Result.error.injEq] at h
          subst h
          exact appendPacketPayload_error E p _ _ _ _ he
        · simp at h

theorem appendShortHeaderPacket_error (E : Env σ) (p : packetPacker) (buffer : packetBuffer)
    (pn : PacketNumber) (pnLen : PacketNumberLen) (kp : KeyPhaseBit) (pl : payload)
    (padding : Int) (sealer : Sealer) (isMTUProbePacket : Bool) (w : World σ) (e : Error)
    (h : (appendShortHeaderPacket E p buffer pn pnLen kp pl padding sealer isMTUProbePacket
      w).1 = Result.error e) :
    WireError E e ∨ BugError e := by
  unfold appendShortHeaderPacket at h
  simp only at h
  split at h
  · rename_i e1 he
    simp only [Result.error.injEq] at h
    subst h
    exact Or.inl (Or.inr (Or.inl ⟨_, _, _, _, he⟩))
  · split at h
    · simp only [Result.error.injEq] at h
      exact Or.inr (Or.inl h.symm)
    · split at h
      · rename_i e1 he
        simp only [Result.error.injEq] at h
        subst h
        exact appendPacketPayload_error E p _ _ _ _ he
      · split at h
        · simp only [Result.error.injEq] at h
          exact Or.inr (Or.inr (Or.inl ⟨_, _, h.symm⟩))
        · split at h <;> simp at h

theorem appendLongIfPayload_error (E : Env σ) (p : packetPacker) (hdr : Option ExtendedHeader)
    (pl : Option payload) (padding : payload → Int) (encLevel : EncryptionLevel)
    (sealer : Option Sealer) (packet : coalescedPacket) (w : World σ) (e : Error)
    (h : (appendLongIfPayload E p hdr pl padding encLevel sealer packet w).1 =
      Result.error e) :
    WireError E e ∨ BugError e := by
  unfold appendLongIfPayload at h
  split at h
  · simp at h
  · split at h
    · rcases andThen_error _ _ _ h with h1 | ⟨a, -, h2⟩
      · exact appendLongHeaderPacket_error E p _ _ _ _ _ _ _ e h1
      · simp at h2
    · simp at h

theorem appendShortToPacket_error (E : Env σ) (p : packetPacker) (hdr : Option ExtendedHeader)
    (kp : KeyPhaseBit) (pl : payload) (padding : Int) (sealer : Option Sealer)
    (packet : coalescedPacket) (w : World σ) (e : Error)
    (h : (appendShortToPacket E p hdr kp pl padding sealer packet w).1 = Result.error e) :
    WireError E e ∨ BugError e := by
  unfold appendShortToPacket at h
  split at h
  · rcases andThen_error _ _ _ h with h1 | ⟨a, -, h2⟩
    · exact appendShortHeaderPacket_error E p _ _ _ _ _ _ _ _ _ e h1
    · simp at h2
  · simp at h

theorem assembleCoalesced_error (E : Env σ) (p : packetPacker) (L : coalescedLocals)
    (w : World σ) (e : Error)
    (h : (assembleCoalesced E p L w).1 = Result.error e) :
    WireError E e ∨ BugError e := by
  unfold assembleCoalesced at h
  simp only at h
  rcases andThen_error _ _ _ h with h1 | ⟨c1, -, h2⟩
  · exact appendLongIfPayload_error E p _ _ _ _ _ _ _ e h1
  · rcases andThen_error _ _ _ h2 with h3 | ⟨c2, -, h4⟩
    · exact appendLongIfPayload_error E p _ _ _ _ _ _ _ e h3
    · unfold appendAppData at h4
      split at h4
      · simp at h4
      · split at h4
        · exact appendLongIfPayload_error E p _ _ _ _ _ _ _ e h4
        · exact appendShortToPacket_error E p _ _ _ _ _ _ _ e h4

theorem composeCoalesced_error (E : Env σ) (p : packetPacker) (fuel : Nat) (onlyAck : Bool)
    (w : World σ) (e : Error)
    (h : (composeCoalesced E p fuel onlyAck w).1 = Result.error e) :
    ((E.GetInitialSealer w.st).1 = Except.error e ∧ e ≠ Error.ErrKeysDropped) ∨
    ∃ s, (E.GetHandshakeSealer s).1 = Except.error e ∧ e ≠ Error.ErrKeysDropped ∧
      e ≠ Error.ErrKeysNotYetAvailable := by
  unfold composeCoalesced at h
  simp only at h
  rcases andThenP_error _ _ _ h with h1 | ⟨L1, -, h2⟩
  · exact Or.inl (packInitialStage_error E p fuel _ onlyAck w e h1)
  · rcases andThenP_error _ _ _ h2 with h3 | ⟨L2, -, h4⟩
    · exact Or.inr ⟨_, packHandshakeStage_error E p fuel _ onlyAck _ _ e h3⟩
    · exact absurd h4 (packAppDataStage_noError E _ fuel _ onlyAck _ _ e)

theorem PackCoalescedPacket_error (E : Env σ) (p : packetPacker) (fuel : Nat) (onlyAck : Bool)
    (w : World σ) (e : Error)
    (h : (PackCoalescedPacket E p fuel onlyAck w).1 = Result.error e) :
    ((E.GetInitialSealer w.st).1 = Except.error e ∧ e ≠ Error.ErrKeysDropped) ∨
    (∃ s, (E.GetHandshakeSealer s).1 = Except.error e ∧ e ≠ Error.ErrKeysDropped ∧
      e ≠ Error.ErrKeysNotYetAvailable) ∨
    WireError E e ∨ BugError e := by
  unfold PackCoalescedPacket at h
  rcases andThenP_error _ _ _ h with h1 | ⟨L, -, h2⟩
  · rcases composeCoalesced_error E p fuel onlyAck w e h1 with h3 | h3
    · exact Or.inl h3
    · exact Or.inr (Or.inl h3)
  · split at h2
    · simp at h2
    · rcases andThenP_error _ _ _ h2 with h3 | ⟨c, -, h4⟩
      · exact Or.inr (Or.inr (assembleCoalesced_error E _ L _ e h3))
      · simp at h4

theorem PackCoalescedPacket_initial_error (E : Env σ) (p : packetPacker) (fuel : Nat)
    (onlyAck : Bool) (w : World σ) (e : Error)
    (h : (E.GetInitialSealer w.st).1 = Except.error e) (hne : e ≠ Error.ErrKeysDropped) :
    (PackCoalescedPacket E p fuel onlyAck w).1 = Result.error e := by
  have h1 : ∀ m, (packInitialStage E p fuel m onlyAck w).1 = Result.error e := by
    intro m
    unfold packInitialStage
    have : (w.GetInitialSealer E).1 = Except.error e := h
    simp only [this]
    rw [if_pos hne]
  unfold PackCoalescedPacket composeCoalesced
  simp only [andThenP, withPacker, h1]

theorem composeCoalesced_levels (E : Env σ) (p p1 : packetPacker) (fuel : Nat)
    (onlyAck : Bool) (w w1 : World σ) (L : coalescedLocals)
    (h : composeCoalesced E p fuel onlyAck w = (Result.ok L, p1, w1)) :
    (∀ hdr, L.initialHdr = some hdr → hdr.Type_ = PacketType.PacketTypeInitial) ∧
    (∀ hdr, L.handshakeHdr = some hdr → hdr.Type_ = PacketType.PacketTypeHandshake) ∧
    (L.appDataEncLevel = EncryptionLevel.Encryption0RTT → ∀ hdr, L.appDataHdr = some hdr →
      hdr.Type_ = PacketType.PacketType0RTT) ∧
    ((∃ e, (E.GetInitialSealer w.st).1 = Except.error e) → L.initialPayload = none) ∧
    ((∀ s, ∃ e, (E.GetHandshakeSealer s).1 = Except.error e) → L.handshakePayload = none) ∧
    ((∀ s, ∃ e, (E.Get0RTTSealer s).1 = Except.error e) →
      L.appDataEncLevel ≠ EncryptionLevel.Encryption0RTT ∨ L.appDataPayload = none) ∧
    ((∀ s, ∃ e, (E.Get1RTTSealer s).1 = Except.error e) →
      L.appDataEncLevel = EncryptionLevel.Encryption0RTT ∨ L.appDataPayload = none) := by
  unfold composeCoalesced at h
  simp only at h
  rw [andThenP_ok_iff] at h
  obtain ⟨L1, h1, h⟩ := h
  rw [andThenP_ok_iff] at h
  obtain ⟨L2, h2, h⟩ := h
  obtain ⟨a1, a2, a3, a4, a5, a6, a7⟩ :=
    packInitialStage_levels E p fuel _ onlyAck w _ L1 (Prod.ext h1 rfl)
  obtain ⟨b1, b2, b3, b4, b5, b6, b7⟩ :=
    packHandshakeStage_levels E p fuel _ onlyAck L1 L2 _ _ (Prod.ext h2 rfl)
  obtain ⟨c1, c2, c3, c4, c5, c6, c7⟩ :=
    packAppDataStage_levels E _ p1 fuel _ onlyAck L2 L _ w1 h
  refine ⟨?_, ?_, ?_, ?_, ?_, ?_, ?_⟩
  · intro hdr hh
    rw [c1, b1] at hh
    exact a6 hdr hh
  · intro hdr hh
    rw [c3] at hh
    rcases b6 hdr hh with h3 | h3
    · exact h3
    · rw [a1] at h3; simp at h3
  · intro hl hdr hh
    rcases c5 hl hdr hh with h3 | h3
    · exact h3
    · rw [b3, a3] at h3; simp at h3
  · intro hx
    rw [c2, b2]
    exact a7 hx
  · intro hx
    rw [c4, b7 (hx _)]
    exact a2
  · intro hx
    rcases c7 hx with h3 | h3
    · exact Or.inl h3
    · exact Or.inr (by rw [h3, b4, a4])
  · intro hx
    rcases c6 hx with h3 | h3
    · exact Or.inl h3
    · exact Or.inr (by rw [h3, b4, a4])

theorem simEnv_no_WireError (e : Error) : ¬ WireError simEnv e := by
  intro h
  rcases h with ⟨hdr, v, h⟩ | ⟨c, pn, l, kp, h⟩ | ⟨f, v, h⟩ | ⟨a, v, h⟩ <;>
    simp [simEnv] at h

theorem mockEnv_no_WireError (m : Mock) (e : Error) : ¬ WireError (mockEnv m) e := by
  intro h
  rcases h with ⟨hdr, v, h⟩ | ⟨c, pn, l, kp, h⟩ | ⟨f, v, h⟩ | ⟨a, v, h⟩ <;>
    simp [mockEnv, simEnv] at h

theorem forall₂_map_self {α β : Type} (R : α → β → Prop) (g : α → β) (l : List α)
    (h : ∀ a, R a (g a)) : List.Forall₂ R l (l.map g) := by
  induction l with
  | nil => exact List.Forall₂.nil
  | cons a rest ih => exact List.Forall₂.cons (h a) ih

theorem setOnLostShort_committed (f : Frame) :
    CommittedFrame EncryptionLevel.Encryption1RTT f (setOnLostShort f) := by
  unfold CommittedFrame setOnLostShort
  cases h : f.OnLost <;> simp [sinkOfLevel, h]

theorem setOnLostLong_committed (encLevel : EncryptionLevel)
    (hl : encLevel ≠ EncryptionLevel.Encryption1RTT) (f : Frame) :
    CommittedFrame encLevel f (setOnLostLong encLevel f) := by
  unfold CommittedFrame setOnLostLong
  cases h : f.OnLost <;> cases encLevel <;> simp [sinkOfLevel, h] at hl ⊢

theorem EncryptionLevel_long (lp : longHeaderPacket) (encLevel : EncryptionLevel)
    (h : lp.EncryptionLevel = Result.ok encLevel) :
    encLevel ≠ EncryptionLevel.Encryption1RTT ∧ lp.header.IsLongHeader = true ∧
      lp.header.Type_ = typeOfLevel encLevel := by
  unfold longHeaderPacket.EncryptionLevel at h
  split at h
  · simp at h
  · rename_i hl
    split at h
    · simp only [Result.ok.injEq] at h
      subst h; exact ⟨by decide, by simpa using hl, by assumption⟩
    · simp only [Result.ok.injEq] at h
      subst h; exact ⟨by decide, by simpa using hl, by assumption⟩
    · simp only [Result.ok.injEq] at h
      subst h; exact ⟨by decide, by simpa using hl, by assumption⟩
    · simp at h

theorem ToAckHandlerPacket_ok (E : Env σ) (lp lp1 : longHeaderPacket) (now : Time)
    (ap : AckHandlerPacket) (h : lp.ToAckHandlerPacket E now = Result.ok (ap, lp1)) :
    lp.EncryptionLevel = Result.ok ap.EncryptionLevel ∧
    ap.Frames = lp.frames.map (setOnLostLong ap.EncryptionLevel) ∧
    lp1.frames = ap.Frames ∧ ap.PacketNumber = lp.header.PacketNumber := by
  unfold longHeaderPacket.ToAckHandlerPacket at h
  simp only at h
  split at h
  · rename_i encLevel he
    simp only [Result.ok.injEq, Prod.mk.injEq] at h
    obtain ⟨h1, h2⟩ := h
    subst h1 h2
    exact ⟨he, rfl, rfl, rfl⟩
  · simp at h
  · simp at h
  · simp at h

theorem appendFrames_bytes (E : Env σ) (p : packetPacker) (frames : List Frame)
    (frameBytes : List (List UInt8))
    (hF : List.Forall₂ (fun f bytes => E.frameAppend f.Frame p.version = Except.ok bytes)
      frames frameBytes) :
    ∀ raw : List UInt8, appendFrames E p raw frames = Except.ok (raw ++ frameBytes.flatten) := by
  induction hF with
  | nil => intro raw; simp [appendFrames]
  | cons h _ ih =>
    intro raw
    unfold appendFrames
    simp only [h]
    rw [ih]
    simp

theorem appendLongHeaderPacket_pop (E : Env σ) (p : packetPacker) (buffer : packetBuffer)
    (header : ExtendedHeader) (pl : payload) (padding : Int) (encLevel : EncryptionLevel)
    (sealer : Sealer) (w : World σ) (hl : header.IsLongHeader = true) :
    (∀ e, E.hdrWrite (sentLongHeader header pl padding sealer) p.version = Except.error e →
      appendLongHeaderPacket E p buffer header pl padding encLevel sealer w =
        (Result.error e, w)) ∧
    (∀ hdrBytes,
      E.hdrWrite (sentLongHeader header pl padding sealer) p.version = Except.ok hdrBytes →
      (appendLongHeaderPacket E p buffer header pl padding encLevel sealer w).2 =
        (w.PopPacketNumber E encLevel).2 ∧
      ((w.PopPacketNumber E encLevel).1 ≠ header.PacketNumber →
        (appendLongHeaderPacket E p buffer header pl padding encLevel sealer w).1 =
          Result.error Error.bugPacketNumberMismatch)) := by
  have hW : ∀ x, E.hdrWrite (sentLongHeader header pl padding sealer) p.version = x →
      E.hdrWrite { header with Length := (header.PacketNumberLen : Int) +
        (sealer.Overhead : Int) + pl.length +
        ((if pl.length < 4 - (header.PacketNumberLen : Int) then
            4 - (header.PacketNumberLen : Int) - pl.length else 0) + padding) } p.version =
        x := by
    intro x h
    simpa [sentLongHeader, tinyPaddingLen] using h
  constructor
  · intro e he
    unfold appendLongHeaderPacket
    rw [if_neg (by simp [hl])]
    simp only [hW _ he]
  · intro hdrBytes hb
    unfold appendLongHeaderPacket
    rw [if_neg (by simp [hl])]
    simp only [hW _ hb]
    constructor
    · split
      · rfl
      · split <;> rfl
    · intro hne
      rw [if_pos hne]

theorem appendShortHeaderPacket_pop (E : Env σ) (p : packetPacker) (buffer : packetBuffer)
    (pn : PacketNumber) (pnLen : PacketNumberLen) (kp : KeyPhaseBit) (pl : payload)
    (padding : Int) (sealer : Sealer) (isMTUProbePacket : Bool) (w : World σ) :
    (∀ e, E.WriteShortHeader (E.getDestConnID w.st) pn pnLen kp = Except.error e →
      appendShortHeaderPacket E p buffer pn pnLen kp pl padding sealer isMTUProbePacket w =
        (Result.error e, w)) ∧
    (∀ hdrBytes, E.WriteShortHeader (E.getDestConnID w.st) pn pnLen kp = Except.ok hdrBytes →
      (appendShortHeaderPacket E p buffer pn pnLen kp pl padding sealer isMTUProbePacket w).2 =
        (w.PopPacketNumber E EncryptionLevel.Encryption1RTT).2 ∧
      ((w.PopPacketNumber E EncryptionLevel.Encryption1RTT).1 ≠ pn →
        (appendShortHeaderPacket E p buffer pn pnLen kp pl padding sealer isMTUProbePacket
          w).1 = Result.error Error.bugPacketNumberMismatch)) := by
  constructor
  · intro e he
    unfold appendShortHeaderPacket
    simp only [he]
  · intro hdrBytes hb
    unfold appendShortHeaderPacket
    simp only [hb]
    constructor
    · split
      · rfl
      · split
        · rfl
        · split
          · rfl
          · split <;> rfl
    · intro hne
      rw [if_pos (fun h => hne h.symm)]

theorem PackCoalescedPacket_handshake_error (E : Env σ) (p : packetPacker) (fuel : Nat)
    (onlyAck : Bool) (w w1 : World σ) (L1 : coalescedLocals) (e : Error)
    (hI : packInitialStage E p fuel (coalescedMaxPacketSize p) onlyAck w = (Result.ok L1, w1))
    (hGate : coalesceGate onlyAck L1.size (coalescedMaxPacketSize p))
    (hG : (E.GetHandshakeSealer w1.st).1 = Except.error e)
    (h1 : e ≠ Error.ErrKeysDropped) (h2 : e ≠ Error.ErrKeysNotYetAvailable) :
    (PackCoalescedPacket E p fuel onlyAck w).1 = Result.error e := by
  have hH : (packHandshakeStage E p fuel (coalescedMaxPacketSize p) onlyAck L1 w1).1 =
      Result.error e := by
    unfold packHandshakeStage
    rw [if_pos hGate]
    have : (w1.GetHandshakeSealer E).1 = Except.error e := hG
    simp only [this]
    rw [if_pos ⟨h1, h2⟩]
  unfold coalescedMaxPacketSize at hI hH
  unfold PackCoalescedPacket composeCoalesced
  simp only [andThenP, withPacker, hI, hH]

/-! ## The calls made while a payload is composed -/

theorem quiet_refl (w : World σ) : Quiet w w := ⟨[], by simp, by simp⟩

theorem quiet_trans {w w1 w2 : World σ} (h1 : Quiet w w1) (h2 : Quiet w1 w2) : Quiet w w2 := by
  obtain ⟨c1, e1, p1⟩ := h1
  obtain ⟨c2, e2, p2⟩ := h2
  refine ⟨c1 ++ c2, by rw [e2, e1, List.append_assoc], ?_⟩
  intro c hc
  rcases List.mem_append.1 hc with h | h
  · exact p1 c h
  · exact p2 c h

theorem quiet_step (w : World σ) (c : Call) (s : σ) (h : composeCall c) :
    Quiet w (w.step c s) :=
  ⟨[c], rfl, by simpa using h⟩

theorem getLongHeader_quiet (E : Env σ) (p : packetPacker) (encLevel : EncryptionLevel)
    (w : World σ) : Quiet w (getLongHeader E p encLevel w).2 :=
  quiet_step w _ _ (by simp [composeCall])

theorem getShortHeader_quiet (E : Env σ) (kp : KeyPhaseBit) (w : World σ) :
    Quiet w (getShortHeader E kp w).2 :=
  quiet_step w _ _ (by simp [composeCall])

theorem GetInitialSealer_quiet (E : Env σ) (w : World σ) :
    Quiet w (w.GetInitialSealer E).2 :=
  quiet_step w _ _ (by simp [composeCall])

theorem GetHandshakeSealer_quiet (E : Env σ) (w : World σ) :
    Quiet w (w.GetHandshakeSealer E).2 :=
  quiet_step w _ _ (by simp [composeCall])

theorem Get0RTTSealer_quiet (E : Env σ) (w : World σ) :
    Quiet w (w.Get0RTTSealer E).2 :=
  quiet_step w _ _ (by simp [composeCall])

theorem Get1RTTSealer_quiet (E : Env σ) (w : World σ) :
    Quiet w (w.Get1RTTSealer E).2 :=
  quiet_step w _ _ (by simp [composeCall])

theorem framerHasData_quiet (E : Env σ) (w : World σ) :
    Quiet w (w.framerHasData E).2 :=
  quiet_step w _ _ (by simp [composeCall])

theorem AppendControlFrames_quiet (E : Env σ) (w : World σ)
    (frames : List Frame) (maxLen : Int) :
    Quiet w (w.AppendControlFrames E frames maxLen).2 :=
  quiet_step w _ _ (by simp [composeCall])

theorem AppendStreamFrames_quiet (E : Env σ) (w : World σ)
    (frames : List Frame) (maxLen : Int) :
    Quiet w (w.AppendStreamFrames E frames maxLen).2 :=
  quiet_step w _ _ (by simp [composeCall])

theorem GetAckFrame_quiet (E : Env σ) (w : World σ)
    (encLevel : EncryptionLevel) (onlyIfQueued : Bool) :
    Quiet w (w.GetAckFrame E encLevel onlyIfQueued).2 :=
  quiet_step w _ _ (by simp [composeCall])

theorem datagramPeek_quiet (E : Env σ) (w : World σ) :
    Quiet w (w.datagramPeek E).2 :=
  quiet_step w _ _ (by simp [composeCall])

theorem datagramPop_quiet (E : Env σ) (w : World σ) :
    Quiet w (w.datagramPop E) :=
  quiet_step w _ _ (by simp [composeCall])

theorem HasInitialData_quiet (E : Env σ) (w : World σ) :
    Quiet w (w.HasInitialData E).2 :=
  quiet_step w _ _ (by simp [composeCall])

theorem HasHandshakeData_quiet (E : Env σ) (w : World σ) :
    Quiet w (w.HasHandshakeData E).2 :=
  quiet_step w _ _ (by simp [composeCall])

theorem HasAppData_quiet (E : Env σ) (w : World σ) :
    Quiet w (w.HasAppData E).2 :=
  quiet_step w _ _ (by simp [composeCall])

theorem GetInitialFrame_quiet (E : Env σ) (w : World σ) (maxLen : Int) :
    Quiet w (w.GetInitialFrame E maxLen).2 :=
  quiet_step w _ _ (by simp [composeCall])

theorem GetHandshakeFrame_quiet (E : Env σ) (w : World σ)
    (maxLen : Int) :
    Quiet w (w.GetHandshakeFrame E maxLen).2 :=
  quiet_step w _ _ (by simp [composeCall])

theorem GetAppDataFrame_quiet (E : Env σ) (w : World σ) (maxLen : Int) :
    Quiet w (w.GetAppDataFrame E maxLen).2 :=
  quiet_step w _ _ (by simp [composeCall])

theorem streamHasData_quiet (E : Env σ) (w : World σ)
    (encLevel : EncryptionLevel) :
    Quiet w (w.streamHasData E encLevel).2 :=
  quiet_step w _ _ (by simp [composeCall])

theorem PopCryptoFrame_quiet (E : Env σ) (w : World σ)
    (encLevel : EncryptionLevel) (maxLen : Int) :
    Quiet w (w.PopCryptoFrame E encLevel maxLen).2 :=
  quiet_step w _ _ (by simp [composeCall])

theorem cryptoRetransmissionLoop_quiet (E : Env σ) (p : packetPacker)
    (encLevel : EncryptionLevel) (fuel : Nat) :
    ∀ (pl : payload) (maxPacketSize : Int) (w : World σ),
      Quiet w (cryptoRetransmissionLoop E p encLevel fuel pl maxPacketSize w).2 := by
  induction fuel with
  | zero => intro pl m w; exact quiet_refl w
  | succ n ih =>
    intro pl m w
    unfold cryptoRetransmissionLoop
    simp only
    have hr : Quiet w (match encLevel with
        | EncryptionLevel.EncryptionInitial => w.GetInitialFrame E m
        | EncryptionLevel.EncryptionHandshake => w.GetHandshakeFrame E m
        | _ => (none, w)).2 := by
      split
      · exact GetInitialFrame_quiet E w m
      · exact GetHandshakeFrame_quiet E w m
      · exact quiet_refl w
    split
    · exact hr
    · exact quiet_trans hr (ih _ _ _)

theorem andThen_quiet {α β : Type} (w : World σ) (r : Result α × World σ)
    (f : α → World σ → Result β × World σ) (hr : Quiet w r.2)
    (hf : ∀ a w1, Quiet w w1 → Quiet w (f a w1).2) : Quiet w (andThen r f).2 := by
  unfold andThen
  split
  · exact hf _ _ hr
  all_goals exact hr

theorem andThenP_quiet {α β : Type} (w : World σ)
    (r : Result α × packetPacker × World σ)
    (f : α → packetPacker → World σ → Result β × packetPacker × World σ)
    (hr : Quiet w r.2.2)
    (hf : ∀ a p1 w1, Quiet w w1 → Quiet w (f a p1 w1).2.2) :
    Quiet w (andThenP r f).2.2 := by
  unfold andThenP
  split
  · exact hf _ _ _ hr
  all_goals exact hr

theorem maybeGetCryptoPacket_quiet (E : Env σ) (p : packetPacker)
    (fuel : Nat) (maxPacketSize : Int) (encLevel : EncryptionLevel) (onlyAck ackAllowed : Bool)
    (w : World σ) :
    Quiet w (maybeGetCryptoPacket E p fuel maxPacketSize encLevel onlyAck ackAllowed w).2 := by
  unfold maybeGetCryptoPacket
  split
  · simp only
    have ha := GetAckFrame_quiet E w encLevel true
    split
    · exact quiet_trans ha (getLongHeader_quiet E p encLevel _)
    · exact ha
  · split
    · exact quiet_refl w
    · rename_i hr heq
      have h1 : Quiet w hr.2 := by
        unfold cryptoHasRetransmission at heq
        split at heq
        · simp only [Option.some.injEq] at heq
          rw [← heq]
          exact HasInitialData_quiet E w
        · simp only [Option.some.injEq] at heq
          rw [← heq]
          exact HasHandshakeData_quiet E w
        · simp at heq
      simp only
      have h2 := quiet_trans h1 (streamHasData_quiet E hr.2 encLevel)
      have h3 : Quiet w (if ackAllowed = true then
          (hr.2.streamHasData E encLevel).2.GetAckFrame E encLevel
            (!hr.1 && !(hr.2.streamHasData E encLevel).1)
          else (none, (hr.2.streamHasData E encLevel).2)).2 := by
        split
        · exact quiet_trans h2 (GetAckFrame_quiet E _ encLevel _)
        · exact h2
      generalize (if ackAllowed = true then
          (hr.2.streamHasData E encLevel).2.GetAckFrame E encLevel
            (!hr.1 && !(hr.2.streamHasData E encLevel).1)
          else (none, (hr.2.streamHasData E encLevel).2)) = a at h3 ⊢
      split
      · exact h3
      · have h4 := quiet_trans h3 (getLongHeader_quiet E p encLevel _)
        split
        · apply andThen_quiet
          · exact quiet_trans h4 (cryptoRetransmissionLoop_quiet E p encLevel fuel _ _ _)
          · intro a w1 h; exact h
        · have h5 := quiet_trans h4 (streamHasData_quiet E _ encLevel)
          split
          · exact quiet_trans h5 (PopCryptoFrame_quiet E _ encLevel _)
          · exact h5

theorem addDatagram_quiet (E : Env σ) (p : packetPacker)
    (maxFrameSize : Int) (pl : payload) (w : World σ) :
    Quiet w (addDatagram E p maxFrameSize pl w).2 := by
  unfold addDatagram
  split
  · simp only
    have h1 := datagramPeek_quiet E w
    split
    · split
      · exact quiet_trans h1 (datagramPop_quiet E _)
      · exact h1
    · exact h1
  · exact quiet_refl w

theorem appDataRetransmissionLoop_quiet (E : Env σ) (p : packetPacker)
    (maxFrameSize : Int) (fuel : Nat) :
    ∀ (pl : payload) (w : World σ),
      Quiet w (appDataRetransmissionLoop E p maxFrameSize fuel pl w).2 := by
  induction fuel with
  | zero => intro pl w; exact quiet_refl w
  | succ n ih =>
    intro pl w
    unfold appDataRetransmissionLoop
    simp only
    split
    · exact quiet_refl w
    · have h1 := GetAppDataFrame_quiet E w (maxFrameSize - pl.length)
      split
      · exact h1
      · exact quiet_trans h1 (ih _ _)

theorem appendFramerFrames_quiet (E : Env σ) (maxFrameSize : Int)
    (hasData : Bool) (pl : payload) (w : World σ) :
    Quiet w (appendFramerFrames E maxFrameSize hasData pl w).2 := by
  unfold appendFramerFrames
  split
  · exact quiet_trans (AppendControlFrames_quiet E w _ _)
      (AppendStreamFrames_quiet E _ _ _)
  · exact quiet_refl w

theorem composeNextPacket_quiet (E : Env σ) (p : packetPacker)
    (fuel : Nat) (maxFrameSize : Int) (onlyAck ackAllowed : Bool) (w : World σ) :
    Quiet w (composeNextPacket E p fuel maxFrameSize onlyAck ackAllowed w).2 := by
  unfold composeNextPacket
  split
  · simp only
    have ha := GetAckFrame_quiet E w EncryptionLevel.Encryption1RTT true
    split <;> exact ha
  · simp only
    have h1 := framerHasData_quiet E w
    have h2 := quiet_trans h1 (HasAppData_quiet E _)
    have h3 : Quiet w (if ackAllowed = true then
        ((w.framerHasData E).2.HasAppData E).2.GetAckFrame E EncryptionLevel.Encryption1RTT
          (!((w.framerHasData E).2.HasAppData E).1 && !(w.framerHasData E).1)
        else (none, ((w.framerHasData E).2.HasAppData E).2)).2 := by
      split
      · exact quiet_trans h2 (GetAckFrame_quiet E _ _ _)
      · exact h2
    generalize (if ackAllowed = true then
        ((w.framerHasData E).2.HasAppData E).2.GetAckFrame E EncryptionLevel.Encryption1RTT
          (!((w.framerHasData E).2.HasAppData E).1 && !(w.framerHasData E).1)
        else (none, ((w.framerHasData E).2.HasAppData E).2)) = a at h3 ⊢
    have h4 := quiet_trans h3 (addDatagram_quiet E p maxFrameSize (ackPayload E p a.1) a.2)
    split
    · exact h4
    · apply andThen_quiet
      · split
        · exact quiet_trans h4 (appDataRetransmissionLoop_quiet E p maxFrameSize fuel _ _)
        · exact h4
      · intro pl w1 h
        exact quiet_trans h (appendFramerFrames_quiet E _ _ _ _)

theorem maybeGetAppDataPacket_quiet (E : Env σ) (p : packetPacker)
    (fuel : Nat) (maxPayloadSize : Int) (onlyAck ackAllowed : Bool) (w : World σ) :
    Quiet w (maybeGetAppDataPacket E p fuel maxPayloadSize onlyAck ackAllowed w).2.2 := by
  unfold maybeGetAppDataPacket
  apply andThenP_quiet
  · exact composeNextPacket_quiet E p fuel maxPayloadSize onlyAck ackAllowed w
  · intro a p1 w1 h; exact h

theorem maybeGetShortHeaderPacket_quiet (E : Env σ) (p : packetPacker)
    (fuel : Nat) (sealer : Sealer) (kp : KeyPhaseBit) (maxPacketSize : Int)
    (onlyAck ackAllowed : Bool) (w : World σ) :
    Quiet w
      (maybeGetShortHeaderPacket E p fuel sealer kp maxPacketSize onlyAck ackAllowed w).2.2 := by
  unfold maybeGetShortHeaderPacket
  apply andThenP_quiet
  · exact quiet_trans (getShortHeader_quiet E kp w)
      (maybeGetAppDataPacket_quiet E p fuel _ onlyAck ackAllowed _)
  · intro a p1 w1 h; exact h

theorem maybeGetAppDataPacketFor0RTT_quiet (E : Env σ) (p : packetPacker) (fuel : Nat) (sealer : Sealer) (maxPacketSize : Int) (w : World σ) :
    Quiet w (maybeGetAppDataPacketFor0RTT E p fuel sealer maxPacketSize w).2.2 := by
  unfold maybeGetAppDataPacketFor0RTT
  split
  · exact quiet_refl w
  · apply andThenP_quiet
    · exact quiet_trans (getLongHeader_quiet E p _ w)
        (maybeGetAppDataPacket_quiet E p fuel _ false false _)
    · intro a p1 w1 h; exact h

theorem getAppDataPacket_quiet (E : Env σ) (p : packetPacker)
    (fuel : Nat) (appDataEncLevel : EncryptionLevel) (appDataSealer : Sealer)
    (maxPacketSize size : Int) (onlyAck : Bool) (w : World σ) :
    Quiet w (getAppDataPacket E p fuel appDataEncLevel appDataSealer maxPacketSize size
      onlyAck w).2.2 := by
  unfold getAppDataPacket
  split
  · exact maybeGetAppDataPacketFor0RTT_quiet E _ _ _ _ _
  · exact maybeGetShortHeaderPacket_quiet E _ _ _ _ _ _ _ _
  · exact quiet_refl w

theorem getAppDataSealer_quiet (E : Env σ) (p : packetPacker)
    (w : World σ) : Quiet w (getAppDataSealer E p w).2.2 := by
  unfold getAppDataSealer
  simp only
  have h1 := Get1RTTSealer_quiet E w
  split
  · exact h1
  · split
    · exact quiet_trans h1 (Get0RTTSealer_quiet E _)
    · exact h1

theorem packInitialStage_quiet (E : Env σ) (p : packetPacker)
    (fuel : Nat) (maxPacketSize : Int) (onlyAck : Bool) (w : World σ) :
    Quiet w (packInitialStage E p fuel maxPacketSize onlyAck w).2 := by
  unfold packInitialStage
  simp only
  have h1 := GetInitialSealer_quiet E w
  split
  · split <;> exact h1
  · apply andThen_quiet
    · exact quiet_trans h1 (maybeGetCryptoPacket_quiet E _ _ _ _ _ _ _)
    · intro a w1 h; exact h

theorem packHandshakeStage_quiet (E : Env σ) (p : packetPacker)
    (fuel : Nat) (maxPacketSize : Int) (onlyAck : Bool) (L : coalescedLocals) (w : World σ) :
    Quiet w (packHandshakeStage E p fuel maxPacketSize onlyAck L w).2 := by
  unfold packHandshakeStage
  split
  · simp only
    have h1 := GetHandshakeSealer_quiet E w
    split
    · split <;> exact h1
    · apply andThen_quiet
      · exact quiet_trans h1 (maybeGetCryptoPacket_quiet E _ _ _ _ _ _ _)
      · intro a w1 h; exact h
  · exact quiet_refl w

theorem packAppDataStage_quiet (E : Env σ) (p : packetPacker)
    (fuel : Nat) (maxPacketSize : Int) (onlyAck : Bool) (L : coalescedLocals) (w : World σ) :
    Quiet w (packAppDataStage E p fuel maxPacketSize onlyAck L w).2.2 := by
  unfold packAppDataStage
  split
  · simp only
    have h1 := getAppDataSealer_quiet E p w
    split
    · exact h1
    · apply andThenP_quiet
      · exact quiet_trans h1 (getAppDataPacket_quiet E _ _ _ _ _ _ _ _)
      · intro a p1 w1 h; exact h
  · exact quiet_refl w

theorem composeCoalesced_quiet (E : Env σ) (p : packetPacker)
    (fuel : Nat) (onlyAck : Bool) (w : World σ) :
    Quiet w (composeCoalesced E p fuel onlyAck w).2.2 := by
  unfold composeCoalesced
  simp only
  apply andThenP_quiet
  · exact packInitialStage_quiet E _ _ _ _ _
  · intro L1 p1 w1 h1
    apply andThenP_quiet
    · exact quiet_trans h1 (packHandshakeStage_quiet E _ _ _ _ _ _)
    · intro L2 p2 w2 h2
      exact quiet_trans h2 (packAppDataStage_quiet E _ _ _ _ _ _)
/-! ## Levels that are skipped, and a level with one CRYPTO frame -/

theorem finishAppDataPacket_none (E : Env σ) (p : packetPacker) (pl : payload) :
    (finishAppDataPacket E p pl).1 = none ↔ pl.frames = [] ∧ pl.ack = none := by
  unfold finishAppDataPacket
  constructor
  · intro h
    split at h
    · rename_i hf
      split at h
      · rename_i ha
        exact ⟨List.length_eq_zero.1 hf, ha⟩
      · split at h <;> simp at h
    · simp at h
  · intro ⟨hf, ha⟩
    simp [hf, ha]

theorem PackPacket_sealer_error (E : Env σ) (p : packetPacker) (fuel : Nat) (onlyAck : Bool)
    (now : Time) (w : World σ) (e : Error)
    (h : (E.Get1RTTSealer w.st).1 = Except.error e) :
    PackPacket E p fuel onlyAck now w = (Result.error e, p, (w.Get1RTTSealer E).2) := by
  have : (w.Get1RTTSealer E).1 = Except.error e := h
  unfold PackPacket
  simp only [this]

theorem PackPacket_nothing (E : Env σ) (p : packetPacker) (fuel : Nat) (onlyAck : Bool)
    (now : Time) (w : World σ) (sealer : Sealer) (pl : payload)
    (hG : (E.Get1RTTSealer w.st).1 = Except.ok sealer)
    (hC : (packPacketCompose E p fuel onlyAck sealer w).1 = Result.ok pl)
    (hf : pl.frames = []) (ha : pl.ack = none) :
    PackPacket E p fuel onlyAck now w =
      (Result.error errNothingToPack, p, (packPacketCompose E p fuel onlyAck sealer w).2) := by
  have hg : (w.Get1RTTSealer E).1 = Except.ok sealer := hG
  unfold packPacketCompose at hC ⊢
  simp only at hC ⊢
  have hfin : finishAppDataPacket E p pl = (none, p) := by
    unfold finishAppDataPacket
    simp [hf, ha]
  unfold PackPacket
  simp only [hg]
  unfold maybeGetShortHeaderPacket
  simp only
  rw [maybeGetAppDataPacket_of_compose E p fuel _ _ _ _ pl hC, hfin]
  simp only [andThenP]

theorem maybeGetAppDataPacket_ok_compose (E : Env σ) (p : packetPacker) (fuel : Nat)
    (maxPayloadSize : Int) (onlyAck ackAllowed : Bool) (w : World σ) (opl : Option payload)
    (h : (maybeGetAppDataPacket E p fuel maxPayloadSize onlyAck ackAllowed w).1 =
      Result.ok opl) :
    ∃ pl, (composeNextPacket E p fuel maxPayloadSize onlyAck ackAllowed w).1 = Result.ok pl := by
  unfold maybeGetAppDataPacket andThenP at h
  split at h
  · rename_i pl hr
    exact ⟨pl, hr⟩
  · simp at h
  · simp at h
  · simp at h

theorem maybeGetShortHeaderPacket_result (E : Env σ) (p p1 : packetPacker) (fuel : Nat)
    (sealer : Sealer) (kp : KeyPhaseBit) (maxPacketSize : Int) (onlyAck ackAllowed : Bool)
    (w w1 : World σ) (r : Option ExtendedHeader × Option payload)
    (h : maybeGetShortHeaderPacket E p fuel sealer kp maxPacketSize onlyAck ackAllowed w =
      (Result.ok r, p1, w1)) :
    r.1 = some (getShortHeader E kp w).1 ∧
    ∃ pl, (composeNextPacket E p fuel
        (maxPacketSize - E.hdrGetLength (getShortHeader E kp w).1 p.version -
          (sealer.Overhead : Int)) onlyAck ackAllowed (getShortHeader E kp w).2).1 =
        Result.ok pl ∧
      r.2 = (finishAppDataPacket E p pl).1 ∧ p1 = (finishAppDataPacket E p pl).2 ∧
      w1 = (composeNextPacket E p fuel
        (maxPacketSize - E.hdrGetLength (getShortHeader E kp w).1 p.version -
          (sealer.Overhead : Int)) onlyAck ackAllowed (getShortHeader E kp w).2).2 := by
  unfold maybeGetShortHeaderPacket at h
  simp only at h
  rw [andThenP_ok_iff] at h
  obtain ⟨opl, h1, h2⟩ := h
  simp only [Prod.mk.injEq, Result.ok.injEq] at h2
  obtain ⟨h2, h3, h4⟩ := h2
  obtain ⟨pl, hc⟩ := maybeGetAppDataPacket_ok_compose E p fuel _ _ _ _ opl h1
  have hm := maybeGetAppDataPacket_of_compose E p fuel _ _ _ _ pl hc
  rw [hm] at h1 h3 h4
  simp only [Result.ok.injEq] at h1
  refine ⟨by rw [← h2], pl, hc, by rw [← h2, ← h1], h3.symm, h4.symm⟩

theorem maybeGetShortHeaderPacket_noError (E : Env σ) (p : packetPacker) (fuel : Nat)
    (sealer : Sealer) (kp : KeyPhaseBit) (maxPacketSize : Int) (onlyAck ackAllowed : Bool)
    (w : World σ) (e : Error) :
    (maybeGetShortHeaderPacket E p fuel sealer kp maxPacketSize onlyAck ackAllowed w).1 ≠
      Result.error e := by
  intro h
  unfold maybeGetShortHeaderPacket at h
  rcases andThenP_error _ _ _ h with h1 | ⟨pl, -, h2⟩
  · exact maybeGetAppDataPacket_noError E p fuel _ _ _ _ e h1
  · simp at h2

theorem PackPacket_nothing_inv (E : Env σ) (p : packetPacker) (fuel : Nat) (onlyAck : Bool)
    (now : Time) (w : World σ)
    (hG : (E.Get1RTTSealer w.st).1 ≠ Except.error errNothingToPack)
    (hW : ¬ WireError E errNothingToPack)
    (h : (PackPacket E p fuel onlyAck now w).1 = Result.error errNothingToPack) :
    ∃ sealer pl, (E.Get1RTTSealer w.st).1 = Except.ok sealer ∧
      (packPacketCompose E p fuel onlyAck sealer w).1 = Result.ok pl ∧
      pl.frames = [] ∧ pl.ack = none := by
  unfold PackPacket at h
  simp only at h
  split at h
  · rename_i err he
    simp only [Result.error.injEq] at h
    subst h
    exact absurd he hG
  · rename_i sealer hs
    rcases andThenP_error _ _ _ h with h1 | ⟨r, hr, h2⟩
    · exact absurd h1 (maybeGetShortHeaderPacket_noError E p fuel _ _ _ _ _ _ _)
    · obtain ⟨r1, pl, hc, r2, -, -⟩ := maybeGetShortHeaderPacket_result E p _ fuel sealer
        sealer.KeyPhase p.maxPacketSize onlyAck true _ _ r (Prod.ext hr rfl)
      split at h2
      · rename_i hnone
        rw [hnone] at r2
        exact ⟨sealer, pl, hs, hc, (finishAppDataPacket_none E p pl).1 r2.symm⟩
      · exfalso
        split at h2
        · simp at h2
        · simp only [withPacker] at h2
          rcases appendShortHeaderPacket_error E _ _ _ _ _ _ _ _ _ _ _ h2 with hw | hb
          · exact hW hw
          · rcases hb with hb | ⟨_, _, hb⟩ | ⟨_, _, hb⟩ <;> simp [errNothingToPack] at hb

theorem packPacketCompose_quiet (E : Env σ) (p : packetPacker) (fuel : Nat) (onlyAck : Bool)
    (sealer : Sealer) (w : World σ) :
    Quiet w (packPacketCompose E p fuel onlyAck sealer w).2 := by
  unfold packPacketCompose
  exact quiet_trans (Get1RTTSealer_quiet E w)
    (quiet_trans (getShortHeader_quiet E _ _) (composeNextPacket_quiet E p fuel _ _ _ _))

/-! ## The number of packets of `PackCoalescedPacket` -/

theorem packInitialStage_count (E : Env σ) (p : packetPacker) (fuel : Nat)
    (maxPacketSize : Int) (onlyAck : Bool) (w w1 : World σ) (L : coalescedLocals)
    (h : packInitialStage E p fuel maxPacketSize onlyAck w = (Result.ok L, w1)) :
    (L.initialPayload = none → L.numPackets = 0) ∧
    (L.initialPayload ≠ none → L.numPackets = 1) := by
  unfold packInitialStage at h
  simp only at h
  split at h
  · split at h
    · simp at h
    · simp only [Prod.mk.injEq, Result.ok.injEq] at h
      rw [← h.1]
      simp
  · rw [andThen_ok_iff] at h
    obtain ⟨r, -, h2⟩ := h
    simp only [Prod.mk.injEq] at h2
    obtain ⟨h2, -⟩ := h2
    unfold recordInitial at h2
    split at h2
    · rename_i pl hpl
      split at h2
      · simp only [Result.ok.injEq] at h2
        rw [← h2]
        simp [hpl]
      · simp at h2
    · rename_i hpl
      simp only [Result.ok.injEq] at h2
      rw [← h2]
      simp [hpl]

theorem packHandshakeStage_count (E : Env σ) (p : packetPacker) (fuel : Nat)
    (maxPacketSize : Int) (onlyAck : Bool) (L L1 : coalescedLocals) (w w1 : World σ)
    (h0 : L.handshakePayload = none)
    (h : packHandshakeStage E p fuel maxPacketSize onlyAck L w = (Result.ok L1, w1)) :
    (L1.handshakePayload = none → L1.numPackets = L.numPackets) ∧
    (L1.handshakePayload ≠ none → L1.numPackets = L.numPackets + 1) := by
  unfold packHandshakeStage at h
  split at h
  · simp only at h
    split at h
    · split at h
      · simp at h
      · simp only [Prod.mk.injEq, Result.ok.injEq] at h
        rw [← h.1]
        exact ⟨fun _ => rfl, fun hx => absurd h0 hx⟩
    · rw [andThen_ok_iff] at h
      obtain ⟨r, -, h2⟩ := h
      simp only [Prod.mk.injEq] at h2
      obtain ⟨h2, -⟩ := h2
      unfold recordHandshake at h2
      split at h2
      · rename_i pl hpl
        split at h2
        · simp only [Result.ok.injEq] at h2
          rw [← h2]
          simp [hpl]
        · simp at h2
      · rename_i hpl
        simp only [Result.ok.injEq] at h2
        rw [← h2]
        simp [hpl]
  · simp only [Prod.mk.injEq, Result.ok.injEq] at h
    rw [← h.1]
    exact ⟨fun _ => rfl, fun hx => absurd h0 hx⟩

theorem packAppDataStage_count (E : Env σ) (p p1 : packetPacker) (fuel : Nat)
    (maxPacketSize : Int) (onlyAck : Bool) (L L1 : coalescedLocals) (w w1 : World σ)
    (h0 : L.appDataPayload = none)
    (h : packAppDataStage E p fuel maxPacketSize onlyAck L w = (Result.ok L1, p1, w1)) :
    (L1.appDataPayload = none → L1.numPackets = L.numPackets) ∧
    (L1.appDataPayload ≠ none → L1.numPackets = L.numPackets + 1) := by
  unfold packAppDataStage at h
  split at h
  · simp only at h
    split at h
    · simp only [Prod.mk.injEq, Result.ok.injEq] at h
      rw [← h.1]
      exact ⟨fun _ => rfl, fun hx => absurd h0 hx⟩
    · rename_i sealer hs
      rw [andThenP_ok_iff] at h
      obtain ⟨r, hr, h2⟩ := h
      obtain ⟨g1, -⟩ := getAppDataPacket_ok E p _ fuel _ sealer maxPacketSize L.size onlyAck _ _ r
        (Prod.ext hr rfl)
      simp only [Prod.mk.injEq, Result.ok.injEq] at h2
      rw [← h2.1]
      unfold recordAppData
      obtain ⟨hdro, plo⟩ := r
      cases plo with
      | none => cases hdro <;> simp
      | some pl =>
        obtain ⟨hdr, hh⟩ := g1 pl rfl
        simp only at hh
        subst hh
        simp
  · simp only [Prod.mk.injEq, Result.ok.injEq] at h
    rw [← h.1]
    exact ⟨fun _ => rfl, fun hx => absurd h0 hx⟩

theorem composeCoalesced_count (E : Env σ) (p p1 : packetPacker) (fuel : Nat)
    (onlyAck : Bool) (w w1 : World σ) (L : coalescedLocals)
    (h : composeCoalesced E p fuel onlyAck w = (Result.ok L, p1, w1)) :
    L.numPackets = 0 ↔
      L.initialPayload = none ∧ L.handshakePayload = none ∧ L.appDataPayload = none := by
  unfold composeCoalesced at h
  simp only at h
  rw [andThenP_ok_iff] at h
  obtain ⟨L1, h1, h⟩ := h
  rw [andThenP_ok_iff] at h
  obtain ⟨L2, h2, h⟩ := h
  simp only [withPacker] at h1 h2 h
  obtain ⟨-, a2, -, a4, -, -, -⟩ :=
    packInitialStage_levels E p fuel _ onlyAck w _ L1 (Prod.ext h1 rfl)
  obtain ⟨-, b2, -, b4, -, -, -⟩ :=
    packHandshakeStage_levels E p fuel _ onlyAck L1 L2 _ _ (Prod.ext h2 rfl)
  obtain ⟨-, c2, -, c4, -, -, -⟩ := packAppDataStage_levels E _ p1 fuel _ onlyAck L2 L _ w1 h
  obtain ⟨i0, i1⟩ := packInitialStage_count E p fuel _ onlyAck w _ L1 (Prod.ext h1 rfl)
  obtain ⟨j0, j1⟩ := packHandshakeStage_count E p fuel _ onlyAck L1 L2 _ _ a2 (Prod.ext h2 rfl)
  obtain ⟨k0, k1⟩ := packAppDataStage_count E _ p1 fuel _ onlyAck L2 L _ w1
    (by rw [b4, a4]) h
  rw [c2, b2, c4]
  by_cases hi : L1.initialPayload = none <;> by_cases hj : L2.handshakePayload = none <;>
    by_cases hk : L.appDataPayload = none <;>
    simp only [hi, hj, hk, true_and, and_true, false_and, and_false, iff_true, iff_false] <;>
    first
      | (have e1 := i0 hi; have e2 := j0 hj; have e3 := k0 hk; omega)
      | (have e1 := i0 hi; have e2 := j0 hj; have e3 := k1 hk; omega)
      | (have e1 := i0 hi; have e2 := j1 hj; have e3 := k0 hk; omega)
      | (have e1 := i0 hi; have e2 := j1 hj; have e3 := k1 hk; omega)
      | (have e1 := i1 hi; have e2 := j0 hj; have e3 := k0 hk; omega)
      | (have e1 := i1 hi; have e2 := j0 hj; have e3 := k1 hk; omega)
      | (have e1 := i1 hi; have e2 := j1 hj; have e3 := k0 hk; omega)
      | (have e1 := i1 hi; have e2 := j1 hj; have e3 := k1 hk; omega)

theorem maybeGetCryptoPacket_nothing (E : Env σ) (p : packetPacker) (fuel : Nat)
    (maxPacketSize : Int) (encLevel : EncryptionLevel) (w : World σ)
    (hLvl : encLevel = EncryptionLevel.EncryptionInitial ∨
      encLevel = EncryptionLevel.EncryptionHandshake)
    (hRT : ∀ s, (E.HasInitialData s).1 = false ∧ (E.HasHandshakeData s).1 = false)
    (hData : ∀ s, (E.streamHasData s encLevel).1 = false)
    (hAck : ∀ s b, (E.GetAckFrame s encLevel b).1 = none) :
    (maybeGetCryptoPacket E p fuel maxPacketSize encLevel false true w).1 =
      Result.ok (none, none) := by
  have hr : ∃ wr, cryptoHasRetransmission E encLevel w = some (false, wr) := by
    unfold cryptoHasRetransmission
    rcases hLvl with h | h
    · subst h
      refine ⟨(w.HasInitialData E).2, ?_⟩
      simp only [Option.some.injEq]
      exact Prod.ext (hRT w.st).1 rfl
    · subst h
      refine ⟨(w.HasHandshakeData E).2, ?_⟩
      simp only [Option.some.injEq]
      exact Prod.ext (hRT w.st).2 rfl
  obtain ⟨wr, hr⟩ := hr
  have hd : ∀ w2 : World σ, (w2.streamHasData E encLevel).1 = false := fun w2 => hData w2.st
  have ha : ∀ (w2 : World σ) b, (w2.GetAckFrame E encLevel b).1 = none :=
    fun w2 b => hAck w2.st b
  unfold maybeGetCryptoPacket
  simp only [hr, hd, ha, Bool.false_eq_true, if_false, if_true, and_self]

theorem andThenP_ok {α β : Type} (r : Result α × packetPacker × World σ)
    (f : α → packetPacker → World σ → Result β × packetPacker × World σ) (b : β)
    (h : (andThenP r f).1 = Result.ok b) :
    ∃ a, r.1 = Result.ok a ∧ andThenP r f = f a r.2.1 r.2.2 := by
  cases hr : r.1 with
  | ok a => exact ⟨a, rfl, andThenP_of_ok r f a hr⟩
  | error e => unfold andThenP at h; simp [hr] at h
  | goPanic m => unfold andThenP at h; simp [hr] at h
  | outOfFuel => unfold andThenP at h; simp [hr] at h

theorem PackCoalescedPacket_none_world (E : Env σ) (p : packetPacker) (fuel : Nat)
    (onlyAck : Bool) (w : World σ)
    (h : (PackCoalescedPacket E p fuel onlyAck w).1 = Result.ok none) :
    ∃ L, (composeCoalesced E p fuel onlyAck w).1 = Result.ok L ∧ L.numPackets = 0 ∧
      (PackCoalescedPacket E p fuel onlyAck w).2.2 =
        (composeCoalesced E p fuel onlyAck w).2.2 := by
  unfold PackCoalescedPacket at h ⊢
  obtain ⟨L, hL, he⟩ := andThenP_ok _ _ _ h
  rw [he] at h ⊢
  by_cases hn : L.numPackets = 0
  · rw [if_pos hn]
    exact ⟨L, hL, hn, rfl⟩
  · exfalso
    rw [if_neg hn] at h
    obtain ⟨c, -, he2⟩ := andThenP_ok _ _ _ h
    rw [he2] at h
    simp at h

theorem PackCoalescedPacket_none_iff (E : Env σ) (p : packetPacker) (fuel : Nat)
    (onlyAck : Bool) (w : World σ) :
    (PackCoalescedPacket E p fuel onlyAck w).1 = Result.ok none ↔
      ∃ L p1 w1, composeCoalesced E p fuel onlyAck w = (Result.ok L, p1, w1) ∧
        L.initialPayload = none ∧ L.handshakePayload = none ∧ L.appDataPayload = none := by
  constructor
  · intro h
    obtain ⟨L, hL, hn, -⟩ := PackCoalescedPacket_none_world E p fuel onlyAck w h
    exact ⟨L, _, _, Prod.ext hL rfl,
      (composeCoalesced_count E p _ fuel onlyAck w _ L (Prod.ext hL rfl)).1 hn⟩
  · intro ⟨L, p1, w1, hc, hp⟩
    have hn := (composeCoalesced_count E p p1 fuel onlyAck w w1 L hc).2 hp
    unfold PackCoalescedPacket
    rw [andThenP_of_ok _ _ L (by rw [hc])]
    rw [if_pos hn]

theorem PackCoalescedPacket_none_quiet (E : Env σ) (p : packetPacker) (fuel : Nat)
    (onlyAck : Bool) (w : World σ)
    (h : (PackCoalescedPacket E p fuel onlyAck w).1 = Result.ok none) :
    Quiet w (PackCoalescedPacket E p fuel onlyAck w).2.2 := by
  obtain ⟨L, -, -, hw⟩ := PackCoalescedPacket_none_world E p fuel onlyAck w h
  rw [hw]
  exact composeCoalesced_quiet E p fuel onlyAck w

theorem PackCoalescedPacket_nothing (E : Env σ) (p : packetPacker) (fuel : Nat)
    (w : World σ) (sealer : Sealer)
    (hClient : p.perspective = Perspective.PerspectiveClient)
    (hI : ∀ s, (E.GetInitialSealer s).1 = Except.ok sealer)
    (hH : ∀ s, (E.GetHandshakeSealer s).1 = Except.error Error.ErrKeysNotYetAvailable)
    (h0 : ∀ s, (E.Get0RTTSealer s).1 = Except.error Error.ErrKeysNotYetAvailable)
    (h1 : ∀ s, (E.Get1RTTSealer s).1 = Except.error Error.ErrKeysNotYetAvailable)
    (hRT : ∀ s, (E.HasInitialData s).1 = false ∧ (E.HasHandshakeData s).1 = false)
    (hData : ∀ s, (E.streamHasData s EncryptionLevel.EncryptionInitial).1 = false)
    (hAck : ∀ s b, (E.GetAckFrame s EncryptionLevel.EncryptionInitial b).1 = none) :
    (PackCoalescedPacket E p fuel false w).1 = Result.ok none := by
  have hcp := maybeGetCryptoPacket_nothing E p fuel
    (MinInitialPacketSize - (sealer.Overhead : Int)) EncryptionLevel.EncryptionInitial
    (w.GetInitialSealer E).2 (Or.inl rfl) hRT hData hAck
  have hIw : (w.GetInitialSealer E).1 = Except.ok sealer := hI w.st
  obtain ⟨L1, hL1⟩ : ∃ L1 : coalescedLocals, L1 = { initialSealer := some sealer } :=
    ⟨_, rfl⟩
  have hs1 : (packInitialStage E p fuel MinInitialPacketSize false w).1 = Result.ok L1 := by
    unfold packInitialStage
    simp only [hIw]
    rw [andThen_of_ok _ _ _ hcp, hL1]
    rfl
  obtain ⟨lvl, hs3, -⟩ := packAppDataStage_skip E p fuel MinInitialPacketSize false L1
    (packHandshakeStage E p fuel MinInitialPacketSize false L1
      (packInitialStage E p fuel MinInitialPacketSize false w).2).2 _ _ h1 h0
  have hcc : composeCoalesced E p fuel false w =
      packAppDataStage E p fuel MinInitialPacketSize false L1
        (packHandshakeStage E p fuel MinInitialPacketSize false L1
          (packInitialStage E p fuel MinInitialPacketSize false w).2).2 := by
    unfold composeCoalesced
    simp only [hClient, if_true]
    rw [andThenP_of_ok _ _ L1 (by simpa [withPacker] using hs1)]
    rw [andThenP_of_ok _ _ L1 (by
      simpa [withPacker] using packHandshakeStage_skip E p fuel MinInitialPacketSize false L1 _ _
        hH (Or.inr rfl))]
    simp only [withPacker]
  rw [PackCoalescedPacket_none_iff]
  rw [← hcc] at hs3
  refine ⟨_, _, _, Prod.ext hs3 rfl, ?_⟩
  rw [hL1]
  exact ⟨rfl, rfl, rfl⟩

/-! ## The order of the packets in a coalesced packet -/

theorem forall₂_append {α β : Type} (R : α → β → Prop) (l1 l2 : List α) (m1 m2 : List β)
    (h1 : List.Forall₂ R l1 m1) (h2 : List.Forall₂ R l2 m2) :
    List.Forall₂ R (l1 ++ l2) (m1 ++ m2) := by
  induction h1 with
  | nil => exact h2
  | cons hab _ ih => exact List.Forall₂.cons hab ih

theorem sublist_const_of_length_le_one {α β : Type} (l : List α) (x : β)
    (h : l.length ≤ 1) : (l.map (fun _ => x)).Sublist [x] := by
  match l, h with
  | [], _ => exact List.nil_sublist _
  | [_], _ => exact List.Sublist.refl _

theorem EncryptionLevel_of_type (lp : longHeaderPacket) (encLevel : EncryptionLevel)
    (hl : lp.header.IsLongHeader = true) (ht : lp.header.Type_ = typeOfLevel encLevel)
    (hne : encLevel ≠ EncryptionLevel.Encryption1RTT) :
    lp.EncryptionLevel = Result.ok encLevel := by
  unfold longHeaderPacket.EncryptionLevel
  cases encLevel <;> simp [hl, ht, typeOfLevel] at hne ⊢

theorem appendLongIfPayload_bytes (E : Env σ) (p : packetPacker) (hdr : Option ExtendedHeader)
    (pl : Option payload) (padding : payload → Int) (encLevel : EncryptionLevel)
    (sealer : Option Sealer) (packet packet1 : coalescedPacket) (w w1 : World σ)
    (h : appendLongIfPayload E p hdr pl padding encLevel sealer packet w =
      (Result.ok packet1, w1)) :
    ∃ (l : List longHeaderPacket) (bs : List (List UInt8)),
      packet1.longHdrPackets = packet.longHdrPackets ++ l ∧
      packet1.buffer.Data = packet.buffer.Data ++ bs.flatten ∧
      packet1.shortHdrPacket = packet.shortHdrPacket ∧
      List.Forall₂ (LongPacketBytes E p) l bs ∧
      l.length ≤ 1 ∧
      ∀ lp ∈ l, lp.header.IsLongHeader = true ∧
        ∃ hdrv, hdr = some hdrv ∧ lp.header.Type_ = hdrv.Type_ := by
  rcases appendLongIfPayload_ok E p _ _ _ _ _ _ _ _ _ h with
    ⟨-, h2, -⟩ | ⟨plv, hdrv, sealerv, cont, buf, e1, e2, e3, a1, a2⟩
  · refine ⟨[], [], ?_, ?_, ?_, List.Forall₂.nil, by simp, ?_⟩
    · rw [h2]; simp
    · rw [h2]; simp
    · rw [h2]
    · intro lp hlp; simp at hlp
  · obtain ⟨b0, hdrBytes, raw, b1, b2, b3, b4, b5, b6, b7, b8, b9⟩ :=
      appendLongHeaderPacket_ok E p _ _ _ _ _ _ _ _ cont buf a1
    refine ⟨[cont], [encryptPacket raw sealerv hdrv.PacketNumber (hdrBytes.length : Int)
      (hdrv.PacketNumberLen : Int)], ?_, ?_, ?_, ?_, by simp, ?_⟩
    · rw [a2]
    · rw [a2]; simp [b9]
    · rw [a2]
    · refine List.Forall₂.cons ?_ List.Forall₂.nil
      refine ⟨hdrBytes, raw, plv, _, sealerv, ?_, b6.symm, b7.symm, b2, ?_, ?_⟩
      · rw [b8]; exact b1
      · rw [b8]
      · rw [encryptPacket_length, b5]; push_cast; rfl
    · intro lp hlp
      simp only [List.mem_singleton] at hlp
      subst hlp
      rw [b8]
      exact ⟨b0, hdrv, e2, rfl⟩

theorem appendShortHeaderPacket_bytes (E : Env σ) (p : packetPacker) (buffer : packetBuffer)
    (pn : PacketNumber) (pnLen : PacketNumberLen) (kp : KeyPhaseBit) (pl : payload)
    (padding : Int) (sealer : Sealer) (isMTUProbePacket : Bool) (w w1 : World σ)
    (pkt : shortHeaderPacket) (buf : packetBuffer)
    (h : appendShortHeaderPacket E p buffer pn pnLen kp pl padding sealer isMTUProbePacket w =
      (Result.ok (pkt, buf), w1)) :
    ∃ bytes, buf.Data = buffer.Data ++ bytes ∧ ShortPacketBytes E p pkt bytes ∧
      pkt.Packet.EncryptionLevel = EncryptionLevel.Encryption1RTT := by
  unfold appendShortHeaderPacket at h
  simp only at h
  split at h
  · simp at h
  · rename_i hdrBytes hW
    split at h
    · simp at h
    · rename_i hpn
      split at h
      · simp at h
      · rename_i raw hA
        split at h
        · simp at h
        · rename_i hsz
          split at h
          · simp at h
          · simp only [Prod.mk.injEq, Result.ok.injEq] at h
            obtain ⟨⟨h1, h2⟩, h3⟩ := h
            subst h1 h2 h3
            exact ⟨_, rfl, ⟨hdrBytes, raw, pl, _, sealer, hW, rfl, rfl, hA, rfl, rfl⟩, rfl⟩

theorem appendAppData_bytes (E : Env σ) (p : packetPacker) (L : coalescedLocals)
    (packet packet1 : coalescedPacket) (w w1 : World σ)
    (hs : packet.shortHdrPacket = none)
    (h : appendAppData E p L packet w = (Result.ok packet1, w1)) :
    ∃ (l : List longHeaderPacket) (bs : List (List UInt8)) (sb : List UInt8),
      packet1.longHdrPackets = packet.longHdrPackets ++ l ∧
      packet1.buffer.Data = packet.buffer.Data ++ bs.flatten ++ sb ∧
      List.Forall₂ (LongPacketBytes E p) l bs ∧
      l.length ≤ 1 ∧
      (∀ lp ∈ l, lp.header.IsLongHeader = true ∧ L.appDataEncLevel = EncryptionLevel.Encryption0RTT ∧
        ∃ hdrv, L.appDataHdr = some hdrv ∧ lp.header.Type_ = hdrv.Type_) ∧
      (packet1.shortHdrPacket = none → sb = []) ∧
      ∀ sp, packet1.shortHdrPacket = some sp →
        l = [] ∧ ShortPacketBytes E p sp sb ∧
          sp.Packet.EncryptionLevel = EncryptionLevel.Encryption1RTT := by
  unfold appendAppData at h
  split at h
  · simp only [Prod.mk.injEq, Result.ok.injEq] at h
    obtain ⟨h1, -⟩ := h
    subst h1
    refine ⟨[], [], [], by simp, by simp, List.Forall₂.nil, by simp, ?_, fun _ => rfl, ?_⟩
    · intro lp hlp; simp at hlp
    · intro sp hsp; rw [hs] at hsp; simp at hsp
  · rename_i pl hpl
    split at h
    · rename_i hl
      obtain ⟨l, bs, c1, c2, c3, c4, c5, c6⟩ :=
        appendLongIfPayload_bytes E p _ _ _ _ _ _ _ _ _ h
      refine ⟨l, bs, [], c1, by simpa using c2, c4, c5, ?_, fun _ => rfl, ?_⟩
      · intro lp hlp
        exact ⟨(c6 lp hlp).1, hl, (c6 lp hlp).2⟩
      · intro sp hsp; rw [c3, hs] at hsp; simp at hsp
    · obtain ⟨hdrv, sealerv, sp, buf, d1, d2, d3, d4⟩ :=
        appendShortToPacket_ok E p _ _ _ _ _ _ _ _ _ h
      obtain ⟨bytes, f1, f2, f3⟩ := appendShortHeaderPacket_bytes E p _ _ _ _ _ _ _ _ _ _ _ _ d3
      refine ⟨[], [], bytes, ?_, ?_, List.Forall₂.nil, by simp, ?_, ?_, ?_⟩
      · rw [d4]; simp
      · rw [d4]; simp [f1]
      · intro lp hlp; simp at hlp
      · intro hn; rw [d4] at hn; simp at hn
      · intro sp1 hsp
        rw [d4] at hsp
        simp only [Option.some.injEq] at hsp
        subst hsp
        exact ⟨rfl, f2, f3⟩

theorem assembleCoalesced_shape (E : Env σ) (p : packetPacker) (L : coalescedLocals)
    (w w1 : World σ) (c : coalescedPacket)
    (h : assembleCoalesced E p L w = (Result.ok c, w1)) :
    ∃ (l1 l2 l3 : List longHeaderPacket) (b1 b2 b3 : List (List UInt8)) (sb : List UInt8),
      c.longHdrPackets = l1 ++ l2 ++ l3 ∧
      c.buffer.Data = (b1 ++ b2 ++ b3).flatten ++ sb ∧
      List.Forall₂ (LongPacketBytes E p) (l1 ++ l2 ++ l3) (b1 ++ b2 ++ b3) ∧
      l1.length ≤ 1 ∧ l2.length ≤ 1 ∧ l3.length ≤ 1 ∧
      (∀ lp ∈ l1, lp.header.IsLongHeader = true ∧
        ∃ hdrv, L.initialHdr = some hdrv ∧ lp.header.Type_ = hdrv.Type_) ∧
      (∀ lp ∈ l2, lp.header.IsLongHeader = true ∧
        ∃ hdrv, L.handshakeHdr = some hdrv ∧ lp.header.Type_ = hdrv.Type_) ∧
      (∀ lp ∈ l3, lp.header.IsLongHeader = true ∧
        L.appDataEncLevel = EncryptionLevel.Encryption0RTT ∧
        ∃ hdrv, L.appDataHdr = some hdrv ∧ lp.header.Type_ = hdrv.Type_) ∧
      (c.shortHdrPacket = none → sb = []) ∧
      ∀ sp, c.shortHdrPacket = some sp →
        l3 = [] ∧ ShortPacketBytes E p sp sb ∧
          sp.Packet.EncryptionLevel = EncryptionLevel.Encryption1RTT := by
  unfold assembleCoalesced at h
  simp only at h
  rw [andThen_ok_iff] at h
  obtain ⟨packet1, h1, h⟩ := h
  rw [andThen_ok_iff] at h
  obtain ⟨packet2, h2, h3⟩ := h
  obtain ⟨l1, b1, c1, c2, c3, c4, c5, c6⟩ :=
    appendLongIfPayload_bytes E p _ _ _ _ _ _ _ _ _ (Prod.ext h1 rfl)
  obtain ⟨l2, b2, d1, d2, d3, d4, d5, d6⟩ :=
    appendLongIfPayload_bytes E p _ _ _ _ _ _ _ _ _ (Prod.ext h2 rfl)
  have hs : packet2.shortHdrPacket = none := by rw [d3, c3]
  obtain ⟨l3, b3, sb, e1, e2, e3, e4, e5, e6, e7⟩ :=
    appendAppData_bytes E p L _ _ _ _ hs h3
  refine ⟨l1, l2, l3, b1, b2, b3, sb, ?_, ?_, ?_, c5, d5, e4, c6, d6, e5, e6, e7⟩
  · rw [e1, d1, c1]; simp [World.getPacketBuffer]
  · rw [e2, d2, c2]; simp [World.getPacketBuffer]
  · exact forall₂_append _ _ _ _ _ (forall₂_append _ _ _ _ _ c4 d4) e3

theorem PackCoalescedPacket_some (E : Env σ) (p p1 : packetPacker) (fuel : Nat)
    (onlyAck : Bool) (w w1 : World σ) (c : coalescedPacket)
    (h : PackCoalescedPacket E p fuel onlyAck w = (Result.ok (some c), p1, w1)) :
    ∃ L w0, composeCoalesced E p fuel onlyAck w = (Result.ok L, p1, w0) ∧
      L.numPackets ≠ 0 ∧ assembleCoalesced E p1 L w0 = (Result.ok c, w1) := by
  unfold PackCoalescedPacket at h
  rw [andThenP_ok_iff] at h
  obtain ⟨L, hc, h⟩ := h
  by_cases hn : L.numPackets = 0
  · rw [if_pos hn] at h
    simp at h
  · rw [if_neg hn] at h
    rw [andThenP_ok_iff] at h
    obtain ⟨packet, ha, h⟩ := h
    simp only [withPacker, Prod.mk.injEq, Result.ok.injEq, Option.some.injEq] at h ha
    obtain ⟨h1, h2, h3⟩ := h
    refine ⟨L, (composeCoalesced E p fuel onlyAck w).2.2, ?_, hn, ?_⟩
    · rw [← h2]
      exact Prod.ext hc rfl
    · rw [← h1, ← h3, ← h2]
      exact Prod.ext ha rfl

/-! ## The length recorded in a payload -/

theorem framesLength_append (E : Env σ) (v : VersionNumber) (a b : List Frame) :
    framesLength E v (a ++ b) = framesLength E v a + framesLength E v b := by
  simp [framesLength]

theorem framesLength_singleton (E : Env σ) (v : VersionNumber) (f : Frame) :
    framesLength E v [f] = E.frameLength f.Frame v := by
  simp [framesLength]

theorem ackPayload_length (E : Env σ) (p : packetPacker) (ack : Option AckFrame) :
    PayloadLengthOK E p.version (ackPayload E p ack) ∧ (ackPayload E p ack).ack = ack ∧
      (ackPayload E p ack).frames = [] := by
  cases ack <;> simp [ackPayload, PayloadLengthOK, ackLen, framesLength]

theorem cryptoRetransmissionLoop_length (E : Env σ) (p : packetPacker)
    (encLevel : EncryptionLevel) (fuel : Nat) :
    ∀ (pl pl1 : payload) (maxPacketSize : Int) (w w1 : World σ),
      PayloadLengthOK E p.version pl →
      cryptoRetransmissionLoop E p encLevel fuel pl maxPacketSize w = (Result.ok pl1, w1) →
      PayloadLengthOK E p.version pl1 ∧ pl1.ack = pl.ack := by
  induction fuel with
  | zero =>
    intro pl pl1 m w w1 _ h
    simp [cryptoRetransmissionLoop] at h
  | succ n ih =>
    intro pl pl1 m w w1 hl h
    unfold cryptoRetransmissionLoop at h
    simp only at h
    split at h
    · simp only [Prod.mk.injEq, Result.ok.injEq] at h
      rw [← h.1]
      exact ⟨hl, rfl⟩
    · rename_i f hf
      have := ih _ pl1 _ _ w1 (?_) h
      · exact this
      · unfold PayloadLengthOK at hl ⊢
        simp only [framesLength_append, framesLength_singleton]
        omega

theorem maybeGetCryptoPacket_eq (E : Env σ) (p : packetPacker) (fuel : Nat)
    (maxPacketSize : Int) (encLevel : EncryptionLevel) (ackAllowed : Bool) (w : World σ) :
    maybeGetCryptoPacket E p fuel maxPacketSize encLevel false ackAllowed w =
      match cryptoAsked E encLevel ackAllowed w with
      | none => (Result.goPanic "nil pointer dereference", w)
      | some q =>
        if q.2.1 = false ∧ q.1 = false ∧ q.2.2.1 = none then (Result.ok (none, none), q.2.2.2)
        else cryptoFill E p fuel maxPacketSize encLevel q.1 q.2.2.1 q.2.2.2 := by
  unfold maybeGetCryptoPacket cryptoAsked cryptoFill cryptoBudget
  cases cryptoHasRetransmission E encLevel w <;> simp

theorem maybeGetCryptoPacket_onlyAck (E : Env σ) (p : packetPacker) (fuel : Nat)
    (maxPacketSize : Int) (encLevel : EncryptionLevel) (ackAllowed : Bool) (w : World σ) :
    maybeGetCryptoPacket E p fuel maxPacketSize encLevel true ackAllowed w =
      match (w.GetAckFrame E encLevel true).1 with
      | some ack =>
        (Result.ok (some (getLongHeader E p encLevel (w.GetAckFrame E encLevel true).2).1,
          some { ack := some ack, length := E.ackLength ack p.version }),
          (getLongHeader E p encLevel (w.GetAckFrame E encLevel true).2).2)
      | none => (Result.ok (none, none), (w.GetAckFrame E encLevel true).2) := by
  cases h : (w.GetAckFrame E encLevel true).1 <;> simp [maybeGetCryptoPacket, h]

theorem cryptoFill_ok (E : Env σ) (p : packetPacker) (fuel : Nat) (maxPacketSize : Int)
    (encLevel : EncryptionLevel) (hasRetransmission : Bool) (ack : Option AckFrame)
    (w w1 : World σ) (hdr : Option ExtendedHeader) (plo : Option payload)
    (h : cryptoFill E p fuel maxPacketSize encLevel hasRetransmission ack w =
      (Result.ok (hdr, plo), w1)) :
    hdr = some (getLongHeader E p encLevel w).1 ∧
    ∃ pl, plo = some pl ∧ PayloadLengthOK E p.version pl ∧ pl.ack = ack := by
  unfold cryptoFill at h
  simp only at h
  split at h
  · rw [andThen_ok_iff] at h
    obtain ⟨pl2, h2, h3⟩ := h
    simp only [Prod.mk.injEq, Result.ok.injEq] at h3
    obtain ⟨⟨h3, h4⟩, -⟩ := h3
    obtain ⟨c1, c2⟩ := cryptoRetransmissionLoop_length E p encLevel fuel _ pl2 _ _ _
      (ackPayload_length E p ack).1 (Prod.ext h2 rfl)
    exact ⟨h3.symm, pl2, h4.symm, c1, by rw [c2]; exact (ackPayload_length E p ack).2.1⟩
  · obtain ⟨a1, a2, a3⟩ := ackPayload_length E p ack
    split at h
    · simp only [Prod.mk.injEq, Result.ok.injEq] at h
      obtain ⟨⟨h3, h4⟩, -⟩ := h
      refine ⟨h3.symm, _, h4.symm, ?_, a2⟩
      unfold PayloadLengthOK at a1 ⊢
      simp only [framesLength_singleton]
      rw [a3] at a1
      simp only [framesLength, List.map_nil, List.sum_nil, add_zero] at a1
      rw [a1]
    · simp only [Prod.mk.injEq, Result.ok.injEq] at h
      obtain ⟨⟨h3, h4⟩, -⟩ := h
      exact ⟨h3.symm, _, h4.symm, a1, a2⟩

theorem maybeGetCryptoPacket_length (E : Env σ) (p : packetPacker) (fuel : Nat)
    (maxPacketSize : Int) (encLevel : EncryptionLevel) (onlyAck ackAllowed : Bool)
    (w w1 : World σ) (hdr : Option ExtendedHeader) (pl : payload)
    (h : maybeGetCryptoPacket E p fuel maxPacketSize encLevel onlyAck ackAllowed w =
      (Result.ok (hdr, some pl), w1)) :
    PayloadLengthOK E p.version pl := by
  cases onlyAck with
  | true =>
    rw [maybeGetCryptoPacket_onlyAck] at h
    split at h
    · simp only [Prod.mk.injEq, Result.ok.injEq, Option.some.injEq] at h
      rw [← h.1.2]
      simp [PayloadLengthOK, ackLen, framesLength]
    · simp at h
  | false =>
    rw [maybeGetCryptoPacket_eq] at h
    split at h
    · simp at h
    · split at h
      · simp at h
      · obtain ⟨-, pl2, e1, e2, -⟩ := cryptoFill_ok E p fuel _ _ _ _ _ _ _ _ h
        simp only [Option.some.injEq] at e1
        rw [e1]; exact e2

theorem addDatagram_length (E : Env σ) (p : packetPacker) (maxFrameSize : Int) (pl : payload)
    (w : World σ) (hl : PayloadLengthOK E p.version pl) :
    PayloadLengthOK E p.version (addDatagram E p maxFrameSize pl w).1 ∧
      (addDatagram E p maxFrameSize pl w).1.ack = pl.ack := by
  unfold addDatagram
  split
  · simp only
    split
    · split
      · refine ⟨?_, rfl⟩
        unfold PayloadLengthOK at hl ⊢
        simp only [framesLength_append, framesLength_singleton]
        omega
      · exact ⟨hl, rfl⟩
    · exact ⟨hl, rfl⟩
  · exact ⟨hl, rfl⟩

theorem appDataRetransmissionLoop_length (E : Env σ) (p : packetPacker) (maxFrameSize : Int)
    (fuel : Nat) :
    ∀ (pl pl1 : payload) (w w1 : World σ),
      PayloadLengthOK E p.version pl →
      appDataRetransmissionLoop E p maxFrameSize fuel pl w = (Result.ok pl1, w1) →
      PayloadLengthOK E p.version pl1 ∧ pl1.ack = pl.ack := by
  induction fuel with
  | zero =>
    intro pl pl1 w w1 _ h
    simp [appDataRetransmissionLoop] at h
  | succ n ih =>
    intro pl pl1 w w1 hl h
    unfold appDataRetransmissionLoop at h
    simp only at h
    split at h
    · simp only [Prod.mk.injEq, Result.ok.injEq] at h
      rw [← h.1]
      exact ⟨hl, rfl⟩
    · split at h
      · simp only [Prod.mk.injEq, Result.ok.injEq] at h
        rw [← h.1]
        exact ⟨hl, rfl⟩
      · have := ih _ pl1 _ w1 (?_) h
        · exact this
        · unfold PayloadLengthOK at hl ⊢
          simp only [framesLength_append, framesLength_singleton]
          omega

theorem appendFramerFrames_length (E : Env σ) (v : VersionNumber) (maxFrameSize : Int)
    (hasData : Bool) (pl : payload) (w : World σ) (hR : FramerReports E v)
    (hl : PayloadLengthOK E v pl) :
    PayloadLengthOK E v (appendFramerFrames E maxFrameSize hasData pl w).1 ∧
      (appendFramerFrames E maxFrameSize hasData pl w).1.ack = pl.ack := by
  unfold appendFramerFrames
  split
  · refine ⟨?_, rfl⟩
    unfold PayloadLengthOK at hl ⊢
    simp only [World.AppendStreamFrames, World.AppendControlFrames]
    rw [hR.stream, hR.control]
    omega
  · exact ⟨hl, rfl⟩

theorem composeNextPacket_eq (E : Env σ) (p : packetPacker) (fuel : Nat)
    (maxFrameSize : Int) (ackAllowed : Bool) (w : World σ) :
    composeNextPacket E p fuel maxFrameSize false ackAllowed w =
      composeRest E p fuel maxFrameSize (composeAsked E ackAllowed w).1
        (composeAsked E ackAllowed w).2.1 (composeAsked E ackAllowed w).2.2.1.isSome
        (addDatagram E p maxFrameSize (ackPayload E p (composeAsked E ackAllowed w).2.2.1)
          (composeAsked E ackAllowed w).2.2.2).1
        (addDatagram E p maxFrameSize (ackPayload E p (composeAsked E ackAllowed w).2.2.1)
          (composeAsked E ackAllowed w).2.2.2).2 := by
  unfold composeNextPacket composeRest composeAsked
  simp

theorem composeNextPacket_onlyAck (E : Env σ) (p : packetPacker) (fuel : Nat)
    (maxFrameSize : Int) (ackAllowed : Bool) (w : World σ) :
    composeNextPacket E p fuel maxFrameSize true ackAllowed w =
      match (w.GetAckFrame E EncryptionLevel.Encryption1RTT true).1 with
      | some ack => (Result.ok { ack := some ack, length := E.ackLength ack p.version },
          (w.GetAckFrame E EncryptionLevel.Encryption1RTT true).2)
      | none => (Result.ok {}, (w.GetAckFrame E EncryptionLevel.Encryption1RTT true).2) := by
  cases h : (w.GetAckFrame E EncryptionLevel.Encryption1RTT true).1 <;>
    simp [composeNextPacket, h]

theorem composeRest_length (E : Env σ) (p : packetPacker) (fuel : Nat) (maxFrameSize : Int)
    (hasData hasRetransmission hasAck : Bool) (pl pl1 : payload) (w w1 : World σ)
    (hR : FramerReports E p.version) (hl : PayloadLengthOK E p.version pl)
    (h : composeRest E p fuel maxFrameSize hasData hasRetransmission hasAck pl w =
      (Result.ok pl1, w1)) :
    PayloadLengthOK E p.version pl1 ∧ pl1.ack = pl.ack := by
  unfold composeRest at h
  split at h
  · simp only [Prod.mk.injEq, Result.ok.injEq] at h
    rw [← h.1]; exact ⟨hl, rfl⟩
  · rw [andThen_ok_iff] at h
    obtain ⟨pl2, h2, h3⟩ := h
    simp only [Prod.mk.injEq, Result.ok.injEq] at h3
    rw [← h3.1]
    have h4 : PayloadLengthOK E p.version pl2 ∧ pl2.ack = pl.ack := by
      split at h2
      · exact appDataRetransmissionLoop_length E p _ fuel _ pl2 _ _ hl (Prod.ext h2 rfl)
      · simp only [Result.ok.injEq] at h2
        rw [← h2]; exact ⟨hl, rfl⟩
    obtain ⟨c1, c2⟩ := appendFramerFrames_length E p.version maxFrameSize hasData pl2
      (if hasRetransmission = true then appDataRetransmissionLoop E p maxFrameSize fuel pl w
        else (Result.ok pl, w)).2 hR h4.1
    exact ⟨c1, by rw [c2, h4.2]⟩

theorem composeNextPacket_length (E : Env σ) (p : packetPacker) (fuel : Nat)
    (maxFrameSize : Int) (onlyAck ackAllowed : Bool) (w w1 : World σ) (pl : payload)
    (hR : FramerReports E p.version)
    (h : composeNextPacket E p fuel maxFrameSize onlyAck ackAllowed w = (Result.ok pl, w1)) :
    PayloadLengthOK E p.version pl := by
  cases onlyAck with
  | true =>
    rw [composeNextPacket_onlyAck] at h
    split at h
    · simp only [Prod.mk.injEq, Result.ok.injEq] at h
      rw [← h.1]
      simp [PayloadLengthOK, ackLen, framesLength]
    · simp only [Prod.mk.injEq, Result.ok.injEq] at h
      rw [← h.1]
      simp [PayloadLengthOK, ackLen, framesLength]
  | false =>
    rw [composeNextPacket_eq] at h
    exact (composeRest_length E p fuel _ _ _ _ _ pl _ _ hR
      (addDatagram_length E p _ _ _ (ackPayload_length E p _).1).1 h).1

theorem finishAppDataPacket_length (E : Env σ) (p : packetPacker) (pl pl1 : payload)
    (hl : PayloadLengthOK E p.version pl)
    (h : (finishAppDataPacket E p pl).1 = some pl1) :
    PayloadLengthOK E p.version pl1 := by
  unfold finishAppDataPacket at h
  split at h
  · split at h
    · simp at h
    · split at h
      · simp only [Option.some.injEq] at h
        rw [← h]
        unfold PayloadLengthOK at hl ⊢
        simp only [framesLength_append, framesLength_singleton]
        omega
      · simp only [Option.some.injEq] at h
        rw [← h]; exact hl
  · simp only [Option.some.injEq] at h
    rw [← h]; exact hl

theorem maybeGetAppDataPacket_length (E : Env σ) (p p1 : packetPacker) (fuel : Nat)
    (maxPayloadSize : Int) (onlyAck ackAllowed : Bool) (w w1 : World σ) (pl : payload)
    (hR : FramerReports E p.version)
    (h : maybeGetAppDataPacket E p fuel maxPayloadSize onlyAck ackAllowed w =
      (Result.ok (some pl), p1, w1)) :
    PayloadLengthOK E p.version pl := by
  unfold maybeGetAppDataPacket at h
  rw [andThenP_ok_iff] at h
  obtain ⟨pl0, h0, h2⟩ := h
  simp only [withPacker, Prod.mk.injEq, Result.ok.injEq] at h0 h2
  exact finishAppDataPacket_length E p pl0 pl
    (composeNextPacket_length E p fuel _ _ _ _ _ pl0 hR (Prod.ext h0 rfl)) h2.1

theorem simEnv_FramerReports (v : VersionNumber) : FramerReports simEnv v := by
  constructor
  · intro s frames maxLen
    simp only [simEnv, simAppend]
    split
    · simp [framesLength, Function.comp_def]
    · simp
  · intro s frames maxLen
    simp only [simEnv, simAppend]
    split
    · simp [framesLength, Function.comp_def]
    · simp

/-! ## The questions `maybeGetCryptoPacket` asks -/

theorem cryptoAsked_some (E : Env σ) (encLevel : EncryptionLevel) (ackAllowed : Bool)
    (w : World σ)
    (hLvl : encLevel = EncryptionLevel.EncryptionInitial ∨
      encLevel = EncryptionLevel.EncryptionHandshake) :
    ∃ hasR hasD ack wa, cryptoAsked E encLevel ackAllowed w = some (hasR, hasD, ack, wa) ∧
      wa.calls = w.calls ++ [hasRetransmissionCall encLevel, Call.streamHasData encLevel] ++
        (if ackAllowed = true then [Call.GetAckFrame encLevel (!hasR && !hasD)] else []) ∧
      (ackAllowed = false → ack = none) ∧
      (∃ hr, cryptoHasRetransmission E encLevel w = some hr ∧ hasR = hr.1 ∧
        hasD = (E.streamHasData hr.2.st encLevel).1) := by
  rcases hLvl with h | h <;> subst h
  · have hr : cryptoHasRetransmission E EncryptionLevel.EncryptionInitial w =
        some (w.HasInitialData E) := rfl
    unfold cryptoAsked
    rw [hr]
    refine ⟨_, _, _, _, rfl, ?_, ?_, _, rfl, rfl, rfl⟩
    · cases ackAllowed <;>
        simp [hasRetransmissionCall, World.HasInitialData, World.streamHasData,
          World.GetAckFrame, World.step]
    · intro h
      subst h
      rfl
  · have hr : cryptoHasRetransmission E EncryptionLevel.EncryptionHandshake w =
        some (w.HasHandshakeData E) := rfl
    unfold cryptoAsked
    rw [hr]
    refine ⟨_, _, _, _, rfl, ?_, ?_, _, rfl, rfl, rfl⟩
    · cases ackAllowed <;>
        simp [hasRetransmissionCall, World.HasHandshakeData, World.streamHasData,
          World.GetAckFrame, World.step]
    · intro h
      subst h
      rfl

theorem cryptoFill_not_nothing (E : Env σ) (p : packetPacker) (fuel : Nat)
    (maxPacketSize : Int) (encLevel : EncryptionLevel) (hasRetransmission : Bool)
    (ack : Option AckFrame) (w : World σ) :
    (cryptoFill E p fuel maxPacketSize encLevel hasRetransmission ack w).1 ≠
      Result.ok (none, none) := by
  intro h
  obtain ⟨h1, -⟩ := cryptoFill_ok E p fuel maxPacketSize encLevel hasRetransmission ack w _
    none none (Prod.ext h rfl)
  simp at h1

theorem cryptoFill_noRetransmission (E : Env σ) (p : packetPacker) (fuel : Nat)
    (maxPacketSize : Int) (encLevel : EncryptionLevel) (ack : Option AckFrame) (w : World σ) :
    ∃ pl w1, cryptoFill E p fuel maxPacketSize encLevel false ack w =
        (Result.ok (some (getLongHeader E p encLevel w).1, some pl), w1) ∧
      pl.ack = ack := by
  unfold cryptoFill
  simp only [Bool.false_eq_true, if_false]
  split
  · exact ⟨_, _, rfl, (ackPayload_length E p ack).2.1⟩
  · exact ⟨_, _, rfl, (ackPayload_length E p ack).2.1⟩

/-! ## The frames of the payload of `maybeGetCryptoPacket` -/

theorem cryptoRetransmissionLoop_succ (E : Env σ) (p : packetPacker)
    (encLevel : EncryptionLevel) (n : Nat) (pl : payload) (maxPacketSize : Int) (w : World σ) :
    cryptoRetransmissionLoop E p encLevel (n + 1) pl maxPacketSize w =
      match (cryptoGetFrame E encLevel maxPacketSize w).1 with
      | none => (Result.ok pl, (cryptoGetFrame E encLevel maxPacketSize w).2)
      | some f =>
        cryptoRetransmissionLoop E p encLevel n
          { pl with frames := pl.frames ++ [{ Frame := f }],
                    length := pl.length + E.frameLength f p.version }
          (maxPacketSize - E.frameLength f p.version)
          (cryptoGetFrame E encLevel maxPacketSize w).2 := by
  cases encLevel <;> rfl

theorem cryptoRetransmissionLoop_frames (E : Env σ) (p : packetPacker)
    (encLevel : EncryptionLevel) (fuel : Nat) :
    ∀ (pl pl1 : payload) (maxPacketSize : Int) (w w1 : World σ),
      cryptoRetransmissionLoop E p encLevel fuel pl maxPacketSize w = (Result.ok pl1, w1) →
      ∃ extra, pl1.frames = pl.frames ++ extra ∧
        (extra = [] ↔ (cryptoGetFrame E encLevel maxPacketSize w).1 = none) := by
  induction fuel with
  | zero =>
    intro pl pl1 m w w1 h
    simp [cryptoRetransmissionLoop] at h
  | succ n ih =>
    intro pl pl1 m w w1 h
    rw [cryptoRetransmissionLoop_succ] at h
    cases hf : (cryptoGetFrame E encLevel m w).1 with
    | none =>
      simp only [hf, Prod.mk.injEq, Result.ok.injEq] at h
      rw [← h.1]
      exact ⟨[], by simp, by simp⟩
    | some f =>
      simp only [hf] at h
      obtain ⟨extra, he, -⟩ := ih _ pl1 _ _ w1 h
      refine ⟨[{ Frame := f }] ++ extra, ?_, ?_⟩
      · rw [he]; simp
      · simp

theorem cryptoFill_frames (E : Env σ) (p : packetPacker) (fuel : Nat) (maxPacketSize : Int)
    (encLevel : EncryptionLevel) (hasRetransmission : Bool) (ack : Option AckFrame)
    (w w1 : World σ) (hdr : Option ExtendedHeader) (pl : payload)
    (h : cryptoFill E p fuel maxPacketSize encLevel hasRetransmission ack w =
      (Result.ok (hdr, some pl), w1)) :
    (hasRetransmission = true →
      (pl.frames = [] ↔
        (cryptoGetFrame E encLevel
          (cryptoBudget E p maxPacketSize ack (getLongHeader E p encLevel w).1)
          (getLongHeader E p encLevel w).2).1 = none)) ∧
    (hasRetransmission = false →
      (pl.frames = [] ↔
        ((getLongHeader E p encLevel w).2.streamHasData E encLevel).1 = false)) := by
  unfold cryptoFill at h
  simp only at h
  split at h
  · rename_i hr
    refine ⟨fun _ => ?_, fun hf => absurd hr (by simp [hf])⟩
    rw [andThen_ok_iff] at h
    obtain ⟨pl2, h2, h3⟩ := h
    simp only [Prod.mk.injEq, Result.ok.injEq, Option.some.injEq] at h3
    obtain ⟨extra, he, hiff⟩ := cryptoRetransmissionLoop_frames E p encLevel fuel _ pl2 _ _ _
      (Prod.ext h2 rfl)
    rw [← h3.1.2, he, (ackPayload_length E p ack).2.2]
    simpa using hiff
  · rename_i hr
    refine ⟨fun hf => absurd hf hr, fun _ => ?_⟩
    split at h
    · rename_i hd
      simp only [Prod.mk.injEq, Result.ok.injEq, Option.some.injEq] at h
      rw [← h.1.2]
      simp [hd]
    · rename_i hd
      simp only [Prod.mk.injEq, Result.ok.injEq, Option.some.injEq] at h
      rw [← h.1.2, (ackPayload_length E p ack).2.2]
      simpa using hd

/-! ## The datagram in `composeNextPacket` -/

theorem callsAdded_refl (P : Call → Prop) (w : World σ) : CallsAdded P w w :=
  ⟨[], by simp, by simp⟩

theorem callsAdded_trans (P : Call → Prop) (w w1 w2 : World σ)
    (h1 : CallsAdded P w w1) (h2 : CallsAdded P w1 w2) : CallsAdded P w w2 := by
  obtain ⟨c1, e1, p1⟩ := h1
  obtain ⟨c2, e2, p2⟩ := h2
  refine ⟨c1 ++ c2, by rw [e2, e1, List.append_assoc], ?_⟩
  intro c hc
  rcases List.mem_append.mp hc with h | h
  · exact p1 c h
  · exact p2 c h

theorem callsAdded_step (P : Call → Prop) (w : World σ) (c : Call) (s : σ) (h : P c) :
    CallsAdded P w (w.step c s) :=
  ⟨[c], rfl, by simpa using h⟩

theorem ackPayload_eq (E : Env σ) (p : packetPacker) (ack : Option AckFrame) :
    ackPayload E p ack = { frames := [], ack := ack, length := ackLen E p.version ack } := by
  cases ack <;> rfl

theorem appDataRetransmissionLoop_datagram (E : Env σ) (p : packetPacker)
    (maxFrameSize : Int) (fuel : Nat) :
    ∀ (pl pl1 : payload) (w w1 : World σ),
      appDataRetransmissionLoop E p maxFrameSize fuel pl w = (Result.ok pl1, w1) →
      CallsAdded notDatagramCall w w1 ∧ ∃ extra, pl1.frames = pl.frames ++ extra := by
  induction fuel with
  | zero =>
    intro pl pl1 w w1 h
    simp [appDataRetransmissionLoop] at h
  | succ n ih =>
    intro pl pl1 w w1 h
    unfold appDataRetransmissionLoop at h
    simp only at h
    split at h
    · simp only [Prod.mk.injEq, Result.ok.injEq] at h
      rw [← h.1, ← h.2]
      exact ⟨callsAdded_refl _ _, [], by simp⟩
    · have hs : CallsAdded notDatagramCall w
          (w.GetAppDataFrame E (maxFrameSize - pl.length)).2 :=
        callsAdded_step _ _ _ _ ⟨by simp, by simp⟩
      split at h
      · simp only [Prod.mk.injEq, Result.ok.injEq] at h
        rw [← h.1, ← h.2]
        exact ⟨hs, [], by simp⟩
      · rename_i f hf
        obtain ⟨c1, extra, he⟩ := ih _ pl1 _ w1 h
        exact ⟨callsAdded_trans _ _ _ _ hs c1, _ , by rw [he, List.append_assoc]⟩

theorem appendFramerFrames_datagram (E : Env σ) (maxFrameSize : Int) (hasData : Bool)
    (pl : payload) (w : World σ) :
    CallsAdded notDatagramCall w (appendFramerFrames E maxFrameSize hasData pl w).2 ∧
    (FramerAppends E →
      ∃ extra, (appendFramerFrames E maxFrameSize hasData pl w).1.frames = pl.frames ++ extra) := by
  unfold appendFramerFrames
  split
  · refine ⟨?_, ?_⟩
    · exact callsAdded_trans _ _ _ _ (callsAdded_step _ _ _ _ ⟨by simp, by simp⟩)
        (callsAdded_step _ _ _ _ ⟨by simp, by simp⟩)
    · intro hF
      simp only [World.AppendControlFrames, World.AppendStreamFrames, World.step]
      obtain ⟨e1, h1⟩ := hF.control w.st pl.frames (maxFrameSize - pl.length)
      obtain ⟨e2, h2⟩ := hF.stream (E.AppendControlFrames w.st pl.frames
        (maxFrameSize - pl.length)).2 (E.AppendControlFrames w.st pl.frames
        (maxFrameSize - pl.length)).1.1 (maxFrameSize - (pl.length + (E.AppendControlFrames w.st
        pl.frames (maxFrameSize - pl.length)).1.2))
      refine ⟨e1 ++ e2, ?_⟩
      rw [h2, h1, List.append_assoc]
  · exact ⟨callsAdded_refl _ _, fun _ => ⟨[], by simp⟩⟩

theorem composeRest_datagram (E : Env σ) (p : packetPacker) (fuel : Nat) (maxFrameSize : Int)
    (hasData hasRetransmission hasAck : Bool) (pl pl1 : payload) (w w1 : World σ)
    (h : composeRest E p fuel maxFrameSize hasData hasRetransmission hasAck pl w =
      (Result.ok pl1, w1)) :
    CallsAdded notDatagramCall w w1 ∧
    (FramerAppends E → ∃ extra, pl1.frames = pl.frames ++ extra) := by
  unfold composeRest at h
  split at h
  · simp only [Prod.mk.injEq, Result.ok.injEq] at h
    rw [← h.1, ← h.2]
    exact ⟨callsAdded_refl _ _, fun _ => ⟨[], by simp⟩⟩
  · rw [andThen_ok_iff] at h
    obtain ⟨pl2, h2, h3⟩ := h
    simp only [Prod.mk.injEq, Result.ok.injEq] at h3
    have h4 : CallsAdded notDatagramCall w
        (if hasRetransmission = true then appDataRetransmissionLoop E p maxFrameSize fuel pl w
          else (Result.ok pl, w)).2 ∧ ∃ extra, pl2.frames = pl.frames ++ extra := by
      cases hasRetransmission with
      | true =>
        simp only [if_true] at h2 ⊢
        exact appDataRetransmissionLoop_datagram E p _ fuel _ pl2 _ _ (Prod.ext h2 rfl)
      | false =>
        simp only [Bool.false_eq_true, if_false, Result.ok.injEq] at h2 ⊢
        rw [← h2]
        exact ⟨callsAdded_refl _ _, [], by simp⟩
    obtain ⟨c1, c2⟩ := appendFramerFrames_datagram E maxFrameSize hasData pl2
      (if hasRetransmission = true then appDataRetransmissionLoop E p maxFrameSize fuel pl w
        else (Result.ok pl, w)).2
    rw [← h3.1, ← h3.2]
    refine ⟨callsAdded_trans _ _ _ _ h4.1 c1, fun hF => ?_⟩
    obtain ⟨e1, he1⟩ := h4.2
    obtain ⟨e2, he2⟩ := c2 hF
    exact ⟨e1 ++ e2, by rw [he2, he1, List.append_assoc]⟩

theorem simEnv_FramerAppends : FramerAppends simEnv := by
  constructor
  · intro s frames maxLen
    simp only [simEnv, simAppend]
    split
    · exact ⟨_, rfl⟩
    · exact ⟨[], by simp⟩
  · intro s frames maxLen
    simp only [simEnv, simAppend]
    split
    · exact ⟨_, rfl⟩
    · exact ⟨[], by simp⟩

/-! ## The sizes and the ACK frames of the levels of `PackCoalescedPacket` -/

theorem framesLength_nonneg (E : Env σ) (v : VersionNumber) (hL : LengthsPositive E v)
    (frames : List Frame) : 0 ≤ framesLength E v frames := by
  induction frames with
  | nil => simp [framesLength]
  | cons f rest ih =>
    have := hL.frame f.Frame
    simp only [framesLength, List.map_cons, List.sum_cons] at ih ⊢
    omega

theorem payloadLength_nonneg (E : Env σ) (v : VersionNumber) (hL : LengthsPositive E v)
    (pl : payload) (h : PayloadLengthOK E v pl) : 0 ≤ pl.length := by
  unfold PayloadLengthOK at h
  have h1 := framesLength_nonneg E v hL pl.frames
  have h2 : 0 ≤ ackLen E v pl.ack := by
    unfold ackLen
    split
    · exact hL.ack _
    · exact le_refl 0
  omega

theorem levelSize_pos (E : Env σ) (p : packetPacker) (hL : LengthsPositive E p.version)
    (hdr : ExtendedHeader) (pl : payload) (sealer : Sealer)
    (h : PayloadLengthOK E p.version pl) :
    0 < levelSize E p (some hdr) (some pl) (some sealer) := by
  have h1 := payloadLength_nonneg E p.version hL pl h
  have h2 := hL.hdr hdr
  have h3 := tinyPaddingLen_nonneg (hdr.PacketNumberLen : Int) pl.length
  simp only [levelSize, packetLength_eq]
  omega

theorem levelSize_none (E : Env σ) (p : packetPacker) (hdr : Option ExtendedHeader)
    (sealer : Option Sealer) : levelSize E p hdr none sealer = 0 := by
  simp [levelSize]

theorem packInitialStage_payload (E : Env σ) (p : packetPacker) (fuel : Nat)
    (maxPacketSize : Int) (onlyAck : Bool) (w w1 : World σ) (L : coalescedLocals)
    (h : packInitialStage E p fuel maxPacketSize onlyAck w = (Result.ok L, w1)) :
    ∀ pl, L.initialPayload = some pl → PayloadLengthOK E p.version pl := by
  unfold packInitialStage at h
  simp only at h
  split at h
  · split at h
    · simp at h
    · simp only [Prod.mk.injEq, Result.ok.injEq] at h
      rw [← h.1]
      intro pl hpl
      simp at hpl
  · rw [andThen_ok_iff] at h
    obtain ⟨r, hr, h2⟩ := h
    simp only [Prod.mk.injEq] at h2
    obtain ⟨h2, -⟩ := h2
    obtain ⟨hdro, plo⟩ := r
    intro pl hpl
    have hplo : plo = some pl := by
      unfold recordInitial at h2
      split at h2
      · split at h2
        · simp only [Result.ok.injEq] at h2
          rw [← h2] at hpl
          simpa using hpl
        · simp at h2
      · simp only [Result.ok.injEq] at h2
        rw [← h2] at hpl
        simpa using hpl
    subst hplo
    exact maybeGetCryptoPacket_length E p fuel _ _ _ _ _ _ hdro pl (Prod.ext hr rfl)

theorem maybeGetCryptoPacket_noAck (E : Env σ) (p : packetPacker) (fuel : Nat)
    (maxPacketSize : Int) (encLevel : EncryptionLevel) (w w1 : World σ)
    (hdr : Option ExtendedHeader) (pl : payload)
    (h : maybeGetCryptoPacket E p fuel maxPacketSize encLevel false false w =
      (Result.ok (hdr, some pl), w1)) :
    pl.ack = none := by
  rw [maybeGetCryptoPacket_eq] at h
  cases hq : cryptoAsked E encLevel false w with
  | none => simp [hq] at h
  | some q =>
    have hack : q.2.2.1 = none := by
      unfold cryptoAsked at hq
      split at hq
      · simp at hq
      · simp only [Bool.false_eq_true, if_false, Option.some.injEq] at hq
        rw [← hq]
    simp only [hq] at h
    split at h
    · simp at h
    · obtain ⟨-, pl2, e1, -, e3⟩ := cryptoFill_ok E p fuel _ _ _ _ _ _ _ _ h
      simp only [Option.some.injEq] at e1
      rw [e1, e3, hack]

theorem packHandshakeStage_payload (E : Env σ) (p : packetPacker) (fuel : Nat)
    (maxPacketSize : Int) (onlyAck : Bool) (L L1 : coalescedLocals) (w w1 : World σ)
    (h0 : L.handshakePayload = none)
    (h : packHandshakeStage E p fuel maxPacketSize onlyAck L w = (Result.ok L1, w1)) :
    (¬ coalesceGate onlyAck L.size maxPacketSize → L1 = L ∧ w1 = w) ∧
    ∀ pl, L1.handshakePayload = some pl →
      coalesceGate onlyAck L.size maxPacketSize ∧ PayloadLengthOK E p.version pl ∧
      (pl.ack ≠ none → L.size = 0) := by
  unfold packHandshakeStage at h
  split at h
  · rename_i hg
    refine ⟨fun hn => absurd hg hn, ?_⟩
    simp only at h
    split at h
    · split at h
      · simp at h
      · simp only [Prod.mk.injEq, Result.ok.injEq] at h
        rw [← h.1]
        intro pl hpl
        rw [h0] at hpl
        simp at hpl
    · rw [andThen_ok_iff] at h
      obtain ⟨r, hr, h2⟩ := h
      simp only [Prod.mk.injEq] at h2
      obtain ⟨h2, -⟩ := h2
      obtain ⟨hdro, plo⟩ := r
      intro pl hpl
      have hplo : plo = some pl := by
        unfold recordHandshake at h2
        split at h2
        · split at h2
          · simp only [Result.ok.injEq] at h2
            rw [← h2] at hpl
            simpa using hpl
          · simp at h2
        · simp only [Result.ok.injEq] at h2
          rw [← h2] at hpl
          simpa using hpl
      subst hplo
      refine ⟨hg, maybeGetCryptoPacket_length E p fuel _ _ _ _ _ _ hdro pl (Prod.ext hr rfl),
        ?_⟩
      intro hack
      rcases hg with ⟨-, hs⟩ | ⟨ho, -⟩
      · exact hs
      · subst ho
        by_contra hne
        have hd : decide (L.size = 0) = false := by simpa using hne
        rw [hd] at hr
        exact hack (maybeGetCryptoPacket_noAck E p fuel _ _ _ _ hdro pl (Prod.ext hr rfl))
  · rename_i hg
    simp only [Prod.mk.injEq, Result.ok.injEq] at h
    refine ⟨fun _ => ⟨h.1.symm, h.2.symm⟩, ?_⟩
    intro pl hpl
    rw [← h.1, h0] at hpl
    simp at hpl

theorem appDataRetransmissionLoop_ack (E : Env σ) (p : packetPacker) (maxFrameSize : Int)
    (fuel : Nat) :
    ∀ (pl pl1 : payload) (w w1 : World σ),
      appDataRetransmissionLoop E p maxFrameSize fuel pl w = (Result.ok pl1, w1) →
      pl1.ack = pl.ack := by
  induction fuel with
  | zero =>
    intro pl pl1 w w1 h
    simp [appDataRetransmissionLoop] at h
  | succ n ih =>
    intro pl pl1 w w1 h
    unfold appDataRetransmissionLoop at h
    simp only at h
    split at h
    · simp only [Prod.mk.injEq, Result.ok.injEq] at h
      rw [← h.1]
    · split at h
      · simp only [Prod.mk.injEq, Result.ok.injEq] at h
        rw [← h.1]
      · have h5 := ih _ pl1 _ w1 h
        exact h5

theorem composeRest_ack (E : Env σ) (p : packetPacker) (fuel : Nat) (maxFrameSize : Int)
    (hasData hasRetransmission hasAck : Bool) (pl pl1 : payload) (w w1 : World σ)
    (h : composeRest E p fuel maxFrameSize hasData hasRetransmission hasAck pl w =
      (Result.ok pl1, w1)) :
    pl1.ack = pl.ack := by
  unfold composeRest at h
  split at h
  · simp only [Prod.mk.injEq, Result.ok.injEq] at h
    rw [← h.1]
  · rw [andThen_ok_iff] at h
    obtain ⟨pl2, h2, h3⟩ := h
    simp only [Prod.mk.injEq, Result.ok.injEq] at h3
    have h4 : pl2.ack = pl.ack := by
      cases hasRetransmission with
      | true =>
        simp only [if_true] at h2
        exact appDataRetransmissionLoop_ack E p _ fuel _ pl2 _ _ (Prod.ext h2 rfl)
      | false =>
        simp only [Bool.false_eq_true, if_false, Result.ok.injEq] at h2
        rw [← h2]
    rw [← h3.1, ← h4]
    unfold appendFramerFrames
    split <;> rfl

theorem composeNextPacket_noAck (E : Env σ) (p : packetPacker) (fuel : Nat)
    (maxFrameSize : Int) (w w1 : World σ) (pl : payload)
    (h : composeNextPacket E p fuel maxFrameSize false false w = (Result.ok pl, w1)) :
    pl.ack = none := by
  rw [composeNextPacket_eq] at h
  rw [composeRest_ack E p fuel _ _ _ _ _ pl _ _ h]
  have h1 : (composeAsked E false w).2.2.1 = none := by
    simp [composeAsked]
  rw [h1]
  unfold addDatagram
  split
  · simp only
    split
    · split <;> rfl
    · rfl
  · rfl

theorem finishAppDataPacket_ack (E : Env σ) (p : packetPacker) (pl pl1 : payload)
    (h : (finishAppDataPacket E p pl).1 = some pl1) : pl1.ack = pl.ack := by
  unfold finishAppDataPacket at h
  split at h
  · split at h
    · simp at h
    · split at h
      · simp only [Option.some.injEq] at h
        rw [← h]
      · simp only [Option.some.injEq] at h
        rw [← h]
  · simp only [Option.some.injEq] at h
    rw [← h]

theorem maybeGetAppDataPacket_noAck (E : Env σ) (p p1 : packetPacker) (fuel : Nat)
    (maxPayloadSize : Int) (w w1 : World σ) (pl : payload)
    (h : maybeGetAppDataPacket E p fuel maxPayloadSize false false w =
      (Result.ok (some pl), p1, w1)) :
    pl.ack = none := by
  unfold maybeGetAppDataPacket at h
  rw [andThenP_ok_iff] at h
  obtain ⟨pl0, h0, h2⟩ := h
  simp only [withPacker, Prod.mk.injEq, Result.ok.injEq] at h0 h2
  rw [finishAppDataPacket_ack E p pl0 pl h2.1]
  exact composeNextPacket_noAck E p fuel _ _ _ pl0 (Prod.ext h0 rfl)

theorem getAppDataSealer_levels (E : Env σ) (p : packetPacker) (w : World σ) :
    (getAppDataSealer E p w).2.1 = EncryptionLevel.Encryption0RTT ∨
      (getAppDataSealer E p w).2.1 = EncryptionLevel.Encryption1RTT := by
  unfold getAppDataSealer
  simp only
  split
  · exact Or.inr rfl
  · split
    · exact Or.inl rfl
    · exact Or.inr rfl

theorem packAppDataStage_payload (E : Env σ) (p p1 : packetPacker) (fuel : Nat)
    (maxPacketSize : Int) (onlyAck : Bool) (L L1 : coalescedLocals) (w w1 : World σ)
    (h0 : L.appDataPayload = none)
    (h : packAppDataStage E p fuel maxPacketSize onlyAck L w = (Result.ok L1, p1, w1)) :
    (¬ coalesceGate onlyAck L.size maxPacketSize → L1 = L ∧ w1 = w ∧ p1 = p) ∧
    ∀ pl, L1.appDataPayload = some pl →
      coalesceGate onlyAck L.size maxPacketSize ∧
      (L1.appDataEncLevel = EncryptionLevel.Encryption0RTT → pl.ack = none) ∧
      (L1.appDataEncLevel ≠ EncryptionLevel.Encryption0RTT → pl.ack ≠ none → L.size = 0) := by
  unfold packAppDataStage at h
  split at h
  · rename_i hg
    refine ⟨fun hn => absurd hg hn, ?_⟩
    simp only at h
    split at h
    · simp only [Prod.mk.injEq, Result.ok.injEq] at h
      rw [← h.1]
      intro pl hpl
      rw [h0] at hpl
      simp at hpl
    · rename_i sealer hs
      rw [andThenP_ok_iff] at h
      obtain ⟨r, hr, h2⟩ := h
      simp only [Prod.mk.injEq, Result.ok.injEq] at h2
      obtain ⟨f1, f2, f3, -⟩ := recordAppData_fields E
        (getAppDataPacket E p fuel (getAppDataSealer E p w).2.1 sealer maxPacketSize L.size
          onlyAck (getAppDataSealer E p w).2.2).2.1 L (getAppDataSealer E p w).2.1 sealer r.1 r.2
      rw [← h2.1, f1, f3]
      intro pl hpl
      refine ⟨hg, ?_, ?_⟩
      · intro hl
        rw [hl] at hr
        unfold getAppDataPacket maybeGetAppDataPacketFor0RTT at hr
        simp only at hr
        split at hr
        · simp only [Result.ok.injEq] at hr
          rw [← hr] at hpl
          simp at hpl
        · obtain ⟨pl2, e1, e2⟩ := andThenP_ok _ _ _ hr
          rw [e2] at hr
          simp only [Result.ok.injEq] at hr
          rw [← hr] at hpl
          simp only at hpl
          subst hpl
          exact maybeGetAppDataPacket_noAck E p _ fuel _ _ _ pl (Prod.ext e1 rfl)
      · intro hl hack
        have hl1 : (getAppDataSealer E p w).2.1 = EncryptionLevel.Encryption1RTT := by
          rcases getAppDataSealer_levels E p w with h3 | h3
          · exact absurd h3 hl
          · exact h3
        rcases hg with ⟨-, hsz⟩ | ⟨ho, -⟩
        · exact hsz
        · subst ho
          by_contra hne
          have hd : decide (L.size = 0) = false := by simpa using hne
          rw [hl1] at hr
          unfold getAppDataPacket maybeGetShortHeaderPacket at hr
          simp only [hd] at hr
          obtain ⟨pl2, e1, e2⟩ := andThenP_ok _ _ _ hr
          rw [e2] at hr
          simp only [Result.ok.injEq] at hr
          rw [← hr] at hpl
          simp only at hpl
          subst hpl
          exact hack (maybeGetAppDataPacket_noAck E p _ fuel _ _ _ pl (Prod.ext e1 rfl))
  · simp only [Prod.mk.injEq, Result.ok.injEq] at h
    refine ⟨fun _ => ⟨h.1.symm, h.2.2.symm, h.2.1.symm⟩, ?_⟩
    intro pl hpl
    rw [← h.1, h0] at hpl
    simp at hpl

theorem simEnv_LengthsPositive (v : VersionNumber) : LengthsPositive simEnv v := by
  constructor
  · intro h
    simp only [simEnv, simHdrLength]
    split <;> omega
  · intro a
    simp [simEnv]
  · intro f
    simp only [simEnv, simFrameLength]
    cases f <;> simp
    omega

/-! ## The packets of a coalesced packet and the payloads they are made of -/

theorem composeCoalesced_trace (E : Env σ) (p p1 : packetPacker) (fuel : Nat)
    (onlyAck : Bool) (w w3 : World σ) (L : coalescedLocals)
    (h : composeCoalesced E p fuel onlyAck w = (Result.ok L, p1, w3)) :
    ∃ L1 w1 L2 w2,
      packInitialStage E p fuel (coalescedMaxPacketSize p) onlyAck w = (Result.ok L1, w1) ∧
      packHandshakeStage E p fuel (coalescedMaxPacketSize p) onlyAck L1 w1 =
        (Result.ok L2, w2) ∧
      packAppDataStage E p fuel (coalescedMaxPacketSize p) onlyAck L2 w2 =
        (Result.ok L, p1, w3) := by
  unfold composeCoalesced at h
  simp only at h
  rw [andThenP_ok_iff] at h
  obtain ⟨L1, h1, h⟩ := h
  rw [andThenP_ok_iff] at h
  obtain ⟨L2, h2, h⟩ := h
  simp only [withPacker] at h1 h2 h
  exact ⟨L1, _, L2, _, Prod.ext h1 rfl, Prod.ext h2 rfl, h⟩

theorem appendLongIfPayload_payload (E : Env σ) (p : packetPacker)
    (hdr : Option ExtendedHeader) (pl : Option payload) (padding : payload → Int)
    (encLevel : EncryptionLevel) (sealer : Option Sealer) (packet packet1 : coalescedPacket)
    (w w1 : World σ)
    (h : appendLongIfPayload E p hdr pl padding encLevel sealer packet w =
      (Result.ok packet1, w1)) :
    packet1.shortHdrPacket = packet.shortHdrPacket ∧
    (pl = none → packet1.longHdrPackets = packet.longHdrPackets) ∧
    ∀ plv, pl = some plv →
      ∃ lp hdrv, packet1.longHdrPackets = packet.longHdrPackets ++ [lp] ∧
        hdr = some hdrv ∧ lp.header.Type_ = hdrv.Type_ ∧ lp.ack = plv.ack ∧
        lp.frames = plv.frames := by
  refine ⟨appendLongIfPayload_short E p _ _ _ _ _ _ _ _ _ h, ?_⟩
  rcases appendLongIfPayload_ok E p _ _ _ _ _ _ _ _ _ h with
    ⟨h1, h2, -⟩ | ⟨plv, hdrv, sealerv, cont, buf, e1, e2, e3, a1, a2⟩
  · refine ⟨fun _ => by rw [h2], ?_⟩
    intro plv hp
    rw [h1] at hp
    simp at hp
  · refine ⟨fun hn => by rw [e1] at hn; simp at hn, ?_⟩
    intro plv2 hp
    rw [e1] at hp
    simp only [Option.some.injEq] at hp
    subst hp
    obtain ⟨-, hdrBytes, raw, -, -, -, -, -, b6, b7, b8, -⟩ :=
      appendLongHeaderPacket_ok E p _ _ _ _ _ _ _ _ cont buf a1
    exact ⟨cont, hdrv, by rw [a2], e2, by rw [b8], b7, b6⟩

theorem assembleCoalesced_payloads (E : Env σ) (p : packetPacker) (L : coalescedLocals)
    (w w1 : World σ) (c : coalescedPacket)
    (h : assembleCoalesced E p L w = (Result.ok c, w1)) :
    ∃ l1 l2 l3 : List longHeaderPacket,
      c.longHdrPackets = l1 ++ l2 ++ l3 ∧
      (L.initialPayload = none → l1 = []) ∧
      (∀ pl, L.initialPayload = some pl →
        ∃ lp hdrv, l1 = [lp] ∧ L.initialHdr = some hdrv ∧ lp.header.Type_ = hdrv.Type_ ∧
          lp.ack = pl.ack ∧ lp.frames = pl.frames) ∧
      (L.handshakePayload = none → l2 = []) ∧
      (∀ pl, L.handshakePayload = some pl →
        ∃ lp hdrv, l2 = [lp] ∧ L.handshakeHdr = some hdrv ∧ lp.header.Type_ = hdrv.Type_ ∧
          lp.ack = pl.ack ∧ lp.frames = pl.frames) ∧
      (L.appDataPayload = none → l3 = [] ∧ c.shortHdrPacket = none) ∧
      (∀ pl, L.appDataPayload = some pl →
        L.appDataEncLevel = EncryptionLevel.Encryption0RTT →
        c.shortHdrPacket = none ∧
        ∃ lp hdrv, l3 = [lp] ∧ L.appDataHdr = some hdrv ∧ lp.header.Type_ = hdrv.Type_ ∧
          lp.ack = pl.ack ∧ lp.frames = pl.frames) ∧
      (∀ pl, L.appDataPayload = some pl →
        L.appDataEncLevel ≠ EncryptionLevel.Encryption0RTT →
        l3 = [] ∧ ∃ sp, c.shortHdrPacket = some sp ∧ sp.Ack = pl.ack) := by
  unfold assembleCoalesced at h
  simp only at h
  rw [andThen_ok_iff] at h
  obtain ⟨packet1, h1, h⟩ := h
  rw [andThen_ok_iff] at h
  obtain ⟨packet2, h2, h3⟩ := h
  obtain ⟨a1, a2, a3⟩ := appendLongIfPayload_payload E p _ _ _ _ _ _ _ _ _ (Prod.ext h1 rfl)
  obtain ⟨b1, b2, b3⟩ := appendLongIfPayload_payload E p _ _ _ _ _ _ _ _ _ (Prod.ext h2 rfl)
  have hs2 : packet2.shortHdrPacket = none := by rw [b1, a1]
  -- the first two levels
  have hl1 : ∃ l1, packet1.longHdrPackets = l1 ∧ (L.initialPayload = none → l1 = []) ∧
      (∀ pl, L.initialPayload = some pl →
        ∃ lp hdrv, l1 = [lp] ∧ L.initialHdr = some hdrv ∧ lp.header.Type_ = hdrv.Type_ ∧
          lp.ack = pl.ack ∧ lp.frames = pl.frames) := by
    refine ⟨_, rfl, fun hn => by rw [a2 hn], ?_⟩
    intro pl hp
    obtain ⟨lp, hdrv, e1, e2, e3, e4, e5⟩ := a3 pl hp
    exact ⟨lp, hdrv, by rw [e1]; rfl, e2, e3, e4, e5⟩
  obtain ⟨l1, hl1, i1, i2⟩ := hl1
  have hl2 : ∃ l2, packet2.longHdrPackets = l1 ++ l2 ∧ (L.handshakePayload = none → l2 = []) ∧
      (∀ pl, L.handshakePayload = some pl →
        ∃ lp hdrv, l2 = [lp] ∧ L.handshakeHdr = some hdrv ∧ lp.header.Type_ = hdrv.Type_ ∧
          lp.ack = pl.ack ∧ lp.frames = pl.frames) := by
    cases hp : L.handshakePayload with
    | none =>
      exact ⟨[], by rw [b2 hp, hl1]; simp, fun _ => rfl, fun pl hx => by simp at hx⟩
    | some pl =>
      obtain ⟨lp, hdrv, e1, e2, e3, e4, e5⟩ := b3 pl hp
      refine ⟨[lp], by rw [e1, hl1], fun hn => by simp at hn, ?_⟩
      intro pl2 hp2
      simp only [Option.some.injEq] at hp2
      subst hp2
      exact ⟨lp, hdrv, rfl, e2, e3, e4, e5⟩
  obtain ⟨l2, hl2, j1, j2⟩ := hl2
  -- the application data level
  unfold appendAppData at h3
  split at h3
  · rename_i hp
    simp only [Prod.mk.injEq, Result.ok.injEq] at h3
    refine ⟨l1, l2, [], by rw [← h3.1, hl2]; simp, i1, i2, j1, j2,
      fun _ => ⟨rfl, by rw [← h3.1]; exact hs2⟩, ?_, ?_⟩
    · intro pl hx; rw [hp] at hx; simp at hx
    · intro pl hx; rw [hp] at hx; simp at hx
  · rename_i pl hp
    split at h3
    · rename_i hl
      obtain ⟨c1, c2, c3⟩ := appendLongIfPayload_payload E p _ _ _ _ _ _ _ _ _ h3
      obtain ⟨lp, hdrv, e1, e2, e3, e4, e5⟩ := c3 pl rfl
      refine ⟨l1, l2, [lp], by rw [e1, hl2], i1, i2, j1, j2,
        fun hn => by rw [hp] at hn; simp at hn, ?_, ?_⟩
      · intro pl2 hp2 _
        rw [hp] at hp2
        simp only [Option.some.injEq] at hp2
        subst hp2
        exact ⟨by rw [c1]; exact hs2, lp, hdrv, rfl, e2, e3, e4, e5⟩
      · intro pl2 _ hn
        exact absurd hl hn
    · rename_i hl
      obtain ⟨hdrv, sealerv, sp, buf, d1, d2, d3, d4⟩ :=
        appendShortToPacket_ok E p _ _ _ _ _ _ _ _ _ h3
      obtain ⟨hdrBytes, raw, -, -, -, -, -, -, -, -, -, -, g11, -⟩ :=
        appendShortHeaderPacket_ok E p _ _ _ _ _ _ _ _ _ _ sp buf d3
      refine ⟨l1, l2, [], by rw [d4]; simp [hl2], i1, i2, j1, j2,
        fun hn => by rw [hp] at hn; simp at hn, ?_, ?_⟩
      · intro pl2 _ hx
        exact absurd hx hl
      · intro pl2 hp2 _
        rw [hp] at hp2
        simp only [Option.some.injEq] at hp2
        subst hp2
        exact ⟨rfl, sp, by rw [d4], g11⟩

theorem packHandshakeStage_size (E : Env σ) (p : packetPacker) (fuel : Nat)
    (maxPacketSize : Int) (onlyAck : Bool) (L L1 : coalescedLocals) (w w1 : World σ)
    (h0 : L.handshakePayload = none)
    (h : packHandshakeStage E p fuel maxPacketSize onlyAck L w = (Result.ok L1, w1)) :
    L1.size = L.size +
      levelSize E p L1.handshakeHdr L1.handshakePayload L1.handshakeSealer := by
  unfold packHandshakeStage at h
  split at h
  · simp only at h
    split at h
    · split at h
      · simp at h
      · simp only [Prod.mk.injEq, Result.ok.injEq] at h
        rw [← h.1, h0, levelSize_none]
        omega
    · rw [andThen_ok_iff] at h
      obtain ⟨r, -, h2⟩ := h
      simp only [Prod.mk.injEq] at h2
      obtain ⟨h2, -⟩ := h2
      unfold recordHandshake at h2
      split at h2
      · rename_i pl hpl
        split at h2
        · rename_i hdr hh
          simp only [Result.ok.injEq] at h2
          rw [← h2]
          simp [levelSize, hpl, hh]
        · simp at h2
      · rename_i hpl
        simp only [Result.ok.injEq] at h2
        rw [← h2]
        simp [levelSize, hpl]
  · simp only [Prod.mk.injEq, Result.ok.injEq] at h
    rw [← h.1, h0, levelSize_none]
    omega

theorem packInitialStage_size (E : Env σ) (p : packetPacker) (fuel : Nat)
    (maxPacketSize : Int) (onlyAck : Bool) (w w1 : World σ) (L : coalescedLocals)
    (h : packInitialStage E p fuel maxPacketSize onlyAck w = (Result.ok L, w1)) :
    L.size = levelSize E p L.initialHdr L.initialPayload L.initialSealer := by
  obtain ⟨hOK, h2, h3, -⟩ := packInitialStage_ok E p fuel maxPacketSize onlyAck w w1 L h
  have := hOK.size
  rw [h2, h3, levelSize_none, levelSize_none] at this
  omega

theorem composeCoalesced_exclusive (E : Env σ) (p p1 : packetPacker) (fuel : Nat)
    (onlyAck : Bool) (w w3 : World σ) (L : coalescedLocals)
    (hLen : LengthsPositive E p.version)
    (h : composeCoalesced E p fuel onlyAck w = (Result.ok L, p1, w3)) :
    (∀ pl, L.handshakePayload = some pl → (onlyAck = true ∨ pl.ack ≠ none) →
      L.initialPayload = none) ∧
    (∀ pl, L.appDataPayload = some pl →
      (onlyAck = true ∨ (L.appDataEncLevel ≠ EncryptionLevel.Encryption0RTT ∧ pl.ack ≠ none)) →
      L.initialPayload = none ∧ L.handshakePayload = none) ∧
    (∀ pl, L.appDataPayload = some pl →
      L.appDataEncLevel = EncryptionLevel.Encryption0RTT → pl.ack = none) := by
  obtain ⟨L1, w1, L2, w2, s1, s2, s3⟩ := composeCoalesced_trace E p p1 fuel onlyAck w w3 L h
  obtain ⟨ok1, n1, n2, n3⟩ := packInitialStage_ok E p fuel _ onlyAck w w1 L1 s1
  obtain ⟨ok2, m2, m3, m4⟩ := packHandshakeStage_ok E p fuel _ onlyAck L1 L2 w1 w2 ok1 n1 n2 n3
    s2
  obtain ⟨-, -, -, c4, -⟩ := packAppDataStage_levels E p p1 fuel _ onlyAck L2 L w2 w3 s3
  have ci : L.initialPayload = L2.initialPayload :=
    (packAppDataStage_levels E p p1 fuel _ onlyAck L2 L w2 w3 s3).2.1
  have sz1 := packInitialStage_size E p fuel _ onlyAck w w1 L1 s1
  have sz2 := packHandshakeStage_size E p fuel _ onlyAck L1 L2 w1 w2 n1 s2
  have pay1 := packInitialStage_payload E p fuel _ onlyAck w w1 L1 s1
  obtain ⟨-, pay2⟩ := packHandshakeStage_payload E p fuel _ onlyAck L1 L2 w1 w2 n1 s2
  obtain ⟨-, pay3⟩ := packAppDataStage_payload E p p1 fuel _ onlyAck L2 L w2 w3 m2 s3
  -- the size after the Initial level
  have pos1 : 0 ≤ L1.size ∧ (L1.size = 0 → L1.initialPayload = none) := by
    cases hp : L1.initialPayload with
    | none =>
      rw [hp, levelSize_none] at sz1
      exact ⟨by omega, fun _ => rfl⟩
    | some pl =>
      obtain ⟨hdr, sealer, e1, e2⟩ := ok1.initial pl hp
      have := levelSize_pos E p hLen hdr pl sealer (pay1 pl hp)
      rw [hp, e1, e2] at sz1
      exact ⟨by omega, fun hz => by omega⟩
  -- the size after the Handshake level
  have pos2 : L1.size ≤ L2.size ∧ (L2.size = L1.size → L2.handshakePayload = none) := by
    cases hp : L2.handshakePayload with
    | none =>
      rw [hp, levelSize_none] at sz2
      exact ⟨by omega, fun _ => rfl⟩
    | some pl =>
      obtain ⟨hdr, sealer, e1, e2⟩ := ok2.handshake pl hp
      have := levelSize_pos E p hLen hdr pl sealer (pay2 pl hp).2.1
      rw [hp, e1, e2] at sz2
      exact ⟨by omega, fun hz => by omega⟩
  refine ⟨?_, ?_, ?_⟩
  · intro pl hp hc
    rw [c4] at hp
    obtain ⟨g, -, ha⟩ := pay2 pl hp
    have hz : L1.size = 0 := by
      rcases hc with ho | hk
      · rcases g with ⟨-, hs⟩ | ⟨hf, -⟩
        · exact hs
        · rw [ho] at hf; exact absurd hf (by decide)
      · exact ha hk
    rw [ci, m4]
    exact pos1.2 hz
  · intro pl hp hc
    obtain ⟨g, -, ha⟩ := pay3 pl hp
    have hz : L2.size = 0 := by
      rcases hc with ho | ⟨hl, hk⟩
      · rcases g with ⟨-, hs⟩ | ⟨hf, -⟩
        · exact hs
        · rw [ho] at hf; exact absurd hf (by decide)
      · exact ha hl hk
    have hz1 : L1.size = 0 := by
      have := pos1.1
      have := pos2.1
      omega
    refine ⟨?_, ?_⟩
    · rw [ci, m4]
      exact pos1.2 hz1
    · rw [c4]
      exact pos2.2 (by omega)
  · intro pl hp hl
    exact (pay3 pl hp).2.1 hl

theorem coalesced_packets (E : Env σ) (p p1 : packetPacker) (fuel : Nat)
    (onlyAck : Bool) (w w1 : World σ) (c : coalescedPacket)
    (hLen : LengthsPositive E p.version)
    (h : PackCoalescedPacket E p fuel onlyAck w = (Result.ok (some c), p1, w1)) :
    (onlyAck = true → c.packetCount = 1) ∧
    c.ackCount ≤ 1 ∧
    (∀ lp ∈ c.longHdrPackets, lp.header.Type_ = PacketType.PacketTypeHandshake →
      lp.ack ≠ none →
      ∀ lp2 ∈ c.longHdrPackets, lp2.header.Type_ ≠ PacketType.PacketTypeInitial) ∧
    (∀ sp, c.shortHdrPacket = some sp → sp.Ack ≠ none → c.longHdrPackets = []) ∧
    (∀ lp ∈ c.longHdrPackets, lp.header.Type_ = PacketType.PacketType0RTT →
      lp.ack = none) := by
  obtain ⟨L, w0, hc, hn, ha⟩ := PackCoalescedPacket_some E p p1 fuel onlyAck w w1 c h
  obtain ⟨t1, t2, t3, -⟩ := composeCoalesced_levels E p p1 fuel onlyAck w w0 L hc
  obtain ⟨x2, x3, x0⟩ := composeCoalesced_exclusive E p p1 fuel onlyAck w w0 L hLen hc
  have hcount := composeCoalesced_count E p p1 fuel onlyAck w w0 L hc
  obtain ⟨l1, l2, l3, hl, i1, i2, j1, j2, k1, k2, k3⟩ :=
    assembleCoalesced_payloads E p1 L w0 w1 c ha
  -- the types of the packets of the three lists
  have ty1 : ∀ lp ∈ l1, lp.header.Type_ = PacketType.PacketTypeInitial ∧
      ∃ pl, L.initialPayload = some pl ∧ lp.ack = pl.ack := by
    intro lp hlp
    cases hp : L.initialPayload with
    | none => rw [i1 hp] at hlp; simp at hlp
    | some pl =>
      obtain ⟨lp0, hdrv, e1, e2, e3, e4, -⟩ := i2 pl hp
      rw [e1] at hlp
      simp only [List.mem_singleton] at hlp
      subst hlp
      exact ⟨by rw [e3, t1 hdrv e2], pl, rfl, e4⟩
  have ty2 : ∀ lp ∈ l2, lp.header.Type_ = PacketType.PacketTypeHandshake ∧
      ∃ pl, L.handshakePayload = some pl ∧ lp.ack = pl.ack := by
    intro lp hlp
    cases hp : L.handshakePayload with
    | none => rw [j1 hp] at hlp; simp at hlp
    | some pl =>
      obtain ⟨lp0, hdrv, e1, e2, e3, e4, -⟩ := j2 pl hp
      rw [e1] at hlp
      simp only [List.mem_singleton] at hlp
      subst hlp
      exact ⟨by rw [e3, t2 hdrv e2], pl, rfl, e4⟩
  have ty3 : ∀ lp ∈ l3, lp.header.Type_ = PacketType.PacketType0RTT ∧ lp.ack = none := by
    intro lp hlp
    cases hp : L.appDataPayload with
    | none => rw [(k1 hp).1] at hlp; simp at hlp
    | some pl =>
      by_cases hlv : L.appDataEncLevel = EncryptionLevel.Encryption0RTT
      · obtain ⟨-, lp0, hdrv, e1, e2, e3, e4, -⟩ := k2 pl hp hlv
        rw [e1] at hlp
        simp only [List.mem_singleton] at hlp
        subst hlp
        exact ⟨by rw [e3, t3 hlv hdrv e2], by rw [e4]; exact x0 pl hp hlv⟩
      · rw [(k3 pl hp hlv).1] at hlp
        simp at hlp
  have len1 : l1.length ≤ 1 ∧ (l1 = [] ↔ L.initialPayload = none) := by
    cases hp : L.initialPayload with
    | none => rw [i1 hp]; simp
    | some pl =>
      obtain ⟨lp0, hdrv, e1, -⟩ := i2 pl hp
      rw [e1]; simp
  have len2 : l2.length ≤ 1 ∧ (l2 = [] ↔ L.handshakePayload = none) := by
    cases hp : L.handshakePayload with
    | none => rw [j1 hp]; simp
    | some pl =>
      obtain ⟨lp0, hdrv, e1, -⟩ := j2 pl hp
      rw [e1]; simp
  refine ⟨?_, ?_, ?_, ?_, ?_⟩
  · -- with `onlyAck`, exactly one packet
    intro ho
    unfold coalescedPacket.packetCount
    rw [hl]
    cases hp3 : L.appDataPayload with
    | some pl3 =>
      obtain ⟨z1, z2⟩ := x3 pl3 hp3 (Or.inl ho)
      rw [len1.2.mpr z1, len2.2.mpr z2]
      by_cases hlv : L.appDataEncLevel = EncryptionLevel.Encryption0RTT
      · obtain ⟨s0, lp0, hdrv, e1, -⟩ := k2 pl3 hp3 hlv
        rw [e1, s0]; simp
      · obtain ⟨e1, sp, e2⟩ := k3 pl3 hp3 hlv
        rw [e1, e2.1]; simp
    | none =>
      obtain ⟨e3, s0⟩ := k1 hp3
      rw [e3, s0]
      cases hp2 : L.handshakePayload with
      | some pl2 =>
        have z1 := x2 pl2 hp2 (Or.inl ho)
        obtain ⟨lp0, hdrv, e1, -⟩ := j2 pl2 hp2
        rw [len1.2.mpr z1, e1]; simp
      | none =>
        rw [len2.2.mpr hp2]
        cases hp1 : L.initialPayload with
        | some pl1 =>
          obtain ⟨lp0, hdrv, e1, -⟩ := i2 pl1 hp1
          rw [e1]; simp
        | none => exact absurd (hcount.mpr ⟨hp1, hp2, hp3⟩) hn
  · -- at most one ACK frame
    unfold coalescedPacket.ackCount
    rw [hl]
    have f3 : (l3.filter (fun lp => lp.ack.isSome)).length = 0 := by
      rw [List.length_eq_zero, List.filter_eq_nil_iff]
      intro lp hlp
      rw [(ty3 lp hlp).2]; simp
    simp only [List.filter_append, List.length_append, f3, add_zero]
    have b1 : (l1.filter (fun lp => lp.ack.isSome)).length ≤ 1 :=
      le_trans (List.length_filter_le _ _) len1.1
    have b2 : (l2.filter (fun lp => lp.ack.isSome)).length ≤ 1 :=
      le_trans (List.length_filter_le _ _) len2.1
    -- an ACK frame in the Handshake packet: no Initial packet
    have e2 : (l2.filter (fun lp => lp.ack.isSome)).length ≠ 0 → l1 = [] := by
      intro hne
      rw [Ne, List.length_eq_zero, List.filter_eq_nil_iff] at hne
      push_neg at hne
      obtain ⟨lp, hlp, hk⟩ := hne
      obtain ⟨-, pl, hp, ea⟩ := ty2 lp hlp
      refine len1.2.mpr (x2 pl hp (Or.inr ?_))
      rw [← ea]
      intro hx
      rw [hx] at hk
      simp at hk
    cases hs : c.shortHdrPacket with
    | none =>
      simp only [add_zero]
      by_cases h0 : (l2.filter (fun lp => lp.ack.isSome)).length = 0
      · omega
      · rw [e2 h0]
        simp only [List.filter_nil, List.length_nil, zero_add]
        exact b2
    | some sp =>
      simp only
      by_cases hk : sp.Ack.isSome = true
      · rw [if_pos hk]
        -- the short header packet has an ACK frame: no long header packet
        cases hp3 : L.appDataPayload with
        | none => rw [(k1 hp3).2] at hs; simp at hs
        | some pl3 =>
          by_cases hlv : L.appDataEncLevel = EncryptionLevel.Encryption0RTT
          · rw [(k2 pl3 hp3 hlv).1] at hs; simp at hs
          · obtain ⟨-, sp2, e5, e6⟩ := k3 pl3 hp3 hlv
            rw [hs] at e5
            simp only [Option.some.injEq] at e5
            subst e5
            have hack : pl3.ack ≠ none := by
              rw [← e6]
              intro hx
              rw [hx] at hk
              simp at hk
            obtain ⟨z1, z2⟩ := x3 pl3 hp3 (Or.inr ⟨hlv, hack⟩)
            rw [len1.2.mpr z1, len2.2.mpr z2]
            simp
      · rw [if_neg hk]
        simp only [add_zero]
        by_cases h0 : (l2.filter (fun lp => lp.ack.isSome)).length = 0
        · omega
        · rw [e2 h0]
          simp only [List.filter_nil, List.length_nil, zero_add]
          exact b2
  · intro lp hlp hty hack lp2 hlp2 hty2
    rw [hl] at hlp hlp2
    simp only [List.mem_append] at hlp hlp2
    -- `lp` is the packet of the Handshake level
    have hlp' : lp ∈ l2 := by
      rcases hlp with (h5 | h5) | h5
      · rw [(ty1 lp h5).1] at hty; exact absurd hty (by decide)
      · exact h5
      · rw [(ty3 lp h5).1] at hty; exact absurd hty (by decide)
    have hlp2' : lp2 ∈ l1 := by
      rcases hlp2 with (h5 | h5) | h5
      · exact h5
      · rw [(ty2 lp2 h5).1] at hty2; exact absurd hty2 (by decide)
      · rw [(ty3 lp2 h5).1] at hty2; exact absurd hty2 (by decide)
    obtain ⟨-, pl, hp, ea⟩ := ty2 lp hlp'
    have z1 := x2 pl hp (Or.inr (by rw [← ea]; exact hack))
    rw [len1.2.mpr z1] at hlp2'
    simp at hlp2'
  · intro sp hs hack
    cases hp3 : L.appDataPayload with
    | none => rw [(k1 hp3).2] at hs; simp at hs
    | some pl3 =>
      by_cases hlv : L.appDataEncLevel = EncryptionLevel.Encryption0RTT
      · rw [(k2 pl3 hp3 hlv).1] at hs; simp at hs
      · obtain ⟨e3, sp2, e5, e6⟩ := k3 pl3 hp3 hlv
        rw [hs] at e5
        simp only [Option.some.injEq] at e5
        subst e5
        obtain ⟨z1, z2⟩ := x3 pl3 hp3 (Or.inr ⟨hlv, by rw [← e6]; exact hack⟩)
        rw [hl, len1.2.mpr z1, len2.2.mpr z2, e3]
        rfl
  · intro lp hlp hty
    rw [hl] at hlp
    simp only [List.mem_append] at hlp
    rcases hlp with (h5 | h5) | h5
    · rw [(ty1 lp h5).1] at hty; exact absurd hty (by decide)
    · rw [(ty2 lp h5).1] at hty; exact absurd hty (by decide)
    · exact (ty3 lp h5).2

/-! ## The content of the payload of `maybeGetCryptoPacket` -/

/-- A payload that `maybeGetCryptoPacket` returns
at the level Initial or Handshake has, with `onlyAck = true`, an ACK frame (and
no frame).  With `onlyAck = false` its ACK frame is the one the ACK source
returned, and there was crypto data, a retransmission or an ACK frame; but it
has a frame only if the source of the frames gives one: when the
retransmission queue reported data, the payload has no frame exactly when the
first call of `GetInitialFrame` / `GetHandshakeFrame` (with the budget left
after the ACK frame and the header) returns nil, and when it reported none,
the payload has no frame exactly when the second call of `HasData` of the
crypto stream (line 548) returns false.  So a payload without ACK frame and
without frame is returned exactly in these two cases when the ACK source
returned no ACK frame. -/
theorem maybeGetCryptoPacket_payload_content (E : Env σ) (p : packetPacker) (fuel : Nat)
    (maxPacketSize : Int) (encLevel : EncryptionLevel) (onlyAck ackAllowed : Bool)
    (w w1 : World σ) (hdr : Option ExtendedHeader) (pl : payload)
    (hLvl : encLevel = EncryptionLevel.EncryptionInitial ∨
      encLevel = EncryptionLevel.EncryptionHandshake)
    (h : maybeGetCryptoPacket E p fuel maxPacketSize encLevel onlyAck ackAllowed w =
      (Result.ok (hdr, some pl), w1)) :
    (onlyAck = true → pl.ack ≠ none ∧ pl.frames = []) ∧
    (onlyAck = false →
      ∃ hasRetransmission hasData ack wa,
        cryptoAsked E encLevel ackAllowed w = some (hasRetransmission, hasData, ack, wa) ∧
        pl.ack = ack ∧
        (hasData = true ∨ hasRetransmission = true ∨ ack ≠ none) ∧
        (hasRetransmission = true →
          (pl.frames = [] ↔
            (cryptoGetFrame E encLevel
              (cryptoBudget E p maxPacketSize ack (getLongHeader E p encLevel wa).1)
              (getLongHeader E p encLevel wa).2).1 = none)) ∧
        (hasRetransmission = false →
          (pl.frames = [] ↔
            ((getLongHeader E p encLevel wa).2.streamHasData E encLevel).1 = false))) := by
  refine ⟨?_, ?_⟩
  · intro ho
    subst ho
    rw [maybeGetCryptoPacket_onlyAck] at h
    split at h
    · simp only [Prod.mk.injEq, Result.ok.injEq, Option.some.injEq] at h
      rw [← h.1.2]
      simp
    · simp at h
  · intro ho
    subst ho
    obtain ⟨hasR, hasD, ack, wa, hq, -, -, -⟩ := cryptoAsked_some E encLevel ackAllowed w hLvl
    have hq2 := hq
    rw [maybeGetCryptoPacket_eq, hq] at h
    simp only at h
    by_cases hc : hasD = false ∧ hasR = false ∧ ack = none
    · rw [if_pos hc] at h
      simp at h
    · rw [if_neg hc] at h
      obtain ⟨-, pl2, e1, -, e3⟩ := cryptoFill_ok E p fuel _ _ _ _ _ _ _ _ h
      simp only [Option.some.injEq] at e1
      obtain ⟨f1, f2⟩ := cryptoFill_frames E p fuel _ _ _ _ _ _ _ _ h
      refine ⟨hasR, hasD, ack, wa, hq2, by rw [e1]; exact e3, ?_, f1, f2⟩
      by_contra hn
      push_neg at hn
      apply hc
      refine ⟨?_, ?_, hn.2.2⟩
      · cases hasD
        · rfl
        · exact absurd rfl hn.1
      · cases hasR
        · rfl
        · exact absurd rfl hn.2.1

/-! ## The calls of `maybeGetCryptoPacket` after the ACK frame was asked for -/

theorem cryptoGetFrame_notAck (E : Env σ) (encLevel : EncryptionLevel) (maxPacketSize : Int)
    (w : World σ) : CallsAdded notAckCall w (cryptoGetFrame E encLevel maxPacketSize w).2 := by
  cases encLevel
  · exact callsAdded_step _ _ _ _ (by intro l b; simp)
  · exact callsAdded_step _ _ _ _ (by intro l b; simp)
  · exact callsAdded_refl _ _
  · exact callsAdded_refl _ _

theorem cryptoRetransmissionLoop_notAck (E : Env σ) (p : packetPacker)
    (encLevel : EncryptionLevel) (fuel : Nat) :
    ∀ (pl : payload) (maxPacketSize : Int) (w : World σ),
      CallsAdded notAckCall w
        (cryptoRetransmissionLoop E p encLevel fuel pl maxPacketSize w).2 := by
  induction fuel with
  | zero =>
    intro pl m w
    exact callsAdded_refl _ _
  | succ n ih =>
    intro pl m w
    rw [cryptoRetransmissionLoop_succ]
    have h1 := cryptoGetFrame_notAck E encLevel m w
    cases hf : (cryptoGetFrame E encLevel m w).1 with
    | none => exact h1
    | some f => exact callsAdded_trans _ _ _ _ h1 (ih _ _ _)

theorem cryptoFill_notAck (E : Env σ) (p : packetPacker) (fuel : Nat) (maxPacketSize : Int)
    (encLevel : EncryptionLevel) (hasRetransmission : Bool) (ack : Option AckFrame)
    (w : World σ) :
    CallsAdded notAckCall w
      (cryptoFill E p fuel maxPacketSize encLevel hasRetransmission ack w).2 := by
  have h1 : CallsAdded notAckCall w (getLongHeader E p encLevel w).2 :=
    callsAdded_step _ _ _ _ (by intro l b; simp)
  unfold cryptoFill
  simp only
  split
  · unfold andThen
    have h2 := cryptoRetransmissionLoop_notAck E p encLevel fuel (ackPayload E p ack)
      (cryptoBudget E p maxPacketSize ack (getLongHeader E p encLevel w).1)
      (getLongHeader E p encLevel w).2
    split <;> exact callsAdded_trans _ _ _ _ h1 h2
  · have h2 : CallsAdded notAckCall (getLongHeader E p encLevel w).2
        ((getLongHeader E p encLevel w).2.streamHasData E encLevel).2 :=
      callsAdded_step _ _ _ _ (by intro l b; simp)
    split
    · exact callsAdded_trans _ _ _ _ h1 (callsAdded_trans _ _ _ _ h2
        (callsAdded_step _ _ _ _ (by intro l b; simp)))
    · exact callsAdded_trans _ _ _ _ h1 h2

/-! ## `packConnectionClose` level by level -/

/-- Let `r encLevel` be the result of the sealer getter of the level
`encLevel` in `packConnectionClose`.  (1) A coalesced packet that is returned
holds exactly one long header packet for each of the levels Initial,
Handshake and 0-RTT that gets a packet (its getter succeeds, and it is not the
level 0-RTT of a server), in this order, and a short header packet exactly
when the getter of the level 1-RTT succeeds; a server's packet holds no 0-RTT
packet; and no getter has returned an error other than
`ErrKeysNotYetAvailable` and `ErrKeysDropped`.  (2) The first getter error, in
the order of the levels, that is neither `ErrKeysNotYetAvailable` nor
`ErrKeysDropped` is returned unchanged, without a packet.  (3) When there is
no such error, the packet number manager keeps its contract, the headers and
the CONNECTION_CLOSE frames are serialised without error and to the announced
lengths, the 1-RTT packet fits in the maximum packet size, and the sealers of
the levels 0-RTT and 1-RTT, which share a packet number space, are not both
available, then a coalesced packet is returned, unless the datagram does not
fit in the packet buffer and line 864 panics. -/
theorem packConnectionClose_levels (E : Env σ) (p : packetPacker) (isApplicationError : Bool)
    (errorCode frameType : Nat) (reason : String) (r : EncryptionLevel → Except Error Sealer)
    (hG : ∀ encLevel (w : World σ), (getCloseSealer E encLevel w).1 = r encLevel)
    (w : World σ) :
    (∀ c w1, packConnectionClose E p isApplicationError errorCode frameType reason w =
        (Result.ok c, w1) →
      c.longHdrPackets.map (fun lp => lp.header.Type_) =
        ([EncryptionLevel.EncryptionInitial, EncryptionLevel.EncryptionHandshake,
          EncryptionLevel.Encryption0RTT].filter (closeSends p r)).map typeOfLevel ∧
      c.shortHdrPacket.isSome = closeSends p r EncryptionLevel.Encryption1RTT ∧
      (p.perspective = Perspective.PerspectiveServer →
        ∀ lp ∈ c.longHdrPackets, lp.header.Type_ ≠ PacketType.PacketType0RTT) ∧
      encLevels.filterMap (closeFatal p r) = []) ∧
    (∀ err, (encLevels.filterMap (closeFatal p r)).head? = some err →
      (packConnectionClose E p isApplicationError errorCode frameType reason w).1 =
        Result.error err) ∧
    (encLevels.filterMap (closeFatal p r) = [] →
      PnContract E → WireConsistent E p.version →
      (∀ s s2, E.getDestConnID s = E.getDestConnID s2) →
      (∀ hdr, ∃ bytes, E.hdrWrite hdr p.version = Except.ok bytes) →
      (∀ connID pn pnLen kp, ∃ bytes, E.WriteShortHeader connID pn pnLen kp =
        Except.ok bytes) →
      (∀ encLevel, FramesSerialise E p.version (closePayload E p
        (closeFrame E isApplicationError errorCode frameType reason encLevel)).frames) →
      (∀ (w2 : World σ) sealer, r EncryptionLevel.Encryption1RTT = Except.ok sealer →
        packetLength E p (getShortHeader E sealer.KeyPhase w2).1 (closePayload E p
          (closeFrame E isApplicationError errorCode frameType reason
            EncryptionLevel.Encryption1RTT)) + (sealer.Overhead : Int) ≤ p.maxPacketSize) →
      ¬ (closeSends p r EncryptionLevel.Encryption0RTT = true ∧
        closeSends p r EncryptionLevel.Encryption1RTT = true) →
      (∃ c w1, packConnectionClose E p isApplicationError errorCode frameType reason w =
        (Result.ok c, w1)) ∨
      (∃ w1, packConnectionClose E p isApplicationError errorCode frameType reason w =
        (Result.goPanic "slice bounds out of range", w1))) := by
  refine ⟨?_, ?_, ?_⟩
  · intro c w1 h
    obtain ⟨a1, a2, a3⟩ := packConnectionClose_shape E p isApplicationError errorCode
      frameType reason r hG w w1 c h
    refine ⟨a1, a2, ?_, a3⟩
    intro hs lp hlp
    have hm : lp.header.Type_ ∈ c.longHdrPackets.map (fun lp => lp.header.Type_) :=
      List.mem_map_of_mem _ hlp
    rw [a1] at hm
    intro h0
    rw [h0] at hm
    simp only [List.mem_map, List.mem_filter] at hm
    obtain ⟨l, ⟨-, hl⟩, hty⟩ := hm
    cases l
    · simp [typeOfLevel] at hty
    · simp [typeOfLevel] at hty
    · simp [closeSends, hs] at hl
    · simp [typeOfLevel] at hty
  · intro err h
    exact packConnectionClose_fatal E p isApplicationError errorCode frameType reason r hG w err h
  · intro hNF hPn hW hConn hLong hShort hF hFit hExcl
    exact packConnectionClose_total E p isApplicationError errorCode frameType reason r hG w
      hNF hPn hW hConn hLong hShort hF hFit hExcl

set_option maxRecDepth 100000 in
/-- `packConnectionClose_levels` on the simulated collaborators of a client.
With the Initial and the 1-RTT sealer available, the Handshake keys dropped
and the 0-RTT keys not yet available, `packConnectionClose` returns an Initial
packet and a short header packet; when the getter of the Handshake sealer
fails with another error, this error is returned. -/
theorem packConnectionClose_levels_on_mock :
    (∀ encLevel (w : World Sim),
      (getCloseSealer (mockEnv closeMock) encLevel w).1 = mockKeys closeMock encLevel) ∧
    (∃ c w1,
      packConnectionClose (mockEnv closeMock) (simPacker Perspective.PerspectiveClient 1200)
        false 10 0 "bye" (simWorld {}) = (Result.ok c, w1) ∧
      c.longHdrPackets.map (fun lp => lp.header.Type_) = [PacketType.PacketTypeInitial] ∧
      c.shortHdrPacket.isSome = true) ∧
    (packConnectionClose (mockEnv closeErrorMock) (simPacker Perspective.PerspectiveClient 1200)
        false 10 0 "bye" (simWorld {})).1 = Result.error (Error.other "no sealer") := by
  have T := packConnectionClose_levels (mockEnv closeMock)
    (simPacker Perspective.PerspectiveClient 1200) false 10 0 "bye" (mockKeys closeMock)
    (mockEnv_getCloseSealer closeMock) (simWorld {})
  have hk : ∃ c, (packConnectionClose (mockEnv closeMock)
      (simPacker Perspective.PerspectiveClient 1200) false 10 0 "bye" (simWorld {})).1 =
      Result.ok c := ⟨_, rfl⟩
  have hex : ∃ c w1, packConnectionClose (mockEnv closeMock)
      (simPacker Perspective.PerspectiveClient 1200) false 10 0 "bye" (simWorld {}) =
      (Result.ok c, w1) := by
    rcases T.2.2 (by decide) (mockEnv_PnContract _) (mockEnv_WireConsistent _ _)
      (fun _ _ => rfl) (fun _ => ⟨_, rfl⟩) (fun _ _ _ _ => ⟨_, rfl⟩)
      (fun _ => mockEnv_FramesSerialise _ _ _)
      (mockEnv_closeFits closeMock _ 1200 "bye" (by decide) false 10 0) (by decide) with
      h | ⟨w1, h⟩
    · exact h
    · obtain ⟨c, hc⟩ := hk
      rw [h] at hc
      exact absurd hc (by simp)
  obtain ⟨c, w1, h⟩ := hex
  obtain ⟨s1, s2, -, -⟩ := T.1 c w1 h
  refine ⟨mockEnv_getCloseSealer closeMock, ⟨c, w1, h, ?_, ?_⟩, ?_⟩
  · rw [s1]; decide
  · rw [s2]; decide
  · exact (packConnectionClose_levels (mockEnv closeErrorMock)
      (simPacker Perspective.PerspectiveClient 1200) false 10 0 "bye" (mockKeys closeErrorMock)
      (mockEnv_getCloseSealer closeErrorMock) (simWorld {})).2.1 _ (by decide)
/-! ## The claims of the specification -/

/-- C1.  `PackCoalescedPacket`: when an Initial payload was packed
(`initialPayload` is not nil at line 427), the packer is a client, or a server
and the Initial payload has an ack-eliciting frame, and the unpadded size of
the packed levels (the sum over the levels of `packetLength` and the overhead
of the sealer, the value of `size`) is at most `p.maxPacketSize`, then the
lengths of the packets of the returned datagram add up to `p.maxPacketSize`,
and so many bytes are in its buffer.  The headers are assumed to be written
with as many bytes as `GetLength` says, and the destination connection ID not
to change during the call. -/
theorem PackCoalescedPacket_initial_fills_datagram (E : Env σ) (p p1 p2 : packetPacker)
    (fuel : Nat) (onlyAck : Bool) (w w1 w2 : World σ) (L : coalescedLocals) (ipl : payload)
    (packet : coalescedPacket)
    (hW : WireConsistent E p.version)
    (hConn : ∀ s s', E.getDestConnID s = E.getDestConnID s')
    (hC : composeCoalesced E p fuel onlyAck w = (Result.ok L, p1, w1))
    (hI : L.initialPayload = some ipl)
    (hP : p.perspective = Perspective.PerspectiveClient ∨
      (p.perspective = Perspective.PerspectiveServer ∧
        E.HasAckElicitingFrames ipl.frames = true))
    (hS : levelSize E p L.initialHdr L.initialPayload L.initialSealer +
      levelSize E p L.handshakeHdr L.handshakePayload L.handshakeSealer +
      levelSize E p L.appDataHdr L.appDataPayload L.appDataSealer ≤ p.maxPacketSize)
    (hR : PackCoalescedPacket E p fuel onlyAck w = (Result.ok (some packet), p2, w2)) :
    packet.totalLength = p.maxPacketSize ∧
    (packet.buffer.Data.length : Int) = p.maxPacketSize ∧
    L.size = levelSize E p L.initialHdr L.initialPayload L.initialSealer +
      levelSize E p L.handshakeHdr L.handshakePayload L.handshakeSealer +
      levelSize E p L.appDataHdr L.appDataPayload L.appDataSealer := by
  obtain ⟨hL, hc⟩ := composeCoalesced_ok E p p1 fuel onlyAck w w1 L hC
  unfold PackCoalescedPacket at hR
  rw [andThenP_ok_iff, hC] at hR
  obtain ⟨L', e, hR⟩ := hR
  simp only [Result.ok.injEq] at e
  subst e
  simp only at hR
  split at hR
  · simp at hR
  · rw [andThenP_ok_iff] at hR
    obtain ⟨packet', hA, hR⟩ := hR
    simp only [withPacker, Prod.mk.injEq, Result.ok.injEq, Option.some.injEq] at hA hR
    obtain ⟨e, -, -⟩ := hR
    subst e
    have hW1 : WireConsistent E p1.version := by rw [hc.version]; exact hW
    obtain ⟨t, b⟩ := assembleCoalesced_totalLength E p1 L w1 _ packet' hW1 hConn
      (LocalsOK_sameConfig E hc L hL) (Prod.ext hA rfl)
    have hsz := hL.size
    have hfill := initialPaddingLen_fill E p1 ipl.frames L.size
      (by rw [hc.perspective]; exact hP) (by rw [hc.maxPacketSize]; omega)
    rw [hc.maxPacketSize] at hfill
    simp only [hI, Option.map_some', Option.getD_some] at t
    refine ⟨by omega, by omega, hsz⟩

/-- C1, on the simulated collaborators: a server packs an Initial packet with
a CRYPTO frame of ten bytes; the unpadded size is 59 and the datagram has the
100 bytes of `maxPacketSize`. -/
theorem PackCoalescedPacket_initial_fills_datagram_witness :
    ∃ packet p2 w2,
      PackCoalescedPacket simEnv (simPacker Perspective.PerspectiveServer 100) 0 false
        (simWorld { cryptoInitial := [WireFrame.handed 10] }) =
        (Result.ok (some packet), p2, w2) ∧
      packet.totalLength = 100 ∧ (packet.buffer.Data.length : Int) = 100 := by
  refine ⟨_, _, _, rfl, ?_⟩
  have h := PackCoalescedPacket_initial_fills_datagram simEnv
    (simPacker Perspective.PerspectiveServer 100) _ _ 0 false
    (simWorld { cryptoInitial := [WireFrame.handed 10] }) _ _ _
    { frames := [{ Frame := WireFrame.handed 10 }], length := 10 } _
    (simEnv_WireConsistent _) (fun _ _ => rfl) rfl rfl (Or.inr ⟨rfl, rfl⟩) (by decide) rfl
  exact ⟨h.1, h.2.1⟩

/-- C3.  `appendShortHeaderPacket` with `isMTUProbePacket = false`: a packet
that is returned has a recorded `Length` (header, payload, padding and sealer
overhead, the bytes it adds to the buffer) of at most `p.maxPacketSize`; and
when the header and the payload are serialised to `raw` and
`len(raw) + Overhead()` is greater than `p.maxPacketSize`, an error is returned
and no packet (the "packet too large" BUG error, unless the packet number
check failed before it).  Hence the short header packet of every result of
`PackPacket`, `PackCoalescedPacket`, `MaybePackProbePacket` and
`packConnectionClose` is at most `p.maxPacketSize` long. -/
theorem appendShortHeaderPacket_max_size :
    (∀ (E : Env σ) (p : packetPacker) (buffer : packetBuffer) (pn : PacketNumber)
      (pnLen : PacketNumberLen) (kp : KeyPhaseBit) (pl : payload) (padding : Int)
      (sealer : Sealer) (w : World σ),
      (∀ pkt buf w1,
        appendShortHeaderPacket E p buffer pn pnLen kp pl padding sealer false w =
          (Result.ok (pkt, buf), w1) →
        pkt.Packet.Length ≤ p.maxPacketSize ∧
        (buf.Data.length : Int) = (buffer.Data.length : Int) + pkt.Packet.Length) ∧
      (∀ hdrBytes raw,
        E.WriteShortHeader (E.getDestConnID w.st) pn pnLen kp = Except.ok hdrBytes →
        appendPacketPayload E p hdrBytes pl (tinyPaddingLen pnLen pl.length + padding) =
          Except.ok raw →
        (raw.length : Int) + (sealer.Overhead : Int) > p.maxPacketSize →
        ∃ e, (appendShortHeaderPacket E p buffer pn pnLen kp pl padding sealer false w).1 =
            Result.error e ∧
          (pn = (w.PopPacketNumber E EncryptionLevel.Encryption1RTT).1 →
            e = Error.bugPacketTooLarge ((raw.length : Int) + (sealer.Overhead : Int))
              p.maxPacketSize))) ∧
    (∀ (E : Env σ) (p p1 : packetPacker) (fuel : Nat) (onlyAck : Bool) (now : Time)
      (w w1 : World σ) (pkt : shortHeaderPacket) (buf : packetBuffer),
      PackPacket E p fuel onlyAck now w = (Result.ok (pkt, buf), p1, w1) →
      pkt.Packet.Length ≤ p.maxPacketSize) ∧
    (∀ (E : Env σ) (p p1 : packetPacker) (fuel : Nat) (onlyAck : Bool) (w w1 : World σ)
      (c : coalescedPacket) (sp : shortHeaderPacket),
      PackCoalescedPacket E p fuel onlyAck w = (Result.ok (some c), p1, w1) →
      c.shortHdrPacket = some sp → sp.Packet.Length ≤ p.maxPacketSize) ∧
    (∀ (E : Env σ) (p p1 : packetPacker) (fuel : Nat) (encLevel : EncryptionLevel)
      (w w1 : World σ) (c : coalescedPacket) (sp : shortHeaderPacket),
      MaybePackProbePacket E p fuel encLevel w = (Result.ok (some c), p1, w1) →
      c.shortHdrPacket = some sp → sp.Packet.Length ≤ p.maxPacketSize) ∧
    (∀ (E : Env σ) (p : packetPacker) (isApplicationError : Bool) (errorCode frameType : Nat)
      (reason : String) (w w1 : World σ) (c : coalescedPacket) (sp : shortHeaderPacket),
      packConnectionClose E p isApplicationError errorCode frameType reason w =
        (Result.ok c, w1) →
      c.shortHdrPacket = some sp → sp.Packet.Length ≤ p.maxPacketSize) := by
  refine ⟨?_, ?_, ?_, ?_, ?_⟩
  · intro E p buffer pn pnLen kp pl padding sealer w
    constructor
    · intro pkt buf w1 h
      obtain ⟨hdrBytes, raw, -, -, -, -, h5, h6, -, -, -, -, -, h12⟩ :=
        appendShortHeaderPacket_ok E p buffer pn pnLen kp pl padding sealer false w w1 pkt buf h
      have := h5 rfl
      refine ⟨by omega, ?_⟩
      rw [h12, h6]
      simp only [List.length_append, encryptPacket_length]
      push_cast
      omega
    · intro hdrBytes raw hW hA hsz
      unfold appendShortHeaderPacket
      simp only [hW]
      by_cases hpn : pn = (w.PopPacketNumber E EncryptionLevel.Encryption1RTT).1
      · have hA' : appendPacketPayload E p hdrBytes pl
            ((if pl.length < 4 - (pnLen : Int) then 4 - (pnLen : Int) - pl.length else 0) +
              padding) = Except.ok raw := by simpa [tinyPaddingLen] using hA
        refine ⟨Error.bugPacketTooLarge ((raw.length : Int) + (sealer.Overhead : Int))
          p.maxPacketSize, ?_, fun _ => rfl⟩
        rw [if_neg (by simpa using hpn)]
        simp only [hA']
        rw [if_pos (by simpa using hsz)]
      · refine ⟨Error.bugPacketNumberMismatch, ?_, fun h => absurd h hpn⟩
        rw [if_pos (by simpa using hpn)]
  · intro E p p1 fuel onlyAck now w w1 pkt buf h
    exact PackPacket_bound E p p1 fuel onlyAck now w w1 pkt buf h
  · intro E p p1 fuel onlyAck w w1 c sp h hsp
    exact PackCoalescedPacket_shortBounded E p p1 fuel onlyAck w w1 c h sp hsp
  · intro E p p1 fuel encLevel w w1 c sp h hsp
    exact MaybePackProbePacket_shortBounded E p p1 fuel encLevel w w1 c h sp hsp
  · intro E p isApplicationError errorCode frameType reason w w1 c sp h hsp
    exact packConnectionClose_shortBounded E p isApplicationError errorCode frameType reason
      w w1 c h sp hsp

/-- C3, on the simulated collaborators: a short header packet of 33 bytes is
returned when `maxPacketSize` is 100, and the "packet too large" error when
it is 20. -/
theorem appendShortHeaderPacket_max_size_witness :
    (∃ pkt buf w1,
      appendShortHeaderPacket simEnv (simPacker Perspective.PerspectiveServer 100) {} 0 2 0
        tenBytePayload 0 simSealer false (simWorld {}) = (Result.ok (pkt, buf), w1) ∧
      pkt.Packet.Length ≤ 100 ∧ pkt.Packet.Length = 33) ∧
    (∃ e,
      (appendShortHeaderPacket simEnv (simPacker Perspective.PerspectiveServer 20) {} 0 2 0
        tenBytePayload 0 simSealer false (simWorld {})).1 = Result.error e ∧
      e = Error.bugPacketTooLarge 33 20) := by
  constructor
  · refine ⟨_, _, _, rfl, ?_, rfl⟩
    exact ((appendShortHeaderPacket_max_size.1 simEnv
      (simPacker Perspective.PerspectiveServer 100) {} 0 2 0 tenBytePayload 0 simSealer
      (simWorld {})).1 _ _ _ rfl).1
  · obtain ⟨e, he, h2⟩ := (appendShortHeaderPacket_max_size.1 simEnv
      (simPacker Perspective.PerspectiveServer 20) {} 0 2 0 tenBytePayload 0 simSealer
      (simWorld {})).2 (List.replicate 7 0) (List.replicate 17 0) rfl rfl (by decide)
    exact ⟨e, he, h2 rfl⟩

/-- C4, as the code has it.  `PackMTUProbePacket`, when the 1-RTT sealer is
available, the packet number manager keeps its contract, the short header and
the frame `ping` are serialised to as many bytes as their lengths say, and the
target `size` is at least `packetLength` of the short header and the payload
plus the overhead of the sealer.  (1) When the target is not greater than the
capacity `MaxPacketBufferSize` of the packet buffer, the packet returned has
the `Length` `size` exactly (as many bytes are added to the buffer), it is
marked as a path MTU probe, and its only frame is `ping`; nothing is assumed
about `p.maxPacketSize`: the target can be greater.  (2) When the target is
greater than the capacity of the buffer, no packet is returned: extending the
buffer by the bytes of the packet panics (line 864). -/
theorem PackMTUProbePacket_target_size (E : Env σ) (p : packetPacker) (ping : Frame)
    (size : Int) (now : Time) (w : World σ) (sealer : Sealer)
    (hS : (E.Get1RTTSealer w.st).1 = Except.ok sealer)
    (hPn : PnContract E) (hW : WireConsistent E p.version)
    (hHdr : ∀ connID pn pnLen kp, ∃ bs, E.WriteShortHeader connID pn pnLen kp = Except.ok bs)
    (hF : FramesSerialise E p.version [ping])
    (hSize : packetLength E p
        (getShortHeader E sealer.KeyPhase (w.getPacketBuffer.2.Get1RTTSealer E).2).1
        { frames := [ping], length := E.frameLength ping.Frame p.version } +
      (sealer.Overhead : Int) ≤ size) :
    (size ≤ (E.MaxPacketBufferSize : Int) →
      ∃ pkt buf w1, PackMTUProbePacket E p ping size now w = (Result.ok (pkt, buf), w1) ∧
        pkt.Packet.Length = size ∧ pkt.Packet.IsPathMTUProbePacket = true ∧
        pkt.Packet.Frames = [setOnLostShort ping] ∧
        (setOnLostShort ping).Frame = ping.Frame ∧
        (buf.Data.length : Int) = size) ∧
    ((E.MaxPacketBufferSize : Int) < size →
      (PackMTUProbePacket E p ping size now w).1 =
        Result.goPanic "slice bounds out of range") := by
  have hS' : (w.getPacketBuffer.2.Get1RTTSealer E).1 = Except.ok sealer := hS
  set pl : payload := { frames := [ping], length := E.frameLength ping.Frame p.version } with hpl
  set g := w.getPacketBuffer.2.Get1RTTSealer E with hg
  set h := getShortHeader E sealer.KeyPhase g.2 with hh
  have hstep : PackMTUProbePacket E p ping size now w =
      appendShortHeaderPacket E p w.getPacketBuffer.1 h.1.PacketNumber h.1.PacketNumberLen
        sealer.KeyPhase pl (size - packetLength E p h.1 pl - (sealer.Overhead : Int)) sealer
        true h.2 := by
    unfold PackMTUProbePacket
    simp only [← hg, hS', ← hpl, ← hh]
  obtain ⟨bs, hbs⟩ := hHdr (E.getDestConnID h.2.st) h.1.PacketNumber h.1.PacketNumberLen
    sealer.KeyPhase
  have hlen : (bs.length : Int) = E.hdrGetLength h.1 p.version := hW.short _ _ _ _ bs hbs
  have hpn : h.1.PacketNumber = (h.2.PopPacketNumber E EncryptionLevel.Encryption1RTT).1 := by
    have h1 := hPn.pop_peek h.2.st EncryptionLevel.Encryption1RTT
    have h2 := hPn.peek g.2.st EncryptionLevel.Encryption1RTT EncryptionLevel.Encryption1RTT
    show (E.PeekPacketNumber g.2.st EncryptionLevel.Encryption1RTT).1.1 =
      (E.PopPacketNumber (E.PeekPacketNumber g.2.st EncryptionLevel.Encryption1RTT).2
        EncryptionLevel.Encryption1RTT).1
    rw [hPn.pop_peek, h2]
  have hpad : 0 ≤ tinyPaddingLen h.1.PacketNumberLen pl.length +
      (size - packetLength E p h.1 pl - (sealer.Overhead : Int)) := by
    have := tinyPaddingLen_nonneg h.1.PacketNumberLen pl.length
    omega
  obtain ⟨raw, hraw⟩ := appendPacketPayload_succeeds E p bs pl _ hF
    (by intro a ha; simp [hpl] at ha) (by simp [hpl, ackLen, framesLength]) hpad
  have hrl := appendPacketPayload_length E p bs pl _ raw hraw
  rw [packetLength_eq] at hrl
  have hb0 : w.getPacketBuffer.1.Data.length = 0 := rfl
  have htot : ((raw.length + sealer.Overhead : Nat) : Int) = size := by
    push_cast
    omega
  constructor
  · intro hcap
    obtain ⟨pkt, buf, hres⟩ := appendShortHeaderPacket_succeeds E p w.getPacketBuffer.1
      h.1.PacketNumber h.1.PacketNumberLen sealer.KeyPhase pl _ sealer true h.2 bs raw hbs hpn
      hraw (Or.inl rfl) (by rw [hb0]; omega)
    obtain ⟨bs', raw', hb', hr', -, -, -, h6, h7, -, h9, -, -, h12⟩ :=
      appendShortHeaderPacket_ok E p _ _ _ _ _ _ _ _ _ _ pkt buf hres
    rw [hbs] at hb'
    injection hb' with hb'
    subst hb'
    rw [hraw] at hr'
    injection hr' with hr'
    subst hr'
    have hL : pkt.Packet.Length = size := by
      push_cast at htot
      omega
    refine ⟨pkt, buf, _, hstep.trans hres, hL, h9, h7, ?_, ?_⟩
    · unfold setOnLostShort; split <;> rfl
    · rw [h12]
      simp only [List.length_append, encryptPacket_length]
      have : (w.getPacketBuffer.1.Data.length : Int) = 0 := rfl
      push_cast
      push_cast at htot
      omega
  · intro hcap
    have hov := appendShortHeaderPacket_overflow E p w.getPacketBuffer.1
      h.1.PacketNumber h.1.PacketNumberLen sealer.KeyPhase pl _ sealer true h.2 bs raw hbs hpn
      hraw (Or.inl rfl) (by rw [hb0]; omega)
    rw [hstep, hov]

/-- C4 as amended, on the simulated collaborators, whose packet buffers have
the capacity 1452: an MTU probe with the target size 1450 for a packer whose
`maxPacketSize` is 1400. -/
theorem PackMTUProbePacket_target_size_witness :
    ∃ pkt buf w1,
      PackMTUProbePacket simEnv (simPacker Perspective.PerspectiveServer 1400)
        { Frame := WireFrame.PingFrame } 1450 0 (simWorld { keys1RTT := none }) =
        (Result.ok (pkt, buf), w1) ∧
      pkt.Packet.Length = 1450 ∧ pkt.Packet.IsPathMTUProbePacket = true ∧
      pkt.Packet.Frames = [setOnLostShort { Frame := WireFrame.PingFrame }] ∧
      (setOnLostShort { Frame := WireFrame.PingFrame }).Frame = WireFrame.PingFrame ∧
      (buf.Data.length : Int) = 1450 :=
  (PackMTUProbePacket_target_size simEnv (simPacker Perspective.PerspectiveServer 1400)
    { Frame := WireFrame.PingFrame } 1450 0 (simWorld { keys1RTT := none }) simSealer rfl
    simEnv_PnContract (simEnv_WireConsistent _) (fun _ _ _ _ => ⟨_, rfl⟩)
    (simEnv_FramesSerialise _ _) (by decide)).1 (by decide)

set_option maxRecDepth 100000 in
/-- C4 as stated fails: for the target size 1500 of the scenario, with the
`maxPacketSize` 1400, the 1-RTT sealer available and a target that is at least
the length of the packet with the PING and the overhead, no packet is
returned.  The packet buffer has the capacity 1452, and extending it by the
1500 bytes of the packet panics in line 864. -/
theorem PackMTUProbePacket_1500_counterexample :
    (simEnv.Get1RTTSealer ({ keys1RTT := none } : Sim)).1 = Except.ok simSealer ∧
    packetLength simEnv (simPacker Perspective.PerspectiveServer 1400)
        (getShortHeader simEnv simSealer.KeyPhase
          ((simWorld { keys1RTT := none }).getPacketBuffer.2.Get1RTTSealer simEnv).2).1
        { frames := [{ Frame := WireFrame.PingFrame }],
          length := simEnv.frameLength WireFrame.PingFrame
            (simPacker Perspective.PerspectiveServer 1400).version } +
      (simSealer.Overhead : Int) ≤ 1500 ∧
    simEnv.MaxPacketBufferSize = 1452 ∧
    (PackMTUProbePacket simEnv (simPacker Perspective.PerspectiveServer 1400)
      { Frame := WireFrame.PingFrame } 1500 0 (simWorld { keys1RTT := none })).1 =
      Result.goPanic "slice bounds out of range" ∧
    ¬ ∃ pkt buf w1,
      PackMTUProbePacket simEnv (simPacker Perspective.PerspectiveServer 1400)
        { Frame := WireFrame.PingFrame } 1500 0 (simWorld { keys1RTT := none }) =
        (Result.ok (pkt, buf), w1) := by
  have h : (PackMTUProbePacket simEnv (simPacker Perspective.PerspectiveServer 1400)
      { Frame := WireFrame.PingFrame } 1500 0 (simWorld { keys1RTT := none })).1 =
      Result.goPanic "slice bounds out of range" := by rfl
  refine ⟨rfl, by decide, rfl, h, ?_⟩
  rintro ⟨pkt, buf, w1, e⟩
  rw [e] at h
  exact absurd h (by simp)

/-- C5.  Consecutive calls of `maybeGetAppDataPacket` each of which composes a
payload with an ACK and no frame, starting with the counter
`numNonAckElicitingAcks` at 0: the payloads of the first 19 calls have no
frame; the payload of the 20th call has exactly one frame, a PING whose
`OnLost` is the no-op closure, and its length is the length of the ACK plus the
length of the PING; after the 20th call the counter is 0.  In general, for a
counter within its bounds 0 and `MaxNonAckElicitingAcks`, the PING is added to
such a payload exactly when the counter on entry is `MaxNonAckElicitingAcks`,
which is 19. -/
theorem maybeGetAppDataPacket_ack_streak (E : Env σ) (p : packetPacker) (fuel : Nat)
    (maxPayloadSize : Int) (onlyAck ackAllowed : Bool) (w : World σ)
    (h0 : p.numNonAckElicitingAcks = 0)
    (hA : ∀ p1 w1, sameConfig p p1 → ∃ pl a,
      (composeNextPacket E p1 fuel maxPayloadSize onlyAck ackAllowed w1).1 = Result.ok pl ∧
      pl.frames = [] ∧ pl.ack = some a ∧ pl.length = E.ackLength a p.version) :
    (∀ k : Nat, k < 19 → ∃ pl a,
      (maybeGetAppDataPacket E
        (appDataAfter E fuel maxPayloadSize onlyAck ackAllowed k p w).1 fuel maxPayloadSize
        onlyAck ackAllowed
        (appDataAfter E fuel maxPayloadSize onlyAck ackAllowed k p w).2).1 =
        Result.ok (some pl) ∧
      pl.frames = [] ∧ pl.ack = some a) ∧
    (∃ pl a,
      (maybeGetAppDataPacket E
        (appDataAfter E fuel maxPayloadSize onlyAck ackAllowed 19 p w).1 fuel maxPayloadSize
        onlyAck ackAllowed
        (appDataAfter E fuel maxPayloadSize onlyAck ackAllowed 19 p w).2).1 =
        Result.ok (some pl) ∧
      pl.frames = [injectedPing] ∧ pl.ack = some a ∧
      pl.length = E.ackLength a p.version + E.frameLength WireFrame.PingFrame p.version) ∧
    (appDataAfter E fuel maxPayloadSize onlyAck ackAllowed 20 p w).1.numNonAckElicitingAcks
      = 0 ∧
    MaxNonAckElicitingAcks = 19 ∧
    (∀ (q : packetPacker) (w1 : World σ) (pl : payload) (a : AckFrame),
      (composeNextPacket E q fuel maxPayloadSize onlyAck ackAllowed w1).1 = Result.ok pl →
      pl.frames = [] → pl.ack = some a →
      0 ≤ q.numNonAckElicitingAcks → q.numNonAckElicitingAcks ≤ MaxNonAckElicitingAcks →
      ∃ pl1,
        (maybeGetAppDataPacket E q fuel maxPayloadSize onlyAck ackAllowed w1).1 =
          Result.ok (some pl1) ∧
        (q.numNonAckElicitingAcks = MaxNonAckElicitingAcks → pl1.frames = [injectedPing]) ∧
        (q.numNonAckElicitingAcks ≠ MaxNonAckElicitingAcks → pl1.frames = [])) := by
  have hcnt := appDataAfter_counter E p fuel maxPayloadSize onlyAck ackAllowed w h0 hA
  refine ⟨?_, ?_, ?_, rfl, ?_⟩
  · intro k hk
    have hk' := hcnt k (by omega)
    obtain ⟨pl, a, hc, hf, ha, -⟩ := hA
      (appDataAfter E fuel maxPayloadSize onlyAck ackAllowed k p w).1
      (appDataAfter E fuel maxPayloadSize onlyAck ackAllowed k p w).2
      (by rw [hk']; exact sameConfig_set p _)
    refine ⟨pl, a, ?_, hf, ha⟩
    rw [maybeGetAppDataPacket_of_compose E _ fuel _ _ _ _ pl hc,
      finishAppDataPacket_ackOnly E _ pl a hf ha, hk']
    simp only
    rw [if_neg]
    simp only [MaxNonAckElicitingAcks, ge_iff_le, not_le]
    omega
  · have hk' := hcnt 19 (le_refl _)
    obtain ⟨pl, a, hc, hf, ha, hl⟩ := hA
      (appDataAfter E fuel maxPayloadSize onlyAck ackAllowed 19 p w).1
      (appDataAfter E fuel maxPayloadSize onlyAck ackAllowed 19 p w).2
      (by rw [hk']; exact sameConfig_set p _)
    refine ⟨{ pl with frames := [injectedPing],
                      length := pl.length + E.frameLength WireFrame.PingFrame p.version },
      a, ?_, rfl, ha, by simp only [hl]⟩
    rw [maybeGetAppDataPacket_of_compose E _ fuel _ _ _ _ pl hc,
      finishAppDataPacket_ackOnly E _ pl a hf ha, hk']
    simp only
    rw [if_pos]
    simp [MaxNonAckElicitingAcks]
  · have hk' := hcnt 19 (le_refl _)
    obtain ⟨pl, a, hc, hf, ha, -⟩ := hA
      (appDataAfter E fuel maxPayloadSize onlyAck ackAllowed 19 p w).1
      (appDataAfter E fuel maxPayloadSize onlyAck ackAllowed 19 p w).2
      (by rw [hk']; exact sameConfig_set p _)
    show (maybeGetAppDataPacket E _ fuel maxPayloadSize onlyAck ackAllowed _).2.1.numNonAckElicitingAcks = 0
    rw [maybeGetAppDataPacket_of_compose E _ fuel _ _ _ _ pl hc,
      finishAppDataPacket_ackOnly E _ pl a hf ha, hk']
    simp only
    rw [if_pos]
    simp [MaxNonAckElicitingAcks]
  · intro q w1 pl a hc hf ha hq0 hq1
    rw [maybeGetAppDataPacket_of_compose E _ fuel _ _ _ _ pl hc,
      finishAppDataPacket_ackOnly E _ pl a hf ha]
    by_cases hq : q.numNonAckElicitingAcks = MaxNonAckElicitingAcks
    · rw [if_pos (by rw [hq])]
      exact ⟨_, rfl, fun _ => rfl, fun h => absurd hq h⟩
    · rw [if_neg (by simp only [ge_iff_le, not_le]; omega)]
      exact ⟨_, rfl, fun h => absurd h hq, fun _ => hf⟩

/-- C5, on the mock in which every composition yields an ACK and no frame. -/
theorem maybeGetAppDataPacket_ack_streak_witness :
    (∀ k : Nat, k < 19 → ∃ pl a,
      (maybeGetAppDataPacket (mockEnv ackOnlyMock)
        (appDataAfter (mockEnv ackOnlyMock) 0 1200 false true k
          (simPacker Perspective.PerspectiveClient 1252) (simWorld {})).1 0 1200 false true
        (appDataAfter (mockEnv ackOnlyMock) 0 1200 false true k
          (simPacker Perspective.PerspectiveClient 1252) (simWorld {})).2).1 =
        Result.ok (some pl) ∧
      pl.frames = [] ∧ pl.ack = some a) ∧
    (∃ pl a,
      (maybeGetAppDataPacket (mockEnv ackOnlyMock)
        (appDataAfter (mockEnv ackOnlyMock) 0 1200 false true 19
          (simPacker Perspective.PerspectiveClient 1252) (simWorld {})).1 0 1200 false true
        (appDataAfter (mockEnv ackOnlyMock) 0 1200 false true 19
          (simPacker Perspective.PerspectiveClient 1252) (simWorld {})).2).1 =
        Result.ok (some pl) ∧
      pl.frames = [injectedPing] ∧ pl.ack = some a ∧
      pl.length = (mockEnv ackOnlyMock).ackLength a 1 +
        (mockEnv ackOnlyMock).frameLength WireFrame.PingFrame 1) ∧
    (appDataAfter (mockEnv ackOnlyMock) 0 1200 false true 20
      (simPacker Perspective.PerspectiveClient 1252) (simWorld {})).1.numNonAckElicitingAcks
      = 0 := by
  have h := maybeGetAppDataPacket_ack_streak (mockEnv ackOnlyMock)
    (simPacker Perspective.PerspectiveClient 1252) 0 1200 false true (simWorld {}) rfl
    (fun p1 w1 hc => ⟨{ ack := some { id := 7 }, length := 4 }, { id := 7 }, by
      rw [hc]; rfl, rfl, rfl, rfl⟩)
  exact ⟨h.1, h.2.1, h.2.2.1⟩

/-- C6.  After any sequence of operations of the packer on a packer that was
just constructed, `0 <= numNonAckElicitingAcks <= MaxNonAckElicitingAcks`; and
after a call of `maybeGetAppDataPacket` that adds the PING, or whose composed
payload has at least one frame, the counter is 0. -/
theorem numNonAckElicitingAcks_bounds (E : Env σ) (fuel : Nat) :
    (∀ (ops : List Op) (srcConnID : ConnectionID) (remoteAddr : RemoteAddr)
      (datagramQueue : Bool) (perspective : Perspective) (version : VersionNumber)
      (w : World σ),
      0 ≤ (runOps E fuel ops
        (newPacketPacker srcConnID remoteAddr datagramQueue perspective version)
        w).1.numNonAckElicitingAcks ∧
      (runOps E fuel ops
        (newPacketPacker srcConnID remoteAddr datagramQueue perspective version)
        w).1.numNonAckElicitingAcks ≤ MaxNonAckElicitingAcks) ∧
    (∀ (p : packetPacker) (maxPayloadSize : Int) (onlyAck ackAllowed : Bool) (w : World σ)
      (pl pl1 : payload),
      (composeNextPacket E p fuel maxPayloadSize onlyAck ackAllowed w).1 = Result.ok pl →
      (maybeGetAppDataPacket E p fuel maxPayloadSize onlyAck ackAllowed w).1 =
        Result.ok (some pl1) →
      pl.frames ≠ [] ∨ injectedPing ∈ pl1.frames →
      (maybeGetAppDataPacket E p fuel maxPayloadSize onlyAck ackAllowed
        w).2.1.numNonAckElicitingAcks = 0) := by
  constructor
  · intro ops srcConnID remoteAddr datagramQueue perspective version w
    exact runOps_counterOK E fuel ops _ w (by
      unfold counterOK newPacketPacker MaxNonAckElicitingAcks
      simp)
  · intro p maxPayloadSize onlyAck ackAllowed w pl pl1 hc hr hcase
    rw [maybeGetAppDataPacket_of_compose E p fuel _ _ _ _ pl hc] at hr ⊢
    simp only [Result.ok.injEq] at hr
    by_cases hf : pl.frames = []
    · have hping : injectedPing ∈ pl1.frames := by
        rcases hcase with h | h
        · exact absurd hf h
        · exact h
      unfold finishAppDataPacket at hr ⊢
      simp only [hf, List.length_nil, if_true] at hr ⊢
      split at hr
      · simp at hr
      · split at hr
        · simp only [*, if_true, if_false]
        · simp only [Option.some.injEq] at hr
          rw [← hr, hf] at hping
          simp at hping
    · rw [finishAppDataPacket_frames E p pl hf]

/-- C6, on the simulated collaborators that have only an ACK frame to send:
the counter of a new packer stays within its bounds over three calls of
`PackPacket`, and the call of `maybeGetAppDataPacket` that adds the PING sets
the counter 19 to 0. -/
theorem numNonAckElicitingAcks_bounds_witness :
    (0 ≤ (runOps (mockEnv ackOnlyMock) 10
        [Op.PackPacket false 0, Op.PackPacket false 1, Op.PackPacket false 2]
        (newPacketPacker [5, 6, 7, 8] RemoteAddr.udpIPv4 false Perspective.PerspectiveClient 1)
        (simWorld {})).1.numNonAckElicitingAcks ∧
      (runOps (mockEnv ackOnlyMock) 10
        [Op.PackPacket false 0, Op.PackPacket false 1, Op.PackPacket false 2]
        (newPacketPacker [5, 6, 7, 8] RemoteAddr.udpIPv4 false Perspective.PerspectiveClient 1)
        (simWorld {})).1.numNonAckElicitingAcks ≤ MaxNonAckElicitingAcks) ∧
    (maybeGetAppDataPacket (mockEnv ackOnlyMock) streakPacker 10 1200 false true
      (simWorld {})).2.1.numNonAckElicitingAcks = 0 :=
  ⟨(numNonAckElicitingAcks_bounds (mockEnv ackOnlyMock) 10).1 _ _ _ _ _ _ _,
   (numNonAckElicitingAcks_bounds (mockEnv ackOnlyMock) 10).2 streakPacker 1200 false true
     (simWorld {}) { ack := some { id := 7 }, length := 4 }
     { ack := some { id := 7 }, frames := [injectedPing], length := 4 + 1 } rfl rfl
     (Or.inr (List.mem_singleton.2 rfl))⟩

/-- C7.  `PackConnectionClose` with the transport error `e`: every long header
packet of the result (Initial, Handshake, 0-RTT) and its short header packet
(1-RTT) hold exactly one frame, a CONNECTION_CLOSE frame with
`IsApplicationError = false`, `ErrorCode = e.ErrorCode`,
`FrameType = e.FrameType`, and the `ReasonPhrase` empty when `e.ErrorCode` is a
crypto error and `e.ErrorMessage` otherwise. -/
theorem PackConnectionClose_frames (E : Env σ) (p : packetPacker) (e : TransportError)
    (w w1 : World σ) (c : coalescedPacket)
    (h : PackConnectionClose E p e w = (Result.ok c, w1)) :
    (∀ lp ∈ c.longHdrPackets,
      (lp.header.Type_ = PacketType.PacketTypeInitial ∨
        lp.header.Type_ = PacketType.PacketTypeHandshake ∨
        lp.header.Type_ = PacketType.PacketType0RTT) ∧
      lp.frames.length = 1 ∧
      ∀ frame ∈ lp.frames, ∃ ccf, frame.Frame = WireFrame.ConnectionClose ccf ∧
        ccf.IsApplicationError = false ∧ ccf.ErrorCode = e.ErrorCode ∧
        ccf.FrameType = e.FrameType ∧
        ccf.ReasonPhrase = if E.IsCryptoError e.ErrorCode = true then "" else e.ErrorMessage) ∧
    (∀ sp, c.shortHdrPacket = some sp →
      sp.Packet.Frames.length = 1 ∧
      ∀ frame ∈ sp.Packet.Frames, ∃ ccf, frame.Frame = WireFrame.ConnectionClose ccf ∧
        ccf.IsApplicationError = false ∧ ccf.ErrorCode = e.ErrorCode ∧
        ccf.FrameType = e.FrameType ∧
        ccf.ReasonPhrase = if E.IsCryptoError e.ErrorCode = true then "" else e.ErrorMessage) := by
  unfold PackConnectionClose at h
  obtain ⟨hl, hs⟩ := packConnectionClose_ok E p false e.ErrorCode e.FrameType _ w w1 c h
  constructor
  · intro lp hlp
    obtain ⟨lvl, hne, hty, hf⟩ := hl lp hlp
    refine ⟨?_, ?_, ?_⟩
    · rw [hty]
      cases lvl
      · left; rfl
      · right; left; rfl
      · right; right; rfl
      · exact absurd rfl hne
    · rw [hf]; rfl
    · intro frame hfr
      rw [hf] at hfr
      simp only [closePayload, List.mem_singleton] at hfr
      subst hfr
      refine ⟨_, rfl, ?_, ?_, ?_, ?_⟩ <;>
        first | rfl | (cases hc : E.IsCryptoError e.ErrorCode <;> simp [closeFrame, hc])
  · intro sp hsp
    have hf := hs sp hsp
    refine ⟨by rw [hf]; rfl, ?_⟩
    intro frame hfr
    rw [hf] at hfr
    simp only [closePayload, List.map_cons, List.map_nil, List.mem_singleton] at hfr
    subst hfr
    refine ⟨_, rfl, ?_, ?_, ?_, ?_⟩ <;>
        first | rfl | (cases hc : E.IsCryptoError e.ErrorCode <;> simp [closeFrame, hc])

/-- C7, on the simulated collaborators with the Initial and the 1-RTT sealer:
the crypto error of the scenario gives two packets whose CONNECTION_CLOSE
frames keep the error code and have an empty reason phrase. -/
theorem PackConnectionClose_frames_witness :
    ∃ c w1,
      PackConnectionClose simEnv (simPacker Perspective.PerspectiveServer 100)
        cryptoTransportError (simWorld { keys1RTT := none }) = (Result.ok c, w1) ∧
      c.longHdrPackets.length = 1 ∧ c.shortHdrPacket.isSome = true ∧
      (∀ lp ∈ c.longHdrPackets, ∀ frame ∈ lp.frames, ∃ ccf,
        frame.Frame = WireFrame.ConnectionClose ccf ∧ ccf.IsApplicationError = false ∧
        ccf.ErrorCode = 296 ∧ ccf.FrameType = 6 ∧ ccf.ReasonPhrase = "") ∧
      (∀ sp, c.shortHdrPacket = some sp → ∀ frame ∈ sp.Packet.Frames, ∃ ccf,
        frame.Frame = WireFrame.ConnectionClose ccf ∧ ccf.IsApplicationError = false ∧
        ccf.ErrorCode = 296 ∧ ccf.FrameType = 6 ∧ ccf.ReasonPhrase = "") := by
  have h := PackConnectionClose_frames simEnv (simPacker Perspective.PerspectiveServer 100)
    cryptoTransportError (simWorld { keys1RTT := none }) _ _ rfl
  refine ⟨_, _, rfl, rfl, rfl, ?_, ?_⟩
  · intro lp hlp frame hfr
    exact (h.1 lp hlp).2.2 frame hfr
  · intro sp hsp frame hfr
    exact (h.2 sp hsp).2 frame hfr

/-- C8.  `PackApplicationClose` with the application error `e`: every long
header packet of the result is an Initial, a Handshake or a 0-RTT packet and
holds exactly one frame, a CONNECTION_CLOSE frame.  In an Initial and in a
Handshake packet it has `IsApplicationError = false`, the transport error code
`ApplicationErrorErrorCode` and an empty `ReasonPhrase`; in a 0-RTT packet and
in the short header packet (1-RTT) it has `IsApplicationError = true`,
`ErrorCode = e.ErrorCode` and `ReasonPhrase = e.ErrorMessage`. -/
theorem PackApplicationClose_frames (E : Env σ) (p : packetPacker) (e : ApplicationError)
    (w w1 : World σ) (c : coalescedPacket)
    (h : PackApplicationClose E p e w = (Result.ok c, w1)) :
    (∀ lp ∈ c.longHdrPackets,
      (lp.header.Type_ = PacketType.PacketTypeInitial ∨
        lp.header.Type_ = PacketType.PacketTypeHandshake ∨
        lp.header.Type_ = PacketType.PacketType0RTT) ∧
      lp.frames.length = 1 ∧
      ∀ frame ∈ lp.frames, ∃ ccf, frame.Frame = WireFrame.ConnectionClose ccf ∧
        (lp.header.Type_ = PacketType.PacketTypeInitial ∨
          lp.header.Type_ = PacketType.PacketTypeHandshake →
          ccf.IsApplicationError = false ∧ ccf.ErrorCode = E.ApplicationErrorErrorCode ∧
          ccf.ReasonPhrase = "") ∧
        (lp.header.Type_ = PacketType.PacketType0RTT →
          ccf.IsApplicationError = true ∧ ccf.ErrorCode = e.ErrorCode ∧
          ccf.ReasonPhrase = e.ErrorMessage)) ∧
    (∀ sp, c.shortHdrPacket = some sp →
      sp.Packet.Frames.length = 1 ∧
      ∀ frame ∈ sp.Packet.Frames, ∃ ccf, frame.Frame = WireFrame.ConnectionClose ccf ∧
        ccf.IsApplicationError = true ∧ ccf.ErrorCode = e.ErrorCode ∧
        ccf.ReasonPhrase = e.ErrorMessage) := by
  unfold PackApplicationClose at h
  obtain ⟨hl, hs⟩ := packConnectionClose_ok E p true e.ErrorCode 0 e.ErrorMessage w w1 c h
  constructor
  · intro lp hlp
    obtain ⟨lvl, hne, hty, hf⟩ := hl lp hlp
    refine ⟨?_, ?_, ?_⟩
    · rw [hty]
      cases lvl
      · left; rfl
      · right; left; rfl
      · right; right; rfl
      · exact absurd rfl hne
    · rw [hf]; rfl
    · intro frame hfr
      rw [hf] at hfr
      simp only [closePayload, List.mem_singleton] at hfr
      subst hfr
      refine ⟨_, rfl, ?_, ?_⟩
      · intro hih
        rw [hty] at hih
        cases lvl
        · simp [closeFrame]
        · simp [closeFrame]
        · simp [typeOfLevel] at hih
        · exact absurd rfl hne
      · intro h0
        rw [hty] at h0
        cases lvl
        · simp [typeOfLevel] at h0
        · simp [typeOfLevel] at h0
        · simp [closeFrame]
        · exact absurd rfl hne
  · intro sp hsp
    have hf := hs sp hsp
    refine ⟨by rw [hf]; rfl, ?_⟩
    intro frame hfr
    rw [hf] at hfr
    simp only [closePayload, List.map_cons, List.map_nil, List.mem_singleton] at hfr
    subst hfr
    refine ⟨_, rfl, ?_, ?_, ?_⟩ <;> simp [closeFrame]

/-- C8, on the simulated collaborators of a client with the sealers of the
levels Initial, Handshake and 0-RTT. -/
theorem PackApplicationClose_frames_witness :
    ∃ c w1,
      PackApplicationClose simEnv (simPacker Perspective.PerspectiveClient 200)
        demoApplicationError (simWorld { keysHandshake := none, keys0RTT := none }) =
        (Result.ok c, w1) ∧
      c.longHdrPackets.map (fun lp => lp.header.Type_) =
        [PacketType.PacketTypeInitial, PacketType.PacketTypeHandshake,
         PacketType.PacketType0RTT] ∧
      (∀ lp ∈ c.longHdrPackets, ∀ frame ∈ lp.frames, ∃ ccf,
        frame.Frame = WireFrame.ConnectionClose ccf ∧
        (lp.header.Type_ = PacketType.PacketTypeInitial ∨
          lp.header.Type_ = PacketType.PacketTypeHandshake →
          ccf.IsApplicationError = false ∧ ccf.ErrorCode = 12 ∧ ccf.ReasonPhrase = "") ∧
        (lp.header.Type_ = PacketType.PacketType0RTT →
          ccf.IsApplicationError = true ∧ ccf.ErrorCode = 77 ∧ ccf.ReasonPhrase = "bye")) := by
  have h := PackApplicationClose_frames simEnv (simPacker Perspective.PerspectiveClient 200)
    demoApplicationError (simWorld { keysHandshake := none, keys0RTT := none }) _ _ rfl
  refine ⟨_, _, rfl, rfl, ?_⟩
  intro lp hlp frame hfr
  exact (h.1 lp hlp).2.2 frame hfr

set_option maxRecDepth 100000 in
/-- C9 fails on the code.  For a client whose getters of the Initial, the
0-RTT and the 1-RTT sealer succeed (the Handshake keys are not yet available),
`packConnectionClose` returns no packet, but the error "Peeked and Popped
packet numbers do not match" of line 851: the headers of the 0-RTT and of the
1-RTT packet are built with the same peeked packet number, as both levels
share a packet number space and no number is popped in the first loop, and
the number popped for the 0-RTT packet is no longer the one in the header of
the 1-RTT packet.  In the same state `PackCoalescedPacket` asks for the 1-RTT
sealer only, not for the 0-RTT sealer, and returns its packet. -/
theorem packConnectionClose_both_sealers :
    (getCloseSealer simEnv EncryptionLevel.EncryptionInitial (simWorld bothSealersSim)).1 =
      Except.ok simSealer ∧
    (getCloseSealer simEnv EncryptionLevel.EncryptionHandshake (simWorld bothSealersSim)).1 =
      Except.error Error.ErrKeysNotYetAvailable ∧
    (getCloseSealer simEnv EncryptionLevel.Encryption0RTT (simWorld bothSealersSim)).1 =
      Except.ok simSealer ∧
    (getCloseSealer simEnv EncryptionLevel.Encryption1RTT (simWorld bothSealersSim)).1 =
      Except.ok simSealer ∧
    (∃ w1, packConnectionClose simEnv (simPacker Perspective.PerspectiveClient 1200) false 10 0
        "bye" (simWorld bothSealersSim) = (Result.error Error.bugPacketNumberMismatch, w1) ∧
      w1.calls = [Call.GetInitialSealer,
        Call.PeekPacketNumber EncryptionLevel.EncryptionInitial, Call.GetHandshakeSealer,
        Call.Get0RTTSealer, Call.PeekPacketNumber EncryptionLevel.Encryption0RTT,
        Call.Get1RTTSealer, Call.PeekPacketNumber EncryptionLevel.Encryption1RTT,
        Call.getPacketBuffer, Call.PopPacketNumber EncryptionLevel.EncryptionInitial,
        Call.PopPacketNumber EncryptionLevel.Encryption0RTT,
        Call.PopPacketNumber EncryptionLevel.Encryption1RTT]) ∧
    (∃ c p1 w1, PackCoalescedPacket simEnv (simPacker Perspective.PerspectiveClient 1200) 5
        false (simWorld { bothSealersSim with keysInitial := some Error.ErrKeysDropped,
                                              streams := [WireFrame.handed 20] }) =
        (Result.ok (some c), p1, w1) ∧
      c.longHdrPackets = [] ∧ c.shortHdrPacket.isSome = true ∧
      Call.Get0RTTSealer ∉ w1.calls) :=
  ⟨rfl, rfl, rfl, rfl, ⟨_, rfl, rfl⟩, ⟨_, _, _, rfl, rfl, rfl, by decide⟩⟩

/-- C10, as the code has it.  When serialising a header or a frame returns
neither of the two errors, `PackCoalescedPacket` never returns
`ErrKeysDropped`, and it returns `ErrKeysNotYetAvailable` exactly when
`GetInitialSealer` fails with `ErrKeysNotYetAvailable` (line 368 lets only
`ErrKeysDropped` pass).  A level whose getter fails with `ErrKeysDropped`, or,
for the levels Handshake, 0-RTT and 1-RTT, with `ErrKeysNotYetAvailable`, is
skipped: the datagram returned holds no packet of the level. -/
theorem PackCoalescedPacket_key_errors (E : Env σ) (p : packetPacker) (fuel : Nat)
    (onlyAck : Bool) (w : World σ)
    (hWire : ¬ WireError E Error.ErrKeysNotYetAvailable ∧ ¬ WireError E Error.ErrKeysDropped) :
    (PackCoalescedPacket E p fuel onlyAck w).1 ≠ Result.error Error.ErrKeysDropped ∧
    ((PackCoalescedPacket E p fuel onlyAck w).1 = Result.error Error.ErrKeysNotYetAvailable ↔
      (E.GetInitialSealer w.st).1 = Except.error Error.ErrKeysNotYetAvailable) ∧
    (∀ c p1 w1, PackCoalescedPacket E p fuel onlyAck w = (Result.ok (some c), p1, w1) →
      ((E.GetInitialSealer w.st).1 = Except.error Error.ErrKeysDropped →
        ∀ lp ∈ c.longHdrPackets, lp.header.Type_ ≠ PacketType.PacketTypeInitial) ∧
      ((∀ s, (E.GetHandshakeSealer s).1 = Except.error Error.ErrKeysDropped ∨
          (E.GetHandshakeSealer s).1 = Except.error Error.ErrKeysNotYetAvailable) →
        ∀ lp ∈ c.longHdrPackets, lp.header.Type_ ≠ PacketType.PacketTypeHandshake) ∧
      ((∀ s, (E.Get0RTTSealer s).1 = Except.error Error.ErrKeysDropped ∨
          (E.Get0RTTSealer s).1 = Except.error Error.ErrKeysNotYetAvailable) →
        ∀ lp ∈ c.longHdrPackets, lp.header.Type_ ≠ PacketType.PacketType0RTT) ∧
      ((∀ s, (E.Get1RTTSealer s).1 = Except.error Error.ErrKeysDropped ∨
          (E.Get1RTTSealer s).1 = Except.error Error.ErrKeysNotYetAvailable) →
        c.shortHdrPacket = none)) := by
  have hBug : ∀ e, e = Error.ErrKeysNotYetAvailable ∨ e = Error.ErrKeysDropped →
      ¬ BugError e := by
    intro e he hb
    rcases he with he | he <;> subst he <;>
      rcases hb with hb | ⟨_, _, hb⟩ | ⟨_, _, hb⟩ <;> simp at hb
  refine ⟨?_, ⟨?_, ?_⟩, ?_⟩
  · intro h
    rcases PackCoalescedPacket_error E p fuel onlyAck w _ h with
      ⟨-, h1⟩ | ⟨s, -, h1, -⟩ | h1 | h1
    · exact h1 rfl
    · exact h1 rfl
    · exact hWire.2 h1
    · exact hBug _ (Or.inr rfl) h1
  · intro h
    rcases PackCoalescedPacket_error E p fuel onlyAck w _ h with
      ⟨h1, -⟩ | ⟨s, -, -, h1⟩ | h1 | h1
    · exact h1
    · exact absurd rfl h1
    · exact absurd h1 hWire.1
    · exact absurd h1 (hBug _ (Or.inl rfl))
  · intro h
    exact PackCoalescedPacket_initial_error E p fuel onlyAck w _ h (by simp)
  · intro c p1 w1 h
    unfold PackCoalescedPacket at h
    rw [andThenP_ok_iff] at h
    obtain ⟨L, hL, h⟩ := h
    split at h
    · simp at h
    · rw [andThenP_ok_iff] at h
      obtain ⟨c1, hc1, h⟩ := h
      simp only [Prod.mk.injEq, Result.ok.injEq, Option.some.injEq] at h
      obtain ⟨hc, -, -⟩ := h
      subst hc
      obtain ⟨tI, tH, t0, sI, sH, s0, s1⟩ := composeCoalesced_levels E p _ fuel onlyAck w _ L
        (Prod.ext hL rfl)
      obtain ⟨al, as⟩ := assembleCoalesced_packets E _ L _ _ c1 (Prod.ext hc1 rfl)
      refine ⟨?_, ?_, ?_, ?_⟩
      · intro hg lp hlp hty
        rcases al lp hlp with ⟨hdr, -, a2, -⟩ | ⟨hdr, a1, -, a3⟩ | ⟨hdr, a1, -, a3, a4⟩
        · exact a2 (sI ⟨_, hg⟩)
        · have := tH hdr a1
          rw [← a3, hty] at this
          simp at this
        · have := t0 a3 hdr a1
          rw [← a4, hty] at this
          simp at this
      · intro hg lp hlp hty
        have hg2 : ∀ s, ∃ e, (E.GetHandshakeSealer s).1 = Except.error e := by
          intro s; rcases hg s with h1 | h1 <;> exact ⟨_, h1⟩
        rcases al lp hlp with ⟨hdr, a1, -, a3⟩ | ⟨hdr, -, a2, -⟩ | ⟨hdr, a1, -, a3, a4⟩
        · have := tI hdr a1
          rw [← a3, hty] at this
          simp at this
        · exact a2 (sH hg2)
        · have := t0 a3 hdr a1
          rw [← a4, hty] at this
          simp at this
      · intro hg lp hlp hty
        have hg2 : ∀ s, ∃ e, (E.Get0RTTSealer s).1 = Except.error e := by
          intro s; rcases hg s with h1 | h1 <;> exact ⟨_, h1⟩
        rcases al lp hlp with ⟨hdr, a1, -, a3⟩ | ⟨hdr, a1, -, a3⟩ | ⟨hdr, -, a2, a3, -⟩
        · have := tI hdr a1
          rw [← a3, hty] at this
          simp at this
        · have := tH hdr a1
          rw [← a3, hty] at this
          simp at this
        · rcases s0 hg2 with h1 | h1
          · exact h1 a3
          · exact a2 h1
      · intro hg
        have hg2 : ∀ s, ∃ e, (E.Get1RTTSealer s).1 = Except.error e := by
          intro s; rcases hg s with h1 | h1 <;> exact ⟨_, h1⟩
        cases hsp : c1.shortHdrPacket with
        | none => rfl
        | some sp =>
          exfalso
          obtain ⟨b1, b2⟩ := as sp hsp
          rcases s1 hg2 with h1 | h1
          · exact b2 h1
          · exact b1 h1

/-- C10, on the simulated collaborators of a server whose Initial keys were
dropped: `PackCoalescedPacket` does not return `ErrKeysDropped`, and the
datagram it returns holds the 1-RTT packet only. -/
theorem PackCoalescedPacket_key_errors_witness :
    (¬ WireError (mockEnv droppedInitialMock) Error.ErrKeysNotYetAvailable ∧
      ¬ WireError (mockEnv droppedInitialMock) Error.ErrKeysDropped) ∧
    (PackCoalescedPacket (mockEnv droppedInitialMock)
      (simPacker Perspective.PerspectiveServer 1200) 10 false (simWorld {})).1 ≠
        Result.error Error.ErrKeysDropped ∧
    ∃ c p1 w1,
      PackCoalescedPacket (mockEnv droppedInitialMock)
        (simPacker Perspective.PerspectiveServer 1200) 10 false (simWorld {}) =
        (Result.ok (some c), p1, w1) ∧
      c.shortHdrPacket.isSome = true ∧
      (∀ lp ∈ c.longHdrPackets, lp.header.Type_ ≠ PacketType.PacketTypeInitial) ∧
      (∀ lp ∈ c.longHdrPackets, lp.header.Type_ ≠ PacketType.PacketTypeHandshake) := by
  have hW : ¬ WireError (mockEnv droppedInitialMock) Error.ErrKeysNotYetAvailable ∧
      ¬ WireError (mockEnv droppedInitialMock) Error.ErrKeysDropped :=
    ⟨mockEnv_no_WireError _ _, mockEnv_no_WireError _ _⟩
  have T := PackCoalescedPacket_key_errors (mockEnv droppedInitialMock)
    (simPacker Perspective.PerspectiveServer 1200) 10 false (simWorld {}) hW
  refine ⟨hW, T.1, _, _, _, rfl, rfl, ?_, ?_⟩
  · exact (T.2.2 _ _ _ rfl).1 rfl
  · exact (T.2.2 _ _ _ rfl).2.1 (fun _ => Or.inr rfl)

/-- C10 as the specification states it does not hold: when `GetInitialSealer`
fails with `ErrKeysNotYetAvailable`, `PackCoalescedPacket` returns this
error. -/
theorem PackCoalescedPacket_initial_keys_counterexample :
    (simEnv.GetInitialSealer { keysInitial := some Error.ErrKeysNotYetAvailable }).1 =
      Except.error Error.ErrKeysNotYetAvailable ∧
    (PackCoalescedPacket simEnv (simPacker Perspective.PerspectiveClient 1200) 10 false
      (simWorld { keysInitial := some Error.ErrKeysNotYetAvailable })).1 =
      Result.error Error.ErrKeysNotYetAvailable := by
  exact ⟨rfl, rfl⟩

/-- C11, as the code has it.  In `PackCoalescedPacket`: (1) when
`GetInitialSealer` fails with an error other than `ErrKeysDropped`, this error
is returned, and no packet; (2) when the Handshake level is attempted (the
condition of line 382 holds after the Initial level) and `GetHandshakeSealer`
fails with an error other than `ErrKeysNotYetAvailable` and `ErrKeysDropped`,
this error is returned, and no packet; (3) an error of `Get1RTTSealer` or of
`Get0RTTSealer` is never returned: every error `PackCoalescedPacket` returns is
the error of `GetInitialSealer`, an error of `GetHandshakeSealer`, an error of
a serialiser or one of the packer's own errors; and when both getters of the
application data level fail, whatever the error, the level is skipped: the
packet returned has no 0-RTT and no short header packet. -/
theorem PackCoalescedPacket_sealer_errors (E : Env σ) (p : packetPacker) (fuel : Nat)
    (onlyAck : Bool) (w : World σ) :
    (∀ e, (E.GetInitialSealer w.st).1 = Except.error e → e ≠ Error.ErrKeysDropped →
      (PackCoalescedPacket E p fuel onlyAck w).1 = Result.error e) ∧
    (∀ e L1 w1,
      packInitialStage E p fuel (coalescedMaxPacketSize p) onlyAck w = (Result.ok L1, w1) →
      coalesceGate onlyAck L1.size (coalescedMaxPacketSize p) →
      (E.GetHandshakeSealer w1.st).1 = Except.error e →
      e ≠ Error.ErrKeysDropped → e ≠ Error.ErrKeysNotYetAvailable →
      (PackCoalescedPacket E p fuel onlyAck w).1 = Result.error e) ∧
    (∀ e, (PackCoalescedPacket E p fuel onlyAck w).1 = Result.error e →
      (E.GetInitialSealer w.st).1 = Except.error e ∨
      (∃ s, (E.GetHandshakeSealer s).1 = Except.error e) ∨
      WireError E e ∨ BugError e) ∧
    ((∀ s, ∃ e, (E.Get1RTTSealer s).1 = Except.error e) →
      (∀ s, ∃ e, (E.Get0RTTSealer s).1 = Except.error e) →
      ∀ c p1 w1, PackCoalescedPacket E p fuel onlyAck w = (Result.ok (some c), p1, w1) →
        c.shortHdrPacket = none ∧
        ∀ lp ∈ c.longHdrPackets, lp.header.Type_ ≠ PacketType.PacketType0RTT) := by
  refine ⟨?_, ?_, ?_, ?_⟩
  · intro e h hne
    exact PackCoalescedPacket_initial_error E p fuel onlyAck w e h hne
  · intro e L1 w1 hI hGate hG h1 h2
    exact PackCoalescedPacket_handshake_error E p fuel onlyAck w w1 L1 e hI hGate hG h1 h2
  · intro e h
    rcases PackCoalescedPacket_error E p fuel onlyAck w e h with
      ⟨h1, -⟩ | ⟨s, h1, -⟩ | h1 | h1
    · exact Or.inl h1
    · exact Or.inr (Or.inl ⟨s, h1⟩)
    · exact Or.inr (Or.inr (Or.inl h1))
    · exact Or.inr (Or.inr (Or.inr h1))
  · intro hg1 hg0 c p1 w1 h
    unfold PackCoalescedPacket at h
    rw [andThenP_ok_iff] at h
    obtain ⟨L, hL, h⟩ := h
    split at h
    · simp at h
    · rw [andThenP_ok_iff] at h
      obtain ⟨c1, hc1, h⟩ := h
      simp only [Prod.mk.injEq, Result.ok.injEq, Option.some.injEq] at h
      obtain ⟨hc, -, -⟩ := h
      subst hc
      obtain ⟨tI, tH, t0, sI, sH, s0, s1⟩ := composeCoalesced_levels E p _ fuel onlyAck w _ L
        (Prod.ext hL rfl)
      obtain ⟨al, as⟩ := assembleCoalesced_packets E _ L _ _ c1 (Prod.ext hc1 rfl)
      constructor
      · cases hsp : c1.shortHdrPacket with
        | none => rfl
        | some sp =>
          exfalso
          obtain ⟨b1, b2⟩ := as sp hsp
          rcases s1 hg1 with h1 | h1
          · exact b2 h1
          · exact b1 h1
      · intro lp hlp hty
        rcases al lp hlp with ⟨hdr, a1, -, a3⟩ | ⟨hdr, a1, -, a3⟩ | ⟨hdr, -, a2, a3, -⟩
        · have := tI hdr a1
          rw [← a3, hty] at this
          simp at this
        · have := tH hdr a1
          rw [← a3, hty] at this
          simp at this
        · rcases s0 hg0 with h1 | h1
          · exact h1 a3
          · exact a2 h1

/-- C11 as amended, on the simulated collaborators of a server: when
`GetHandshakeSealer` fails with an error of its own after an Initial packet of
45 bytes was composed, this error is returned. -/
theorem PackCoalescedPacket_sealer_errors_witness :
    (PackCoalescedPacket
      (mockEnv { brokenAppDataMock with keysHandshake := some (Error.other "no sealer") })
      (simPacker Perspective.PerspectiveServer 200) 10 false (simWorld {})).1 =
      Result.error (Error.other "no sealer") :=
  (PackCoalescedPacket_sealer_errors
    (mockEnv { brokenAppDataMock with keysHandshake := some (Error.other "no sealer") })
    (simPacker Perspective.PerspectiveServer 200) 10 false (simWorld {})).2.1
    (Error.other "no sealer") _ _ rfl (by decide) rfl (by simp) (by simp)

set_option maxRecDepth 100000 in
/-- C11 as stated fails for the application data level: a server whose
`Get1RTTSealer` fails with an error other than `ErrKeysNotYetAvailable` and
`ErrKeysDropped`.  The getter is called, but `PackCoalescedPacket` does not
return its error: it returns a datagram with the Initial packet. -/
theorem PackCoalescedPacket_app_data_error_counterexample :
    ((mockEnv brokenAppDataMock).Get1RTTSealer {}).1 =
      Except.error (Error.other "sealer broken") ∧
    Call.Get1RTTSealer ∈ (PackCoalescedPacket (mockEnv brokenAppDataMock)
      (simPacker Perspective.PerspectiveServer 200) 10 false (simWorld {})).2.2.calls ∧
    ∃ c, (PackCoalescedPacket (mockEnv brokenAppDataMock)
      (simPacker Perspective.PerspectiveServer 200) 10 false (simWorld {})).1 =
        Result.ok (some c) ∧
      c.longHdrPackets.map (fun lp => lp.header.Type_) = [PacketType.PacketTypeInitial] ∧
      c.shortHdrPacket = none := by
  refine ⟨rfl, by decide, _, rfl, rfl, rfl⟩

/-- C12.  In every coalesced packet `PackCoalescedPacket` returns, the
encryption levels of `longHdrPackets` form a sublist of Initial, Handshake,
0-RTT (each level at most once, in that order), a short header packet (of the
level 1-RTT) is present only when no long header packet is a 0-RTT packet, and
the buffer holds the bytes of the long header packets, packet after packet in
the order of `longHdrPackets`, followed by the bytes of the short header
packet when there is one, and nothing else. -/
theorem PackCoalescedPacket_order (E : Env σ) (p p1 : packetPacker) (fuel : Nat)
    (onlyAck : Bool) (w w1 : World σ) (c : coalescedPacket)
    (h : PackCoalescedPacket E p fuel onlyAck w = (Result.ok (some c), p1, w1)) :
    (∃ levels : List EncryptionLevel,
      List.Forall₂ (fun lp encLevel => longHeaderPacket.EncryptionLevel lp = Result.ok encLevel)
        c.longHdrPackets levels ∧
      levels.Sublist [EncryptionLevel.EncryptionInitial, EncryptionLevel.EncryptionHandshake,
        EncryptionLevel.Encryption0RTT]) ∧
    (c.shortHdrPacket ≠ none → ∀ lp ∈ c.longHdrPackets,
      longHeaderPacket.EncryptionLevel lp ≠ Result.ok EncryptionLevel.Encryption0RTT) ∧
    (∀ sp, c.shortHdrPacket = some sp →
      sp.Packet.EncryptionLevel = EncryptionLevel.Encryption1RTT) ∧
    ∃ (longBytes : List (List UInt8)) (shortBytes : List UInt8),
      c.buffer.Data = longBytes.flatten ++ shortBytes ∧
      List.Forall₂ (LongPacketBytes E p1) c.longHdrPackets longBytes ∧
      (c.shortHdrPacket = none → shortBytes = []) ∧
      ∀ sp, c.shortHdrPacket = some sp → ShortPacketBytes E p1 sp shortBytes := by
  obtain ⟨L, w0, hc, -, ha⟩ := PackCoalescedPacket_some E p p1 fuel onlyAck w w1 c h
  obtain ⟨t1, t2, t3, -, -, -, -⟩ := composeCoalesced_levels E p p1 fuel onlyAck w w0 L hc
  obtain ⟨l1, l2, l3, b1, b2, b3, sb, s1, s2, s3, n1, n2, n3, g1, g2, g3, s4, s5⟩ :=
    assembleCoalesced_shape E p1 L w0 w1 c ha
  have lv1 : ∀ lp ∈ l1, longHeaderPacket.EncryptionLevel lp =
      Result.ok EncryptionLevel.EncryptionInitial := by
    intro lp hlp
    obtain ⟨a, hdrv, b, d⟩ := g1 lp hlp
    exact EncryptionLevel_of_type lp _ a (by rw [d, t1 hdrv b]; rfl) (by decide)
  have lv2 : ∀ lp ∈ l2, longHeaderPacket.EncryptionLevel lp =
      Result.ok EncryptionLevel.EncryptionHandshake := by
    intro lp hlp
    obtain ⟨a, hdrv, b, d⟩ := g2 lp hlp
    exact EncryptionLevel_of_type lp _ a (by rw [d, t2 hdrv b]; rfl) (by decide)
  have lv3 : ∀ lp ∈ l3, longHeaderPacket.EncryptionLevel lp =
      Result.ok EncryptionLevel.Encryption0RTT := by
    intro lp hlp
    obtain ⟨a, hl, hdrv, b, d⟩ := g3 lp hlp
    exact EncryptionLevel_of_type lp _ a (by rw [d, t3 hl hdrv b]; rfl) (by decide)
  have fa : ∀ (l : List longHeaderPacket) (x : EncryptionLevel),
      (∀ lp ∈ l, longHeaderPacket.EncryptionLevel lp = Result.ok x) →
      List.Forall₂ (fun lp encLevel => longHeaderPacket.EncryptionLevel lp = Result.ok encLevel)
        l (l.map (fun _ => x)) := by
    intro l x hx
    induction l with
    | nil => exact List.Forall₂.nil
    | cons a rest ih =>
      exact List.Forall₂.cons (hx a (List.mem_cons_self _ _))
        (ih (fun lp hlp => hx lp (List.mem_cons_of_mem _ hlp)))
  refine ⟨⟨l1.map (fun _ => EncryptionLevel.EncryptionInitial) ++
      l2.map (fun _ => EncryptionLevel.EncryptionHandshake) ++
      l3.map (fun _ => EncryptionLevel.Encryption0RTT), ?_, ?_⟩, ?_, ?_, ?_⟩
  · rw [s1]
    exact forall₂_append _ _ _ _ _ (forall₂_append _ _ _ _ _ (fa _ _ lv1) (fa _ _ lv2))
      (fa _ _ lv3)
  · exact List.Sublist.append (List.Sublist.append
      (sublist_const_of_length_le_one l1 _ n1) (sublist_const_of_length_le_one l2 _ n2))
      (sublist_const_of_length_le_one l3 _ n3)
  · intro hsp lp hlp
    obtain ⟨sp, hsp1⟩ := Option.ne_none_iff_exists'.mp hsp
    obtain ⟨e3, -, -⟩ := s5 sp hsp1
    rw [s1, e3] at hlp
    simp only [List.append_nil, List.mem_append] at hlp
    rcases hlp with hlp | hlp
    · rw [lv1 lp hlp]; simp
    · rw [lv2 lp hlp]; simp
  · intro sp hsp
    exact (s5 sp hsp).2.2
  · refine ⟨b1 ++ b2 ++ b3, sb, s2, ?_, s4, fun sp hsp => (s5 sp hsp).2.1⟩
    rw [s1]
    exact s3

set_option maxRecDepth 100000 in
/-- C12, on the simulated collaborators: a server with Initial, Handshake and
1-RTT keys, ten bytes of CRYPTO data at the levels Initial and Handshake and a
PING in the frame source packs a datagram of 300 bytes with two long header
packets and a short header packet; the levels of the long header packets are
in order, none of them is a 0-RTT packet, and the buffer is the bytes of the
long header packets in the order of the list followed by the bytes of the
short header packet. -/
theorem PackCoalescedPacket_order_witness :
    ∃ c p1 w1,
      PackCoalescedPacket simEnv (simPacker Perspective.PerspectiveServer 300) 5 false
        (simWorld { keysHandshake := none, keys1RTT := none,
                    cryptoInitial := [WireFrame.handed 10],
                    cryptoHandshake := [WireFrame.handed 10],
                    control := [WireFrame.PingFrame] }) =
        (Result.ok (some c), p1, w1) ∧
      c.longHdrPackets.length = 2 ∧ c.shortHdrPacket ≠ none ∧ c.buffer.Data.length = 300 ∧
      (∃ levels : List EncryptionLevel,
        List.Forall₂
          (fun lp encLevel => longHeaderPacket.EncryptionLevel lp = Result.ok encLevel)
          c.longHdrPackets levels ∧
        levels.Sublist [EncryptionLevel.EncryptionInitial, EncryptionLevel.EncryptionHandshake,
          EncryptionLevel.Encryption0RTT]) ∧
      (∀ lp ∈ c.longHdrPackets,
        longHeaderPacket.EncryptionLevel lp ≠ Result.ok EncryptionLevel.Encryption0RTT) ∧
      ∃ (longBytes : List (List UInt8)) (shortBytes : List UInt8),
        c.buffer.Data = longBytes.flatten ++ shortBytes ∧
        List.Forall₂ (LongPacketBytes simEnv p1) c.longHdrPackets longBytes ∧
        ∀ sp, c.shortHdrPacket = some sp → ShortPacketBytes simEnv p1 sp shortBytes := by
  refine ⟨_, _, _, rfl, rfl, by decide, rfl, ?_⟩
  have h := PackCoalescedPacket_order simEnv (simPacker Perspective.PerspectiveServer 300) _ 5
    false
    (simWorld { keysHandshake := none, keys1RTT := none,
                cryptoInitial := [WireFrame.handed 10],
                cryptoHandshake := [WireFrame.handed 10],
                control := [WireFrame.PingFrame] }) _ _ rfl
  obtain ⟨h1, h2, -, longBytes, shortBytes, h4, h5, -, h7⟩ := h
  exact ⟨h1, h2 (by decide), longBytes, shortBytes, h4, h5, h7⟩

/-- C13.  `PackCoalescedPacket` returns no packet and no error exactly when
the three levels were gone through without an error (no sealer error was
returned) and none of them has a payload.  It has then popped no packet number
and taken no buffer.  So it is for a client with only Initial keys, no crypto
data, no Initial retransmission and no ACK, and `onlyAck = false`, whatever
the fuel. -/
theorem PackCoalescedPacket_returns_nothing (E : Env σ) (p : packetPacker) (fuel : Nat)
    (onlyAck : Bool) (w : World σ) :
    ((PackCoalescedPacket E p fuel onlyAck w).1 = Result.ok none ↔
      ∃ L p1 w1, composeCoalesced E p fuel onlyAck w = (Result.ok L, p1, w1) ∧
        L.initialPayload = none ∧ L.handshakePayload = none ∧ L.appDataPayload = none) ∧
    ((PackCoalescedPacket E p fuel onlyAck w).1 = Result.ok none →
      Quiet w (PackCoalescedPacket E p fuel onlyAck w).2.2) ∧
    (∀ sealer, onlyAck = false → p.perspective = Perspective.PerspectiveClient →
      (∀ s, (E.GetInitialSealer s).1 = Except.ok sealer) →
      (∀ s, (E.GetHandshakeSealer s).1 = Except.error Error.ErrKeysNotYetAvailable) →
      (∀ s, (E.Get0RTTSealer s).1 = Except.error Error.ErrKeysNotYetAvailable) →
      (∀ s, (E.Get1RTTSealer s).1 = Except.error Error.ErrKeysNotYetAvailable) →
      (∀ s, (E.HasInitialData s).1 = false ∧ (E.HasHandshakeData s).1 = false) →
      (∀ s, (E.streamHasData s EncryptionLevel.EncryptionInitial).1 = false) →
      (∀ s b, (E.GetAckFrame s EncryptionLevel.EncryptionInitial b).1 = none) →
      (PackCoalescedPacket E p fuel onlyAck w).1 = Result.ok none) := by
  refine ⟨PackCoalescedPacket_none_iff E p fuel onlyAck w,
    PackCoalescedPacket_none_quiet E p fuel onlyAck w, ?_⟩
  intro sealer ho hClient hI hH h0 h1 hRT hData hAck
  subst ho
  exact PackCoalescedPacket_nothing E p fuel w sealer hClient hI hH h0 h1 hRT hData hAck

/-- C13, on the simulated collaborators of a client with only Initial keys and
nothing to send: nothing is returned, and the calls made are the four sealer
getters and the three questions for data of the Initial level. -/
theorem PackCoalescedPacket_returns_nothing_witness :
    (PackCoalescedPacket (mockEnv nothingToSendMock)
      (simPacker Perspective.PerspectiveClient 1252) 0 false (simWorld {})).1 =
      Result.ok none ∧
    (PackCoalescedPacket (mockEnv nothingToSendMock)
      (simPacker Perspective.PerspectiveClient 1252) 0 false (simWorld {})).2.2.calls =
      [Call.GetInitialSealer, Call.HasInitialData,
       Call.streamHasData EncryptionLevel.EncryptionInitial,
       Call.GetAckFrame EncryptionLevel.EncryptionInitial true,
       Call.GetHandshakeSealer, Call.Get1RTTSealer, Call.Get0RTTSealer] ∧
    Quiet (simWorld {}) (PackCoalescedPacket (mockEnv nothingToSendMock)
      (simPacker Perspective.PerspectiveClient 1252) 0 false (simWorld {})).2.2 := by
  have T := PackCoalescedPacket_returns_nothing (mockEnv nothingToSendMock)
    (simPacker Perspective.PerspectiveClient 1252) 0 false (simWorld {})
  have h := T.2.2 simSealer rfl rfl (fun _ => rfl) (fun _ => rfl) (fun _ => rfl) (fun _ => rfl)
    (fun _ => ⟨rfl, rfl⟩) (fun _ => rfl) (fun _ _ => rfl)
  exact ⟨h, rfl, T.2.1 h⟩

/-- C14.  `PackPacket`: (1) when `Get1RTTSealer` fails, exactly its error is
returned; (2) when the 1-RTT sealer is available and the payload that
`composeNextPacket` returns has no frame and no ACK, `errNothingToPack` is
returned; in both cases the calls made are calls other than
`PopPacketNumber` (and `getPacketBuffer`): no packet number is popped;
(3) conversely, when `errNothingToPack` is returned, and it is not an error
that `Get1RTTSealer` or a serialiser returns (it is a variable private to the
package of the packer), then the 1-RTT sealer is available and the composed
payload has no frame and no ACK. -/
theorem PackPacket_nothing_to_pack (E : Env σ) (p : packetPacker) (fuel : Nat)
    (onlyAck : Bool) (now : Time) (w : World σ) :
    (∀ e, (E.Get1RTTSealer w.st).1 = Except.error e →
      (PackPacket E p fuel onlyAck now w).1 = Result.error e ∧
      Quiet w (PackPacket E p fuel onlyAck now w).2.2) ∧
    (∀ sealer pl, (E.Get1RTTSealer w.st).1 = Except.ok sealer →
      (packPacketCompose E p fuel onlyAck sealer w).1 = Result.ok pl →
      pl.frames = [] → pl.ack = none →
      (PackPacket E p fuel onlyAck now w).1 = Result.error errNothingToPack ∧
      Quiet w (PackPacket E p fuel onlyAck now w).2.2) ∧
    ((E.Get1RTTSealer w.st).1 ≠ Except.error errNothingToPack →
      ¬ WireError E errNothingToPack →
      (PackPacket E p fuel onlyAck now w).1 = Result.error errNothingToPack →
      ∃ sealer pl, (E.Get1RTTSealer w.st).1 = Except.ok sealer ∧
        (packPacketCompose E p fuel onlyAck sealer w).1 = Result.ok pl ∧
        pl.frames = [] ∧ pl.ack = none) := by
  refine ⟨?_, ?_, ?_⟩
  · intro e h
    rw [PackPacket_sealer_error E p fuel onlyAck now w e h]
    exact ⟨rfl, Get1RTTSealer_quiet E w⟩
  · intro sealer pl hG hC hf ha
    rw [PackPacket_nothing E p fuel onlyAck now w sealer pl hG hC hf ha]
    exact ⟨rfl, packPacketCompose_quiet E p fuel onlyAck sealer w⟩
  · intro hG hW h
    exact PackPacket_nothing_inv E p fuel onlyAck now w hG hW h

/-- C14, on the simulated collaborators: with the 1-RTT sealer and nothing to
send `PackPacket` returns `errNothingToPack`; without the 1-RTT sealer it
returns the error of `Get1RTTSealer`; no packet number is popped. -/
theorem PackPacket_nothing_to_pack_witness :
    ((PackPacket simEnv (simPacker Perspective.PerspectiveClient 1200) 10 false 0
        (simWorld { keys1RTT := none })).1 = Result.error errNothingToPack ∧
      Quiet (simWorld { keys1RTT := none })
        (PackPacket simEnv (simPacker Perspective.PerspectiveClient 1200) 10 false 0
          (simWorld { keys1RTT := none })).2.2) ∧
    (PackPacket simEnv (simPacker Perspective.PerspectiveClient 1200) 10 false 0
      (simWorld {})).1 = Result.error Error.ErrKeysNotYetAvailable :=
  ⟨(PackPacket_nothing_to_pack simEnv (simPacker Perspective.PerspectiveClient 1200) 10 false 0
      (simWorld { keys1RTT := none })).2.1 simSealer {} rfl rfl rfl rfl,
   ((PackPacket_nothing_to_pack simEnv (simPacker Perspective.PerspectiveClient 1200) 10 false 0
      (simWorld {})).1 Error.ErrKeysNotYetAvailable rfl).1⟩

/-- C15.  Every frame of a record for the ack handler has an `OnLost`
callback: the frames of the record in a short header packet that
`appendShortHeaderPacket` returns, and the frames of the record that
`ToAckHandlerPacket` makes of a long header packet (whose level is then
Initial, Handshake or 0-RTT), as well as the frames it leaves in the packet. -/
theorem ackHandlerPacket_frames_OnLost (E : Env σ) :
    (∀ (p : packetPacker) (buffer : packetBuffer) (pn : PacketNumber)
      (pnLen : PacketNumberLen) (kp : KeyPhaseBit) (pl : payload) (padding : Int)
      (sealer : Sealer) (isMTUProbePacket : Bool) (w w1 : World σ) (sp : shortHeaderPacket)
      (buf : packetBuffer),
      appendShortHeaderPacket E p buffer pn pnLen kp pl padding sealer isMTUProbePacket w =
        (Result.ok (sp, buf), w1) →
      sp.Packet.Frames.length = pl.frames.length ∧
      ∀ f ∈ sp.Packet.Frames, f.OnLost ≠ none) ∧
    (∀ (lp lp1 : longHeaderPacket) (now : Time) (ap : AckHandlerPacket),
      lp.ToAckHandlerPacket E now = Result.ok (ap, lp1) →
      (ap.EncryptionLevel = EncryptionLevel.EncryptionInitial ∨
        ap.EncryptionLevel = EncryptionLevel.EncryptionHandshake ∨
        ap.EncryptionLevel = EncryptionLevel.Encryption0RTT) ∧
      ap.Frames.length = lp.frames.length ∧
      (∀ f ∈ ap.Frames, f.OnLost ≠ none) ∧ ∀ f ∈ lp1.frames, f.OnLost ≠ none) := by
  constructor
  · intro p buffer pn pnLen kp pl padding sealer isMTUProbePacket w w1 sp buf h
    obtain ⟨hdrBytes, raw, -, -, -, -, -, -, hf, -⟩ :=
      appendShortHeaderPacket_ok E p buffer pn pnLen kp pl padding sealer isMTUProbePacket w w1
        sp buf h
    rw [hf]
    refine ⟨by simp, ?_⟩
    intro f hm
    simp only [List.mem_map] at hm
    obtain ⟨g, -, hg⟩ := hm
    rw [← hg]
    unfold setOnLostShort
    cases ho : g.OnLost <;> simp [ho]
  · intro lp lp1 now ap h
    obtain ⟨h1, h2, h3, -⟩ := ToAckHandlerPacket_ok E lp lp1 now ap h
    obtain ⟨hne, -, -⟩ := EncryptionLevel_long lp ap.EncryptionLevel h1
    have hall : ∀ f ∈ ap.Frames, f.OnLost ≠ none := by
      intro f hm
      rw [h2] at hm
      simp only [List.mem_map] at hm
      obtain ⟨g, -, hg⟩ := hm
      rw [← hg]
      unfold setOnLostLong
      cases ho : g.OnLost
      · cases hl : ap.EncryptionLevel <;> simp [ho]
        exact hne hl
      · simp [ho]
    refine ⟨?_, by rw [h2]; simp, hall, by rw [h3]; exact hall⟩
    cases hl : ap.EncryptionLevel
    · exact Or.inl rfl
    · exact Or.inr (Or.inl rfl)
    · exact Or.inr (Or.inr rfl)
    · exact absurd hl hne

/-- C15, on the simulated collaborators: the record of a Handshake packet with
two frames, one of them without a callback, has two frames with a callback. -/
theorem ackHandlerPacket_frames_OnLost_witness :
    ∃ ap lp1, demoLongPacket.ToAckHandlerPacket simEnv 0 = Result.ok (ap, lp1) ∧
      ap.EncryptionLevel = EncryptionLevel.EncryptionHandshake ∧
      ap.Frames.length = 2 ∧ ∀ f ∈ ap.Frames, f.OnLost ≠ none := by
  have h := (ackHandlerPacket_frames_OnLost simEnv).2 demoLongPacket _ 0 _ rfl
  exact ⟨_, _, rfl, rfl, h.2.1, h.2.2.1⟩

/-- C16.  At the commit of a packet the list of frames keeps its length, its
order and the `Frame` of every entry; a frame without a callback gets the sink
of the level of the packet (`AddInitial`, `AddHandshake`, and `AddAppData` for
0-RTT and for 1-RTT), and a frame with a callback, the no-op callback
included, keeps it.  This holds for the frames `ToAckHandlerPacket` puts in the
record of a long header packet and for the frames `appendShortHeaderPacket`
puts in the record of a short header packet. -/
theorem commit_sets_OnLost (E : Env σ) :
    (∀ (lp lp1 : longHeaderPacket) (now : Time) (ap : AckHandlerPacket),
      lp.ToAckHandlerPacket E now = Result.ok (ap, lp1) →
      lp.EncryptionLevel = Result.ok ap.EncryptionLevel ∧
      List.Forall₂ (CommittedFrame ap.EncryptionLevel) lp.frames ap.Frames) ∧
    (∀ (p : packetPacker) (buffer : packetBuffer) (pn : PacketNumber)
      (pnLen : PacketNumberLen) (kp : KeyPhaseBit) (pl : payload) (padding : Int)
      (sealer : Sealer) (isMTUProbePacket : Bool) (w w1 : World σ) (sp : shortHeaderPacket)
      (buf : packetBuffer),
      appendShortHeaderPacket E p buffer pn pnLen kp pl padding sealer isMTUProbePacket w =
        (Result.ok (sp, buf), w1) →
      sp.Packet.EncryptionLevel = EncryptionLevel.Encryption1RTT ∧
      List.Forall₂ (CommittedFrame EncryptionLevel.Encryption1RTT) pl.frames
        sp.Packet.Frames) := by
  constructor
  · intro lp lp1 now ap h
    obtain ⟨h1, h2, -, -⟩ := ToAckHandlerPacket_ok E lp lp1 now ap h
    obtain ⟨hne, -, -⟩ := EncryptionLevel_long lp ap.EncryptionLevel h1
    refine ⟨h1, ?_⟩
    rw [h2]
    exact forall₂_map_self _ _ _ (setOnLostLong_committed _ hne)
  · intro p buffer pn pnLen kp pl padding sealer isMTUProbePacket w w1 sp buf h
    obtain ⟨hdrBytes, raw, -, -, -, -, -, -, hf, -, -, hl, -⟩ :=
      appendShortHeaderPacket_ok E p buffer pn pnLen kp pl padding sealer isMTUProbePacket w w1
        sp buf h
    refine ⟨hl, ?_⟩
    rw [hf]
    exact forall₂_map_self _ _ _ setOnLostShort_committed

/-- C16, on the packet of the scenario: the frame without a callback gets
`AddHandshake`, the PING keeps its no-op callback. -/
theorem commit_sets_OnLost_witness :
    ∃ ap lp1, demoLongPacket.ToAckHandlerPacket simEnv 0 = Result.ok (ap, lp1) ∧
      ap.Frames = [{ Frame := WireFrame.handed 10, OnLost := some OnLostCallback.AddHandshake },
        { Frame := WireFrame.PingFrame, OnLost := some OnLostCallback.noop }] ∧
      List.Forall₂ (CommittedFrame EncryptionLevel.EncryptionHandshake) demoLongPacket.frames
        ap.Frames := by
  have h := (commit_sets_OnLost simEnv).1 demoLongPacket _ 0 _ rfl
  exact ⟨_, _, rfl, rfl, h.2⟩

/-- C17.  `appendPacketPayload` with a padding length that is not negative,
when the ACK frame (if there is one) is serialised to `ackBytes` and the
frames to `frameBytes`, one byte sequence each: if the number of these bytes is
`pl.length`, it returns `raw`, then the bytes of the ACK, then `paddingLen`
zero bytes, then the bytes of the frames in the order of the list; if not, it
returns the error "payload size inconsistent" with the expected and the
written number of bytes, and no bytes.  The bytes of `raw` are the first bytes
of the output, unchanged. -/
theorem appendPacketPayload_bytes (E : Env σ) (p : packetPacker) (raw : List UInt8)
    (pl : payload) (paddingLen : Int) (ackBytes : List UInt8)
    (frameBytes : List (List UInt8))
    (hP : 0 ≤ paddingLen)
    (hA : (∀ ack, pl.ack = some ack → E.ackAppend ack p.version = Except.ok ackBytes) ∧
      (pl.ack = none → ackBytes = []))
    (hF : List.Forall₂ (fun f bytes => E.frameAppend f.Frame p.version = Except.ok bytes)
      pl.frames frameBytes) :
    ((ackBytes.length : Int) + (frameBytes.flatten.length : Int) = pl.length →
      appendPacketPayload E p raw pl paddingLen =
        Except.ok (raw ++ ackBytes ++ List.replicate paddingLen.toNat 0 ++ frameBytes.flatten)) ∧
    ((ackBytes.length : Int) + (frameBytes.flatten.length : Int) ≠ pl.length →
      appendPacketPayload E p raw pl paddingLen =
        Except.error (Error.bugPayloadSizeInconsistent pl.length
          ((ackBytes.length : Int) + (frameBytes.flatten.length : Int)))) := by
  have key : ∀ raw1 : List UInt8, raw1 = raw ++ ackBytes →
      (match appendFrames E p
          (if paddingLen > 0 then raw1 ++ List.replicate paddingLen.toNat 0 else raw1)
          pl.frames with
        | Except.error e => Except.error e
        | Except.ok raw3 =>
          if ((raw3.length : Int) - (raw.length : Int)) - paddingLen ≠ pl.length then
            Except.error (Error.bugPayloadSizeInconsistent pl.length
              (((raw3.length : Int) - (raw.length : Int)) - paddingLen))
          else
            Except.ok raw3) =
      if (ackBytes.length : Int) + (frameBytes.flatten.length : Int) ≠ pl.length then
        Except.error (Error.bugPayloadSizeInconsistent pl.length
          ((ackBytes.length : Int) + (frameBytes.flatten.length : Int)))
      else
        Except.ok (raw ++ ackBytes ++ List.replicate paddingLen.toNat 0 ++
          frameBytes.flatten) := by
    intro raw1 h1
    subst h1
    have hpad : (if paddingLen > 0 then raw ++ ackBytes ++ List.replicate paddingLen.toNat 0
        else raw ++ ackBytes) = raw ++ ackBytes ++ List.replicate paddingLen.toNat 0 := by
      split
      · rfl
      · have : paddingLen = 0 := by omega
        simp [this]
    have hsize : (((raw ++ ackBytes ++ List.replicate paddingLen.toNat 0 ++
        frameBytes.flatten).length : Int) - (raw.length : Int)) - paddingLen =
        (ackBytes.length : Int) + (frameBytes.flatten.length : Int) := by
      simp only [List.length_append, List.length_replicate]
      push_cast
      rw [Int.toNat_of_nonneg hP]
      omega
    rw [hpad, appendFrames_bytes E p pl.frames frameBytes hF]
    simp only [hsize]
  have hres : appendPacketPayload E p raw pl paddingLen =
      if (ackBytes.length : Int) + (frameBytes.flatten.length : Int) ≠ pl.length then
        Except.error (Error.bugPayloadSizeInconsistent pl.length
          ((ackBytes.length : Int) + (frameBytes.flatten.length : Int)))
      else
        Except.ok (raw ++ ackBytes ++ List.replicate paddingLen.toNat 0 ++
          frameBytes.flatten) := by
    unfold appendPacketPayload
    simp only
    cases ha : pl.ack with
    | none =>
      have hb := hA.2 ha
      simp only
      exact key raw (by rw [hb]; simp)
    | some ack =>
      simp only [hA.1 ack ha]
      exact key _ rfl
  rw [hres]
  constructor
  · intro h
    rw [if_neg (by simpa using h)]
  · intro h
    rw [if_pos h]

/-- C17, on the simulated collaborators: two bytes, an ACK of four bytes, a
padding of two bytes and a frame of three bytes. -/
theorem appendPacketPayload_bytes_witness :
    appendPacketPayload simEnv (simPacker Perspective.PerspectiveClient 1200) [9, 8]
      { frames := [{ Frame := WireFrame.handed 3 }], ack := some { id := 1 }, length := 7 } 2 =
      Except.ok ([9, 8] ++ [2, 0, 0, 0] ++ [0, 0] ++ [0, 0, 0]) ∧
    appendPacketPayload simEnv (simPacker Perspective.PerspectiveClient 1200) [9, 8]
      { frames := [{ Frame := WireFrame.handed 3 }], ack := some { id := 1 }, length := 8 } 2 =
      Except.error (Error.bugPayloadSizeInconsistent 8 7) :=
  ⟨(appendPacketPayload_bytes simEnv (simPacker Perspective.PerspectiveClient 1200) [9, 8]
      { frames := [{ Frame := WireFrame.handed 3 }], ack := some { id := 1 }, length := 7 } 2
      [2, 0, 0, 0] [[0, 0, 0]] (by decide) ⟨fun _ _ => rfl, fun h => by simp at h⟩
      (List.Forall₂.cons rfl List.Forall₂.nil)).1 (by decide),
   (appendPacketPayload_bytes simEnv (simPacker Perspective.PerspectiveClient 1200) [9, 8]
      { frames := [{ Frame := WireFrame.handed 3 }], ack := some { id := 1 }, length := 8 } 2
      [2, 0, 0, 0] [[0, 0, 0]] (by decide) ⟨fun _ _ => rfl, fun h => by simp at h⟩
      (List.Forall₂.cons rfl List.Forall₂.nil)).2 (by decide)⟩

/-- C18, as the code has it.  `appendLongHeaderPacket`, given a long header,
and `appendShortHeaderPacket` first serialise the header.  When this fails
they return the error and the packet number manager is not called: no packet
number is popped.  When it succeeds they pop exactly one packet number, of the
level of the packet (1-RTT for a short header packet), whatever they return;
if it differs from the number in the header they return the error "Peeked and
Popped packet numbers do not match" and no packet.  When they return a packet,
the packet number of the record is the number of the header and the number
popped. -/
theorem append_pops_packet_number (E : Env σ) (p : packetPacker) (buffer : packetBuffer)
    (pl : payload) (padding : Int) (sealer : Sealer) (w : World σ) :
    (∀ (header : ExtendedHeader) (encLevel : EncryptionLevel), header.IsLongHeader = true →
      (∀ e, E.hdrWrite (sentLongHeader header pl padding sealer) p.version = Except.error e →
        appendLongHeaderPacket E p buffer header pl padding encLevel sealer w =
          (Result.error e, w)) ∧
      (∀ hdrBytes,
        E.hdrWrite (sentLongHeader header pl padding sealer) p.version = Except.ok hdrBytes →
        (appendLongHeaderPacket E p buffer header pl padding encLevel sealer w).2 =
          (w.PopPacketNumber E encLevel).2 ∧
        (appendLongHeaderPacket E p buffer header pl padding encLevel sealer w).2.calls =
          w.calls ++ [Call.PopPacketNumber encLevel] ∧
        ((w.PopPacketNumber E encLevel).1 ≠ header.PacketNumber →
          (appendLongHeaderPacket E p buffer header pl padding encLevel sealer w).1 =
            Result.error Error.bugPacketNumberMismatch)) ∧
      (∀ pkt buf w1,
        appendLongHeaderPacket E p buffer header pl padding encLevel sealer w =
          (Result.ok (pkt, buf), w1) →
        pkt.header.PacketNumber = header.PacketNumber ∧
        pkt.header.PacketNumber = (w.PopPacketNumber E encLevel).1)) ∧
    (∀ (pn : PacketNumber) (pnLen : PacketNumberLen) (kp : KeyPhaseBit)
      (isMTUProbePacket : Bool),
      (∀ e, E.WriteShortHeader (E.getDestConnID w.st) pn pnLen kp = Except.error e →
        appendShortHeaderPacket E p buffer pn pnLen kp pl padding sealer isMTUProbePacket w =
          (Result.error e, w)) ∧
      (∀ hdrBytes,
        E.WriteShortHeader (E.getDestConnID w.st) pn pnLen kp = Except.ok hdrBytes →
        (appendShortHeaderPacket E p buffer pn pnLen kp pl padding sealer isMTUProbePacket
          w).2 = (w.PopPacketNumber E EncryptionLevel.Encryption1RTT).2 ∧
        (appendShortHeaderPacket E p buffer pn pnLen kp pl padding sealer isMTUProbePacket
          w).2.calls = w.calls ++ [Call.PopPacketNumber EncryptionLevel.Encryption1RTT] ∧
        ((w.PopPacketNumber E EncryptionLevel.Encryption1RTT).1 ≠ pn →
          (appendShortHeaderPacket E p buffer pn pnLen kp pl padding sealer isMTUProbePacket
            w).1 = Result.error Error.bugPacketNumberMismatch)) ∧
      (∀ sp buf w1,
        appendShortHeaderPacket E p buffer pn pnLen kp pl padding sealer isMTUProbePacket w =
          (Result.ok (sp, buf), w1) →
        sp.Packet.PacketNumber = pn ∧
        sp.Packet.PacketNumber = (w.PopPacketNumber E EncryptionLevel.Encryption1RTT).1)) := by
  constructor
  · intro header encLevel hl
    obtain ⟨h1, h2⟩ := appendLongHeaderPacket_pop E p buffer header pl padding encLevel sealer w hl
    refine ⟨h1, ?_, ?_⟩
    · intro hdrBytes hb
      obtain ⟨a, b⟩ := h2 hdrBytes hb
      exact ⟨a, by rw [a]; rfl, b⟩
    · intro pkt buf w1 h
      obtain ⟨-, hdrBytes, raw, -, -, b5, -, -, -, -, b8, -⟩ :=
        appendLongHeaderPacket_ok E p buffer header pl padding encLevel sealer w w1 pkt buf h
      have hp : pkt.header.PacketNumber = header.PacketNumber := by rw [b8]
      exact ⟨hp, by rw [hp, b5]⟩
  · intro pn pnLen kp isMTUProbePacket
    obtain ⟨h1, h2⟩ := appendShortHeaderPacket_pop E p buffer pn pnLen kp pl padding sealer
      isMTUProbePacket w
    refine ⟨h1, ?_, ?_⟩
    · intro hdrBytes hb
      obtain ⟨a, b⟩ := h2 hdrBytes hb
      exact ⟨a, by rw [a]; rfl, b⟩
    · intro sp buf w1 h
      obtain ⟨hdrBytes, raw, -, -, b3, -, -, -, -, b8, -⟩ :=
        appendShortHeaderPacket_ok E p buffer pn pnLen kp pl padding sealer isMTUProbePacket
          w w1 sp buf h
      exact ⟨b8, by rw [b8]; exact b3⟩

/-- C18 as amended, on the simulated collaborators: an Initial packet with the
packet number 0 is appended; one packet number of the level Initial is popped,
and the header of the packet has the number 0. -/
theorem append_pops_packet_number_witness :
    ∃ pkt buf w1,
      appendLongHeaderPacket simEnv (simPacker Perspective.PerspectiveClient 1200) {}
        demoInitialHeader tenBytePayload 0 EncryptionLevel.EncryptionInitial simSealer
        (simWorld {}) = (Result.ok (pkt, buf), w1) ∧
      w1.calls = [Call.PopPacketNumber EncryptionLevel.EncryptionInitial] ∧
      pkt.header.PacketNumber = 0 := by
  have T := (append_pops_packet_number simEnv (simPacker Perspective.PerspectiveClient 1200) {}
    tenBytePayload 0 simSealer (simWorld {})).1 demoInitialHeader
    EncryptionLevel.EncryptionInitial rfl
  exact ⟨_, _, _, rfl, (T.2.1 _ rfl).2.1, (T.2.2 _ _ _ rfl).1⟩

/-- C18 as stated fails: when the header cannot be serialised,
`appendLongHeaderPacket` and `appendShortHeaderPacket` return the error of the
serialiser before they call `PopPacketNumber`; the record of the calls stays
empty, no packet number is popped. -/
theorem append_pops_no_packet_number_counterexample :
    appendLongHeaderPacket brokenHeaderEnv (simPacker Perspective.PerspectiveClient 1200) {}
      demoInitialHeader tenBytePayload 0 EncryptionLevel.EncryptionInitial simSealer
      (simWorld {}) = (Result.error (Error.other "invalid header"), simWorld {}) ∧
    appendShortHeaderPacket brokenHeaderEnv (simPacker Perspective.PerspectiveClient 1200) {}
      0 2 0 tenBytePayload 0 simSealer false (simWorld {}) =
      (Result.error (Error.other "invalid header"), simWorld {}) ∧
    (simWorld {}).calls = [] :=
  ⟨rfl, rfl, rfl⟩

/-- C19.  `HandleTransportParameters` sets `maxPacketSize` to the smaller of
`maxPacketSize` and `params.MaxUDPPayloadSize` when `MaxUDPPayloadSize` is not
0, and leaves it as it is when it is 0.  So it never makes `maxPacketSize`
greater, a second call with the same parameters changes nothing, and no other
field of the packer changes. -/
theorem HandleTransportParameters_clamps (p : packetPacker) (params : TransportParameters) :
    (params.MaxUDPPayloadSize ≠ 0 →
      (HandleTransportParameters p params).maxPacketSize =
        min p.maxPacketSize params.MaxUDPPayloadSize) ∧
    (params.MaxUDPPayloadSize = 0 →
      (HandleTransportParameters p params).maxPacketSize = p.maxPacketSize) ∧
    (HandleTransportParameters p params).maxPacketSize ≤ p.maxPacketSize ∧
    HandleTransportParameters (HandleTransportParameters p params) params =
      HandleTransportParameters p params ∧
    HandleTransportParameters p params =
      { p with maxPacketSize := (HandleTransportParameters p params).maxPacketSize } := by
  unfold HandleTransportParameters
  by_cases h : params.MaxUDPPayloadSize = 0
  · simp [h]
  · simp only [ne_eq, h, not_false_eq_true, if_true, forall_true_left, false_implies, true_and,
      min_le_left, le_min_iff, le_refl, and_true, min_eq_left (min_le_right _ _)]

/-- C19, on a packer with `maxPacketSize` 1252: the peer's 1200 is taken, the
peer's 1400 and the peer's 0 are not. -/
theorem HandleTransportParameters_clamps_witness :
    (HandleTransportParameters (simPacker Perspective.PerspectiveClient 1252)
      { MaxUDPPayloadSize := 1200 }).maxPacketSize = 1200 ∧
    (HandleTransportParameters (simPacker Perspective.PerspectiveClient 1252)
      { MaxUDPPayloadSize := 1400 }).maxPacketSize = 1252 ∧
    (HandleTransportParameters (simPacker Perspective.PerspectiveClient 1252)
      { MaxUDPPayloadSize := 0 }).maxPacketSize = 1252 :=
  ⟨((HandleTransportParameters_clamps (simPacker Perspective.PerspectiveClient 1252)
      { MaxUDPPayloadSize := 1200 }).1 (by decide)).trans (by decide),
   ((HandleTransportParameters_clamps (simPacker Perspective.PerspectiveClient 1252)
      { MaxUDPPayloadSize := 1400 }).1 (by decide)).trans (by decide),
   (HandleTransportParameters_clamps (simPacker Perspective.PerspectiveClient 1252)
      { MaxUDPPayloadSize := 0 }).2.1 rfl⟩

/-- C20.  For every header and payload (so also for a packet number length
from 1 to 4 and a payload length that is not negative),
`packetLength(hdr, pl) = hdr.GetLength + pl.length + max(0, 4 - PacketNumberLen
- pl.length)`.  The packet number, the payload and this tiny padding have at
least 4 bytes, and exactly 4 when the tiny padding is not 0.
`appendLongHeaderPacket` and `appendShortHeaderPacket` serialise the payload
with the same tiny padding added to the padding they are given. -/
theorem packetLength_tiny_padding (E : Env σ) (p : packetPacker) (hdr : ExtendedHeader)
    (pl : payload) :
    packetLength E p hdr pl = E.hdrGetLength hdr p.version + pl.length +
      max 0 (4 - (hdr.PacketNumberLen : Int) - pl.length) ∧
    4 ≤ (hdr.PacketNumberLen : Int) + pl.length +
      max 0 (4 - (hdr.PacketNumberLen : Int) - pl.length) ∧
    (max 0 (4 - (hdr.PacketNumberLen : Int) - pl.length) ≠ 0 →
      (hdr.PacketNumberLen : Int) + pl.length +
        max 0 (4 - (hdr.PacketNumberLen : Int) - pl.length) = 4) ∧
    (∀ (buffer : packetBuffer) (padding : Int) (encLevel : EncryptionLevel) (sealer : Sealer)
      (w w1 : World σ) (pkt : longHeaderPacket) (buf : packetBuffer),
      appendLongHeaderPacket E p buffer hdr pl padding encLevel sealer w =
        (Result.ok (pkt, buf), w1) →
      pkt.header.Length = (hdr.PacketNumberLen : Int) + (sealer.Overhead : Int) + pl.length +
        (max 0 (4 - (hdr.PacketNumberLen : Int) - pl.length) + padding) ∧
      ∃ hdrBytes raw, E.hdrWrite pkt.header p.version = Except.ok hdrBytes ∧
        appendPacketPayload E p hdrBytes pl
          (max 0 (4 - (hdr.PacketNumberLen : Int) - pl.length) + padding) = Except.ok raw ∧
        buf.Data = buffer.Data ++ encryptPacket raw sealer hdr.PacketNumber
          (hdrBytes.length : Int) (hdr.PacketNumberLen : Int)) ∧
    (∀ (buffer : packetBuffer) (pn : PacketNumber) (kp : KeyPhaseBit) (padding : Int)
      (sealer : Sealer) (isMTUProbePacket : Bool) (w w1 : World σ) (sp : shortHeaderPacket)
      (buf : packetBuffer),
      appendShortHeaderPacket E p buffer pn hdr.PacketNumberLen kp pl padding sealer
        isMTUProbePacket w = (Result.ok (sp, buf), w1) →
      ∃ hdrBytes raw,
        E.WriteShortHeader (E.getDestConnID w.st) pn hdr.PacketNumberLen kp =
          Except.ok hdrBytes ∧
        appendPacketPayload E p hdrBytes pl
          (max 0 (4 - (hdr.PacketNumberLen : Int) - pl.length) + padding) = Except.ok raw ∧
        buf.Data = buffer.Data ++ encryptPacket raw sealer pn (hdrBytes.length : Int)
          (hdr.PacketNumberLen : Int)) := by
  have ht : tinyPaddingLen (hdr.PacketNumberLen : Int) pl.length =
      max 0 (4 - (hdr.PacketNumberLen : Int) - pl.length) := by
    unfold tinyPaddingLen
    split
    · rw [max_eq_right (by omega)]
    · rw [max_eq_left (by omega)]
  refine ⟨?_, ?_, ?_, ?_, ?_⟩
  · rw [packetLength_eq, ht]
  · rcases le_total 0 (4 - (hdr.PacketNumberLen : Int) - pl.length) with h | h
    · rw [max_eq_right h]; omega
    · rw [max_eq_left h]; omega
  · intro hne
    rcases le_total 0 (4 - (hdr.PacketNumberLen : Int) - pl.length) with h | h
    · rw [max_eq_right h]; omega
    · rw [max_eq_left h] at hne; exact absurd rfl hne
  · intro buffer padding encLevel sealer w w1 pkt buf h
    obtain ⟨-, hdrBytes, raw, b1, b2, -, -, -, -, -, b8, b9⟩ :=
      appendLongHeaderPacket_ok E p buffer hdr pl padding encLevel sealer w w1 pkt buf h
    rw [ht] at b1 b2 b8
    refine ⟨by rw [b8], hdrBytes, raw, by rw [b8]; exact b1, b2, b9⟩
  · intro buffer pn kp padding sealer isMTUProbePacket w w1 sp buf h
    obtain ⟨hdrBytes, raw, b1, b2, -, -, -, -, -, -, -, -, -, b9⟩ :=
      appendShortHeaderPacket_ok E p buffer pn hdr.PacketNumberLen kp pl padding sealer
        isMTUProbePacket w w1 sp buf h
    rw [ht] at b2
    exact ⟨hdrBytes, raw, b1, b2, b9⟩

/-- C20, on the simulated collaborators: a payload of one byte in a packet
with a packet number of two bytes gets a tiny padding of one byte; the Initial
header of the simulation has 11 bytes, so the packet has 13 bytes before the
overhead of the sealer, and the header written has the length 2 + 16 + 1 + 1. -/
theorem packetLength_tiny_padding_witness :
    packetLength simEnv (simPacker Perspective.PerspectiveClient 1200) demoInitialHeader
      { frames := [{ Frame := WireFrame.PingFrame }], length := 1 } = 11 + 1 + 1 ∧
    ∃ pkt buf w1,
      appendLongHeaderPacket simEnv (simPacker Perspective.PerspectiveClient 1200) {}
        demoInitialHeader { frames := [{ Frame := WireFrame.PingFrame }], length := 1 } 0
        EncryptionLevel.EncryptionInitial simSealer (simWorld {}) =
        (Result.ok (pkt, buf), w1) ∧
      pkt.header.Length = 2 + 16 + 1 + (1 + 0) := by
  have T := packetLength_tiny_padding simEnv (simPacker Perspective.PerspectiveClient 1200)
    demoInitialHeader { frames := [{ Frame := WireFrame.PingFrame }], length := 1 }
  have h := T.2.2.2.1 {} 0 EncryptionLevel.EncryptionInitial simSealer (simWorld {}) _ _ _ rfl
  exact ⟨T.1.trans (by decide), _, _, _, rfl, h.1.trans (by decide)⟩

/-- C22.  In `PackCoalescedPacket` (whose budget `max` is `MinInitialPacketSize`
for a client and `maxPacketSize` for a server) the three levels are gone
through one after the other.  `size` after the Initial level is the size of the
Initial packet (0 without one), after the Handshake level the size of the
Handshake packet is added.  When the condition of lines 382 and 402 (`size ==
0` with `onlyAck`, `size < max - MinCoalescedPacketSize` without) does not hold
for the size reached, the Handshake level, and likewise the application data
level, leaves the local variables and the collaborators as they are: no sealer
is asked for and nothing is composed.  So a Handshake payload or an
application data payload exists only if the condition held at that point.
With `onlyAck = true`, when a header has at least one byte and no frame has a
negative length, the coalesced packet returned holds exactly one packet. -/
theorem PackCoalescedPacket_gate (E : Env σ) (p : packetPacker) (fuel : Nat)
    (onlyAck : Bool) (w : World σ) :
    (p.perspective = Perspective.PerspectiveClient →
      coalescedMaxPacketSize p = MinInitialPacketSize) ∧
    (p.perspective = Perspective.PerspectiveServer →
      coalescedMaxPacketSize p = p.maxPacketSize) ∧
    (∀ L p1 w3, composeCoalesced E p fuel onlyAck w = (Result.ok L, p1, w3) →
      ∃ L1 w1 L2 w2,
        packInitialStage E p fuel (coalescedMaxPacketSize p) onlyAck w = (Result.ok L1, w1) ∧
        packHandshakeStage E p fuel (coalescedMaxPacketSize p) onlyAck L1 w1 =
          (Result.ok L2, w2) ∧
        packAppDataStage E p fuel (coalescedMaxPacketSize p) onlyAck L2 w2 =
          (Result.ok L, p1, w3) ∧
        L1.size = levelSize E p L1.initialHdr L1.initialPayload L1.initialSealer ∧
        L2.size = L1.size +
          levelSize E p L2.handshakeHdr L2.handshakePayload L2.handshakeSealer ∧
        (¬ coalesceGate onlyAck L1.size (coalescedMaxPacketSize p) → L2 = L1 ∧ w2 = w1) ∧
        (¬ coalesceGate onlyAck L2.size (coalescedMaxPacketSize p) →
          L = L2 ∧ w3 = w2 ∧ p1 = p) ∧
        (L.handshakePayload ≠ none →
          (onlyAck = true ∧ L1.size = 0) ∨
          (onlyAck = false ∧ L1.size < coalescedMaxPacketSize p - MinCoalescedPacketSize)) ∧
        (L.appDataPayload ≠ none →
          (onlyAck = true ∧ L2.size = 0) ∨
          (onlyAck = false ∧ L2.size < coalescedMaxPacketSize p - MinCoalescedPacketSize))) ∧
    (LengthsPositive E p.version →
      ∀ c p1 w1, PackCoalescedPacket E p fuel true w = (Result.ok (some c), p1, w1) →
        c.packetCount = 1) := by
  refine ⟨?_, ?_, ?_, ?_⟩
  · intro hc
    simp [coalescedMaxPacketSize, hc]
  · intro hs
    simp [coalescedMaxPacketSize, hs]
  · intro L p1 w3 h
    obtain ⟨L1, w1, L2, w2, s1, s2, s3⟩ := composeCoalesced_trace E p p1 fuel onlyAck w w3 L h
    obtain ⟨ok1, n1, n2, n3⟩ := packInitialStage_ok E p fuel _ onlyAck w w1 L1 s1
    obtain ⟨ok2, m2, m3, m4⟩ :=
      packHandshakeStage_ok E p fuel _ onlyAck L1 L2 w1 w2 ok1 n1 n2 n3 s2
    obtain ⟨g2, pay2⟩ := packHandshakeStage_payload E p fuel _ onlyAck L1 L2 w1 w2 n1 s2
    obtain ⟨g3, pay3⟩ := packAppDataStage_payload E p p1 fuel _ onlyAck L2 L w2 w3 m2 s3
    have c4 : L.handshakePayload = L2.handshakePayload :=
      (packAppDataStage_levels E p p1 fuel _ onlyAck L2 L w2 w3 s3).2.2.2.1
    refine ⟨L1, w1, L2, w2, s1, s2, s3, packInitialStage_size E p fuel _ onlyAck w w1 L1 s1,
      packHandshakeStage_size E p fuel _ onlyAck L1 L2 w1 w2 n1 s2, g2, g3, ?_, ?_⟩
    · intro hne
      rw [c4] at hne
      obtain ⟨pl, hp⟩ := Option.ne_none_iff_exists'.mp hne
      exact (pay2 pl hp).1
    · intro hne
      obtain ⟨pl, hp⟩ := Option.ne_none_iff_exists'.mp hne
      exact (pay3 pl hp).1
  · intro hLen c p1 w1 h
    exact (coalesced_packets E p p1 fuel true w w1 c hLen h).1 rfl

set_option maxRecDepth 100000 in
/-- C22, on the simulated collaborators of a server with `onlyAck = true` and
an ACK frame queued at each of the levels Initial, Handshake and 1-RTT: the
coalesced packet holds one packet, the Initial packet with its ACK frame; the
sealers of the other levels are not asked for. -/
theorem PackCoalescedPacket_gate_witness :
    ∃ c p1 w1,
      PackCoalescedPacket simEnv (simPacker Perspective.PerspectiveServer 1200) 5 true
        (simWorld threeAcksSim) = (Result.ok (some c), p1, w1) ∧
      c.packetCount = 1 ∧
      c.longHdrPackets.map (fun lp => (lp.header.Type_, lp.ack)) =
        [(PacketType.PacketTypeInitial, some { id := 1 })] ∧
      w1.calls = [Call.GetInitialSealer,
        Call.GetAckFrame EncryptionLevel.EncryptionInitial true,
        Call.PeekPacketNumber EncryptionLevel.EncryptionInitial,
        Call.getPacketBuffer, Call.PopPacketNumber EncryptionLevel.EncryptionInitial] :=
  ⟨_, _, _, rfl,
    (PackCoalescedPacket_gate simEnv (simPacker Perspective.PerspectiveServer 1200) 5 true
      (simWorld threeAcksSim)).2.2.2 (simEnv_LengthsPositive _) _ _ _ rfl, rfl, rfl⟩

/-- C23.  `maybeGetCryptoPacket` at the level Initial or Handshake.  With
`onlyAck = true` it calls `GetAckFrame(encLevel, true)`; when an ACK frame is
returned, the payload has this ACK frame, no frame and the length of the ACK
frame, and the only other call is the `PeekPacketNumber` of the header; when
none is returned, nothing is returned and there is no other call: the crypto
stream and the retransmission queue are not called.  With `onlyAck = false`,
let `hasRetransmission` and `hasData` be the answers of the retransmission
queue and of the crypto stream of the level.  The calls that the function has
made when it ends, whatever it returns, begin with these two questions; when
`ackAllowed`, the next call is `GetAckFrame(encLevel, !hasRetransmission &&
!hasData)`, and in no case is there another call of `GetAckFrame`.  With
`ack` the ACK frame that this call returns (none when `ackAllowed` is false),
the function returns nothing exactly when there is no crypto data, no
retransmission and no ACK frame; every payload it returns has the ACK frame
`ack`; and it returns a header and a payload when there is crypto data or an
ACK frame and no retransmission. -/
theorem maybeGetCryptoPacket_ack_rules (E : Env σ) (p : packetPacker) (fuel : Nat)
    (maxPacketSize : Int) (encLevel : EncryptionLevel) (ackAllowed : Bool) (w : World σ)
    (hLvl : encLevel = EncryptionLevel.EncryptionInitial ∨
      encLevel = EncryptionLevel.EncryptionHandshake) :
    (∀ ack, (E.GetAckFrame w.st encLevel true).1 = some ack →
      ∃ hdr w1, maybeGetCryptoPacket E p fuel maxPacketSize encLevel true ackAllowed w =
          (Result.ok (some hdr,
            some { frames := [], ack := some ack, length := E.ackLength ack p.version }), w1) ∧
        w1.calls = w.calls ++
          [Call.GetAckFrame encLevel true, Call.PeekPacketNumber encLevel]) ∧
    ((E.GetAckFrame w.st encLevel true).1 = none →
      ∃ w1, maybeGetCryptoPacket E p fuel maxPacketSize encLevel true ackAllowed w =
          (Result.ok (none, none), w1) ∧
        w1.calls = w.calls ++ [Call.GetAckFrame encLevel true]) ∧
    ∃ hr, cryptoHasRetransmission E encLevel w = some hr ∧
      ∀ hasRetransmission hasData ack,
        hasRetransmission = hr.1 →
        hasData = (hr.2.streamHasData E encLevel).1 →
        ack = (if ackAllowed = true then
          ((hr.2.streamHasData E encLevel).2.GetAckFrame E encLevel
            (!hasRetransmission && !hasData)).1 else none) →
        (∃ cs, (maybeGetCryptoPacket E p fuel maxPacketSize encLevel false ackAllowed w).2.calls =
            w.calls ++ [hasRetransmissionCall encLevel, Call.streamHasData encLevel] ++
              (if ackAllowed = true then
                [Call.GetAckFrame encLevel (!hasRetransmission && !hasData)] else []) ++ cs ∧
          ∀ c ∈ cs, ∀ l b, c ≠ Call.GetAckFrame l b) ∧
        ((maybeGetCryptoPacket E p fuel maxPacketSize encLevel false ackAllowed w).1 =
            Result.ok (none, none) ↔
          hasData = false ∧ hasRetransmission = false ∧ ack = none) ∧
        (∀ hdr pl,
          (maybeGetCryptoPacket E p fuel maxPacketSize encLevel false ackAllowed w).1 =
            Result.ok (hdr, some pl) → pl.ack = ack) ∧
        (hasRetransmission = false → hasData = true ∨ ack ≠ none →
          ∃ hdr pl,
            (maybeGetCryptoPacket E p fuel maxPacketSize encLevel false ackAllowed w).1 =
              Result.ok (some hdr, some pl)) := by
  refine ⟨?_, ?_, ?_⟩
  · intro ack ha
    have ha2 : (w.GetAckFrame E encLevel true).1 = some ack := ha
    rw [maybeGetCryptoPacket_onlyAck]
    simp only [ha2]
    exact ⟨_, _, rfl, by
      simp [getLongHeader, World.PeekPacketNumber, World.GetAckFrame, World.step]⟩
  · intro ha
    have ha2 : (w.GetAckFrame E encLevel true).1 = none := ha
    rw [maybeGetCryptoPacket_onlyAck]
    simp only [ha2]
    exact ⟨_, rfl, by simp [World.GetAckFrame, World.step]⟩
  · obtain ⟨hasR, hasD, ack, wa, hq, hc, hn, hr, e1, e2, e3⟩ :=
      cryptoAsked_some E encLevel ackAllowed w hLvl
    refine ⟨hr, e1, ?_⟩
    intro hasR' hasD' ack' q1 q2 q3
    have q1' : hasR' = hasR := by rw [q1, e2]
    have q2' : hasD' = hasD := by rw [q2, e3]; rfl
    subst q1' q2'
    have q3' : ack' = ack := by
      rw [q3]
      have := hq
      unfold cryptoAsked at this
      rw [e1] at this
      simp only [Option.some.injEq, Prod.mk.injEq] at this
      obtain ⟨a1, a2, a3, -⟩ := this
      rw [← a3, a1, a2]
      cases ackAllowed <;> simp
    subst q3'
    have hm := maybeGetCryptoPacket_eq E p fuel maxPacketSize encLevel ackAllowed w
    rw [hq] at hm
    simp only at hm
    refine ⟨?_, ⟨?_, ?_⟩, ?_, ?_⟩
    · rw [hm]
      split
      · exact ⟨[], by rw [hc]; simp, by simp⟩
      · obtain ⟨cs, k1, k2⟩ := cryptoFill_notAck E p fuel maxPacketSize encLevel hasR' ack' wa
        exact ⟨cs, by rw [k1, hc], k2⟩
    · intro h
      by_contra hne
      rw [hm, if_neg hne] at h
      exact cryptoFill_not_nothing E p fuel maxPacketSize encLevel hasR' ack' wa h
    · intro hc
      rw [hm, if_pos hc]
    · intro hdr pl h
      rw [hm] at h
      split at h
      · simp at h
      · obtain ⟨-, pl2, k1, -, k2⟩ := cryptoFill_ok E p fuel maxPacketSize encLevel hasR' ack'
          wa _ hdr (some pl) (Prod.ext h rfl)
        simp only [Option.some.injEq] at k1
        rw [k1]
        exact k2
    · intro hr0 hda
      have hne : ¬ (hasD' = false ∧ hasR' = false ∧ ack' = none) := by
        rintro ⟨h1, -, h3⟩
        rcases hda with h | h
        · rw [h1] at h; exact absurd h (by decide)
        · exact h h3
      rw [hm, if_neg hne, hr0]
      obtain ⟨pl, w1, k1, -⟩ := cryptoFill_noRetransmission E p fuel maxPacketSize encLevel
        ack' wa
      exact ⟨_, pl, by rw [k1]⟩

set_option maxRecDepth 100000 in
/-- C23, on the simulated collaborators, at the level Initial with
`onlyAck = false` and `ackAllowed = true`, a frame of ten bytes in the
retransmission queue, no crypto data and an ACK frame: the retransmission
queue and the crypto stream are asked, then the ACK source is asked with
`onlyIfQueued = false`, since there is a retransmission, and there is no
other call of `GetAckFrame`; every payload returned has the ACK frame. -/
theorem maybeGetCryptoPacket_ack_rules_witness :
    (∃ cs, (maybeGetCryptoPacket simEnv (simPacker Perspective.PerspectiveServer 1200) 5 1184
          EncryptionLevel.EncryptionInitial false true (simWorld retransmissionAckSim)).2.calls =
        [Call.HasInitialData, Call.streamHasData EncryptionLevel.EncryptionInitial,
          Call.GetAckFrame EncryptionLevel.EncryptionInitial false] ++ cs ∧
      ∀ c ∈ cs, ∀ l b, c ≠ Call.GetAckFrame l b) ∧
    ∀ hdr pl, (maybeGetCryptoPacket simEnv (simPacker Perspective.PerspectiveServer 1200) 5 1184
        EncryptionLevel.EncryptionInitial false true (simWorld retransmissionAckSim)).1 =
        Result.ok (hdr, some pl) →
      pl.ack = some { id := 1 } := by
  obtain ⟨hr, e1, h⟩ := (maybeGetCryptoPacket_ack_rules simEnv
    (simPacker Perspective.PerspectiveServer 1200) 5 1184 EncryptionLevel.EncryptionInitial
    true (simWorld retransmissionAckSim) (Or.inl rfl)).2.2
  have e2 : hr = (simWorld retransmissionAckSim).HasInitialData simEnv := by
    have : cryptoHasRetransmission simEnv EncryptionLevel.EncryptionInitial
        (simWorld retransmissionAckSim) =
        some ((simWorld retransmissionAckSim).HasInitialData simEnv) := rfl
    rw [this] at e1
    exact (Option.some.inj e1).symm
  subst e2
  have h2 := h true false (some { id := 1 }) rfl rfl rfl
  exact ⟨h2.1, h2.2.2.1⟩

/-- C24.  `composeNextPacket` with `onlyAck = false` and a datagram queue,
when `Peek` returns the frame `f` after the ACK frame `ack` was collected.  If
the length of `f` is at most `maxFrameSize` minus the length of the ACK frame,
the payload that is filled further (lines 638-665) has `f` as its only frame,
with the no-op `OnLost`, and the length of the ACK frame plus the length of
`f`, and `Pop` was called; in the payload returned `f` is the first frame
(given a frame source that appends to the list it is passed), and the
datagram queue is not called again.  If `f` is longer, the payload that is
filled further is the one with the ACK frame alone, and after `Peek` the
datagram queue is not called: nothing is popped and `f` is not added. -/
theorem composeNextPacket_datagram (E : Env σ) (p : packetPacker) (fuel : Nat)
    (maxFrameSize : Int) (ackAllowed : Bool) (w wa : World σ) (hasData hasRetransmission : Bool)
    (ack : Option AckFrame) (f : WireFrame)
    (hQ : p.datagramQueue = true)
    (hAsk : composeAsked E ackAllowed w = (hasData, hasRetransmission, ack, wa))
    (hPeek : (E.datagramPeek wa.st).1 = some f) :
    (E.frameLength f p.version ≤ maxFrameSize - ackLen E p.version ack →
      composeNextPacket E p fuel maxFrameSize false ackAllowed w =
        composeRest E p fuel maxFrameSize hasData hasRetransmission ack.isSome
          { frames := [datagramFrame f], ack := ack,
            length := ackLen E p.version ack + E.frameLength f p.version }
          ((wa.datagramPeek E).2.datagramPop E) ∧
      ∀ pl w1, composeNextPacket E p fuel maxFrameSize false ackAllowed w = (Result.ok pl, w1) →
        (∃ cs, w1.calls = wa.calls ++ [Call.datagramPeek, Call.datagramPop] ++ cs ∧
          ∀ c ∈ cs, notDatagramCall c) ∧
        (FramerAppends E → ∃ extra, pl.frames = datagramFrame f :: extra)) ∧
    (¬ E.frameLength f p.version ≤ maxFrameSize - ackLen E p.version ack →
      composeNextPacket E p fuel maxFrameSize false ackAllowed w =
        composeRest E p fuel maxFrameSize hasData hasRetransmission ack.isSome
          { frames := [], ack := ack, length := ackLen E p.version ack }
          (wa.datagramPeek E).2 ∧
      ∀ pl w1, composeNextPacket E p fuel maxFrameSize false ackAllowed w = (Result.ok pl, w1) →
        ∃ cs, w1.calls = wa.calls ++ [Call.datagramPeek] ++ cs ∧
          ∀ c ∈ cs, notDatagramCall c) := by
  have hPeek2 : (wa.datagramPeek E).1 = some f := hPeek
  have hadd : addDatagram E p maxFrameSize (ackPayload E p ack) wa =
      if E.frameLength f p.version ≤ maxFrameSize - ackLen E p.version ack then
        ({ frames := [datagramFrame f], ack := ack,
           length := ackLen E p.version ack + E.frameLength f p.version },
         (wa.datagramPeek E).2.datagramPop E)
      else
        ({ frames := [], ack := ack, length := ackLen E p.version ack },
         (wa.datagramPeek E).2) := by
    unfold addDatagram
    rw [if_pos hQ]
    simp only [hPeek2, ackPayload_eq, List.nil_append, datagramFrame]
  have heq := composeNextPacket_eq E p fuel maxFrameSize ackAllowed w
  rw [hAsk] at heq
  simp only at heq
  rw [hadd] at heq
  refine ⟨?_, ?_⟩
  · intro hfit
    rw [if_pos hfit] at heq
    simp only at heq
    refine ⟨heq, ?_⟩
    intro pl w1 h
    rw [heq] at h
    obtain ⟨⟨cs, hc, hp⟩, hfr⟩ := composeRest_datagram E p fuel _ _ _ _ _ _ _ _ h
    refine ⟨⟨cs, ?_, hp⟩, ?_⟩
    · rw [hc]
      simp [World.datagramPop, World.datagramPeek, World.step]
    · intro hF
      obtain ⟨extra, he⟩ := hfr hF
      exact ⟨extra, by rw [he]; rfl⟩
  · intro hfit
    rw [if_neg hfit] at heq
    simp only at heq
    refine ⟨heq, ?_⟩
    intro pl w1 h
    rw [heq] at h
    obtain ⟨⟨cs, hc, hp⟩, -⟩ := composeRest_datagram E p fuel _ _ _ _ _ _ _ _ h
    refine ⟨cs, ?_, hp⟩
    rw [hc]
    simp [World.datagramPeek, World.step]

set_option maxRecDepth 100000 in
/-- C24, on the simulated collaborators with an ACK frame of 4 bytes, a
datagram of 30 bytes and a stream frame of 20 bytes.  With `maxFrameSize`
1000 the datagram is the first frame of the payload, before the stream frame,
the length is 4 + 30 + 20 and the queue is empty afterwards.  With
`maxFrameSize` 20 the datagram does not fit beside the ACK frame: the payload
has no frame and the queue still holds the datagram. -/
theorem composeNextPacket_datagram_witness :
    (∃ pl w1,
      composeNextPacket simEnv datagramPacker 5 1000 false true (simWorld datagramSim) =
        (Result.ok pl, w1) ∧
      pl.frames = [datagramFrame (WireFrame.handed 30), { Frame := WireFrame.handed 20 }] ∧
      pl.length = 54 ∧ w1.st.datagrams = [] ∧
      ∃ cs, w1.calls = (composeAsked simEnv true (simWorld datagramSim)).2.2.2.calls ++
          [Call.datagramPeek, Call.datagramPop] ++ cs ∧
        ∀ c ∈ cs, notDatagramCall c) ∧
    (∃ pl w1,
      composeNextPacket simEnv datagramPacker 5 20 false true (simWorld datagramSim) =
        (Result.ok pl, w1) ∧
      pl.frames = [] ∧ pl.length = 4 ∧ w1.st.datagrams = [WireFrame.handed 30] ∧
      ∃ cs, w1.calls = (composeAsked simEnv true (simWorld datagramSim)).2.2.2.calls ++
          [Call.datagramPeek] ++ cs ∧
        ∀ c ∈ cs, notDatagramCall c) := by
  refine ⟨⟨_, _, rfl, rfl, rfl, rfl, ?_⟩, ⟨_, _, rfl, rfl, rfl, rfl, ?_⟩⟩
  · exact (((composeNextPacket_datagram simEnv datagramPacker 5 1000 true
      (simWorld datagramSim) _ _ _ _ (WireFrame.handed 30) rfl rfl rfl).1 (by decide)).2 _ _
      rfl).1
  · exact ((composeNextPacket_datagram simEnv datagramPacker 5 20 true
      (simWorld datagramSim) _ _ _ _ (WireFrame.handed 30) rfl rfl rfl).2 (by decide)).2 _ _
      rfl

/-- C25.  The payload `maybeGetCryptoPacket` returns and, when the frame
source reports as `lengthAdded` the total length of the frames it appended,
the payload `maybeGetAppDataPacket` returns (the PING it may add included)
have as `length` the length of the ACK frame, 0 when there is none, plus the
sum of the lengths of the frames.  For a payload with this property, when the
ACK frame and every frame are serialised to as many bytes as their length says
and the padding is not negative, `appendPacketPayload` returns the bytes: the
check of the payload size does not fail. -/
theorem payload_length_invariant (E : Env σ) (p : packetPacker) (fuel : Nat) :
    (∀ (maxPacketSize : Int) (encLevel : EncryptionLevel) (onlyAck ackAllowed : Bool)
      (w w1 : World σ) (hdr : Option ExtendedHeader) (pl : payload),
      maybeGetCryptoPacket E p fuel maxPacketSize encLevel onlyAck ackAllowed w =
        (Result.ok (hdr, some pl), w1) →
      pl.length = ackLen E p.version pl.ack + framesLength E p.version pl.frames) ∧
    (FramerReports E p.version →
      ∀ (maxPayloadSize : Int) (onlyAck ackAllowed : Bool) (w w1 : World σ)
        (p1 : packetPacker) (pl : payload),
        maybeGetAppDataPacket E p fuel maxPayloadSize onlyAck ackAllowed w =
          (Result.ok (some pl), p1, w1) →
        pl.length = ackLen E p.version pl.ack + framesLength E p.version pl.frames) ∧
    (∀ (raw : List UInt8) (pl : payload) (paddingLen : Int),
      pl.length = ackLen E p.version pl.ack + framesLength E p.version pl.frames →
      FramesSerialise E p.version pl.frames → AckSerialises E p.version pl.ack →
      0 ≤ paddingLen →
      ∃ out, appendPacketPayload E p raw pl paddingLen = Except.ok out ∧
        (out.length : Int) = (raw.length : Int) + pl.length + paddingLen) := by
  refine ⟨?_, ?_, ?_⟩
  · intro m encLevel onlyAck ackAllowed w w1 hdr pl h
    exact maybeGetCryptoPacket_length E p fuel m encLevel onlyAck ackAllowed w w1 hdr pl h
  · intro hR m onlyAck ackAllowed w w1 p1 pl h
    exact maybeGetAppDataPacket_length E p p1 fuel m onlyAck ackAllowed w w1 pl hR h
  · intro raw pl paddingLen hl hF hA hP
    obtain ⟨out, ho⟩ := appendPacketPayload_succeeds E p raw pl paddingLen hF hA hl hP
    exact ⟨out, ho, appendPacketPayload_length E p raw pl paddingLen out ho⟩

/-- C25, on the simulated collaborators: the payload composed from an ACK
frame of 4 bytes, a PING of the control frames and a stream frame of 20 bytes
has the length 25, the sum of the three lengths, and is serialised after a
header of 9 bytes to 34 bytes. -/
theorem payload_length_invariant_witness :
    ∃ pl p1 w1,
      maybeGetAppDataPacket simEnv (simPacker Perspective.PerspectiveServer 1200) 5 1000 false
        true (simWorld { ack1RTT := some { id := 3 }, control := [WireFrame.PingFrame],
                         streams := [WireFrame.handed 20] }) =
        (Result.ok (some pl), p1, w1) ∧
      pl.length = 25 ∧
      pl.length = ackLen simEnv 1 pl.ack + framesLength simEnv 1 pl.frames ∧
      ∃ out, appendPacketPayload simEnv (simPacker Perspective.PerspectiveServer 1200)
        (List.replicate 9 0) pl 0 = Except.ok out ∧ out.length = 34 := by
  refine ⟨_, _, _, rfl, rfl, ?_, _, rfl, rfl⟩
  exact (payload_length_invariant simEnv (simPacker Perspective.PerspectiveServer 1200) 5).2.1
    (simEnv_FramerReports _) 1000 false true
    (simWorld { ack1RTT := some { id := 3 }, control := [WireFrame.PingFrame],
                streams := [WireFrame.handed 20] }) _ _ _ rfl

/-- C26.  When a header has at least one byte and no frame has a negative
length, at most one packet of a coalesced packet that `PackCoalescedPacket`
returns carries an ACK frame: a Handshake packet carries one only when there
is no Initial packet, the short header packet only when there is no long
header packet, and a 0-RTT packet never. -/
theorem PackCoalescedPacket_one_ack (E : Env σ) (p p1 : packetPacker) (fuel : Nat)
    (onlyAck : Bool) (w w1 : World σ) (c : coalescedPacket)
    (hLen : LengthsPositive E p.version)
    (h : PackCoalescedPacket E p fuel onlyAck w = (Result.ok (some c), p1, w1)) :
    c.ackCount ≤ 1 ∧
    (∀ lp ∈ c.longHdrPackets, lp.header.Type_ = PacketType.PacketTypeHandshake →
      lp.ack ≠ none →
      ∀ lp2 ∈ c.longHdrPackets, lp2.header.Type_ ≠ PacketType.PacketTypeInitial) ∧
    (∀ sp, c.shortHdrPacket = some sp → sp.Ack ≠ none → c.longHdrPackets = []) ∧
    (∀ lp ∈ c.longHdrPackets, lp.header.Type_ = PacketType.PacketType0RTT →
      lp.ack = none) :=
  (coalesced_packets E p p1 fuel onlyAck w w1 c hLen h).2

set_option maxRecDepth 100000 in
/-- C26, on the simulated collaborators of a server with `onlyAck = false`, an
ACK frame queued at each of the levels Initial, Handshake and 1-RTT, crypto
data at the levels Initial and Handshake and a PING in the frame source: the
datagram holds an Initial, a Handshake and a short header packet, and only the
Initial packet carries an ACK frame. -/
theorem PackCoalescedPacket_one_ack_witness :
    ∃ c p1 w1,
      PackCoalescedPacket simEnv (simPacker Perspective.PerspectiveServer 1200) 5 false
        (simWorld threeAcksSim) = (Result.ok (some c), p1, w1) ∧
      c.longHdrPackets.map (fun lp => (lp.header.Type_, lp.ack)) =
        [(PacketType.PacketTypeInitial, some { id := 1 }),
         (PacketType.PacketTypeHandshake, none)] ∧
      c.shortHdrPacket.map (fun sp => sp.Ack) = some none ∧
      c.ackCount ≤ 1 :=
  ⟨_, _, _, rfl, rfl, rfl,
    (PackCoalescedPacket_one_ack simEnv (simPacker Perspective.PerspectiveServer 1200) _ 5
      false (simWorld threeAcksSim) _ _ (simEnv_LengthsPositive _) rfl).1⟩

set_option maxRecDepth 100000 in
/-- C27 fails on the code.  A client that was given a token of 1180 bytes has
an Initial retransmission queued, no crypto data and no ACK frame.  The header
takes 1199 of the 1184 bytes that `PackCoalescedPacket` leaves for the Initial
packet, so that the retransmission queue is asked for a frame of at most -15
bytes and returns nil.  `maybeGetCryptoPacket` then returns a header and a
payload with no ACK frame and no frame, and `PackCoalescedPacket` and
`MaybePackProbePacket` each build from it an Initial packet of 1217 bytes
whose payload is two bytes of padding, and pop a packet number for it.  On the
application data level `maybeGetAppDataPacket` returns nothing in the same
situation (a retransmission queued, and no room for it). -/
theorem maybeGetCryptoPacket_padding_only_packet :
    (∃ hdr w1,
      maybeGetCryptoPacket simEnv longTokenPacker 5 (MinInitialPacketSize - 16)
        EncryptionLevel.EncryptionInitial false true (simWorld retransmissionSim) =
        (Result.ok (some hdr, some { frames := [], ack := none, length := 0 }), w1) ∧
      simEnv.hdrGetLength hdr longTokenPacker.version = 1199 ∧
      w1.calls = [Call.HasInitialData, Call.streamHasData EncryptionLevel.EncryptionInitial,
        Call.GetAckFrame EncryptionLevel.EncryptionInitial false,
        Call.PeekPacketNumber EncryptionLevel.EncryptionInitial,
        Call.GetInitialFrame (-15)]) ∧
    (∃ c p1 w1,
      PackCoalescedPacket simEnv longTokenPacker 5 false (simWorld retransmissionSim) =
        (Result.ok (some c), p1, w1) ∧
      c.longHdrPackets.map (fun lp => (lp.header.Type_, lp.ack, lp.frames, lp.length)) =
        [(PacketType.PacketTypeInitial, none, [], 1217)] ∧
      c.shortHdrPacket = none ∧ c.buffer.Data.length = 1217 ∧
      Call.PopPacketNumber EncryptionLevel.EncryptionInitial ∈ w1.calls) ∧
    (∃ c p1 w1,
      MaybePackProbePacket simEnv longTokenPacker 5 EncryptionLevel.EncryptionInitial
        (simWorld retransmissionSim) = (Result.ok (some c), p1, w1) ∧
      c.longHdrPackets.map (fun lp => (lp.header.Type_, lp.ack, lp.frames, lp.length)) =
        [(PacketType.PacketTypeInitial, none, [], 1217)] ∧
      Call.PopPacketNumber EncryptionLevel.EncryptionInitial ∈ w1.calls) ∧
    (maybeGetAppDataPacket simEnv (simPacker Perspective.PerspectiveClient 1200) 5 10 false true
      (simWorld { rtAppData := [WireFrame.handed 300] })).1 = Result.ok none :=
  ⟨⟨_, _, rfl, rfl, rfl⟩, ⟨_, _, _, rfl, rfl, rfl, rfl, by decide⟩,
    ⟨_, _, _, rfl, rfl, by decide⟩, rfl⟩

/-- C28.  When `appendLongHeaderPacket` or `appendShortHeaderPacket` returns a
packet, with a packet number length of at most 4, an explicit padding that is
not negative and a sealer whose overhead is at least 16 bytes: the packet is
`encryptPacket` applied to the header bytes followed by the payload and the
padding, and the header-protection sample `[pnOffset + 4, pnOffset + 20)` that
`encryptPacket` takes starts at an index that is not negative and ends within
the sealed packet.  (The bounds `1 <= pnLen` and `0 <= payload.length` are not
needed.) -/
theorem encryptPacket_sample_in_range (E : Env σ) (p : packetPacker) (buffer : packetBuffer)
    (pl : payload) (padding : Int) (sealer : Sealer) (w : World σ)
    (hPad : 0 ≤ padding) (hOv : 16 ≤ sealer.Overhead) :
    (∀ (header : ExtendedHeader) (encLevel : EncryptionLevel) (pkt : longHeaderPacket)
      (buf : packetBuffer) (w1 : World σ),
      header.PacketNumberLen ≤ 4 →
      appendLongHeaderPacket E p buffer header pl padding encLevel sealer w =
        (Result.ok (pkt, buf), w1) →
      ∃ hdrBytes raw,
        E.hdrWrite pkt.header p.version = Except.ok hdrBytes ∧
        buf.Data = buffer.Data ++ encryptPacket raw sealer header.PacketNumber
          (hdrBytes.length : Int) (header.PacketNumberLen : Int) ∧
        0 ≤ sampleStart (hdrBytes.length : Int) (header.PacketNumberLen : Int) ∧
        sampleEnd (hdrBytes.length : Int) (header.PacketNumberLen : Int) =
          sampleStart (hdrBytes.length : Int) (header.PacketNumberLen : Int) + 16 ∧
        sampleEnd (hdrBytes.length : Int) (header.PacketNumberLen : Int) ≤
          ((encryptPacket raw sealer header.PacketNumber (hdrBytes.length : Int)
            (header.PacketNumberLen : Int)).length : Int) ∧
        ((encryptPacket raw sealer header.PacketNumber (hdrBytes.length : Int)
            (header.PacketNumberLen : Int)).length : Int) = pkt.length) ∧
    (∀ (pn : PacketNumber) (pnLen : PacketNumberLen) (kp : KeyPhaseBit)
      (isMTUProbePacket : Bool) (sp : shortHeaderPacket) (buf : packetBuffer) (w1 : World σ),
      pnLen ≤ 4 →
      appendShortHeaderPacket E p buffer pn pnLen kp pl padding sealer isMTUProbePacket w =
        (Result.ok (sp, buf), w1) →
      ∃ hdrBytes raw,
        E.WriteShortHeader (E.getDestConnID w.st) pn pnLen kp = Except.ok hdrBytes ∧
        buf.Data = buffer.Data ++ encryptPacket raw sealer pn (hdrBytes.length : Int)
          (pnLen : Int) ∧
        0 ≤ sampleStart (hdrBytes.length : Int) (pnLen : Int) ∧
        sampleEnd (hdrBytes.length : Int) (pnLen : Int) =
          sampleStart (hdrBytes.length : Int) (pnLen : Int) + 16 ∧
        sampleEnd (hdrBytes.length : Int) (pnLen : Int) ≤
          ((encryptPacket raw sealer pn (hdrBytes.length : Int) (pnLen : Int)).length : Int) ∧
        ((encryptPacket raw sealer pn (hdrBytes.length : Int) (pnLen : Int)).length : Int) =
          sp.Packet.Length) := by
  have key : ∀ (hdrBytes raw : List UInt8) (pnLen : Nat) (pn : PacketNumber),
      pnLen ≤ 4 →
      appendPacketPayload E p hdrBytes pl (tinyPaddingLen pnLen pl.length + padding) =
        Except.ok raw →
      0 ≤ sampleStart (hdrBytes.length : Int) (pnLen : Int) ∧
      sampleEnd (hdrBytes.length : Int) (pnLen : Int) =
        sampleStart (hdrBytes.length : Int) (pnLen : Int) + 16 ∧
      sampleEnd (hdrBytes.length : Int) (pnLen : Int) ≤
        ((encryptPacket raw sealer pn (hdrBytes.length : Int) (pnLen : Int)).length : Int) := by
    intro hdrBytes raw pnLen pn hle hA
    have hlen := appendPacketPayload_length E p hdrBytes pl _ raw hA
    rw [encryptPacket_length]
    unfold sampleStart sampleEnd
    unfold tinyPaddingLen at hlen
    have h4 : (pnLen : Int) ≤ 4 := by exact_mod_cast hle
    have h16 : (16 : Int) ≤ (sealer.Overhead : Int) := by exact_mod_cast hOv
    push_cast
    refine ⟨by omega, by omega, ?_⟩
    split at hlen <;> omega
  refine ⟨?_, ?_⟩
  · intro header encLevel pkt buf w1 hle h
    obtain ⟨-, hdrBytes, raw, b1, b2, -, -, b5, -, -, b8, b9⟩ :=
      appendLongHeaderPacket_ok E p _ _ _ _ _ _ _ _ pkt buf h
    obtain ⟨k1, k2, k3⟩ := key hdrBytes raw header.PacketNumberLen header.PacketNumber hle b2
    refine ⟨hdrBytes, raw, by rw [b8]; exact b1, b9, k1, k2, k3, ?_⟩
    rw [encryptPacket_length, b5]
    push_cast
    rfl
  · intro pn pnLen kp isMTUProbePacket sp buf w1 hle h
    obtain ⟨hdrBytes, raw, b1, b2, -, -, -, b6, -, -, -, -, -, b12⟩ :=
      appendShortHeaderPacket_ok E p _ _ _ _ _ _ _ _ _ _ sp buf h
    obtain ⟨k1, k2, k3⟩ := key hdrBytes raw pnLen pn hle b2
    refine ⟨hdrBytes, raw, b1, b12, k1, k2, k3, ?_⟩
    rw [encryptPacket_length, b6]
    push_cast
    rfl

/-- C28, on the simulated collaborators: an Initial packet with a payload of
one byte and a packet number of two bytes.  The header has 11 bytes, the
sample is taken at `[13, 29)`, and the sealed packet has 11 + 1 + 1 + 16 = 29
bytes. -/
theorem encryptPacket_sample_in_range_witness :
    ∃ pkt buf w1,
      appendLongHeaderPacket simEnv (simPacker Perspective.PerspectiveClient 1200) {}
        demoInitialHeader { frames := [{ Frame := WireFrame.PingFrame }], length := 1 } 0
        EncryptionLevel.EncryptionInitial simSealer (simWorld {}) =
        (Result.ok (pkt, buf), w1) ∧
      pkt.length = 29 ∧
      ∃ hdrBytes : List UInt8,
        simEnv.hdrWrite pkt.header 1 = Except.ok hdrBytes ∧
        0 ≤ sampleStart (hdrBytes.length : Int) 2 ∧
        sampleEnd (hdrBytes.length : Int) 2 ≤ pkt.length := by
  refine ⟨_, _, _, rfl, rfl, ?_⟩
  obtain ⟨hdrBytes, raw, h1, -, h3, -, h5, h6⟩ :=
    (encryptPacket_sample_in_range simEnv (simPacker Perspective.PerspectiveClient 1200) {}
      { frames := [{ Frame := WireFrame.PingFrame }], length := 1 } 0 simSealer (simWorld {})
      (le_refl 0) (by decide)).1 demoInitialHeader EncryptionLevel.EncryptionInitial _ _ _
      (by decide) rfl
  exact ⟨hdrBytes, h1, h3, h6 ▸ h5⟩
end Quic
